import Mathlib

/-!
# CppCDDB: fingerprints, frame conversion, matching engine and merge policy

A shallow embedding of the parts of the CppCDDB sources that the specification
talks about, followed by theorems about them.

Conventions of the embedding:

* a `uint32_t` is a `Nat`; every operation that can wrap in C++ reduces its
  result modulo `2^32` explicitly (`U32`);
* a `std::vector<uint32_t>` is a `List Nat`; a function that mutates a vector
  passed by reference returns the new vector next to its return value;
* a byte is a `Nat` below 256; a `std::string` is a `List Nat` of bytes where
  the bytes matter (UTF-8 decoding) and a `String` where it is only formatted;
* the host byte order, which `is_big_endian()` reads off the machine, is an
  explicit `Bool` parameter.
-/

namespace CDDB

/-! ## Machine arithmetic -/

/-- The modulus of `uint32_t` arithmetic, `2^32`. -/
def U32 : Nat := 4294967296

/-- `a + b` on `uint32_t`. -/
def add32 (a b : Nat) : Nat := (a + b) % U32

/-- `a - b` on `uint32_t` (wraps around below zero). -/
def sub32 (a b : Nat) : Nat := (a % U32 + U32 - b % U32) % U32

/-- `a * b` on `uint32_t`. -/
def mul32 (a b : Nat) : Nat := (a * b) % U32

/-! ## helper.hpp: byte order and `FNVHash32` -/

/-- The four bytes of a `uint32_t` as they lie in memory, lowest address first,
on a host whose `is_big_endian()` is `big_endian_host`. -/
def memory_bytes (big_endian_host : Bool) (value : Nat) : List Nat :=
  if big_endian_host then
    [value / 16777216 % 256, value / 65536 % 256, value / 256 % 256, value % 256]
  else
    [value % 256, value / 256 % 256, value / 65536 % 256, value / 16777216 % 256]

/-- The loop of `swap_bytes(void* p, std::size_t len)`: for `i < len/2` the bytes at
`i` and `len-1-i` are exchanged; `k` counts the exchanges still to do. -/
def swap_bytes_loop : Nat → Nat → List Nat → List Nat
  | 0, _, cp => cp
  | k + 1, i, cp =>
      let e := cp.length - 1 - i
      let a := cp.getD i 0
      let b := cp.getD e 0
      swap_bytes_loop k (i + 1) ((cp.set i b).set e a)

/-- `swap_bytes(void* p, std::size_t len)` on the bytes of a value. -/
def swap_bytes (cp : List Nat) : List Nat :=
  if cp.length > 1 then swap_bytes_loop (cp.length / 2) 0 cp else cp

/-- `FNVHash32::FNVHash32()`: the seed 2166136261. -/
def FNVHash32.init : Nat := 2166136261

/-- `FNVHash32::add(uint8_t value)`: `m_result *= 16777619; m_result ^= value;`. -/
def FNVHash32.add_byte (m_result value : Nat) : Nat :=
  (m_result * 16777619 % U32) ^^^ value

/-- `FNVHash32::add(VALUE value)` for a `uint32_t`: the bytes of the value are hashed
in the order in which they lie in memory. -/
def FNVHash32.add (big_endian_host : Bool) (m_result value : Nat) : Nat :=
  (memory_bytes big_endian_host value).foldl FNVHash32.add_byte m_result

/-- `FNVHash32::add(VALUE value, bool big_endian)` for a `uint32_t`:
`if (is_big_endian() != big_endian) swap_bytes(value); add(value);`. -/
def FNVHash32.add_endian (big_endian_host : Bool) (m_result value : Nat)
    (big_endian : Bool) : Nat :=
  let mem := memory_bytes big_endian_host value
  let mem := if big_endian_host != big_endian then swap_bytes mem else mem
  mem.foldl FNVHash32.add_byte m_result

/-! ## cddbdefines.hpp: fingerprints -/

/-- The argument of the second `add` call in both fingerprint functions,
`static_cast<uint32_t>(frames.size(), true)`. The parenthesis closes after `true`,
so the operand of the cast is the comma expression `frames.size(), true`: the size
is evaluated and dropped, and `true` converts to 1. -/
def count_word (frames : List Nat) : Nat :=
  let _size := frames.length
  if true then 1 else 0

/-- `private_discid_fnv(seconds, frames)`. The count word is passed to the
one-argument `add`, which does no byte swap. -/
def private_discid_fnv (big_endian_host : Bool) (seconds : Nat) (frames : List Nat) : Nat :=
  let discid := FNVHash32.init
  let discid := FNVHash32.add_endian big_endian_host discid seconds true
  let discid := FNVHash32.add big_endian_host discid (count_word frames)
  frames.foldl (fun discid track => FNVHash32.add_endian big_endian_host discid track true) discid

/-- `private_fuzzy_discid_fnv(seconds, frames)`: `seconds` is not hashed; every track is
brought down to 8 second resolution first. -/
def private_fuzzy_discid_fnv (big_endian_host : Bool) (_seconds : Nat) (frames : List Nat) : Nat :=
  let discid := FNVHash32.init
  let discid := FNVHash32.add big_endian_host discid (count_word frames)
  frames.foldl
    (fun discid track =>
      let normalized := ((add32 track 38) / 75 + 4) / 8
      FNVHash32.add_endian big_endian_host discid normalized true)
    discid

/-- `private_discid(seconds, frames)`. -/
def private_discid (big_endian_host : Bool) (seconds : Nat) (frames : List Nat) : Nat :=
  private_discid_fnv big_endian_host seconds frames

/-- `private_fuzzy_discid(seconds, frames)`. -/
def private_fuzzy_discid (big_endian_host : Bool) (seconds : Nat) (frames : List Nat) : Nat :=
  private_fuzzy_discid_fnv big_endian_host seconds frames

/-! ### The fingerprints as the specification words them -/

/-- The 4-byte big-endian encoding of a 32-bit value. -/
def be32 (value : Nat) : List Nat :=
  [value / 16777216 % 256, value / 65536 % 256, value / 256 % 256, value % 256]

/-- FNV over a byte string as the specification gives it: seed `0x811C9DC5`, per byte
`h <- (h * 0x01000193 mod 2^32) XOR byte`. -/
def fnv_of_bytes (bytes : List Nat) : Nat :=
  bytes.foldl (fun h byte => (h * 0x01000193 % 2 ^ 32) ^^^ byte) 0x811C9DC5

/-- The exact fingerprint as the specification words it: FNV over `seconds_u32`,
`len(frames)_u32`, then each `frame_u32` in order, all big-endian. -/
def spec_discid (seconds : Nat) (frames : List Nat) : Nat :=
  fnv_of_bytes (be32 seconds ++ be32 frames.length ++ (frames.map be32).flatten)

/-- The quantization of the specification, `q(f) = ((f + 38) / 75 + 4) / 8`. -/
def spec_q (f : Nat) : Nat := ((f + 38) / 75 + 4) / 8

/-- The fuzzy fingerprint as the specification words it: FNV over `len(frames)_u32`, then
each quantized frame in order, all big-endian. -/
def spec_fuzzy_discid (frames : List Nat) : Nat :=
  fnv_of_bytes (be32 frames.length ++ (frames.map (fun f => be32 (spec_q f))).flatten)

/-- The frame starts of scenario S2. -/
def S2_starts : List Nat :=
  [150, 20753, 41510, 53268, 75958, 91735, 103165, 120710, 144018, 160108]

/-- The frame lengths that `convert_frame_starts_in_frame_lengths` derives from scenario S2
(disc length 2357 seconds). -/
def S2_lengths : List Nat :=
  [20603, 20757, 11758, 22690, 15777, 11430, 17545, 23308, 16090, 16517]

/-! ## cddbdefines.hpp: frame starts and frame lengths -/

/-- The vector that `convert_frame_starts_in_frame_lengths` leaves behind for a non-empty
input: the loop `*it = *(it+1) - *it` over all elements but the last (each step reads the
still unmodified next element), and then
`*frames.rbegin() = (seconds*75 - *frames.rbegin()) - startframe`. -/
def frame_lengths_of_starts (seconds startframe : Nat) : List Nat → List Nat
  | [] => []
  | [last] => [sub32 (sub32 (mul32 seconds 75) last) startframe]
  | it :: next :: rest =>
      sub32 next it :: frame_lengths_of_starts seconds startframe (next :: rest)

/-- `convert_frame_starts_in_frame_lengths(seconds, frames)`: the returned value and the
vector as it is after the call. -/
def convert_frame_starts_in_frame_lengths (seconds : Nat) (frames : List Nat) :
    Nat × List Nat :=
  match frames with
  | [] => (0, [])
  | startframe :: _ => (startframe, frame_lengths_of_starts seconds startframe frames)

/-- The loop of `convert_frame_lengths_in_frame_starts`: for every element of `frames` but
the last, `f2.push_back(f2.back() + *it)`; `back` is `f2.back()`, the result is what gets
pushed. -/
def frame_starts_loop : Nat → List Nat → List Nat
  | _, [] => []
  | _, [_] => []
  | back, it :: next :: rest =>
      add32 back it :: frame_starts_loop (add32 back it) (next :: rest)

/-- `convert_frame_lengths_in_frame_starts(seconds, frames)`: the returned value and the
vector as it is after the call. -/
def convert_frame_lengths_in_frame_starts (seconds : Nat) (frames : List Nat) :
    Nat × List Nat :=
  match frames with
  | [] => (0, [])
  | first :: rest =>
      let f2 := seconds :: frame_starts_loop seconds (first :: rest)
      let sec := sub32 (add32 (f2.getLast (List.cons_ne_nil _ _))
        ((first :: rest).getLast (List.cons_ne_nil _ _))) seconds / 75
      (sec, f2)

/-- The disc length with the leading gap removed, as the specification words it: the total
runtime in seconds minus the leading pause of `frames[0]` frames (75 frames to the second). -/
def spec_seconds_without_leading_gap (seconds : Nat) (frames : List Nat) : Nat :=
  seconds - frames.headD 0 / 75

/-! ## cddbserver: the matching engine -/

/-- `CDDBSQLServer::CDList::cd_t`. -/
structure cd_t where
  cd : Nat
  artist : String
  title : String
  seconds : Nat
  tracks : Nat
  frames : List Nat
  diff : Nat
deriving DecidableEq, Repr

/-- The relational store as the server reads it: the rows that each of its prepared
statements returns for a bound key.
`m_query2`: `SELECT artist, title, seconds, tracks FROM CD WHERE cd=?1` (first row);
`m_frames2`: `SELECT frames FROM TRACKS WHERE cd=?1 ORDER BY track ASC`;
`m_query`: `SELECT cd FROM DISCID WHERE discid=?1`;
`m_fquery`: `SELECT cd FROM FUZZYID WHERE fuzzyid=?1`. -/
structure ServerStore where
  m_query2 : Nat → Option (String × String × Nat × Nat)
  m_frames2 : Nat → List Nat
  m_query : Nat → List Nat
  m_fquery : Nat → List Nat

/-- `CDList::has(cdid)`. -/
def CDList.has (cdvec : List cd_t) (cdid : Nat) : Bool :=
  cdvec.any (fun a => a.cd == cdid)

/-- `CDList::get(cdid, cd)`: `none` when no CD row is found; every integer column is cast to
`uint32_t`. -/
def CDList.get (db : ServerStore) (cdid : Nat) : Option cd_t :=
  let frames := (db.m_frames2 cdid).map (fun f => f % U32)
  match db.m_query2 cdid with
  | some (artist, title, seconds, tracks) =>
      some ⟨cdid, artist, title, seconds % U32, tracks % U32, frames, 0⟩
  | none => none

/-- The comparison loop of `CDList::add_if`: walks the stored frames (`left`) and the live
tracks (`right`) in step; `none` is the early `return false` on a pair further apart than
`max_trackdiff`, otherwise the accumulated `diff` (a `uint32_t`). The loop runs only after
both sizes were found equal, so `right` never ends before `left`. -/
def CDList.add_if_loop (max_trackdiff : Nat) : List Nat → List Nat → Nat → Option Nat
  | [], _, diff => some diff
  | _ :: _, [], _ => none
  | v_left :: left, v_right :: right, diff =>
      let d := if v_left > v_right then v_left - v_right else v_right - v_left
      if d > max_trackdiff then none
      else CDList.add_if_loop max_trackdiff left right (add32 diff d)

/-- `CDList::add_if(cdid, tracks, max_trackdiff)`: the returned flag and `cdvec` as it is
after the call. -/
def CDList.add_if (db : ServerStore) (cdvec : List cd_t) (cdid : Nat) (tracks : List Nat)
    (max_trackdiff : Nat) : Bool × List cd_t :=
  if CDList.has cdvec cdid then (true, cdvec)
  else
    match CDList.get db cdid with
    | none => (false, cdvec)
    | some cd =>
        if cd.tracks ≠ tracks.length then (false, cdvec)
        else if cd.frames.length ≠ tracks.length then (false, cdvec)
        else
          match CDList.add_if_loop max_trackdiff cd.frames tracks 0 with
          | none => (false, cdvec)
          | some diff => (true, cdvec ++ [{ cd with diff := diff }])

/-- The contract of `std::sort(cdvec.begin(), cdvec.end(), a.diff < b.diff)` as
`CDList::sort` uses it: some rearrangement of the vector in which no element has a smaller
`diff` than one before it. The order among equal `diff`s is the library's choice. -/
structure StdSort where
  sort : List cd_t → List cd_t
  perm : ∀ cdvec, (sort cdvec).Perm cdvec
  sorted : ∀ cdvec, (sort cdvec).Pairwise (fun a b => a.diff ≤ b.diff)

/-- One admissible `std::sort`: insertion sort. -/
def StdSort.insertion : StdSort where
  sort := List.insertionSort (fun a b => a.diff ≤ b.diff)
  perm := List.perm_insertionSort _
  sorted := fun cdvec => by
    haveI : IsTotal cd_t (fun a b => a.diff ≤ b.diff) := ⟨fun a b => Nat.le_total a.diff b.diff⟩
    haveI : IsTrans cd_t (fun a b => a.diff ≤ b.diff) := ⟨fun _ _ _ h1 h2 => Nat.le_trans h1 h2⟩
    exact List.sorted_insertionSort _ cdvec

/-- Modelled from the spec: the `{0:x}` field of `fmt::format` (`format.hpp` is not among the
sources), `<discid:x>` in the specification: lower-case hexadecimal without prefix or
padding. -/
def format_x (value : Nat) : String := String.mk (Nat.toDigits 16 value)

/-- `fmt::format("generic {0:x} {1} / {2}\n", discid, artist, title)`. -/
def generic_line (discid : Nat) (artist title : String) : String :=
  "generic " ++ format_x discid ++ " " ++ artist ++ " / " ++ title ++ "\n"

/-- The `while (m_query.executeStep())` loop of both lookups: every row's `cd` column is cast
to `uint32_t` and offered to `add_if`, whose return value is ignored. -/
def collect_candidates (db : ServerStore) (tracks : List Nat) (max_trackdiff : Nat) :
    List Nat → List cd_t → List cd_t
  | [], cdvec => cdvec
  | row :: rows, cdvec =>
      collect_candidates db tracks max_trackdiff rows
        (CDList.add_if db cdvec (row % U32) tracks max_trackdiff).2

/-- `CDDBSQLServer::cddb_query_by_discid(discid, tracks, seconds)`. -/
def cddb_query_by_discid (S : StdSort) (db : ServerStore) (m_max_trackdiff : Nat)
    (discid : Nat) (tracks : List Nat) (_seconds : Nat) : String :=
  let cdlist := collect_candidates db tracks m_max_trackdiff (db.m_query discid) []
  let cdlist := S.sort cdlist
  if cdlist.length > 1 then
    cdlist.foldl (fun reply cd => reply ++ generic_line discid cd.artist cd.title)
        "210 Found exact matches, list follows (until terminating `.')\n"
      ++ ".\n"
  else
    match cdlist with
    | [cd] => "200 " ++ generic_line discid cd.artist cd.title
    | _ => ""

/-- The reply loop of `cddb_query_by_fuzzy_discid`: one line per candidate carrying the
candidate's own `private_discid`, left by `if (++ct == 10) break;`. -/
def fuzzy_reply_loop (big_endian_host : Bool) : List cd_t → Nat → String → String
  | [], _, reply => reply
  | it :: rest, ct, reply =>
      let discid := private_discid big_endian_host it.seconds it.frames
      let reply := reply ++ generic_line discid it.artist it.title
      if ct + 1 = 10 then reply else fuzzy_reply_loop big_endian_host rest (ct + 1) reply

/-- `CDDBSQLServer::cddb_query_by_fuzzy_discid(discid, tracks, seconds)`. -/
def cddb_query_by_fuzzy_discid (big_endian_host : Bool) (S : StdSort) (db : ServerStore)
    (m_max_trackdiff : Nat) (discid : Nat) (tracks : List Nat) (_seconds : Nat) : String :=
  let cdlist := collect_candidates db tracks m_max_trackdiff (db.m_fquery discid) []
  let cdlist := S.sort cdlist
  if cdlist ≠ [] then
    fuzzy_reply_loop big_endian_host cdlist 0
        "211 Found close matches, list follows (until terminating `.')\n"
      ++ ".\n"
  else ""

/-- `CDDBSQLServer::cddb_query(discid, tracks, seconds)`: the client's `discid` is
overwritten before use. -/
def cddb_query (big_endian_host : Bool) (S : StdSort) (db : ServerStore)
    (m_max_trackdiff : Nat) (_discid : Nat) (tracks : List Nat) (seconds : Nat) : String :=
  let discid := private_discid big_endian_host seconds tracks
  let reply := cddb_query_by_discid S db m_max_trackdiff discid tracks seconds
  let reply :=
    if reply = "" then
      let discid := private_fuzzy_discid big_endian_host seconds tracks
      cddb_query_by_fuzzy_discid big_endian_host S db m_max_trackdiff discid tracks seconds
    else reply
  if reply = "" then "202\n" else reply

/-- The candidates that the exact lookup of `cddb_query` accepts: the rows of `DISCID` for
the recomputed `private_discid`, passed through `add_if`. -/
def exact_candidates (big_endian_host : Bool) (db : ServerStore) (m_max_trackdiff : Nat)
    (tracks : List Nat) (seconds : Nat) : List cd_t :=
  collect_candidates db tracks m_max_trackdiff
    (db.m_query (private_discid big_endian_host seconds tracks)) []

/-- The candidates that the fuzzy lookup of `cddb_query` accepts: the rows of `FUZZYID` for
the `private_fuzzy_discid`, passed through `add_if`. -/
def fuzzy_candidates (big_endian_host : Bool) (db : ServerStore) (m_max_trackdiff : Nat)
    (tracks : List Nat) (seconds : Nat) : List cd_t :=
  collect_candidates db tracks m_max_trackdiff
    (db.m_fquery (private_fuzzy_discid big_endian_host seconds tracks)) []

/-- The absolute differences `|stored_i - live_i|` of two frame-length vectors, pair by
pair. -/
def track_distances (stored live : List Nat) : List Nat :=
  List.zipWith (fun a b => (a - b) + (b - a)) stored live

/-- The candidate line of the fuzzy reply: the candidate's own `private_discid` in hex. -/
def fuzzy_line (big_endian_host : Bool) (cd : cd_t) : String :=
  generic_line (private_discid big_endian_host cd.seconds cd.frames) cd.artist cd.title

/-- A store with three CDs of two tracks each; the `DISCID` index answers every key with CDs
2, 1, 1 and 3 (3 has no row), the `FUZZYID` index with CDs 1, 2 and 4. -/
def example_store : ServerStore where
  m_query2 := fun cd =>
    if cd = 1 then some ("Artist", "Title", 150, 2)
    else if cd = 2 then some ("Band", "Album", 150, 2)
    else if cd = 4 then some ("Other", "Disc", 150, 2)
    else none
  m_frames2 := fun cd =>
    if cd = 1 then [100, 200] else if cd = 2 then [101, 200]
    else if cd = 4 then [100, 900] else []
  m_query := fun _ => [2, 1, 1, 3]
  m_fquery := fun _ => [1, 2, 4]

/-- The store `example_store` with an empty `DISCID` index. -/
def example_store_fuzzy : ServerStore :=
  { example_store with m_query := fun _ => [] }

/-! ## utf8.hpp: decoding -/

/-- The character functions of the C library that the sources call: `isspace`, `isupper` and
`tolower` on the bytes of a narrow string and the wide-character functions on code points;
what they answer depends on the locale the process runs in. -/
structure Locale where
  isspace : Nat → Bool
  isupper : Nat → Bool
  tolower : Nat → Nat
  iswupper : Nat → Bool
  iswlower : Nat → Bool
  iswalpha : Nat → Bool
  iswalnum : Nat → Bool
  iswpunct : Nat → Bool
  iswcntrl : Nat → Bool
  iswspace : Nat → Bool
  towlower : Nat → Nat
  towupper : Nat → Nat

/-- The "C" locale: only ASCII characters are classified. -/
def Locale.ascii : Locale where
  isspace := fun ch => ch = 32 || (9 ≤ ch && ch ≤ 13)
  isupper := fun ch => 65 ≤ ch && ch ≤ 90
  tolower := fun ch => if 65 ≤ ch && ch ≤ 90 then ch + 32 else ch
  iswupper := fun ch => 65 ≤ ch && ch ≤ 90
  iswlower := fun ch => 97 ≤ ch && ch ≤ 122
  iswalpha := fun ch => (65 ≤ ch && ch ≤ 90) || (97 ≤ ch && ch ≤ 122)
  iswalnum := fun ch => (48 ≤ ch && ch ≤ 57) || (65 ≤ ch && ch ≤ 90) || (97 ≤ ch && ch ≤ 122)
  iswpunct := fun ch => (33 ≤ ch && ch ≤ 47) || (58 ≤ ch && ch ≤ 64) || (91 ≤ ch && ch ≤ 96)
    || (123 ≤ ch && ch ≤ 126)
  iswcntrl := fun ch => ch < 32 || ch = 127
  iswspace := fun ch => ch = 32 || (9 ≤ ch && ch ≤ 13)
  towlower := fun ch => if 65 ≤ ch && ch ≤ 90 then ch + 32 else ch
  towupper := fun ch => if 97 ≤ ch && ch ≤ 122 then ch - 32 else ch

/-- The loop of `Unicode::from_utf8(narrow, wide)` over the bytes still to read, with the
locals `remaining`, `codepoint`, `lower_limit` and the output `wide`. The result is the
returned flag and `wide` as it is when the function returns (on `return false` it holds what
was decoded so far). `switch (remaining)` sends 0 and everything above 5 to the first
block. -/
def from_utf8_loop : List Nat → Nat → Nat → Nat → List Nat → Bool × List Nat
  | [], _, _, _, wide => (true, wide)
  | sch :: rest, remaining, codepoint, lower_limit, wide =>
      let ch := sch % 256
      if remaining = 0 ∨ remaining > 5 then
        if ch < 128 then from_utf8_loop rest remaining 0 lower_limit (wide ++ [ch])
        else if ch &&& 0xe0 = 0xc0 then from_utf8_loop rest 1 (ch &&& 0x1f) 0x80 wide
        else if ch &&& 0xf0 = 0xe0 then from_utf8_loop rest 2 (ch &&& 0x0f) 0x800 wide
        else if ch &&& 0xf8 = 0xf0 then from_utf8_loop rest 3 (ch &&& 0x07) 0x10000 wide
        else (false, wide)
      else
        if ch &&& 0xc0 ≠ 0x80 then (false, wide)
        else
          let codepoint := (codepoint * 64 % U32) ||| (ch &&& 0x3f)
          let remaining := remaining - 1
          if remaining = 0 then
            if codepoint < lower_limit then (false, wide)
            else from_utf8_loop rest remaining codepoint lower_limit (wide ++ [codepoint])
          else from_utf8_loop rest remaining codepoint lower_limit wide

/-- `Unicode::from_utf8(narrow, wide)` called with an empty `wide`: the returned flag and the
decoded code points. -/
def from_utf8 (narrow : List Nat) : Bool × List Nat :=
  from_utf8_loop narrow 0 0 0 []

/-! ## diskrecord: the record and what the merge policy reads from it -/

/-- The data members of `DiskRecord`; a `std::string` is its list of bytes. -/
structure DiskRecord where
  m_discid : Nat
  m_fuzzy_discid : Nat
  m_artist : List Nat
  m_title : List Nat
  m_year : Nat
  m_genre : List Nat
  m_songs : List (List Nat)
  m_frames : List Nat
  m_revision : Nat
  m_seconds : Nat
  m_hash : Nat
  m_normalized_hash : Nat
  m_entropy : Nat
  m_charcount : Nat
  m_uppercasecount : Nat
  m_bad_encoding : Bool
  m_hash_ready : Bool
  m_normalized_hash_ready : Bool
  m_discid_ready : Bool
  m_fuzzy_discid_ready : Bool
  m_list_base : Nat
  m_valid : Bool
  m_read_tracks : Bool
deriving DecidableEq, Repr

/-- The code points that `DiskRecord::calc_entropy` adds to its `Entropy` object: title,
artist, then every song, each as far as `from_utf8` decodes it. -/
def DiskRecord.calc_entropy_elements (r : DiskRecord) : List Nat :=
  (from_utf8 r.m_title).2 ++ (from_utf8 r.m_artist).2
    ++ (r.m_songs.map (fun s => (from_utf8 s).2)).flatten

/-- `DiskRecord::entropy()`: `if (!m_entropy) calc_entropy(); return m_entropy;` where
`calc_entropy` stores `Entropy::size()`, the number of distinct code points. -/
def DiskRecord.entropy (r : DiskRecord) : Nat :=
  if r.m_entropy = 0 then r.calc_entropy_elements.dedup.length else r.m_entropy

/-- `DiskRecord::charcount()`: `if (!m_entropy) calc_entropy(); return m_charcount;` where
`calc_entropy` stores `Entropy::count()`, the number of code points added. -/
def DiskRecord.charcount (r : DiskRecord) : Nat :=
  if r.m_entropy = 0 then r.calc_entropy_elements.length else r.m_charcount

/-- `DiskRecord::charcount_upper()`: `if (!m_entropy) calc_entropy(); return
m_uppercasecount;`, and `calc_entropy` leaves `m_uppercasecount` alone. -/
def DiskRecord.charcount_upper (r : DiskRecord) : Nat :=
  r.m_uppercasecount

/-- `DiskRecord::equal_strings(other)`. -/
def DiskRecord.equal_strings (r other : DiskRecord) : Bool :=
  r.m_artist == other.m_artist && r.m_title == other.m_title && r.m_songs == other.m_songs

/-- `compare_lower(left, right)` of diskrecord.cpp: both strings are decoded, every
upper-case character is replaced by its lower-case form, and the results are compared. -/
def compare_lower (L : Locale) (left right : List Nat) : Bool :=
  let wl := (from_utf8 left).2.map (fun ch => if L.iswupper ch then L.towlower ch else ch)
  let wr := (from_utf8 right).2.map (fun ch => if L.iswupper ch then L.towlower ch else ch)
  wl == wr

/-- The song loop of `DiskRecord::equal_lowercase_strings`; it runs over vectors of equal
size. -/
def equal_lowercase_songs (L : Locale) : List (List Nat) → List (List Nat) → Bool
  | [], _ => true
  | _ :: _, [] => true
  | s :: songs, o :: others =>
      if !compare_lower L s o then false else equal_lowercase_songs L songs others

/-- `DiskRecord::equal_lowercase_strings(other)`. -/
def DiskRecord.equal_lowercase_strings (L : Locale) (r other : DiskRecord) : Bool :=
  if r.m_songs.length ≠ other.m_songs.length then false
  else if !compare_lower L r.m_artist other.m_artist then false
  else if !compare_lower L r.m_title other.m_title then false
  else equal_lowercase_songs L r.m_songs other.m_songs

/-! ## cddbupdater: the store and the merge policy -/

/-- `x + 1` on `uint64_t`. -/
def inc64 (x : Nat) : Nat := (x + 1) % 18446744073709551616

/-- `x - 1` on `uint64_t`. -/
def dec64 (x : Nat) : Nat := (x % 18446744073709551616 + 18446744073709551615) % 18446744073709551616

/-- `CDDBSQLUpdater::report_t`. -/
structure report_t where
  rct : Nat
  lct : Nat
  dcrcct : Nat
  frct : Nat
  bct : Nat
  realcddidcollct : Nat
  samecdframesct : Nat
  realdidcollct : Nat
  sameframesct : Nat
  entropy_gt : Nat
  entropy_eq : Nat
  entropy_lt : Nat
  duplicate : Nat
  duplicate_lower : Nat
  upper_count_gt : Nat
  upper_count_eqlt : Nat
  overall_count_gt : Nat
  overall_count_eqlt : Nat
  added : Nat
  updated : Nat
deriving DecidableEq, Repr

/-- `report_t::clear()`: all counters zero. -/
def report_t.clear : report_t :=
  ⟨0, 0, 0, 0, 0, 0, 0, 0, 0, 0, 0, 0, 0, 0, 0, 0, 0, 0, 0, 0⟩

/-- A row of table `CD (cd, artist, title, genre, year, seconds, revision, tracks)`. -/
structure CDRow where
  cd : Nat
  artist : List Nat
  title : List Nat
  genre : Nat
  year : Nat
  seconds : Nat
  revision : Nat
  tracks : Nat
deriving DecidableEq, Repr

/-- A row of table `TRACKS (cd, track, song, frames)`. -/
structure TrackRow where
  cd : Nat
  track : Nat
  song : List Nat
  frames : Nat
deriving DecidableEq, Repr

/-- The tables the importer writes. `NAMEHASH` holds `(hash, cd)`, `DISCID` `(discid, cd)`,
`FUZZYID` `(fuzzyid, cd)` and `GENRE` `(id, name)`; the genre cache `m_genres` always mirrors
`GENRE`. -/
structure ImportStore where
  CD : List CDRow
  TRACKS : List TrackRow
  NAMEHASH : List (Nat × Nat)
  DISCID : List (Nat × Nat)
  FUZZYID : List (Nat × Nat)
  GENRE : List (Nat × List Nat)
deriving DecidableEq, Repr

/-- `StringIntMapCache::map(sql, str)`: the id of a known name, otherwise
`INSERT INTO GENRE (name)` and the new row id (one above the largest id in the table). The
result is the id and the store after the call. -/
def ImportStore.map_genre (db : ImportStore) (str : List Nat) : Nat × ImportStore :=
  match db.GENRE.find? (fun row => row.2 == str) with
  | some row => (row.1, db)
  | none =>
      let id := (db.GENRE.map (fun row => row.1)).foldl max 0 + 1
      (id, { db with GENRE := db.GENRE ++ [(id, str)] })

/-- The `qupdatetracks` loop of `update_record`: for song number `tct`,
`UPDATE TRACKS SET song=?3, frames=?4 WHERE cd=?1 AND track=?2`, where `frames` is 0 when
the record has no frames and `rec.frames()[tct]` otherwise. -/
def update_tracks (cdid : Nat) (frames : List Nat) :
    List (List Nat) → Nat → List TrackRow → List TrackRow
  | [], _, rows => rows
  | song :: songs, tct, rows =>
      let value := if frames.isEmpty then 0 else frames.getD tct 0
      update_tracks cdid frames songs (tct + 1)
        (rows.map (fun row =>
          if row.cd = cdid ∧ row.track = tct then { row with song := song, frames := value }
          else row))

/-- What `CDDBSQLUpdater::update_record(cdid, rec)` does to the tables: the genre is
interned, `UPDATE CD SET ... WHERE cd=?1` rewrites the row of `cdid`, and the track rows are
rewritten song by song. -/
def ImportStore.update_record (db : ImportStore) (cdid : Nat) (r : DiskRecord) : ImportStore :=
  let genre := (db.map_genre r.m_genre).1
  let db := (db.map_genre r.m_genre).2
  let db := { db with CD := db.CD.map (fun (row : CDRow) =>
    if row.cd = cdid then
      ⟨row.cd, r.m_artist, r.m_title, genre, r.m_year, r.m_seconds, r.m_revision,
        r.m_songs.length⟩
    else row) }
  { db with TRACKS := update_tracks cdid r.m_frames r.m_songs 0 db.TRACKS }

/-- What `CDDBSQLUpdater::delete_record(cdid, hashvalue)` does to the tables:
`DELETE FROM CD WHERE cd=?1`, `DELETE FROM TRACKS WHERE cd=?1`,
`DELETE FROM NAMEHASH WHERE hash=?1`. -/
def ImportStore.delete_record (db : ImportStore) (cdid hashvalue : Nat) : ImportStore :=
  { db with
    CD := db.CD.filter (fun row => row.cd != cdid)
    TRACKS := db.TRACKS.filter (fun row => row.cd != cdid)
    NAMEHASH := db.NAMEHASH.filter (fun row => row.1 != hashvalue) }

/-- The importer: its tables and its report `m_rep`. -/
structure Updater where
  db : ImportStore
  m_rep : report_t
deriving DecidableEq, Repr

/-- `CDDBSQLUpdater::update_record(cdid, rec)`, with `++m_rep.updated`. -/
def Updater.update_record (u : Updater) (cdid : Nat) (r : DiskRecord) : Updater :=
  { db := u.db.update_record cdid r
    m_rep := { u.m_rep with updated := inc64 u.m_rep.updated } }

/-- `CDDBSQLUpdater::delete_record(cdid, hashvalue)`, with `--m_rep.added`. -/
def Updater.delete_record (u : Updater) (cdid hashvalue : Nat) : Updater :=
  { db := u.db.delete_record cdid hashvalue
    m_rep := { u.m_rep with added := dec64 u.m_rep.added } }

/-- The decision of the same-frames, same-title branch of `CDDBSQLUpdater::import`: from
`bool update_with_this = false;` down to the end of the entropy comparison. The result is
`update_with_this` and the report with the outcome counted. -/
def merge_decision (L : Locale) (r existing_rec : DiskRecord) (m_rep : report_t) :
    Bool × report_t :=
  let m_rep := { m_rep with samecdframesct := inc64 m_rep.samecdframesct }
  if r.entropy > existing_rec.entropy then
    (true, { m_rep with entropy_gt := inc64 m_rep.entropy_gt })
  else if r.entropy = existing_rec.entropy then
    if r.equal_strings existing_rec then
      (false, { m_rep with duplicate := inc64 m_rep.duplicate })
    else if r.equal_lowercase_strings L existing_rec then
      let m_rep := { m_rep with duplicate_lower := inc64 m_rep.duplicate_lower }
      if r.charcount_upper > existing_rec.charcount_upper then
        (true, { m_rep with upper_count_gt := inc64 m_rep.upper_count_gt })
      else
        (false, { m_rep with upper_count_eqlt := inc64 m_rep.upper_count_eqlt })
    else
      let (update_with_this, m_rep) :=
        if r.charcount > existing_rec.charcount then
          (true, { m_rep with overall_count_gt := inc64 m_rep.overall_count_gt })
        else
          (false, { m_rep with overall_count_eqlt := inc64 m_rep.overall_count_eqlt })
      (update_with_this, { m_rep with entropy_eq := inc64 m_rep.entropy_eq })
  else
    (false, { m_rep with entropy_lt := inc64 m_rep.entropy_lt })

/-- The same-frames, same-title branch of `CDDBSQLUpdater::import` for the new record `r`
(normalized hash `hashvalue`, row `cdid`, written in this step when `record_written`) and the
record `existing_rec` read from row `ecd`: the decision, then
`if (record_written) delete_record(cdid, rec.normalized_hash());`
`if (update_with_this) update_record(ecd, rec);`. -/
def import_same_cd (L : Locale) (u : Updater) (r existing_rec : DiskRecord)
    (hashvalue cdid ecd : Nat) (record_written : Bool) : Updater :=
  let (update_with_this, m_rep) := merge_decision L r existing_rec u.m_rep
  let u := { u with m_rep := m_rep }
  let u := if record_written then u.delete_record cdid hashvalue else u
  if update_with_this then u.update_record ecd r else u

/-- `DiskRecord::verify_record()`: the value it stores in `m_valid`. -/
def DiskRecord.verify_record (r : DiskRecord) : DiskRecord :=
  { r with m_valid := !r.m_artist.isEmpty && !r.m_title.isEmpty
      && (r.m_frames.isEmpty || r.m_songs.length == r.m_frames.length)
      && r.m_seconds != 0 }

/-- The constructor `DiskRecord::DiskRecord(discid, artist, title, year, genre, songs, frames,
revision, seconds)`: the members named get the arguments, the others keep their default
initializers, `m_discid_ready` is set and `verify_record()` runs. -/
def DiskRecord.of_parameters (discid : Nat) (artist title : List Nat) (year : Nat)
    (genre : List Nat) (songs : List (List Nat)) (frames : List Nat)
    (revision seconds : Nat) : DiskRecord :=
  DiskRecord.verify_record
    { m_discid := discid, m_fuzzy_discid := 0, m_artist := artist, m_title := title,
      m_year := year, m_genre := genre, m_songs := songs, m_frames := frames,
      m_revision := revision, m_seconds := seconds, m_hash := 0, m_normalized_hash := 0,
      m_entropy := 0, m_charcount := 0, m_uppercasecount := 0, m_bad_encoding := false,
      m_hash_ready := false, m_normalized_hash_ready := false, m_discid_ready := true,
      m_fuzzy_discid_ready := false, m_list_base := 0, m_valid := false,
      m_read_tracks := false }

/-- The bytes of an ASCII string. -/
def ascii_bytes (s : String) : List Nat := s.toList.map Char.toNat

/-! ## utf8.hpp: encoding and validation -/

/-- `Unicode::to_utf8(sch, narrow)` for one wide character: the bytes appended to `narrow`.
`codepoint_cast` makes the character a `uint32_t`. -/
def to_utf8_char (sch : Nat) : List Nat :=
  let ch := sch % U32
  if ch < 0x0080 then [ch]
  else if ch < 0x0800 then
    [0xc0 ||| ((ch >>> 6) &&& 0x1f), 0x80 ||| (ch &&& 0x3f)]
  else if ch < 0x010000 then
    [0xe0 ||| ((ch >>> 12) &&& 0x0f), 0x80 ||| ((ch >>> 6) &&& 0x3f), 0x80 ||| (ch &&& 0x3f)]
  else if ch < 0x0110000 then
    [0xf0 ||| ((ch >>> 18) &&& 0x07), 0x80 ||| ((ch >>> 12) &&& 0x3f),
      0x80 ||| ((ch >>> 6) &&& 0x3f), 0x80 ||| (ch &&& 0x3f)]
  else [0x3f]

/-- `Unicode::to_utf8(wide, narrow)` called with an empty `narrow`:
`for (auto ch : wide) to_utf8(ch, narrow);`. -/
def to_utf8 (wide : List Nat) : List Nat :=
  (wide.map to_utf8_char).flatten

/-- The loop of `Unicode::valid_utf8(narrow)` over the bytes still to read, with the locals
`remaining`, `codepoint` and `lower_limit`; the same walk as `from_utf8` without the
output. -/
def valid_utf8_loop : List Nat → Nat → Nat → Nat → Bool
  | [], _, _, _ => true
  | sch :: rest, remaining, codepoint, lower_limit =>
      let ch := sch % 256
      if remaining = 0 ∨ remaining > 5 then
        if ch < 128 then valid_utf8_loop rest remaining 0 lower_limit
        else if ch &&& 0xe0 = 0xc0 then valid_utf8_loop rest 1 (ch &&& 0x1f) 0x80
        else if ch &&& 0xf0 = 0xe0 then valid_utf8_loop rest 2 (ch &&& 0x0f) 0x800
        else if ch &&& 0xf8 = 0xf0 then valid_utf8_loop rest 3 (ch &&& 0x07) 0x10000
        else false
      else
        if ch &&& 0xc0 ≠ 0x80 then false
        else
          let codepoint := (codepoint * 64 % U32) ||| (ch &&& 0x3f)
          let remaining := remaining - 1
          if remaining = 0 then
            if codepoint < lower_limit then false
            else valid_utf8_loop rest remaining codepoint lower_limit
          else valid_utf8_loop rest remaining codepoint lower_limit

/-- `Unicode::valid_utf8(narrow)`. -/
def valid_utf8 (narrow : List Nat) : Bool :=
  valid_utf8_loop narrow 0 0 0

/-! ## helper.hpp: `NGrams` -/

/-- The data members of `NGrams<nglen, added_spaces>`: `m_ngrams`, a vector of
`std::string`, and `m_count`. -/
structure NGrams where
  m_ngrams : List (List Nat)
  m_count : Nat
deriving DecidableEq, Repr

/-- The loop of `NGrams::add_char`:
`for (ct = 0; ct < nglen && ct < size; ++ct) m_ngrams[size - ct - 1] += ch;`, with `k` the
number of rounds still to run. -/
def NGrams.add_char_loop (ch size : Nat) : Nat → Nat → List (List Nat) → List (List Nat)
  | 0, _, ngrams => ngrams
  | k + 1, ct, ngrams =>
      NGrams.add_char_loop ch size k (ct + 1)
        (List.modify (fun g => g ++ [ch]) (size - ct - 1) ngrams)

/-- `NGrams::add_char(ch)`. The n-grams are narrow strings, so appending the wide character
keeps its low byte. -/
def NGrams.add_char (nglen : Nat) (g : NGrams) (ch : Nat) : NGrams :=
  let size := g.m_ngrams.length
  let grown := if size < g.m_count then g.m_ngrams ++ [[]] else g.m_ngrams
  let size := if size < g.m_count then size + 1 else size
  { g with m_ngrams := NGrams.add_char_loop (ch % 256) size (min nglen size) 0 grown }

/-- `NGrams::init(str)` on an object in state `g`. -/
def NGrams.init (nglen : Nat) (added_spaces : Bool) (g : NGrams) (str : List Nat) : NGrams :=
  let g := { g with m_ngrams := [] }
  let minlen := if added_spaces then (if nglen = 2 then 1 else nglen - 2) else nglen
  if str.length < minlen then g
  else
    let g := { g with
      m_count := if added_spaces then str.length + 3 - nglen else str.length - (nglen - 1) }
    let g := if added_spaces then NGrams.add_char nglen g 32 else g
    let g := str.foldl (NGrams.add_char nglen) g
    if added_spaces then NGrams.add_char nglen g 32 else g

/-- The constructor `NGrams(str)`: `none` stands for the exception thrown when
`nglen < 2`. -/
def NGrams.construct (nglen : Nat) (added_spaces : Bool) (str : List Nat) : Option NGrams :=
  if nglen < 2 then none else some (NGrams.init nglen added_spaces ⟨[], 0⟩ str)

/-- The inner loop of `NGrams::compare(other)` for one n-gram `o` of the other object: it
walks `m_ngrams` and `used` in step up to the first unused n-gram equal to `o`, which it
marks; `none` when the loop ends without a match. -/
def NGrams.mark_first (o : List Nat) : List (List Nat) → List Bool → Option (List Bool)
  | g :: ngrams, u :: used =>
      if !u && o == g then some (true :: used)
      else (NGrams.mark_first o ngrams used).map (fun marked => u :: marked)
  | _, _ => none

/-- The outer loop of `NGrams::compare(other)` over the n-grams of the other object; `found`
is a `uint16_t`. -/
def NGrams.count_found (ngrams : List (List Nat)) :
    List (List Nat) → List Bool → Nat → Nat
  | [], _, found => found
  | o :: others, used, found =>
      match NGrams.mark_first o ngrams used with
      | some marked => NGrams.count_found ngrams others marked ((found + 1) % 65536)
      | none => NGrams.count_found ngrams others used found

/-- `NGrams::compare(const NGrams& other)`; the result is a `uint16_t`. -/
def NGrams.compare_with (g other : NGrams) : Nat :=
  if g.m_count = 0 then 0
  else
    let found := NGrams.count_found g.m_ngrams other.m_ngrams
      (List.replicate g.m_ngrams.length false) 0
    found * 100 / g.m_count % 65536

/-- The static `NGrams<nglen, added_spaces>::compare(left, right)`: both strings get an
object of their own; `none` stands for the exception of the constructor. -/
def NGrams.compare (nglen : Nat) (added_spaces : Bool) (left right : List Nat) : Option Nat :=
  match NGrams.construct nglen added_spaces left, NGrams.construct nglen added_spaces right with
  | some g_left, some other => some (NGrams.compare_with g_left other)
  | _, _ => none

/-! ## diskrecord: normalization and string comparison -/

/-- The table `substmap` of diskrecord.cpp for the code points 0xC0 to 0xFF. -/
def substmap : List Nat :=
  [0x41, 0x41, 0x41, 0x41, 0x41, 0x41, 0x41, 0x43, 0x45, 0x45, 0x45, 0x45, 0x49, 0x49, 0x49,
   0x49, 0x44, 0x4e, 0x4f, 0x4f, 0x4f, 0x4f, 0x4f, 0x20, 0x4f, 0x55, 0x55, 0x55, 0x55, 0x59,
   0x20, 0x20, 0x61, 0x61, 0x61, 0x61, 0x61, 0x61, 0x61, 0x63, 0x65, 0x65, 0x65, 0x65, 0x69,
   0x69, 0x69, 0x69, 0x64, 0x6e, 0x6f, 0x6f, 0x6f, 0x6f, 0x6f, 0x20, 0x6f, 0x75, 0x75, 0x75,
   0x75, 0x79, 0x20, 0x79]

/-- `normalize_accented_chars(ch)`: the character it leaves in `ch`. -/
def normalize_accented_chars (ch : Nat) : Nat :=
  if ch ≥ 0xC0 ∧ ch ≤ 0xFF then substmap.getD (ch - 0xC0) 0 else ch

/-- The body of the loop of `normalize_` for one wide character: `none` for `continue`,
otherwise the character that is appended. -/
def normalize_char (L : Locale) (ch : Nat) : Option Nat :=
  if ch < 0x30 then none
  else if ch > 0x39 ∧ ch < 0x41 then none
  else
    let ch := normalize_accented_chars ch
    if L.iswpunct ch then none
    else if L.iswcntrl ch then none
    else if L.iswspace ch then none
    else
      let ch := if L.iswupper ch then L.towlower ch else ch
      if ch > 0x5A ∧ ch < 0x61 then none
      else if ch > 0x7A ∧ ch < 0xC0 then none
      else some ch

/-- `DiskRecord::wnormalize(str)`, that is `normalize_<std::wstring>(str)`: the string is
decoded as far as `from_utf8` gets and every character goes through the loop body. -/
def wnormalize (L : Locale) (str : List Nat) : List Nat :=
  (from_utf8 str).2.filterMap (normalize_char L)

/-- `DiskRecord::normalize(str)`, that is `normalize_<std::string>(str)`: as `wnormalize`,
but every character kept is appended through `Unicode::to_utf8`. -/
def normalize (L : Locale) (str : List Nat) : List Nat :=
  (((from_utf8 str).2.filterMap (normalize_char L)).map to_utf8_char).flatten

/-- `DiskRecord::compare(const std::wstring&, const std::wstring&)`:
`NGrams<3, false>::compare(left, right)`. -/
def DiskRecord.compare (left right : List Nat) : Option Nat :=
  NGrams.compare 3 false left right

/-- `DiskRecord::compare_normalized(left, right)`. -/
def DiskRecord.compare_normalized (L : Locale) (left right : List Nat) : Option Nat :=
  DiskRecord.compare (wnormalize L left) (wnormalize L right)

/-- The n-grams of a string as the specification words them: for every position `i` up to
`L - n`, the `n` consecutive characters starting at `i`. -/
def spec_ngrams (n : Nat) (str : List Nat) : List (List Nat) :=
  (List.range (str.length + 1 - n)).map (fun i => (str.drop i).take n)

/-- The n-grams of `m_ngrams` that `used` does not mark yet. -/
def NGrams.unused (ngrams : List (List Nat)) (used : List Bool) : List (List Nat) :=
  ((ngrams.zip used).filter (fun p => !p.2)).map (fun p => p.1)

/-- The vector `m_ngrams` of an `NGrams<3, false>` object after its constructor has run on
`str`: the code's own strings, which are not the n-grams of `str` as `spec_ngrams` has
them. -/
def ngrams_held (str : List Nat) : List (List Nat) :=
  (NGrams.init 3 false ⟨[], 0⟩ str).m_ngrams

/-- The C locale with one entry of a Unicode locale added: U+0178 (capital Y with diaeresis)
is upper-case and its lower-case form is U+00FF. -/
def Locale.with_0178 : Locale :=
  { Locale.ascii with
    iswupper := fun ch => ch = 0x178 || Locale.ascii.iswupper ch
    iswalpha := fun ch => ch = 0x178 || ch = 0xFF || Locale.ascii.iswalpha ch
    iswalnum := fun ch => ch = 0x178 || ch = 0xFF || Locale.ascii.iswalnum ch
    iswlower := fun ch => ch = 0xFF || Locale.ascii.iswlower ch
    towlower := fun ch => if ch = 0x178 then 0xFF else Locale.ascii.towlower ch
    towupper := fun ch => if ch = 0xFF then 0x178 else Locale.ascii.towupper ch }

/-! ## helper.hpp: string helpers -/

/-- The exceptions that leave the functions modelled here. -/
inductive Thrown where
  | invalid_argument
  | out_of_range
  | runtime_error
  | sqlite_exception
deriving DecidableEq, Repr

/-- `begins_with(const String& str, const String& begin)`. -/
def begins_with : List Nat → List Nat → Bool
  | _, [] => true
  | [], _ :: _ => false
  | si :: str, bi :: begin => if bi != si then false else begins_with str begin

/-- `begins_with(const String& str, const value_type* begin)` for a string literal `begin`
(given without its terminating zero). When the literal is used up the function answers
`!*begin`, that is true, at the next character of `str` that differs from the terminator; a
zero byte of `str` at that place makes the function read on behind the literal, which is
counted as a match here. -/
def begins_with_literal : List Nat → List Nat → Bool
  | [], begin => begin.isEmpty
  | _ :: _, [] => true
  | si :: str, b :: begin => if si != b then false else begins_with_literal str begin

/-- `trim_right(str, ' ')`: the string it leaves. -/
def trim_right (str : List Nat) : List Nat :=
  (str.reverse.dropWhile (fun c => c == 32)).reverse

/-- `trim_left(str, ' ')`: the string it leaves. -/
def trim_left (str : List Nat) : List Nat :=
  str.dropWhile (fun c => c == 32)

/-- `trim(str, ' ')`: the string it leaves. -/
def trim (str : List Nat) : List Nat :=
  if (trim_right str).isEmpty then trim_right str else trim_left (trim_right str)

/-- `trim_multiple(str, ' ')`: the string it leaves, every run of spaces cut down to one
space. -/
def trim_multiple : List Nat → List Nat
  | [] => []
  | [c] => [c]
  | c :: d :: rest =>
      if c = 32 ∧ d = 32 then trim_multiple (d :: rest) else c :: trim_multiple (d :: rest)

/-- `trim_all(str, ' ')`: the string it leaves. -/
def trim_all (str : List Nat) : List Nat :=
  trim_multiple (trim str)

/-- The loop of `to_title_case(str, force_upcase)` with its locals `was_space` and `was_C`:
the characters it leaves and the number it changed. -/
def to_title_case_loop (L : Locale) (force_upcase : Bool) :
    List Nat → Bool → Bool → List Nat × Nat
  | [], _, _ => ([], 0)
  | ch :: rest, was_space, was_C =>
      if !L.iswalnum ch then
        let r := to_title_case_loop L force_upcase rest true was_C
        (ch :: r.1, r.2)
      else if was_space then
        if force_upcase && L.iswlower ch then
          let r := to_title_case_loop L force_upcase rest false (ch == 67)
          (L.towupper ch :: r.1, r.2 + 1)
        else
          let r := to_title_case_loop L force_upcase rest false (ch == 67)
          (ch :: r.1, r.2)
      else if L.iswupper ch && !(was_C && ch == 68) then
        let r := to_title_case_loop L force_upcase rest false false
        (L.towlower ch :: r.1, r.2 + 1)
      else
        let r := to_title_case_loop L force_upcase rest false false
        (ch :: r.1, r.2)

/-- `to_title_case(str, force_upcase)`: the string it leaves and the returned count. -/
def to_title_case (L : Locale) (str : List Nat) (force_upcase : Bool) : List Nat × Nat :=
  to_title_case_loop L force_upcase str true false

/-! ## The C library: `strtoul` -/

/-- What `strtoul(nptr, &end, 10)` reports: the value, whether any digits were converted
(`end != nptr`), and whether the value left the range of `unsigned long` (`ERANGE`). -/
structure strtoul_t where
  value : Nat
  converted : Bool
  erange : Bool
deriving DecidableEq, Repr

/-- `strtoul(nptr, &end, 10)` on the bytes of a C string (read up to the first zero byte):
white space is skipped, one sign is accepted, then decimal digits are read. -/
def strtoul (L : Locale) (nptr : List Nat) : strtoul_t :=
  let s := nptr.takeWhile (fun ch => ch != 0)
  let s := s.dropWhile L.isspace
  let negative := s.head? == some 45
  let s := if s.head? == some 45 || s.head? == some 43 then s.tail else s
  let digits := s.takeWhile (fun ch => 48 ≤ ch && ch ≤ 57)
  let v := digits.foldl (fun acc d => acc * 10 + (d - 48)) 0
  if digits.isEmpty then ⟨0, false, false⟩
  else if v > 18446744073709551615 then ⟨18446744073709551615, true, true⟩
  else if negative then ⟨(18446744073709551616 - v) % 18446744073709551616, true, false⟩
  else ⟨v, true, false⟩

/-- `read_integer_from_string(value, label_len)`:
`static_cast<uint32_t>(std::strtoul(value.c_str()+label_len, nullptr, 10))`. -/
def read_integer_from_string (L : Locale) (value : List Nat) (label_len : Nat) : Nat :=
  (strtoul L (value.drop label_len)).value % U32

/-- `std::stoul(value)`: `std::invalid_argument` when nothing was converted, otherwise
`none` for `std::out_of_range` and the value else. -/
def stoul (L : Locale) (value : List Nat) : Except Thrown (Option Nat) :=
  if !(strtoul L value).converted then Except.error Thrown.invalid_argument
  else if (strtoul L value).erange then Except.ok none
  else Except.ok (some (strtoul L value).value)

/-! ## diskrecord: the parser -/

/-- A `DiskRecord` with the default member initializers. -/
def DiskRecord.default : DiskRecord :=
  { m_discid := 0, m_fuzzy_discid := 0, m_artist := [], m_title := [], m_year := 0,
    m_genre := [], m_songs := [], m_frames := [], m_revision := 0, m_seconds := 0,
    m_hash := 0, m_normalized_hash := 0, m_entropy := 0, m_charcount := 0,
    m_uppercasecount := 0, m_bad_encoding := false, m_hash_ready := false,
    m_normalized_hash_ready := false, m_discid_ready := false,
    m_fuzzy_discid_ready := false, m_list_base := 0, m_valid := false,
    m_read_tracks := false }

/-- `DiskRecord::add_comment(value)`. No call in it throws. -/
def DiskRecord.add_comment (L : Locale) (r : DiskRecord) (value : List Nat) : DiskRecord :=
  if value.length > 255 then r
  else if !r.m_read_tracks then
    if begins_with_literal value (ascii_bytes "Track frame offsets:") then
      { r with m_read_tracks := true }
    else if begins_with_literal value (ascii_bytes "Disc length: ") then
      { r with m_seconds := read_integer_from_string L value 13 }
    else if begins_with_literal value (ascii_bytes "Revision: ") then
      { r with m_revision := read_integer_from_string L value 10 % 65536 }
    else r
  else
    let value := trim value
    if value.isEmpty then { r with m_read_tracks := false }
    else if begins_with_literal value (ascii_bytes "Disc length: ") then
      { r with m_read_tracks := false, m_seconds := read_integer_from_string L value 13 }
    else
      let i := read_integer_from_string L value 0
      if i = 0 then { r with m_read_tracks := false }
      else { r with m_frames := r.m_frames ++ [i] }

/-- `value.find(" / ")` continued from position `p`: the position of the first occurrence. -/
def find_separator : List Nat → Nat → Option Nat
  | [], _ => none
  | c :: rest, p =>
      if begins_with (c :: rest) [32, 47, 32] then some p else find_separator rest (p + 1)

/-- The `TTITLE` branch of `DiskRecord::add_keyvalue` for the song number `lv` read from the
key: the first song sets `m_list_base`, and a song is only taken when its number is the next
one; `lv - m_list_base` is computed in `size_t`. -/
def DiskRecord.add_song (r : DiskRecord) (lv : Nat) (value : List Nat) : DiskRecord :=
  let r := if r.m_songs.isEmpty then { r with m_list_base := lv } else r
  if r.m_songs.length ≠ (lv + 18446744073709551616 - r.m_list_base) % 18446744073709551616
  then r
  else { r with m_songs := r.m_songs ++ [value] }

/-- `DiskRecord::add_keyvalue(key, value)`. `std::out_of_range` from `std::stoul` is caught
in the function and leaves the year as it was; `std::invalid_argument` is not caught. -/
def DiskRecord.add_keyvalue (L : Locale) (r : DiskRecord) (key value : List Nat) :
    Except Thrown DiskRecord :=
  let r := { r with m_read_tracks := false }
  let value := trim_right value
  if key.isEmpty || value.isEmpty then Except.ok r
  else if key.length > 15 || value.length > 255 then Except.ok r
  else
    let value := if !valid_utf8 value then to_utf8 value else value
    if key = ascii_bytes "DISCID" then Except.ok r
    else if key = ascii_bytes "DYEAR" then
      match stoul L value with
      | Except.error e => Except.error e
      | Except.ok none => Except.ok r
      | Except.ok (some year) => Except.ok { r with m_year := year % 65536 }
    else if key = ascii_bytes "DGENRE" then Except.ok { r with m_genre := value }
    else if key = ascii_bytes "DTITLE" then
      match find_separator value 0 with
      | some p => Except.ok { r with m_artist := value.take p, m_title := value.drop (p + 3) }
      | none => Except.ok { r with m_artist := value, m_title := value }
    else if begins_with_literal key (ascii_bytes "TTITLE") then
      Except.ok (r.add_song (read_integer_from_string L key 6) value)
    else Except.ok r

/-- `DiskRecord::mostly_uppercase(str)`: the returned flag and the count it stores in
`m_uppercasecount`. -/
def mostly_uppercase (L : Locale) (str : List Nat) : Bool × Nat :=
  let upperalpha := (str.filter (fun ch => L.iswalpha ch && L.iswupper ch)).length
  let nonupperalpha := (str.filter (fun ch => L.iswalpha ch && !L.iswupper ch)).length
  (decide (nonupperalpha < upperalpha), upperalpha)

/-- `DiskRecord::convert_to_titlecase(value, entropy)`: the string left in `value`, the
`Entropy` object (all elements added so far, `none` for the null pointer) and
`m_uppercasecount` after the call. -/
def convert_to_titlecase (L : Locale) (value : List Nat) (entropy : Option (List Nat))
    (m_uppercasecount : Nat) : List Nat × Option (List Nat) × Nat :=
  if (from_utf8 value).1 then
    let wide := (from_utf8 value).2
    let upper := (mostly_uppercase L wide).2
    let titled := if (mostly_uppercase L wide).1 then to_title_case L wide false else (wide, 0)
    let value := if (mostly_uppercase L wide).1 ∧ titled.2 > 0 then to_utf8 titled.1 else value
    (value, entropy.map (fun e => e ++ titled.1), upper)
  else (value, entropy, m_uppercasecount)

/-- The number of values `ch` with `lo <= ch < hi` for which `entropy.has_value(ch)`. -/
def count_range (entropy : List Nat) (lo hi : Nat) : Nat :=
  ((List.range hi).filter (fun ch => decide (lo ≤ ch) && decide (ch ∈ entropy))).length

/-- `DiskRecord::calc_bad_encoding(entropy)`: the value it stores in `m_bad_encoding`. -/
def calc_bad_encoding (entropy : List Nat) : Bool :=
  let ct := count_range entropy 0 0x20 + count_range entropy 0x7f 0xa0
    + count_range entropy 0xa0 0xc0
  if ct > 4 then true
  else
    let ct := ct + count_range entropy 0xc0 0x100
    if ct > entropy.dedup.length / 3 then true else false

/-- The song loop of `cleanup` over `convert_to_titlecase`. -/
def titlecase_songs (L : Locale) :
    List (List Nat) → Option (List Nat) → Nat → List (List Nat) × Option (List Nat) × Nat
  | [], entropy, upper => ([], entropy, upper)
  | song :: songs, entropy, upper =>
      let c := convert_to_titlecase L song entropy upper
      let rest := titlecase_songs L songs c.2.1 c.2.2
      (c.1 :: rest.1, rest.2.1, rest.2.2)

/-- `DiskRecord::cleanup()`. -/
def DiskRecord.cleanup (L : Locale) (r : DiskRecord) : DiskRecord :=
  let begin := r.m_artist ++ [32, 47, 32]
  let songs := r.m_songs.map (fun song =>
    if begins_with song begin then song.drop begin.length else song)
  let artist := trim_all r.m_artist
  let title := trim_all r.m_title
  let genre := trim_all r.m_genre
  let songs := songs.map trim_all
  let a := convert_to_titlecase L artist (some []) r.m_uppercasecount
  let t := convert_to_titlecase L title a.2.1 a.2.2
  let g := convert_to_titlecase L genre none t.2.2
  let s := titlecase_songs L songs t.2.1 g.2.2
  let entropy := s.2.1.getD []
  { r with
    m_artist := a.1, m_title := t.1, m_genre := g.1, m_songs := s.1,
    m_uppercasecount := s.2.2,
    m_entropy := entropy.dedup.length,
    m_charcount := entropy.length,
    m_bad_encoding := calc_bad_encoding entropy }

/-- `DiskRecord::bad_encoding()`: `if (!m_entropy) calc_entropy(); return m_bad_encoding;`. -/
def DiskRecord.bad_encoding (r : DiskRecord) : Bool :=
  if r.m_entropy = 0 then calc_bad_encoding r.calc_entropy_elements else r.m_bad_encoding

/-- The states of the line parser in the constructor of `DiskRecord`. -/
inductive state_t where
  | Skip
  | Start
  | Key
  | Limiter
  | Start2
  | Value
  | Comment
deriving DecidableEq, Repr

/-- The record under construction and the locals of the constructor. -/
structure ParseState where
  record : DiskRecord
  key : List Nat
  value : List Nat
  lastch : Nat
  state : state_t
deriving DecidableEq, Repr

/-- The body of the loop `for (auto ch : data)` in the constructor of `DiskRecord`. -/
def parse_char (L : Locale) (st : ParseState) (ch : Nat) : Except Thrown ParseState :=
  if ch = 10 ∨ ch = 13 then
    if st.state = state_t.Value ∨ st.state = state_t.Skip then
      match st.record.add_keyvalue L st.key st.value with
      | Except.error e => Except.error e
      | Except.ok r => Except.ok { st with record := r, state := state_t.Start, key := [], value := [] }
    else if st.state = state_t.Comment then
      Except.ok { st with record := st.record.add_comment L st.value,
                          state := state_t.Start, key := [], value := [] }
    else Except.ok { st with state := state_t.Start, key := [], value := [] }
  else
    match st.state with
    | state_t.Skip => Except.ok st
    | state_t.Start =>
        if ch = 35 then Except.ok { st with state := state_t.Comment }
        else if !L.isspace ch then Except.ok { st with state := state_t.Key, key := [ch] }
        else Except.ok st
    | state_t.Key =>
        if L.isspace ch then Except.ok { st with state := state_t.Limiter }
        else if ch = 61 then Except.ok { st with state := state_t.Start2 }
        else Except.ok { st with key := st.key ++ [ch] }
    | state_t.Limiter =>
        if L.isspace ch then Except.ok st
        else if ch = 61 then Except.ok { st with state := state_t.Start2 }
        else Except.ok { st with state := state_t.Skip }
    | state_t.Start2 =>
        if !L.isspace ch then
          Except.ok { st with state := state_t.Value, value := [ch], lastch := ch }
        else Except.ok st
    | state_t.Value =>
        if st.lastch ≠ 32 ∨ ch ≠ 32 then
          Except.ok { st with value := st.value ++ [ch], lastch := ch }
        else Except.ok { st with lastch := ch }
    | state_t.Comment =>
        if !st.value.isEmpty || !L.isspace ch then Except.ok { st with value := st.value ++ [ch] }
        else Except.ok st

/-- The loop `for (auto ch : data)` in the constructor of `DiskRecord`. -/
def parse_loop (L : Locale) : List Nat → ParseState → Except Thrown ParseState
  | [], st => Except.ok st
  | ch :: data, st =>
      match parse_char L st ch with
      | Except.error e => Except.error e
      | Except.ok st => parse_loop L data st

/-- The constructor of `DiskRecord` up to and including `cleanup()`: the loop over the
buffer, the flush of a last line without line feed, and the cleanup. -/
def DiskRecord.read_and_cleanup (L : Locale) (data : List Nat) : Except Thrown DiskRecord :=
  match parse_loop L data ⟨DiskRecord.default, [], [], 0, state_t.Start⟩ with
  | Except.error e => Except.error e
  | Except.ok st =>
      if st.state = state_t.Value ∨ st.state = state_t.Skip then
        match st.record.add_keyvalue L st.key st.value with
        | Except.error e => Except.error e
        | Except.ok r => Except.ok (r.cleanup L)
      else Except.ok (st.record.cleanup L)

/-- The end of the constructor of `DiskRecord`, after `cleanup()`: `verify_record();`
`if (valid()) m_valid = !bad_encoding();`
`m_seconds = convert_frame_starts_in_frame_lengths(m_seconds, m_frames);`. -/
def DiskRecord.finish (r : DiskRecord) : DiskRecord :=
  let r := r.verify_record
  let r := if r.m_valid then { r with m_valid := !r.bad_encoding } else r
  { r with
    m_seconds := (convert_frame_starts_in_frame_lengths r.m_seconds r.m_frames).1
    m_frames := (convert_frame_starts_in_frame_lengths r.m_seconds r.m_frames).2 }

/-- The constructor `DiskRecord::DiskRecord(const std::vector<char>& data)`: the record, or
the exception that leaves the constructor. -/
def DiskRecord.parse (L : Locale) (data : List Nat) : Except Thrown DiskRecord :=
  match DiskRecord.read_and_cleanup L data with
  | Except.error e => Except.error e
  | Except.ok r => Except.ok r.finish

/-- The S2 disc as an xmcd record. -/
def example_record_text : List Nat :=
  ascii_bytes ("# xmcd\n#\n# Track frame offsets:\n#\t150\n#\t20753\n#\n"
    ++ "# Disc length: 500 seconds\n#\n# Revision: 3\n"
    ++ "DISCID=0a0b0c02\nDTITLE=ABBA / Gold\nDYEAR=1992\nDGENRE=Pop\n"
    ++ "TTITLE0=Dancing Queen\nTTITLE1=ABBA / S.O.S\nEXTD=\n")

/-! ## cddbupdater: the import of one record -/

/-- `FNVHash32::add(const std::string& s)`: every character goes through `add` as one
byte. -/
def FNVHash32.add_string (m_result : Nat) (s : List Nat) : Nat :=
  s.foldl FNVHash32.add_byte m_result

/-- `DiskRecord::normalized_hash()`: the stored hash when it is ready, otherwise what
`calc_normalized_hash` computes over the normalized artist, title and songs. -/
def DiskRecord.normalized_hash (L : Locale) (r : DiskRecord) : Nat :=
  if r.m_normalized_hash_ready then r.m_normalized_hash
  else
    let hash := FNVHash32.add_string FNVHash32.init (normalize L r.m_artist)
    let hash := FNVHash32.add_string hash (normalize L r.m_title)
    r.m_songs.foldl (fun hash s => FNVHash32.add_string hash (normalize L s)) hash

/-- `DiskRecord::discid()`: the stored id when it is ready, otherwise what `calc_discid`
leaves in `m_discid`. -/
def DiskRecord.discid (big_endian_host : Bool) (r : DiskRecord) : Nat :=
  if r.m_discid_ready then r.m_discid
  else if r.m_valid then private_discid big_endian_host r.m_seconds r.m_frames
  else r.m_discid

/-- `DiskRecord::fuzzy_discid()`. -/
def DiskRecord.fuzzy_discid (big_endian_host : Bool) (r : DiskRecord) : Nat :=
  if r.m_fuzzy_discid_ready then r.m_fuzzy_discid
  else if r.m_valid then private_fuzzy_discid big_endian_host r.m_seconds r.m_frames
  else r.m_fuzzy_discid

/-- `CDDBSQLUpdater::check_title_hash(hash)`: the `cd` of the first `NAMEHASH` row with this
hash, cast to `uint32_t`, or 0. -/
def ImportStore.check_title_hash (db : ImportStore) (hash : Nat) : Nat :=
  match db.NAMEHASH.find? (fun row => row.1 == hash) with
  | some row => row.2 % U32
  | none => 0

/-- `CDDBSQLUpdater::check_discid(discid)`: the `cd` of the first `DISCID` row with this id,
cast to `uint32_t`, or 0. -/
def ImportStore.check_discid (db : ImportStore) (discid : Nat) : Nat :=
  match db.DISCID.find? (fun row => row.1 == discid) with
  | some row => row.2 % U32
  | none => 0

/-- The row id that `INSERT INTO CD` assigns: one more than the largest `cd` in the table, 1
for the empty table. -/
def ImportStore.next_rowid (db : ImportStore) : Nat :=
  (db.CD.map (fun row => row.cd)).foldl max 0 + 1

/-- The `qtracks` loop of `write_record`: one `TRACKS` row per song, numbered from `tct`. -/
def insert_tracks (cdid : Nat) (frames : List Nat) : List (List Nat) → Nat → List TrackRow
  | [], _ => []
  | song :: songs, tct =>
      ⟨cdid, tct, song, if frames.isEmpty then 0 else frames.getD tct 0⟩
        :: insert_tracks cdid frames songs (tct + 1)

/-- What `CDDBSQLUpdater::write_record(rec, check_hash)` does to the tables, for a record
with normalized hash `hash`: the genre is interned, the CD row is inserted, the hash row is
inserted unless `check_hash` finds the hash (a second row with the same primary key raises
the exception of the store), and one row per song goes to `TRACKS`. The result is the returned
`cdid` and the tables. -/
def ImportStore.write_record (db : ImportStore) (r : DiskRecord) (hash : Nat)
    (check_hash : Bool) : Except Thrown (Nat × ImportStore) :=
  let genre := (db.map_genre r.m_genre).1
  let db := (db.map_genre r.m_genre).2
  let rowid := db.next_rowid
  let row : CDRow := ⟨rowid, r.m_artist, r.m_title, genre, r.m_year, r.m_seconds,
    r.m_revision, r.m_songs.length⟩
  let db := { db with CD := db.CD ++ [row] }
  let cdid := rowid % U32
  if !check_hash || db.check_title_hash hash == 0 then
    if db.NAMEHASH.any (fun row => row.1 == hash) then Except.error Thrown.sqlite_exception
    else
      let db := { db with NAMEHASH := db.NAMEHASH ++ [(hash, cdid)] }
      Except.ok (cdid, { db with TRACKS := db.TRACKS ++ insert_tracks cdid r.m_frames r.m_songs 0 })
  else
    Except.ok (cdid, { db with TRACKS := db.TRACKS ++ insert_tracks cdid r.m_frames r.m_songs 0 })

/-- `CDDBSQLUpdater::write_discid(discid, cdid)` on the tables. -/
def ImportStore.write_discid (db : ImportStore) (discid cdid : Nat) : ImportStore :=
  { db with DISCID := db.DISCID ++ [(discid, cdid)] }

/-- `CDDBSQLUpdater::write_fuzzy_discid(fuzzyid, cdid)` on the tables. -/
def ImportStore.write_fuzzy_discid (db : ImportStore) (fuzzyid cdid : Nat) : ImportStore :=
  { db with FUZZYID := db.FUZZYID ++ [(fuzzyid, cdid)] }

/-- `CDDBSQLUpdater::read_record(cdid, discid)`: `std::runtime_error` when the CD row is
missing, otherwise the record built from the row, its genre name and its track rows in
ascending track order. -/
def ImportStore.read_record (db : ImportStore) (cdid discid : Nat) :
    Except Thrown DiskRecord :=
  match db.CD.find? (fun row => row.cd == cdid) with
  | none => Except.error Thrown.runtime_error
  | some row =>
      let genre := match db.GENRE.find? (fun g => g.1 == row.genre % U32) with
        | some g => g.2
        | none => []
      let tracks := (db.TRACKS.filter (fun t => t.cd == row.cd % U32)).insertionSort
        (fun a b => a.track ≤ b.track)
      Except.ok (DiskRecord.of_parameters discid row.artist row.title (row.year % 65536) genre
        (tracks.map (fun t => t.song)) (tracks.map (fun t => t.frames % U32))
        (row.revision % 65536) (row.seconds % U32))

/-- `compare_normalized(a, b) >= 25`. -/
def similar (L : Locale) (a b : List Nat) : Bool :=
  match DiskRecord.compare_normalized L a b with
  | some score => decide (score ≥ 25)
  | none => false

/-- The block of `CDDBSQLUpdater::import` that runs when `check_discid` found the CD `ecd`
for the discid of the new record: `discid_valid` and the importer after it. -/
def import_known_discid (L : Locale) (big_endian_host : Bool) (u : Updater) (r : DiskRecord)
    (cdid ecd : Nat) (record_written : Bool) : Except Thrown (Bool × Updater) :=
  match u.db.read_record ecd (r.discid big_endian_host) with
  | Except.error e => Except.error e
  | Except.ok existing_rec =>
      let same_frames := existing_rec.m_seconds == r.m_seconds
        && existing_rec.m_frames == r.m_frames
      let same_title := similar L (existing_rec.m_artist ++ existing_rec.m_title)
          (r.m_artist ++ r.m_title)
        || similar L existing_rec.m_artist r.m_artist
        || similar L existing_rec.m_title r.m_title
      if !same_frames then
        if same_title then
          Except.ok (true, { u with m_rep :=
            { u.m_rep with realcddidcollct := inc64 u.m_rep.realcddidcollct } })
        else
          Except.ok (true, { u with m_rep :=
            { u.m_rep with realdidcollct := inc64 u.m_rep.realdidcollct } })
      else if same_title then
        Except.ok (false, import_same_cd L u r existing_rec (r.normalized_hash L) cdid ecd
          record_written)
      else
        Except.ok (false, { u with m_rep :=
          { u.m_rep with sameframesct := inc64 u.m_rep.sameframesct } })

/-- The block "now write the discid link(s)" of `CDDBSQLUpdater::import` for the record `r`
with row `cdid`, written in this step when `record_written`. -/
def import_discid_links (L : Locale) (big_endian_host : Bool) (u : Updater) (r : DiskRecord)
    (cdid : Nat) (record_written : Bool) : Except Thrown Updater :=
  let ecd := u.db.check_discid (r.discid big_endian_host)
  let linked : Except Thrown (Bool × Updater) :=
    if ecd ≠ 0 then import_known_discid L big_endian_host u r cdid ecd record_written
    else Except.ok (true, u)
  match linked with
  | Except.error e => Except.error e
  | Except.ok (discid_valid, u) =>
      if discid_valid then
        let db := u.db.write_discid (r.discid big_endian_host) cdid
        let db := db.write_fuzzy_discid (r.fuzzy_discid big_endian_host) cdid
        Except.ok { u with db := db }
      else Except.ok u

/-- The body of the loop of `CDDBSQLUpdater::import` for one tar entry `data` (with
`m_debug` false, as it always is): the importer after the record, or the exception that
leaves `import`. -/
def import_record (L : Locale) (big_endian_host : Bool) (u : Updater) (data : List Nat) :
    Except Thrown Updater :=
  let u := { u with m_rep := { u.m_rep with
    rct := inc64 u.m_rep.rct
    bct := (u.m_rep.bct + data.length) % 18446744073709551616 } }
  match DiskRecord.parse L data with
  | Except.error e => Except.error e
  | Except.ok r =>
      if !r.m_valid then
        Except.ok { u with m_rep := { u.m_rep with frct := inc64 u.m_rep.frct } }
      else
        let found := u.db.check_title_hash (r.normalized_hash L)
        if found = 0 then
          match u.db.write_record r (r.normalized_hash L) false with
          | Except.error e => Except.error e
          | Except.ok (cdid, db) =>
              import_discid_links L big_endian_host
                { db := db, m_rep := { u.m_rep with added := inc64 u.m_rep.added } } r cdid true
        else
          import_discid_links L big_endian_host
            { u with m_rep := { u.m_rep with dcrcct := inc64 u.m_rep.dcrcct } } r found false

/-- The loop of `CDDBSQLUpdater::import` over the entries of the archive. -/
def import_records (L : Locale) (big_endian_host : Bool) :
    List (List Nat) → Updater → Except Thrown Updater
  | [], u => Except.ok u
  | data :: rest, u =>
      match import_record L big_endian_host u data with
      | Except.error e => Except.error e
      | Except.ok u => import_records L big_endian_host rest u

/-- The empty store with a cleared report, as `import` finds it on a fresh database. -/
def Updater.empty : Updater :=
  { db := ⟨[], [], [], [], [], []⟩, m_rep := report_t.clear }

/-- Every `NAMEHASH`, `DISCID` and `FUZZYID` row references a CD row that exists. -/
def ImportStore.references_exist (db : ImportStore) : Prop :=
  (∀ row ∈ db.NAMEHASH, ∃ c ∈ db.CD, c.cd = row.2)
    ∧ (∀ row ∈ db.DISCID, ∃ c ∈ db.CD, c.cd = row.2)
    ∧ (∀ row ∈ db.FUZZYID, ∃ c ∈ db.CD, c.cd = row.2)

/-- Every CD row has an id from 1 to `bound`. -/
def ImportStore.ids_within (db : ImportStore) (bound : Nat) : Prop :=
  ∀ c ∈ db.CD, 1 ≤ c.cd ∧ c.cd ≤ bound

/-- The S2 disc once more, with richer titles. -/
def example_record_text_2 : List Nat :=
  ascii_bytes ("# xmcd\n#\n# Track frame offsets:\n#\t150\n#\t20753\n#\n"
    ++ "# Disc length: 500 seconds\n#\n# Revision: 4\n"
    ++ "DISCID=0a0b0c02\nDTITLE=Abba / Gold (1992)\nDYEAR=1992\nDGENRE=Pop\n"
    ++ "TTITLE0=Dancing Queen\nTTITLE1=S.O.S.\nEXTD=\n")

/-- The table `CD` has a row with the id `cdid`. -/
def ImportStore.has_cd (db : ImportStore) (cdid : Nat) : Prop :=
  ∃ c ∈ db.CD, c.cd = cdid

/-- No `DISCID` or `FUZZYID` row references `cdid`, and a `NAMEHASH` row references it only
with the hash `hash`: the state of a row that `write_record` has just written. -/
def ImportStore.just_written (db : ImportStore) (cdid hash : Nat) : Prop :=
  (∀ row ∈ db.NAMEHASH, row.2 = cdid → row.1 = hash)
    ∧ (∀ row ∈ db.DISCID, row.2 ≠ cdid)
    ∧ (∀ row ∈ db.FUZZYID, row.2 ≠ cdid)

/-- The state of the tables that the import keeps: every reference has its CD row, and the
CD ids run from 1 to at most `bound`. -/
def ImportStore.consistent (db : ImportStore) (bound : Nat) : Prop :=
  db.references_exist ∧ db.ids_within bound

/-! ### Well-formed byte sequences, as the specification words them -/

/-- A continuation byte, `10xxxxxx`. -/
def is_continuation (b : Nat) : Bool := b &&& 0xc0 == 0x80

/-- A complete sequence: a lead byte `0xxxxxxx`, `110xxxxx`, `1110xxxx` or `11110xxx`
followed by exactly 0, 1, 2 or 3 continuation bytes, whose payload bits make a code point at
or above the lower limit for its length. -/
def complete_sequence (s : List Nat) : Bool :=
  match s with
  | [b] => decide (b < 0x80)
  | [b, c1] =>
      b &&& 0xe0 == 0xc0 && is_continuation c1
        && decide (0x80 ≤ (b &&& 0x1f) * 64 + (c1 &&& 0x3f))
  | [b, c1, c2] =>
      b &&& 0xf0 == 0xe0 && is_continuation c1 && is_continuation c2
        && decide (0x800 ≤ ((b &&& 0x0f) * 64 + (c1 &&& 0x3f)) * 64 + (c2 &&& 0x3f))
  | [b, c1, c2, c3] =>
      b &&& 0xf8 == 0xf0 && is_continuation c1 && is_continuation c2 && is_continuation c3
        && decide (0x10000 ≤
            (((b &&& 0x07) * 64 + (c1 &&& 0x3f)) * 64 + (c2 &&& 0x3f)) * 64 + (c3 &&& 0x3f))
  | _ => false

/-- The start of a sequence that breaks off: a lead byte of a sequence of 2, 3 or 4 bytes
followed by continuation bytes, but fewer of them than the lead byte announces. -/
def truncated_sequence (s : List Nat) : Bool :=
  match s with
  | [b] => b &&& 0xe0 == 0xc0 || b &&& 0xf0 == 0xe0 || b &&& 0xf8 == 0xf0
  | [b, c1] => (b &&& 0xf0 == 0xe0 || b &&& 0xf8 == 0xf0) && is_continuation c1
  | [b, c1, c2] => b &&& 0xf8 == 0xf0 && is_continuation c1 && is_continuation c2
  | _ => false

/-- A concatenation of complete sequences. -/
def well_formed_utf8 (bytes : List Nat) : Prop :=
  ∃ seqs : List (List Nat), bytes = seqs.flatten ∧ ∀ s ∈ seqs, complete_sequence s = true

/-- A concatenation of complete sequences, after which a sequence may break off. -/
def well_formed_or_truncated_utf8 (bytes : List Nat) : Prop :=
  ∃ (seqs : List (List Nat)) (tail : List Nat), bytes = seqs.flatten ++ tail
    ∧ (∀ s ∈ seqs, complete_sequence s = true)
    ∧ (tail = [] ∨ truncated_sequence tail = true)

/-! ### Title case, position by position -/

/-- Whether a character with the predecessor `prev` starts an alphanumeric run: there is no
predecessor, or the predecessor is not alphanumeric. -/
def starts_run (L : Locale) (prev : Option Nat) : Bool :=
  match prev with
  | none => true
  | some p => !L.iswalnum p

/-- The character that title-casing without `force_upcase` leaves at a position, read off
the original string: `ch` with its predecessor `prev` and the character `prev2` before
that. Characters that are not alphanumeric and the first character of a run stay; a later
character of a run is lower-cased when it is upper-case, unless it is a `D` right after a
`C` that starts the run. -/
def spec_title_char (L : Locale) (prev2 prev : Option Nat) (ch : Nat) : Nat :=
  if !L.iswalnum ch then ch
  else if starts_run L prev then ch
  else if L.iswupper ch && !(ch == 68 && prev == some 67 && starts_run L prev2) then
    L.towlower ch
  else ch

/-- The string of the `spec_title_char` of every position, for a string that follows the
characters `prev2`, `prev`. -/
def spec_title_from (L : Locale) : Option Nat → Option Nat → List Nat → List Nat
  | _, _, [] => []
  | prev2, prev, ch :: rest =>
      spec_title_char L prev2 prev ch :: spec_title_from L prev (some ch) rest

/-- Title case as the positions define it. -/
def spec_title_case (L : Locale) (str : List Nat) : List Nat :=
  spec_title_from L none none str

/-! ## The C library: `strtoull` with a base -/

/-- The value of a character as a digit of `strtoull`: `0`-`9`, then the letters of either
case from 10 on. -/
def digit_value (ch : Nat) : Option Nat :=
  if 48 ≤ ch ∧ ch ≤ 57 then some (ch - 48)
  else if 97 ≤ ch ∧ ch ≤ 122 then some (ch - 87)
  else if 65 ≤ ch ∧ ch ≤ 90 then some (ch - 55)
  else none

/-- Whether `ch` is a digit of the base. -/
def is_digit_of (base ch : Nat) : Bool :=
  match digit_value ch with
  | some d => decide (d < base)
  | none => false

/-- `strtoull(nptr, &end, base)` (and `strtoul`, of the same width here) on the bytes of a C
string, read up to the first zero byte. A base other than 0 and 2 to 36 converts nothing
and gives 0 (`EINVAL`). Otherwise white space is skipped, one sign is accepted, base 16 and
base 0 accept a `0x` in front of a hexadecimal digit, base 0 reads a leading `0` as octal,
and the digits of the base are read; a value beyond the type gives its largest value. -/
def strtoull (L : Locale) (nptr : List Nat) (base : Nat) : strtoul_t :=
  if base = 1 ∨ base > 36 then ⟨0, false, false⟩
  else
    let s := nptr.takeWhile (fun ch => ch != 0)
    let s := s.dropWhile L.isspace
    let negative := s.head? == some 45
    let s := if s.head? == some 45 || s.head? == some 43 then s.tail else s
    let hex_mark := s.head? == some 48 && (s.tail.head? == some 120 || s.tail.head? == some 88)
      && (match s.tail.tail.head? with
          | some ch => is_digit_of 16 ch
          | none => false)
    let base16 := base = 16 ∨ (base = 0 ∧ hex_mark)
    let s := if base16 ∧ hex_mark then s.tail.tail else s
    let base := if base16 then 16 else if base = 0 then (if s.head? == some 48 then 8 else 10)
      else base
    let digits := s.takeWhile (is_digit_of base)
    let v := digits.foldl (fun acc d => acc * base + (digit_value d).getD 0) 0
    if digits.isEmpty then ⟨0, false, false⟩
    else if v > 18446744073709551615 then ⟨18446744073709551615, true, true⟩
    else if negative then ⟨(18446744073709551616 - v) % 18446744073709551616, true, false⟩
    else ⟨v, true, false⟩

/-! ## untar: the header -/

/-- `TarException`, by its message. -/
inductive TarException where
  | invalid_header_checksum
  | unexpected_end_of_file
deriving DecidableEq, Repr

/-- `TarHeader::EntryType`. -/
inductive EntryType where
  | Unknown | File | Directory | Link | Symlink | Fifo | Longname1 | Longname2
deriving DecidableEq, Repr

/-- The value of an `EntryType` enumerator. -/
def EntryType.code : EntryType → Nat
  | Unknown => 0
  | File => 1
  | Directory => 2
  | Link => 4
  | Symlink => 8
  | Fifo => 16
  | Longname1 => 32
  | Longname2 => 64

/-- The members of `TarHeader`; `raw` holds the 512 bytes of the header union. -/
structure TarHeader where
  raw : List Nat
  m_file_size : Nat
  m_modification_time : Nat
  m_filename : List Nat
  m_linkname : List Nat
  m_is_end : Bool
  m_is_ustar : Bool
  m_entrytype : EntryType
  m_keep_members_once : Bool
deriving DecidableEq, Repr

/-- `TarHeader::reset()`. -/
def TarHeader.reset (h : TarHeader) : TarHeader :=
  if !h.m_keep_members_once then
    { h with m_file_size := 0, m_modification_time := 0, m_filename := [], m_linkname := [],
             m_is_end := false, m_is_ustar := false, m_entrytype := EntryType.Unknown }
  else { h with m_keep_members_once := false }

/-- The constructor `TarHeader()`: `m_keep_members_once(false)`, then `clear()`. -/
def TarHeader.new : TarHeader :=
  { raw := List.replicate 512 0, m_file_size := 0, m_modification_time := 0,
    m_filename := [], m_linkname := [], m_is_end := false, m_is_ustar := false,
    m_entrytype := EntryType.Unknown, m_keep_members_once := false }

/-- The bytes of the field of `len` bytes at offset `off` of the header. -/
def header_field (raw : List Nat) (off len : Nat) : List Nat :=
  (raw.drop off).take len

/-- The bytes of a C string: up to the first zero byte. -/
def c_string (bytes : List Nat) : List Nat :=
  bytes.takeWhile (fun ch => ch != 0)

/-- `std::memset(p, value, len)` on the header, for `p` at offset `off`. -/
def header_memset (raw : List Nat) (off len value : Nat) : List Nat :=
  raw.take off ++ List.replicate len value ++ raw.drop (off + len)

/-- What `sum += ch` adds for a header byte: the `char` converted to `uint64_t`, which for
a byte from 0x80 on is the byte itself where `char` is unsigned and `2^64 - 256 + byte`
where `char` is signed. -/
def char_as_uint64 (char_signed : Bool) (byte : Nat) : Nat :=
  if char_signed ∧ byte ≥ 128 then 18446744073709551616 - 256 + byte else byte

/-- The loop `for (auto ch : raw.header) sum += ch;` with `uint64_t sum = 0`. -/
def header_sum (char_signed : Bool) (raw : List Nat) : Nat :=
  raw.foldl (fun sum ch => (sum + char_as_uint64 char_signed ch) % 18446744073709551616) 0

/-- The `File` case of `TarHeader::analyze`, for a header that is not the name block of a
GNU long name: both terminators are set, the size is read with base 256 when the high bit
of the first size byte is set and with base 8 otherwise, the time with base 8. -/
def TarHeader.analyze_file (L : Locale) (h : TarHeader) : TarHeader :=
  let raw := header_memset h.raw 135 1 0
  let size :=
    if raw.getD 124 0 &&& 0x80 ≠ 0 then (strtoull L (c_string (raw.drop 124)) 256).value
    else (strtoull L (c_string (raw.drop 124)) 8).value
  let raw := header_memset raw 147 1 0
  { h with raw := raw, m_entrytype := EntryType.File, m_file_size := size,
           m_modification_time := (strtoull L (c_string (raw.drop 136)) 8).value }

/-- The `switch (header.extension.ustar.type_flag)` of `TarHeader::analyze`. -/
def TarHeader.analyze_type (L : Locale) (h : TarHeader) : TarHeader :=
  let type_flag := h.raw.getD 156 0
  let name_len := (c_string (header_field h.raw 0 100)).length
  if type_flag = 0 ∨ type_flag = 48 then
    if h.m_entrytype = EntryType.Longname1 then
      { h with m_filename := c_string (header_field h.raw 0 512),
               m_entrytype := EntryType.Longname2, m_keep_members_once := true }
    else h.analyze_file L
  else if type_flag = 49 then
    { h with m_entrytype := EntryType.Link,
             m_linkname := header_field h.raw 157 (min 100 name_len) }
  else if type_flag = 50 then
    { h with m_entrytype := EntryType.Symlink,
             m_linkname := header_field h.raw 157 (min 100 name_len) }
  else if type_flag = 53 then
    let raw := header_memset h.raw 147 1 0
    { h with raw := raw, m_entrytype := EntryType.Directory, m_file_size := 0,
             m_modification_time := (strtoull L (c_string (raw.drop 136)) 8).value }
  else if type_flag = 54 then { h with m_entrytype := EntryType.Fifo }
  else if type_flag = 76 then
    { h with m_entrytype := EntryType.Longname1, m_keep_members_once := true }
  else { h with m_entrytype := EntryType.Unknown }

/-- The part of `TarHeader::analyze` between the checksum and the `switch`: `m_is_ustar`,
the file name with its ustar lead, and the type flag `5` for a name that ends in a slash
and has no type flag. -/
def TarHeader.analyze_names (h : TarHeader) : TarHeader :=
  let m_is_ustar := header_field h.raw 257 5 == ascii_bytes "ustar"
  let name := c_string (header_field h.raw 0 100)
  let lead := c_string (header_field h.raw 345 155)
  let m_filename := if m_is_ustar ∧ lead ≠ [] then lead ++ [47] ++ name else name
  let raw :=
    if m_filename.getLast? = some 47 ∧ h.raw.getD 156 0 = 0 then header_memset h.raw 156 1 53
    else h.raw
  { h with raw := raw, m_is_ustar := m_is_ustar, m_filename := m_filename }

/-- `TarHeader::analyze()` on a host whose `char` is signed or not: the header after the
call, or the exception. -/
def TarHeader.analyze (L : Locale) (char_signed : Bool) (h : TarHeader) :
    Except TarException TarHeader :=
  let h := if h.raw.getD 0 0 = 0 then { h with m_is_end := h.raw.all (fun ch => ch == 0) }
    else h
  if h.raw.getD 0 0 = 0 ∧ h.m_is_end then Except.ok h
  else
    let header_checksum := (strtoull L (c_string (h.raw.drop 148)) 8).value
    let raw := header_memset h.raw 148 8 32
    if header_checksum ≠ header_sum char_signed raw then
      Except.error TarException.invalid_header_checksum
    else
      Except.ok (TarHeader.analyze_type L (TarHeader.analyze_names { h with raw := raw }))

/-! ## untar: the reader -/

/-- The reader `UnTar`: its header and the bytes that the file (or the decompressor) still
has to deliver. -/
structure UnTar where
  m_header : TarHeader
  stream : List Nat
deriving DecidableEq, Repr

/-- `UnTar::read(buf, len)`: the bytes read and the reader after the call, or the exception
"unexpected end of file" when fewer than `len` bytes come. -/
def UnTar.read (t : UnTar) (len : Nat) : Except TarException (List Nat × UnTar) :=
  if t.stream.length < len then Except.error TarException.unexpected_end_of_file
  else Except.ok (t.stream.take len, { t with stream := t.stream.drop len })

/-- The payload part of the loop body of `UnTar::entry` for a `File` header: the buffer is
resized to the file size and filled, and the padding
`(HeaderLen - filesize % HeaderLen) % HeaderLen` is read into the raw header. -/
def UnTar.read_file (t : UnTar) : Except TarException (List Nat × UnTar) :=
  match t.read t.m_header.m_file_size with
  | Except.error e => Except.error e
  | Except.ok (buf, t) =>
      let padding := (512 - t.m_header.m_file_size % 512) % 512
      if padding ≠ 0 then
        match t.read padding with
        | Except.error e => Except.error e
        | Except.ok (pad, t) =>
            Except.ok (buf, { t with m_header :=
              { t.m_header with raw := pad ++ t.m_header.raw.drop padding } })
      else Except.ok (buf, t)

/-- The `do ... while` loop of `UnTar::entry(buf, accepted_types, skip_apple_resource_forks)`
with a bound on the number of rounds; `none` when the bound is used up. The result is the
returned type, the buffer and the reader. -/
def UnTar.entry_loop (L : Locale) (char_signed : Bool) (accepted_types : Nat)
    (skip_apple_resource_forks : Bool) :
    Nat → UnTar → List Nat → Option (Except TarException (EntryType × List Nat × UnTar))
  | 0, _, _ => none
  | rounds + 1, t, buf =>
      match UnTar.read { t with m_header := t.m_header.reset } 512 with
      | Except.error e => some (Except.error e)
      | Except.ok (block, t) =>
          match TarHeader.analyze L char_signed { t.m_header with raw := block } with
          | Except.error e => some (Except.error e)
          | Except.ok hd =>
              let t := { t with m_header := hd }
              if hd.m_is_end then some (Except.ok (EntryType.Unknown, buf, t))
              else
                let payload : Except TarException (List Nat × UnTar) :=
                  if hd.m_entrytype = EntryType.File then t.read_file
                  else Except.ok (buf, t)
                match payload with
                | Except.error e => some (Except.error e)
                | Except.ok (buf, t) =>
                    if t.m_header.m_entrytype.code &&& accepted_types = 0
                        ∨ (skip_apple_resource_forks
                          ∧ begins_with_literal t.m_header.m_filename (ascii_bytes "./._"))
                    then UnTar.entry_loop L char_signed accepted_types
                      skip_apple_resource_forks rounds t buf
                    else some (Except.ok (t.m_header.m_entrytype, buf, t))

/-- `UnTar::entry(buf, accepted_types, skip_apple_resource_forks)`. Every round reads a
header of 512 bytes, so the loop needs no more rounds than the stream has headers. -/
def UnTar.entry (L : Locale) (char_signed : Bool) (t : UnTar) (buf : List Nat)
    (accepted_types : Nat) (skip_apple_resource_forks : Bool) :
    Option (Except TarException (EntryType × List Nat × UnTar)) :=
  UnTar.entry_loop L char_signed accepted_types skip_apple_resource_forks
    (t.stream.length / 512 + 1) t buf

/-! ### Example archives -/

/-- The octal digits of `value` in a field of `width` characters, with leading zeros. -/
def octal_field (value : Nat) : Nat → List Nat
  | 0 => []
  | width + 1 => octal_field (value / 8) width ++ [48 + value % 8]

/-- The bytes `bytes` followed by zero bytes up to the length `len`. -/
def zero_padded (bytes : List Nat) (len : Nat) : List Nat :=
  bytes ++ List.replicate (len - bytes.length) 0

/-- A ustar header block with the file name `name`, the 12 bytes `size_field` for the size
and its terminator, and the type flag `type_flag`, as an archiver writes it: the checksum
field holds the sum of the bytes, each taken as a value from 0 to 255 and the checksum field
as spaces, in six octal digits, a zero byte and a space. -/
def example_header (name size_field : List Nat) (type_flag : Nat) : List Nat :=
  let front := zero_padded name 100 ++ ascii_bytes "0000644" ++ [0]
    ++ ascii_bytes "0000000" ++ [0] ++ ascii_bytes "0000000" ++ [0]
    ++ zero_padded size_field 12 ++ ascii_bytes "00000000000" ++ [0]
  let back := [type_flag] ++ List.replicate 100 0 ++ ascii_bytes "ustar" ++ [0]
    ++ ascii_bytes "00" ++ List.replicate 247 0
  let sum := (front ++ List.replicate 8 32 ++ back).sum
  front ++ octal_field sum 6 ++ [0, 32] ++ back

/-- An archive with one file "a.txt" of 1025 bytes `x`, its padding, and the two zero
blocks of the end. -/
def example_archive_1025 : List Nat :=
  example_header (ascii_bytes "a.txt") (octal_field 1025 11) 48
    ++ List.replicate 1025 120 ++ List.replicate 511 0 ++ List.replicate 1024 0

/-- The header of a file "b.txt" whose size field holds 1025 in base 256: the high bit of
the first byte set, the value in the last bytes. -/
def example_header_base256 : List Nat :=
  example_header (ascii_bytes "b.txt") [0x80, 0, 0, 0, 0, 0, 0, 0, 0, 4, 1] 48

/-- The header of a file with the Latin-1 name "caf\xE9.txt" and 3 bytes. -/
def example_header_latin1 : List Nat :=
  example_header (ascii_bytes "caf" ++ [0xE9] ++ ascii_bytes ".txt") (octal_field 3 11) 48

/-- A long file name of 120 characters. -/
def example_long_name : List Nat :=
  (List.replicate 23 (ascii_bytes "dir/")).flatten ++ ascii_bytes "a-long-file-name.txt"
    ++ ascii_bytes "12345678"

/-- A GNU archive with a long name: the header of type `L` that announces it, the block that
carries the name, the header of the file itself with the name cut to 100 characters, its 3
bytes with their padding, and the two zero blocks of the end. -/
def example_archive_long_name : List Nat :=
  example_header (ascii_bytes "././@LongLink") (octal_field 121 11) 76
    ++ zero_padded example_long_name 512
    ++ example_header (example_long_name.take 100) (octal_field 3 11) 48
    ++ zero_padded (ascii_bytes "abc") 512 ++ List.replicate 1024 0

/-- The base-256 big-endian value of a list of bytes. -/
def spec_base256 (bytes : List Nat) : Nat :=
  bytes.foldl (fun acc b => acc * 256 + b) 0

/-- A long file name of 157 characters whose characters 148 to 155 read as the checksum of
the block that carries it, and whose character 156 is `0`. -/
def example_long_name_2 : List Nat :=
  List.replicate 148 97 ++ ascii_bytes "00345048" ++ ascii_bytes "0"

/-- A GNU archive with the long name `example_long_name_2`, built like
`example_archive_long_name`. -/
def example_archive_long_name_2 : List Nat :=
  example_header (ascii_bytes "././@LongLink") (octal_field 158 11) 76
    ++ zero_padded example_long_name_2 512
    ++ example_header (example_long_name_2.take 100) (octal_field 3 11) 48
    ++ zero_padded (ascii_bytes "abc") 512 ++ List.replicate 1024 0

/-- What a caller sees of an entry that `UnTar::entry` returns: the type, the buffer, the
file name and the number of bytes left in the stream; `none` for an exception. -/
def entry_summary (r : Option (Except TarException (EntryType × List Nat × UnTar))) :
    Option (EntryType × List Nat × List Nat × Nat) :=
  match r with
  | some (Except.ok (ty, buf, t)) => some (ty, buf, t.m_header.m_filename, t.stream.length)
  | _ => none

/-! ## helper.hpp: `StringTokenizer` and `tolower` -/

/-- `StringTokenizer::unescaped(pos)` for a position inside a quoted token, where `before`
holds the characters of the token up to `pos`: the number of backslashes right before `pos`
is even. The scan ends at the opening quote at the latest. -/
def StringTokenizer.unescaped (before : List Nat) : Bool :=
  (before.reverse.takeWhile (fun c => c == 92)).length % 2 == 0

/-- The quoted branch of `StringTokenizer::get()`, after the opening quote: `before` holds
the characters passed so far, the second argument the characters still to come. An
unescaped quote ends the token and the character after it is skipped; an escaped quote at
the very end, or no closing quote at all, ends the token with the string. The result is the
token and the rest of the string from `m_start` on. -/
def StringTokenizer.get_quoted : List Nat → List Nat → List Nat × List Nat
  | before, [] => (before, [])
  | before, c :: more =>
      if c = 34 then
        if StringTokenizer.unescaped before then (before, more.tail)
        else if more.isEmpty then (before, [])
        else StringTokenizer.get_quoted (before ++ [c]) more
      else StringTokenizer.get_quoted (before ++ [c]) more

/-- `StringTokenizer::get()` on the rest of the string from `m_start` on: the token and the
rest of the string from the new `m_start` on. -/
def StringTokenizer.get (m_delimit : List Nat) (m_doublequoted : Bool) (str : List Nat) :
    List Nat × List Nat :=
  match str.dropWhile (fun c => m_delimit.contains c) with
  | [] => ([], [])
  | c :: more =>
      if m_doublequoted && c == 34 then StringTokenizer.get_quoted [] more
      else
        ((c :: more).takeWhile (fun c => !m_delimit.contains c),
          ((c :: more).dropWhile (fun c => !m_delimit.contains c)).tail)

/-- The loop `while (!eol()) container.emplace_back(get());` of `StringTokenizer::split`,
with a bound on the number of rounds. -/
def StringTokenizer.split_loop (m_delimit : List Nat) (m_doublequoted : Bool) :
    Nat → List Nat → List (List Nat)
  | 0, _ => []
  | rounds + 1, str =>
      if str.isEmpty then []
      else
        (StringTokenizer.get m_delimit m_doublequoted str).1
          :: StringTokenizer.split_loop m_delimit m_doublequoted rounds
              (StringTokenizer.get m_delimit m_doublequoted str).2

/-- `StringTokenizer(input, delimit, doublequoted).split()`. Every `get()` moves `m_start`
on, so the loop needs no more rounds than the string has characters. -/
def StringTokenizer.split (input m_delimit : List Nat) (m_doublequoted : Bool) :
    List (List Nat) :=
  StringTokenizer.split_loop m_delimit m_doublequoted input.length input

/-- `tolower(str)` of helper.hpp on a narrow string. -/
def tolower (L : Locale) (str : List Nat) : List Nat :=
  str.map (fun ch => if L.isupper ch then L.tolower ch else ch)

/-! ## The C++ library: `std::stoul` with a base, `std::stoi` -/

/-- `std::stoul(str, nullptr, base)`. -/
def stoul_base (L : Locale) (str : List Nat) (base : Nat) : Except Thrown Nat :=
  if !(strtoull L str base).converted then Except.error Thrown.invalid_argument
  else if (strtoull L str base).erange then Except.error Thrown.out_of_range
  else Except.ok (strtoull L str base).value

/-- `std::stoi(str)`: `strtol` in base 10, and `std::out_of_range` for a value outside
`int`. -/
def stoi (L : Locale) (str : List Nat) : Except Thrown Int :=
  let s := (str.takeWhile (fun ch => ch != 0)).dropWhile L.isspace
  let negative := s.head? == some 45
  let s := if s.head? == some 45 || s.head? == some 43 then s.tail else s
  let digits := s.takeWhile (fun ch => 48 ≤ ch && ch ≤ 57)
  let v : Nat := digits.foldl (fun acc d => acc * 10 + (d - 48)) 0
  if digits.isEmpty then Except.error Thrown.invalid_argument
  else if negative then
    if v > 2147483648 then Except.error Thrown.out_of_range else Except.ok (-(v : Int))
  else if v > 2147483647 then Except.error Thrown.out_of_range
  else Except.ok (v : Int)

/-- Modelled from the spec: the `{0}` field of `fmt::format` for an unsigned integer
(`format.hpp` is not among the sources), and `std::to_string`: decimal digits without
padding. -/
def format_d (value : Nat) : List Nat :=
  (Nat.toDigits 10 value).map Char.toNat

/-- The UTF-8 bytes of a text. -/
def utf8_bytes (s : String) : List Nat :=
  to_utf8 (s.toList.map Char.toNat)

/-! ## cddbserver: `cddb read` -/

/-- The conversion of a `uint32_t` to `int32_t`. -/
def as_int32 (x : Nat) : Int :=
  if x % U32 < 2147483648 then (x % U32 : Nat) else ((x % U32 : Nat) : Int) - 4294967296

/-- The store as `build_cddb_file` reads it.
`m_qcd`: the first row of `SELECT CD.cd, CD.artist, CD.title, CD.genre, CD.year, CD.seconds,`
`CD.revision FROM DISCID,CD WHERE DISCID.discid=?1 AND CD.cd=DISCID.cd`;
`m_qtracks`: `SELECT song, frames FROM TRACKS WHERE cd=?1 ORDER BY track ASC`;
`m_find_id`: the name that `StringIntMapCache::map(id)` finds in `GENRE`, empty when there
is none. -/
structure ReadStore where
  m_qcd : Nat → Option (Nat × List Nat × List Nat × Nat × Nat × Nat × Nat)
  m_qtracks : Int → List (List Nat × Nat)
  m_find_id : Int → List Nat

/-- The `TTITLE` lines of `cddb_file`, numbered from `tct`. -/
def ttitle_lines : List (List Nat) → Nat → List Nat
  | [], _ => []
  | song :: songs, tct =>
      ascii_bytes "TTITLE" ++ format_d tct ++ [61] ++ song ++ [10] ++ ttitle_lines songs (tct + 1)

/-- The `EXTT` lines of `cddb_file` for `count` songs, numbered from `tct`. -/
def extt_lines : Nat → Nat → List Nat
  | 0, _ => []
  | count + 1, tct => ascii_bytes "EXTT" ++ format_d tct ++ [61, 10] ++ extt_lines count (tct + 1)

/-- `DiskRecord::cddb_file()`. -/
def DiskRecord.cddb_file (r : DiskRecord) : List Nat :=
  let frames := (convert_frame_lengths_in_frame_starts r.m_seconds r.m_frames).2
  let seconds := (convert_frame_lengths_in_frame_starts r.m_seconds r.m_frames).1
  ascii_bytes "# xmcd 2.0 CD database file\n" ++ ascii_bytes "#\n"
    ++ ascii_bytes "# Track frame offsets:\n"
    ++ (frames.map (fun frame => ascii_bytes "#       " ++ format_d frame ++ [10])).flatten
    ++ ascii_bytes "#\n"
    ++ ascii_bytes "# Disc length: " ++ format_d seconds ++ ascii_bytes " seconds\n"
    ++ ascii_bytes "#\n"
    ++ ascii_bytes "# Revision: " ++ format_d r.m_revision ++ [10]
    ++ ascii_bytes "# Submitted via: xmcd 2.0\n" ++ ascii_bytes "#\n"
    ++ ascii_bytes "DISCID=" ++ ascii_bytes (format_x r.m_discid) ++ [10]
    ++ ascii_bytes "DTITLE=" ++ r.m_artist ++ ascii_bytes " / " ++ r.m_title ++ [10]
    ++ ascii_bytes "DYEAR=" ++ (if r.m_year ≠ 0 then format_d r.m_year else []) ++ [10]
    ++ ascii_bytes "DGENRE=" ++ r.m_genre ++ [10]
    ++ ttitle_lines r.m_songs 0
    ++ ascii_bytes "EXTD=\n"
    ++ extt_lines r.m_songs.length 0
    ++ ascii_bytes "PLAYORDER=\n"

/-- `CDDBSQLServer::build_cddb_file(discid, category)`; the category is not used. -/
def build_cddb_file (rdb : ReadStore) (discid : Nat) (_category : List Nat) : List Nat :=
  match rdb.m_qcd discid with
  | none => []
  | some (cd, artist, title, genre_id, year, seconds, revision) =>
      let rows := rdb.m_qtracks (as_int32 cd)
      DiskRecord.cddb_file
        (DiskRecord.of_parameters discid artist title (year % 65536)
          (rdb.m_find_id (as_int32 genre_id)) (rows.map (fun row => row.1))
          (rows.map (fun row => row.2 % U32)) (revision % 65536) (seconds % U32))

/-! ## cddbserver: the protocol -/

/-- `CDDBSQLServer::Parameters` with the `terminate` of its base class. -/
structure Parameters where
  terminate : Bool
  handshake : Bool
  is_http : Bool
deriving DecidableEq, Repr

/-- The parameters that `get_parameters()` makes for a new session. -/
def Parameters.new : Parameters :=
  { terminate := false, handshake := false, is_http := false }

/-- What a `CDDBSQLServer` is built from and runs on: the byte order of its host, the
`std::sort` and the locale of its C library, the store, and the members `m_max_trackdiff`
and `m_expect_http`. -/
structure Server where
  big_endian_host : Bool
  sort : StdSort
  locale : Locale
  db : ServerStore
  rdb : ReadStore
  m_max_trackdiff : Nat
  m_expect_http : Bool

/-- `CDDBSQLServer::register_user(it, end)`: the words from `it` on, cut or filled up to
four. -/
def register_user (data : List (List Nat)) : List Nat :=
  ascii_bytes "200 hello and welcome " ++ data.getD 0 [] ++ [64] ++ data.getD 1 []
    ++ ascii_bytes " running " ++ data.getD 2 [] ++ [32] ++ data.getD 3 [] ++ [10]

/-- The words of a request as `cddb_request` looks at them: split at blanks, tabs, carriage
returns and line feeds, the first word in lower case, and the second one too when the first
is `cddb`. -/
def request_words (L : Locale) (qstr : List Nat) : List (List Nat) :=
  match StringTokenizer.split qstr [32, 9, 13, 10] true with
  | [] => []
  | [w0] => [tolower L w0]
  | w0 :: w1 :: more =>
      if tolower L w0 = ascii_bytes "cddb" then tolower L w0 :: tolower L w1 :: more
      else tolower L w0 :: w1 :: more

/-- The loop `for (ct = 0; ct < ntrks; ++ct) tracks.emplace_back(std::stoul(words[4 + ct]));`
over the words from `words[4]` on. -/
def read_tracks (L : Locale) : Nat → List (List Nat) → Except Thrown (List Nat)
  | 0, _ => Except.ok []
  | ntrks + 1, words =>
      match stoul_base L (words.headD []) 10 with
      | Except.error e => Except.error e
      | Except.ok v =>
          match read_tracks L ntrks words.tail with
          | Except.error e => Except.error e
          | Except.ok tracks => Except.ok (v % U32 :: tracks)

/-- The branch `cddb query` of `cddb_request` for a request of `words`, after the
handshake. -/
def cddb_query_request (srv : Server) (words : List (List Nat)) (p : Parameters) :
    Except Thrown (List Nat × Parameters) :=
  if words.length < 6 then
    Except.ok (ascii_bytes "530 insufficient parameters\n", { p with terminate := true })
  else
    match stoul_base srv.locale (words.getD 3 []) 10 with
    | Except.error e => Except.error e
    | Except.ok v =>
        let ntrks := v % U32
        if ntrks ≠ 0 ∧ (ntrks + 5) % U32 = words.length then
          match read_tracks srv.locale ntrks (words.drop 4) with
          | Except.error e => Except.error e
          | Except.ok tracks =>
              match stoul_base srv.locale (words.getD (4 + ntrks) []) 10 with
              | Except.error e => Except.error e
              | Except.ok s =>
                  match stoul_base srv.locale (words.getD 2 []) 16 with
                  | Except.error e => Except.error e
                  | Except.ok d =>
                      let seconds := (convert_frame_starts_in_frame_lengths (s % U32) tracks).1
                      let tracks := (convert_frame_starts_in_frame_lengths (s % U32) tracks).2
                      Except.ok (utf8_bytes (cddb_query srv.big_endian_host srv.sort srv.db
                        srv.m_max_trackdiff (d % U32) tracks seconds), p)
        else
          Except.ok (ascii_bytes "530 track count does not match parameter count\n",
            { p with terminate := true })

/-- The branch `cddb read` of `cddb_request`, after the handshake. -/
def cddb_read_request (srv : Server) (words : List (List Nat)) (p : Parameters) :
    Except Thrown (List Nat × Parameters) :=
  if words.length ≠ 4 then
    Except.ok (ascii_bytes "530 invalid parameter count\n", { p with terminate := true })
  else
    match stoul_base srv.locale (words.getD 3 []) 16 with
    | Except.error e => Except.error e
    | Except.ok d =>
        let rec_file := build_cddb_file srv.rdb (d % U32) (words.getD 2 [])
        if !rec_file.isEmpty then
          Except.ok (ascii_bytes "210 " ++ words.getD 2 [] ++ [32] ++ words.getD 3 [] ++ [10]
            ++ rec_file ++ ascii_bytes ".\n", p)
        else
          Except.ok (ascii_bytes "401 " ++ words.getD 2 [] ++ [32] ++ words.getD 3 []
            ++ ascii_bytes " No such CD entry in database.\n", p)

/-- The branch of `cddb_request` for a first word `cddb` that is followed by more words. -/
def cddb_command (srv : Server) (words : List (List Nat)) (p : Parameters) :
    Except Thrown (List Nat × Parameters) :=
  if words.getD 1 [] = ascii_bytes "hello" then
    Except.ok (register_user (words.drop 2), { p with handshake := true })
  else if !p.handshake then
    Except.ok (ascii_bytes "530 no handshake\n", { p with terminate := true })
  else if words.getD 1 [] = ascii_bytes "lscat" then
    Except.ok (ascii_bytes
      "200 Okay category list follows (until terminating marker)\ngeneric\n.\n", p)
  else if words.getD 1 [] = ascii_bytes "query" then cddb_query_request srv words p
  else if words.getD 1 [] = ascii_bytes "read" then cddb_read_request srv words p
  else Except.ok (ascii_bytes "530 unsupported cddb command\n", { p with terminate := true })

/-- The reply of the command `stat`. -/
def stat_reply : List Nat :=
  ascii_bytes ("210 OK, status information follows (until terminating `.')\n"
    ++ "current proto: 6\n" ++ "max proto: 6\n" ++ "gets: no\n" ++ "updates: no\n"
    ++ "posting: no\n" ++ "quotes: no\n" ++ "current users: 1\n" ++ "max users: 1000\n"
    ++ "strip ext: yes\n" ++ "Database entries: 3565787\n" ++ ".\n")

/-- The branch `proto` of `cddb_request`, for the words after `proto`. -/
def proto_request (L : Locale) (args : List (List Nat)) (p : Parameters) :
    Except Thrown (List Nat × Parameters) :=
  let level : Except Thrown Int :=
    match args with
    | [] => Except.ok 0
    | arg :: _ => stoi L arg
  match level with
  | Except.error e => Except.error e
  | Except.ok level =>
      if level = 6 then Except.ok (ascii_bytes "502 Protocol level already 6\n", p)
      else if level > 0 ∧ level ≠ 6 then Except.ok (ascii_bytes "501 Illegal protocol level\n", p)
      else Except.ok (ascii_bytes "200 CDDB protocol level: current 6, supported 6\n", p)

/-- `CDDBSQLServer::cddb_request(qstr, parameters)`: the reply and the parameters after the
call, or the exception that leaves it; every exception is thrown before the parameters are
touched. -/
def cddb_request (srv : Server) (qstr : List Nat) (p : Parameters) :
    Except Thrown (List Nat × Parameters) :=
  match request_words srv.locale qstr with
  | [] =>
      if !p.handshake then
        Except.ok (ascii_bytes "201 hostname C++CDDB server v1.0 ready at date\n", p)
      else Except.ok (ascii_bytes "530\n", { p with terminate := true })
  | w0 :: args =>
      if !args.isEmpty ∧ w0 = ascii_bytes "cddb" then cddb_command srv (w0 :: args) p
      else if w0 = ascii_bytes "hello" then
        Except.ok (register_user args, { p with handshake := true })
      else if !p.handshake then
        Except.ok (ascii_bytes "530 no handshake\n", { p with terminate := true })
      else if w0 = ascii_bytes "stat" then Except.ok (stat_reply, p)
      else if w0 = ascii_bytes "proto" then proto_request srv.locale args p
      else if w0 = ascii_bytes "ver" then
        Except.ok (ascii_bytes "200 hostname C++CDDB v1.0 (c) Joachim Schurig 2016.\n", p)
      else if w0 = ascii_bytes "quit" then
        Except.ok (ascii_bytes "230 hostname Closing connection. Goodbye.\n",
          { p with terminate := true })
      else Except.ok (ascii_bytes "530 unsupported command\n", { p with terminate := true })

/-! ## cddbserver: HTTP requests and the session -/

/-- `hex_digit(ch)`; `std::runtime_error` for a character that is no hexadecimal digit. -/
def hex_digit (ch : Nat) : Except Thrown Nat :=
  if 48 ≤ ch ∧ ch ≤ 57 then Except.ok (ch - 48)
  else if 97 ≤ ch ∧ ch ≤ 102 then Except.ok (10 + ch - 97)
  else if 65 ≤ ch ∧ ch ≤ 70 then Except.ok (10 + ch - 65)
  else Except.error Thrown.runtime_error

/-- The states of `split_http_cddb`. -/
inductive http_state_t where
  | Preamble | QueryCmd | QueryReplaceEqual | Query | HttpVersion
deriving DecidableEq, Repr

/-- The locals of `split_http_cddb`. A string that was moved into `svec` is empty
afterwards. -/
structure HttpSplit where
  state : http_state_t
  hex_count : Nat
  hex_char : Nat
  query : List Nat
  svec : List (List Nat)
deriving DecidableEq, Repr

/-- The body of the loop of `split_http_cddb` for one character. -/
def split_http_char (st : HttpSplit) (ch : Nat) : Except Thrown HttpSplit :=
  match st.state with
  | http_state_t.Preamble =>
      if ch = 63 then Except.ok { st with state := http_state_t.QueryCmd } else Except.ok st
  | http_state_t.QueryCmd =>
      if ch = 61 then Except.ok { st with state := http_state_t.Query } else Except.ok st
  | http_state_t.HttpVersion => Except.ok st
  | _ =>
      if st.hex_count ≠ 0 then
        match hex_digit ch with
        | Except.error e => Except.error e
        | Except.ok d =>
            let hex_char := (st.hex_char * 16 % 65536 + d) % 65536
            if st.hex_count - 1 = 0 then
              Except.ok { st with hex_char := hex_char, hex_count := 0,
                                  query := st.query ++ [hex_char % 256] }
            else Except.ok { st with hex_char := hex_char, hex_count := st.hex_count - 1 }
      else if ch = 37 then Except.ok { st with hex_count := 2, hex_char := 0 }
      else if ch = 43 then Except.ok { st with query := st.query ++ [32] }
      else if ch = 38 then
        Except.ok { st with svec := st.svec ++ [st.query], query := [],
                            state := http_state_t.QueryReplaceEqual }
      else if ch = 32 then
        Except.ok { st with svec := st.svec ++ [st.query], query := [],
                            state := http_state_t.HttpVersion }
      else if ch = 61 ∧ st.state = http_state_t.QueryReplaceEqual then
        Except.ok { st with query := st.query ++ [32], state := http_state_t.Query }
      else Except.ok { st with query := st.query ++ [ch] }

/-- The loop of `split_http_cddb` over the characters of the request. -/
def split_http_loop : List Nat → HttpSplit → Except Thrown HttpSplit
  | [], st => Except.ok st
  | ch :: rest, st =>
      match split_http_char st ch with
      | Except.error e => Except.error e
      | Except.ok st => split_http_loop rest st

/-- `split_http_cddb(qstr, svec)` called with an empty `svec`: the components it leaves in
`svec`, or `std::runtime_error`. -/
def split_http_cddb (qstr : List Nat) : Except Thrown (List (List Nat)) :=
  match split_http_loop qstr ⟨http_state_t.Preamble, 0, 0, [], []⟩ with
  | Except.error e => Except.error e
  | Except.ok st =>
      if st.hex_count ≠ 0 then Except.error Thrown.runtime_error
      else if st.state ≠ http_state_t.HttpVersion then Except.error Thrown.runtime_error
      else Except.ok st.svec

/-- The three calls of `cddb_request` that `request` makes for a `GET` line with the
components `cmds`: the hello, the proto command, and the query, whose reply goes into the
response. The parameters are those at the return or at the exception. -/
def http_request (srv : Server) (cmds : List (List Nat)) (p : Parameters) :
    Parameters × Except Thrown (List Nat) :=
  match cddb_request srv (cmds.getD 1 []) p with
  | Except.error e => (p, Except.error e)
  | Except.ok (_, p1) =>
      match cddb_request srv (cmds.getD 2 []) p1 with
      | Except.error e => (p1, Except.error e)
      | Except.ok (_, p2) =>
          match cddb_request srv (cmds.getD 0 []) p2 with
          | Except.error e => (p2, Except.error e)
          | Except.ok (cddbres, p3) =>
              (p3, Except.ok (ascii_bytes "HTTP/1.1 200 OK\r\nContent-Length: "
                ++ format_d cddbres.length ++ ascii_bytes "\r\n\r\n" ++ cddbres))

/-- `CDDBSQLServer::request(qstr, parameters)`: the parameters after the call and the reply
or the exception. -/
def request (srv : Server) (qstr : List Nat) (p : Parameters) :
    Parameters × Except Thrown (List Nat) :=
  if begins_with_literal qstr (ascii_bytes "GET ") then
    match split_http_cddb qstr with
    | Except.error e => ({ p with is_http := true }, Except.error e)
    | Except.ok cmds =>
        if cmds.length = 3 then http_request srv cmds { p with is_http := true }
        else ({ p with is_http := true }, Except.error Thrown.runtime_error)
  else if p.is_http then (p, Except.ok [])
  else
    match cddb_request srv qstr p with
    | Except.error e => (p, Except.error e)
    | Except.ok (reply, p) => (p, Except.ok reply)

/-- `CDDBSQLServer::init(parameters)`. -/
def Server.init (srv : Server) (p : Parameters) : Parameters × Except Thrown (List Nat) :=
  if srv.m_expect_http then (p, Except.ok []) else request srv [] p

/-- One step of a session: the parameters after it and what was written to the stream,
`none` when an exception ended the session instead. -/
structure SessionStep where
  parameters : Parameters
  written : Option (List Nat)
deriving DecidableEq, Repr

/-- The loop of `ASIOServer::session` over the lines that `std::getline` delivers, for a
stream that stays good: one step for every line that is handed to `request`. The loop ends
with the lines, with `terminate`, or with an exception. -/
def session_loop (srv : Server) : List (List Nat) → Parameters → List SessionStep
  | [], _ => []
  | line :: lines, p =>
      if p.terminate then []
      else if line = [13] then session_loop srv lines p
      else
        match request srv line p with
        | (p, Except.ok reply) => ⟨p, some reply⟩ :: session_loop srv lines p
        | (p, Except.error _) => [⟨p, none⟩]

/-- `ASIOServer::session` for a `CDDBSQLServer`: the step of `init` and the steps of the
loop. -/
def session (srv : Server) (lines : List (List Nat)) : List SessionStep :=
  match srv.init Parameters.new with
  | (p, Except.ok reply) => ⟨p, some reply⟩ :: session_loop srv lines p
  | (p, Except.error _) => [⟨p, none⟩]

/-- A server on a little-endian host over `example_store`, with no records to read, that
does not expect HTTP. -/
def example_server : Server where
  big_endian_host := false
  sort := StdSort.insertion
  locale := Locale.ascii
  db := example_store
  rdb := { m_qcd := fun _ => none, m_qtracks := fun _ => [], m_find_id := fun _ => [] }
  m_max_trackdiff := 300
  m_expect_http := false

/-- The flags of the parameters `q` are those of `p` with, at most, some more of them
set. -/
def Parameters.only_set (p q : Parameters) : Prop :=
  (p.terminate = true → q.terminate = true) ∧ (p.handshake = true → q.handshake = true)
    ∧ (p.is_http = true → q.is_http = true)

/-- Three request lines: a hello, `quit`, and `stat`. -/
def example_session_lines : List (List Nat) :=
  [ascii_bytes "hello a b c d", ascii_bytes "quit", ascii_bytes "stat"]

/-- The step of `init` of a session with `example_server`. -/
def example_init_step : SessionStep :=
  ⟨Parameters.new, some (ascii_bytes "201 hostname C++CDDB server v1.0 ready at date\n")⟩

/-- The step of the line `hello a b c d` in a fresh session. -/
def example_hello_step : SessionStep :=
  ⟨{ terminate := false, handshake := true, is_http := false },
    some (ascii_bytes "200 hello and welcome a@b running c d\n")⟩

/-- The step of the line `quit` after the handshake. -/
def example_quit_step : SessionStep :=
  ⟨{ terminate := true, handshake := true, is_http := false },
    some (ascii_bytes "230 hostname Closing connection. Goodbye.\n")⟩

/-! ## The tokenizer, as the claims describe it -/

/-- The maximal runs of characters that are not in `delimit`, in the order of the input;
`run` holds the characters of the run that is open at this point. -/
def spec_runs_from (delimit : List Nat) : List Nat → List Nat → List (List Nat)
  | run, [] => if run.isEmpty then [] else [run]
  | run, c :: rest =>
      if delimit.contains c then
        if run.isEmpty then spec_runs_from delimit [] rest
        else run :: spec_runs_from delimit [] rest
      else spec_runs_from delimit (run ++ [c]) rest

/-- The maximal runs of non-delimiter characters of `input`, in order. -/
def spec_runs (delimit input : List Nat) : List (List Nat) :=
  spec_runs_from delimit [] input

/-- The input is one single delimiter, or it ends in two delimiters. -/
def ends_in_gap (delimit : List Nat) : List Nat → Bool
  | [] => false
  | [c] => delimit.contains c
  | [c, d] => delimit.contains c && delimit.contains d
  | _ :: d :: e :: rest => ends_in_gap delimit (d :: e :: rest)

/-! ## The record, as the claims describe it -/

/-- The number of distinct code points among `codepoints` that lie in `[0x00, 0x20)` or in
`[0x7f, 0xC0)`. -/
def spec_c1 (codepoints : List Nat) : Nat :=
  (codepoints.dedup.filter
    (fun ch => decide (ch < 0x20) || (decide (0x7f ≤ ch) && decide (ch < 0xC0)))).length

/-- The number of distinct code points among `codepoints` that lie in `[0xC0, 0x100)`. -/
def spec_c2 (codepoints : List Nat) : Nat :=
  (codepoints.dedup.filter (fun ch => decide (0xC0 ≤ ch) && decide (ch < 0x100))).length

/-- The text of a record with the lines `TTITLE0`, `TTITLE2`, `TTITLE1` in this order. -/
def example_misordered_text : List Nat :=
  ascii_bytes ("# Disc length: 100 seconds\nDTITLE=Abba / Gold\n"
    ++ "TTITLE0=one\nTTITLE2=three\nTTITLE1=two\n")

/-- The constructor of `DiskRecord` up to `cleanup()`: the loop over the buffer and the
flush of a last line without line feed. -/
def DiskRecord.read_lines (L : Locale) (data : List Nat) : Except Thrown DiskRecord :=
  match parse_loop L data ⟨DiskRecord.default, [], [], 0, state_t.Start⟩ with
  | Except.error e => Except.error e
  | Except.ok st =>
      if st.state = state_t.Value ∨ st.state = state_t.Skip then
        st.record.add_keyvalue L st.key st.value
      else Except.ok st.record

/-- A song as the steps 1) and 2) of `cleanup()` leave it: the artist in front of it is
taken off, and it is trimmed. -/
def cleaned_song (artist song : List Nat) : List Nat :=
  trim_all (if begins_with song (artist ++ [32, 47, 32])
    then song.drop (artist ++ [32, 47, 32]).length else song)

/-- The number of upper-case letters of a UTF-8 string. -/
def spec_upper_letters (L : Locale) (s : List Nat) : Nat :=
  ((from_utf8 s).2.filter (fun ch => L.iswalpha ch && L.iswupper ch)).length

/-- The total number of upper-case letters over artist, title and every song of a record. -/
def spec_uppercasecount (L : Locale) (r : DiskRecord) : Nat :=
  spec_upper_letters L r.m_artist + spec_upper_letters L r.m_title
    + (r.m_songs.map (spec_upper_letters L)).sum

/-- The text of a record whose last song has no upper-case letter. -/
def example_lowercase_last_text : List Nat :=
  ascii_bytes ("# Disc length: 100 seconds\nDTITLE=Abba / Gold\n"
    ++ "TTITLE0=Dancing Queen\nTTITLE1=sos\n")

/-- The text of a record whose last song is all upper-case. -/
def example_uppercase_last_text : List Nat :=
  ascii_bytes ("# Disc length: 100 seconds\nDTITLE=Abba / Gold\n"
    ++ "TTITLE0=Dancing Queen\nTTITLE1=SOS\n")

/-- The text of a record with the frame offsets 150 and 20753 and a disc length of one
second: 75 frames, fewer than the last offset. -/
def example_negative_length_text : List Nat :=
  ascii_bytes ("# xmcd\n#\n# Track frame offsets:\n#\t150\n#\t20753\n#\n"
    ++ "# Disc length: 1 seconds\n#\nDTITLE=Abba / Gold\nTTITLE0=one\nTTITLE1=two\n")

/-- The first character of the line that is no white space is `#`: the line parser takes
the line as a comment. -/
def is_comment_line (L : Locale) : List Nat → Bool
  | [] => false
  | ch :: rest => if ch = 35 then true else if L.isspace ch then is_comment_line L rest else false

/-- The lines of a record up to its last line. -/
def example_last_line_pre : List Nat :=
  ascii_bytes "DTITLE=Abba / Gold\nTTITLE0=one\n"

/-- A last line that is a comment, without line end. -/
def example_last_line_comment : List Nat :=
  ascii_bytes "# Disc length: 100 seconds"

/-- The counter `updated` is the sum that `report_t::to_string` prints as "Used for
updates", `entropy_gt + upper_count_gt + overall_count_gt` in `uint64_t`. -/
def report_t.updates_counted (rep : report_t) : Prop :=
  rep.updated
    = (rep.entropy_gt + rep.upper_count_gt + rep.overall_count_gt) % 18446744073709551616

/-- The text of "Abba / Gold" again, with an accent in the first song. -/
def example_record_text_accent : List Nat :=
  ascii_bytes ("# xmcd\n#\n# Track frame offsets:\n#\t150\n#\t20753\n#\n"
    ++ "# Disc length: 500 seconds\n#\n# Revision: 4\n"
    ++ "DISCID=0a0b0c02\nDTITLE=ABBA / Gold\nDYEAR=1992\nDGENRE=Pop\n"
    ++ "TTITLE0=Dancing Qu\xe9\x65n\nTTITLE1=ABBA / S.O.S\nEXTD=\n")

/-- The number that a string of decimal digits stands for. -/
def spec_decimal_value (digits : List Nat) : Nat :=
  digits.foldl (fun acc d => acc * 10 + (d - 48)) 0

/-- A `GET` line whose `proto` component is no number. -/
def example_get_bad_proto : List Nat :=
  ascii_bytes "GET /?cmd=stat&hello=joe+example.org+tool+1.0&proto=x HTTP/1.1"

/-- A `GET` line with the three components `stat`, a hello and `proto 6`. -/
def example_get_stat : List Nat :=
  ascii_bytes "GET /?cmd=stat&hello=joe+example.org+tool+1.0&proto=6 HTTP/1.1"

/-! ## The merge policy, as the claims describe it -/

/-- The merge policy in the words of the specification, for a new record `r` and the
existing record: the new entropy is greater, or the entropies are equal, the strings are not
exactly equal, and either the strings are equal case-folded and the new record has more
upper-case letters, or they are not equal case-folded and the new record has more
characters. The upper-case letters are those of all strings of a record
(`spec_uppercasecount`). -/
def spec_new_record_wins (L : Locale) (r existing_rec : DiskRecord) : Prop :=
  r.entropy > existing_rec.entropy
    ∨ (r.entropy = existing_rec.entropy ∧ r.equal_strings existing_rec = false
      ∧ ((r.equal_lowercase_strings L existing_rec = true
            ∧ spec_uppercasecount L r > spec_uppercasecount L existing_rec)
        ∨ (r.equal_lowercase_strings L existing_rec = false
            ∧ r.charcount > existing_rec.charcount)))

/-- The text of a disc with one track, artist, title and the song given. -/
def example_single_text (dtitle song : String) : List Nat :=
  ascii_bytes ("# xmcd\n#\n# Track frame offsets:\n#\t150\n#\n# Disc length: 500 seconds\n#\n"
    ++ "DTITLE=" ++ dtitle ++ "\nTTITLE0=" ++ song ++ "\n")

/-- The record read from the text of "Abba / Gold" with the song "xY". -/
def example_rec_xy : DiskRecord :=
  match DiskRecord.parse Locale.ascii (example_single_text "Abba / Gold" "xY") with
  | Except.ok r => r
  | Except.error _ => DiskRecord.default

/-- The importer after "Abba / Gold" with the song "Xy" has been imported into the empty
store. -/
def example_updater_xy : Updater :=
  match import_records Locale.ascii false [example_single_text "Abba / Gold" "Xy"]
    Updater.empty with
  | Except.ok u => u
  | Except.error _ => Updater.empty

/-- The record that `read_record` builds from row 1 of `example_updater_xy` for the discid of
`example_rec_xy`. -/
def example_stored_xy : DiskRecord :=
  match example_updater_xy.db.read_record 1 (example_rec_xy.discid false) with
  | Except.ok r => r
  | Except.error _ => DiskRecord.default

/-! ## Normalization in a locale with Latin-1 letters -/

/-- A locale in the style of a Unicode locale for the code points up to U+00FF and for
U+0178, the C locale elsewhere: the capitals U+00C0 to U+00DE (without the multiplication
sign) are upper-case with the lower-case form 32 above, U+0178 is upper-case with the
lower-case form U+00FF, U+0080 to U+009F are control characters, U+00A0 is a space, and
U+00A1 to U+00BF all count as punctuation. -/
def Locale.latin1 : Locale :=
  { Locale.ascii with
    iswupper := fun ch =>
      (0xC0 ≤ ch && ch ≤ 0xDE && ch != 0xD7) || ch == 0x178 || Locale.ascii.iswupper ch
    iswlower := fun ch =>
      (0xDF ≤ ch && ch ≤ 0xFF && ch != 0xF7) || Locale.ascii.iswlower ch
    iswalpha := fun ch =>
      (0xC0 ≤ ch && ch ≤ 0xFF && ch != 0xD7 && ch != 0xF7) || ch == 0x178
        || Locale.ascii.iswalpha ch
    iswalnum := fun ch =>
      (0xC0 ≤ ch && ch ≤ 0xFF && ch != 0xD7 && ch != 0xF7) || ch == 0x178
        || Locale.ascii.iswalnum ch
    iswpunct := fun ch =>
      (0xA1 ≤ ch && ch ≤ 0xBF) || ch == 0xD7 || ch == 0xF7 || Locale.ascii.iswpunct ch
    iswcntrl := fun ch => (0x80 ≤ ch && ch ≤ 0x9F) || Locale.ascii.iswcntrl ch
    iswspace := fun ch => ch == 0xA0 || Locale.ascii.iswspace ch
    towlower := fun ch =>
      if 0xC0 ≤ ch && ch ≤ 0xDE && ch != 0xD7 then ch + 32
      else if ch == 0x178 then 0xFF else Locale.ascii.towlower ch
    towupper := fun ch =>
      if 0xE0 ≤ ch && ch ≤ 0xFE && ch != 0xF7 then ch - 32
      else if ch == 0xFF then 0x178 else Locale.ascii.towupper ch }

/-- The code point that `from_utf8` reads back from the bytes that `to_utf8` writes for the
wide character `c`: `c` itself as a `wchar_t` when it is below 0x110000, and `?` otherwise. -/
def to_utf8_written (c : Nat) : Nat :=
  if c % U32 < 0x110000 then c % U32 else 0x3F

/-! ## The comparison of n-grams, as the claims describe it -/

/-- The score of two strings in the words of the specification: 0 when `a` has fewer than 3
characters, otherwise `100 * m / c` rounded down, with `c` the number of trigrams of `a` and
`m` the size of the multiset intersection of the trigrams of `a` and of `b`. -/
def spec_ngrams_compare (a b : List Nat) : Nat :=
  if a.length < 3 then 0
  else 100 * ((spec_ngrams 3 a).bagInter (spec_ngrams 3 b)).length / (spec_ngrams 3 a).length

/-! # Theorems -/

/-! ## Fingerprints -/

theorem swap_bytes_four (a b c d : Nat) : swap_bytes [a, b, c, d] = [d, c, b, a] := by
  simp [swap_bytes, swap_bytes_loop]

theorem memory_bytes_big (value : Nat) : memory_bytes true value = be32 value := by
  rfl

theorem memory_bytes_little (value : Nat) : memory_bytes false value = (be32 value).reverse := by
  rfl

/-- Whatever the host, `add(value, true)` feeds the big-endian encoding of the value. -/
theorem add_endian_big (big_endian_host : Bool) (m_result value : Nat) :
    FNVHash32.add_endian big_endian_host m_result value true
      = (be32 value).foldl FNVHash32.add_byte m_result := by
  cases big_endian_host
  · simp [FNVHash32.add_endian, memory_bytes, be32, swap_bytes_four]
  · rfl

theorem fnv_of_bytes_eq (bytes : List Nat) :
    fnv_of_bytes bytes = bytes.foldl FNVHash32.add_byte FNVHash32.init := by
  rfl

theorem foldl_add_endian (big_endian_host : Bool) (g : Nat → Nat) (frames : List Nat) (h : Nat) :
    frames.foldl (fun discid track => FNVHash32.add_endian big_endian_host discid (g track) true) h
      = ((frames.map (fun f => be32 (g f))).flatten).foldl FNVHash32.add_byte h := by
  induction frames generalizing h with
  | nil => rfl
  | cons f rest ih =>
      simp only [List.foldl_cons, List.map_cons, List.flatten_cons, List.foldl_append]
      rw [ih, add_endian_big]

/-- What `private_discid` computes on either host: FNV over the big-endian seconds, then the
constant 1 in the byte order of the host, then the big-endian frames. -/
theorem private_discid_bytes (big_endian_host : Bool) (seconds : Nat) (frames : List Nat) :
    private_discid big_endian_host seconds frames
      = fnv_of_bytes (be32 seconds ++ memory_bytes big_endian_host 1
          ++ (frames.map be32).flatten) := by
  have h := foldl_add_endian big_endian_host (fun f => f) frames
  simp only [private_discid, private_discid_fnv, fnv_of_bytes_eq, List.foldl_append,
    add_endian_big, FNVHash32.add, count_word, if_true] at h ⊢
  exact h _

/-- What `private_fuzzy_discid` computes on either host: FNV over the constant 1 in the byte
order of the host, then the big-endian quantized frames. -/
theorem private_fuzzy_discid_bytes (big_endian_host : Bool) (seconds : Nat)
    (frames : List Nat) :
    private_fuzzy_discid big_endian_host seconds frames
      = fnv_of_bytes (memory_bytes big_endian_host 1
          ++ (frames.map (fun f => be32 (((add32 f 38) / 75 + 4) / 8))).flatten) := by
  have h := foldl_add_endian big_endian_host (fun f => ((add32 f 38) / 75 + 4) / 8) frames
  simp only [private_fuzzy_discid, private_fuzzy_discid_fnv, fnv_of_bytes_eq, List.foldl_append,
    add_endian_big, FNVHash32.add, count_word, if_true] at h ⊢
  exact h _

set_option maxRecDepth 100000 in
/-- C1 (code as it is): on the S2 vector (disc length 2357, converted to lengths, which hands
150 on as `seconds`) `private_discid` is 0x5937493 on a little-endian host and 0xe2914a99 on a
big-endian host; the FNV hash of big-endian seconds, count 10 and lengths is 0x75921a6a. The
count word that reaches the hash is the constant 1 in host byte order, not the track count. -/
theorem private_discid_S2_count_word :
    convert_frame_starts_in_frame_lengths 2357 S2_starts = (150, S2_lengths)
      ∧ private_discid false 150 S2_lengths = 0x5937493
      ∧ private_discid true 150 S2_lengths = 0xe2914a99
      ∧ spec_discid 150 S2_lengths = 0x75921a6a
      ∧ be32 S2_lengths.length = [0, 0, 0, 10]
      ∧ memory_bytes false (count_word S2_lengths) = [1, 0, 0, 0]
      ∧ memory_bytes true (count_word S2_lengths) = [0, 0, 0, 1] := by
  decide

set_option maxRecDepth 100000 in
/-- C2 (code as it is): on the S2 lengths `private_fuzzy_discid` is 0xb13d686d on a
little-endian host and 0x13423ff3 on a big-endian host; the FNV hash of the big-endian count 10
and quantized lengths is 0x283f5698. -/
theorem private_fuzzy_discid_S2_count_word :
    private_fuzzy_discid false 150 S2_lengths = 0xb13d686d
      ∧ private_fuzzy_discid true 150 S2_lengths = 0x13423ff3
      ∧ spec_fuzzy_discid S2_lengths = 0x283f5698 := by
  decide

set_option maxRecDepth 100000 in
/-- C3 (code as it is): on the S2 lengths both fingerprints take one value when
`is_big_endian()` is false and another when it is true. -/
theorem fingerprints_S2_depend_on_host :
    private_discid false 150 S2_lengths ≠ private_discid true 150 S2_lengths
      ∧ private_fuzzy_discid false 150 S2_lengths
          ≠ private_fuzzy_discid true 150 S2_lengths := by
  decide

/-! ## Frame starts and frame lengths -/

theorem add32_sub32_cancel (a b : Nat) (hb : b < U32) : add32 a (sub32 b a) = b := by
  unfold add32 sub32 U32 at *
  omega

theorem frame_lengths_of_starts_ne_nil (seconds startframe a : Nat) (rest : List Nat) :
    frame_lengths_of_starts seconds startframe (a :: rest) ≠ [] := by
  cases rest <;> simp [frame_lengths_of_starts]

theorem frame_starts_loop_cons (back it : Nat) (more : List Nat) (h : more ≠ []) :
    frame_starts_loop back (it :: more)
      = add32 back it :: frame_starts_loop (add32 back it) more := by
  cases more with
  | nil => exact absurd rfl h
  | cons next rest => rfl

/-- Running the starts loop over the lengths derived from `a :: rest` gives `rest` back. -/
theorem frame_starts_loop_lengths (seconds startframe : Nat) (rest : List Nat) :
    ∀ a : Nat, (∀ f ∈ rest, f < U32) →
      frame_starts_loop a (frame_lengths_of_starts seconds startframe (a :: rest)) = rest := by
  induction rest with
  | nil => intro a _; rfl
  | cons b rest ih =>
      intro a h
      have hb : b < U32 := h b (List.mem_cons_self b rest)
      have hrest : ∀ f ∈ rest, f < U32 := fun f hf => h f (List.mem_cons_of_mem b hf)
      rw [frame_lengths_of_starts,
        frame_starts_loop_cons _ _ _ (frame_lengths_of_starts_ne_nil seconds startframe b rest),
        add32_sub32_cancel a b hb, ih b hrest]

/-- C4: for every seconds value and every vector of frame starts (32-bit values),
`convert_frame_starts_in_frame_lengths` followed by `convert_frame_lengths_in_frame_starts`,
fed with the value the first call returned, leaves exactly the original vector of starts;
all arithmetic is the wrapping 32-bit arithmetic of the code. -/
theorem frame_starts_round_trip (seconds : Nat) (frames : List Nat)
    (h : ∀ f ∈ frames, f < U32) :
    (convert_frame_lengths_in_frame_starts
        (convert_frame_starts_in_frame_lengths seconds frames).1
        (convert_frame_starts_in_frame_lengths seconds frames).2).2 = frames := by
  cases frames with
  | nil => rfl
  | cons startframe rest =>
      have hrest : ∀ f ∈ rest, f < U32 := fun f hf => h f (List.mem_cons_of_mem startframe hf)
      have hloop := frame_starts_loop_lengths seconds startframe rest startframe hrest
      simp only [convert_frame_starts_in_frame_lengths]
      cases hl : frame_lengths_of_starts seconds startframe (startframe :: rest) with
      | nil => exact absurd hl (frame_lengths_of_starts_ne_nil seconds startframe startframe rest)
      | cons first more =>
          rw [hl] at hloop
          simp only [convert_frame_lengths_in_frame_starts, hloop]

/-- C4 at the S2 vector. -/
theorem frame_starts_round_trip_witness :
    (∀ f ∈ S2_starts, f < U32)
      ∧ (convert_frame_lengths_in_frame_starts
          (convert_frame_starts_in_frame_lengths 2357 S2_starts).1
          (convert_frame_starts_in_frame_lengths 2357 S2_starts).2).2 = S2_starts :=
  ⟨by decide, frame_starts_round_trip 2357 S2_starts (by decide)⟩

/-- C5 (code as it is): for the S2 record (disc length 2357 seconds) the forward conversion
hands on 150 and the S2 lengths, and `convert_frame_lengths_in_frame_starts` then returns
2353 seconds: the start frame is taken off a second time where it had to be put back. -/
theorem disc_length_round_trip_S2 :
    convert_frame_starts_in_frame_lengths 2357 S2_starts = (150, S2_lengths)
      ∧ (convert_frame_lengths_in_frame_starts 150 S2_lengths).1 = 2353
      ∧ (160108 + 16517 - 150) / 75 = 2353
      ∧ (160108 + 16517 + 150) / 75 = 2357 := by
  decide

/-- C6 as stated fails: for the S2 vector and a disc length of 2357 seconds the call returns
150, whereas the disc length without the 2 seconds of leading gap is 2355; and the returned
value stays 150 when the disc length is 1000 instead. -/
theorem returned_seconds_not_length_minus_gap :
    (convert_frame_starts_in_frame_lengths 2357 S2_starts).1 = 150
      ∧ spec_seconds_without_leading_gap 2357 S2_starts = 2355
      ∧ (convert_frame_starts_in_frame_lengths 2357 S2_starts).1
          ≠ spec_seconds_without_leading_gap 2357 S2_starts
      ∧ (convert_frame_starts_in_frame_lengths 1000 S2_starts).1 = 150 := by
  decide

/-! ## Matching engine -/

theorem foldl_append_init (l : List String) (init : String) :
    l.foldl (fun r s => r ++ s) init = init ++ l.foldl (fun r s => r ++ s) "" := by
  induction l generalizing init with
  | nil => simp
  | cons a l ih =>
      simp only [List.foldl_cons]
      rw [ih, ih ("" ++ a)]
      simp [String.append_assoc]

theorem join_cons (a : String) (l : List String) :
    String.join (a :: l) = a ++ String.join l := by
  simp only [String.join, List.foldl_cons]
  rw [foldl_append_init]
  simp

/-- A reply built by `reply += line` over a vector is the start of the reply followed by
the lines in order. -/
theorem foldl_lines (f : cd_t → String) (l : List cd_t) (init : String) :
    l.foldl (fun reply cd => reply ++ f cd) init = init ++ String.join (l.map f) := by
  induction l generalizing init with
  | nil => simp [String.join]
  | cons a l ih =>
      simp only [List.foldl_cons, List.map_cons]
      rw [ih, join_cons, String.append_assoc]

theorem append_ne_empty (s t : String) (h : 0 < s.length) : s ++ t ≠ "" := by
  intro he
  have := congrArg String.length he
  simp only [String.length_append] at this
  have h0 : "".length = 0 := rfl
  omega

theorem sort_nil (S : StdSort) : S.sort [] = [] :=
  List.Perm.eq_nil (S.perm [])

theorem sort_length (S : StdSort) (l : List cd_t) : (S.sort l).length = l.length :=
  (S.perm l).length_eq

theorem sort_singleton (S : StdSort) (cd : cd_t) : S.sort [cd] = [cd] :=
  List.perm_singleton.mp (S.perm [cd])

theorem fuzzy_reply_loop_eq (big_endian_host : Bool) :
    ∀ (l : List cd_t) (ct : Nat) (reply : String), ct < 10 →
      fuzzy_reply_loop big_endian_host l ct reply
        = reply ++ String.join ((l.take (10 - ct)).map (fuzzy_line big_endian_host)) := by
  intro l
  induction l with
  | nil => intro ct reply _; simp [fuzzy_reply_loop, String.join]
  | cons it rest ih =>
      intro ct reply hct
      obtain ⟨k, hk⟩ : ∃ k, 10 - ct = k + 1 := ⟨9 - ct, by omega⟩
      simp only [fuzzy_reply_loop, hk, List.take_succ_cons, List.map_cons, join_cons]
      by_cases h10 : ct + 1 = 10
      · have hk0 : k = 0 := by omega
        subst hk0
        simp [h10, String.join, fuzzy_line]
      · have hlt : ct + 1 < 10 := by omega
        have hk2 : 10 - (ct + 1) = k := by omega
        rw [if_neg h10, ih (ct + 1) _ hlt, hk2, String.append_assoc]
        rfl

/-- The reply of the exact lookup in terms of the sorted candidates. -/
theorem cddb_query_by_discid_eq (S : StdSort) (db : ServerStore) (m_max_trackdiff discid : Nat)
    (tracks : List Nat) (seconds : Nat) :
    cddb_query_by_discid S db m_max_trackdiff discid tracks seconds
      = match S.sort (collect_candidates db tracks m_max_trackdiff (db.m_query discid) []) with
        | [] => ""
        | [cd] => "200 generic " ++ format_x discid ++ " " ++ cd.artist ++ " / " ++ cd.title
            ++ "\n"
        | cd :: more =>
            "210 Found exact matches, list follows (until terminating `.')\n"
            ++ String.join ((cd :: more).map (fun c => generic_line discid c.artist c.title))
            ++ ".\n" := by
  simp only [cddb_query_by_discid]
  cases hs : S.sort (collect_candidates db tracks m_max_trackdiff (db.m_query discid) []) with
  | nil => simp
  | cons cd more =>
      cases more with
      | nil =>
          simp only [List.length_singleton, gt_iff_lt, Nat.lt_irrefl, if_false, generic_line]
          simp only [← String.append_assoc]
          rfl
      | cons cd2 more =>
          have : (cd :: cd2 :: more).length > 1 := by simp
          rw [if_pos this, foldl_lines]

/-- The reply of the fuzzy lookup in terms of the sorted candidates. -/
theorem cddb_query_by_fuzzy_discid_eq (big_endian_host : Bool) (S : StdSort) (db : ServerStore)
    (m_max_trackdiff discid : Nat) (tracks : List Nat) (seconds : Nat) :
    cddb_query_by_fuzzy_discid big_endian_host S db m_max_trackdiff discid tracks seconds
      = if S.sort (collect_candidates db tracks m_max_trackdiff (db.m_fquery discid) []) = []
        then ""
        else "211 Found close matches, list follows (until terminating `.')\n"
          ++ String.join (((S.sort (collect_candidates db tracks m_max_trackdiff
                (db.m_fquery discid) [])).take 10).map (fuzzy_line big_endian_host))
          ++ ".\n" := by
  simp only [cddb_query_by_fuzzy_discid]
  by_cases h : S.sort (collect_candidates db tracks m_max_trackdiff (db.m_fquery discid) []) = []
  · simp [h]
  · rw [if_pos h, if_neg h, fuzzy_reply_loop_eq big_endian_host _ 0 _ (by decide)]

theorem add_if_loop_eq (max_trackdiff : Nat) :
    ∀ (left right : List Nat) (diff : Nat), left.length = right.length → diff < U32 →
      CDList.add_if_loop max_trackdiff left right diff
        = if ∀ d ∈ track_distances left right, d ≤ max_trackdiff
          then some ((diff + (track_distances left right).sum) % U32) else none := by
  intro left
  induction left with
  | nil =>
      intro right diff _ hd
      simp [CDList.add_if_loop, track_distances, Nat.mod_eq_of_lt hd]
  | cons v_left left ih =>
      intro right diff hlen hd
      cases right with
      | nil => simp at hlen
      | cons v_right right =>
          have hlen2 : left.length = right.length := by simpa using hlen
          have hd_eq : (if v_left > v_right then v_left - v_right else v_right - v_left)
              = (v_left - v_right) + (v_right - v_left) := by
            split <;> omega
          have hlt : add32 diff ((v_left - v_right) + (v_right - v_left)) < U32 :=
            Nat.mod_lt _ (by decide)
          simp only [CDList.add_if_loop]
          rw [hd_eq]
          by_cases hgt : (v_left - v_right) + (v_right - v_left) > max_trackdiff
          · rw [if_pos hgt, if_neg]
            intro hall
            have := hall ((v_left - v_right) + (v_right - v_left))
              (by simp [track_distances])
            omega
          · rw [if_neg hgt, ih right _ hlen2 hlt]
            have hle2 : (v_left - v_right) + (v_right - v_left) ≤ max_trackdiff := by omega
            have hiff : (∀ d ∈ track_distances (v_left :: left) (v_right :: right),
                d ≤ max_trackdiff) ↔ (∀ d ∈ track_distances left right, d ≤ max_trackdiff) := by
              simp [track_distances, hle2]
            have hsum : (add32 diff ((v_left - v_right) + (v_right - v_left))
                  + (track_distances left right).sum) % U32
                = (diff + (track_distances (v_left :: left) (v_right :: right)).sum) % U32 := by
              simp only [add32, track_distances, List.zipWith_cons_cons, List.sum_cons]
              rw [Nat.add_mod, Nat.mod_mod, ← Nat.add_mod, Nat.add_assoc]
            by_cases hall : ∀ d ∈ track_distances left right, d ≤ max_trackdiff
            · rw [if_pos hall, if_pos (hiff.mpr hall), hsum]
            · rw [if_neg hall, if_neg (fun h => hall (hiff.mp h))]

theorem track_distances_sum_le (max_trackdiff : Nat) :
    ∀ (stored live : List Nat), (∀ d ∈ track_distances stored live, d ≤ max_trackdiff) →
      (track_distances stored live).sum ≤ live.length * max_trackdiff := by
  intro stored
  induction stored with
  | nil => intro live _; simp [track_distances]
  | cons a stored ih =>
      intro live h
      cases live with
      | nil => simp [track_distances]
      | cons b live =>
          have h1 : (a - b) + (b - a) ≤ max_trackdiff := h _ (by simp [track_distances])
          have h2 : ∀ d ∈ track_distances stored live, d ≤ max_trackdiff := by
            intro d hd
            apply h d
            simp only [track_distances, List.zipWith_cons_cons, List.mem_cons] at hd ⊢
            exact Or.inr hd
          have h3 := ih live h2
          simp only [track_distances, List.zipWith_cons_cons, List.sum_cons,
            List.length_cons] at h3 ⊢
          rw [Nat.add_mul]
          omega

/-- C7: `add_if`, for a CD id not yet in the list whose row exists, accepts the stored CD
(returns true and appends it) exactly when the CD's track count and its number of stored frame
lengths both equal the length of the live list and every pairwise absolute difference is at
most `max_trackdiff`; otherwise it returns false and leaves the list alone. When accepted, the
candidate's diff score is the sum of those absolute differences as a 32-bit value, which is
the sum itself whenever the sum is below 2^32, in particular whenever
`tracks.size() * max_trackdiff` is. -/
theorem add_if_accepts_iff (db : ServerStore) (cdvec : List cd_t) (cdid : Nat)
    (tracks : List Nat) (max_trackdiff : Nat) (cd : cd_t)
    (hhas : CDList.has cdvec cdid = false) (hget : CDList.get db cdid = some cd) :
    ((cd.tracks = tracks.length ∧ cd.frames.length = tracks.length
          ∧ ∀ d ∈ track_distances cd.frames tracks, d ≤ max_trackdiff) →
        CDList.add_if db cdvec cdid tracks max_trackdiff
          = (true, cdvec ++ [{ cd with diff := (track_distances cd.frames tracks).sum % U32 }])
        ∧ ((track_distances cd.frames tracks).sum < U32 →
            (track_distances cd.frames tracks).sum % U32
              = (track_distances cd.frames tracks).sum)
        ∧ (tracks.length * max_trackdiff < U32 →
            (track_distances cd.frames tracks).sum < U32))
      ∧ (¬ (cd.tracks = tracks.length ∧ cd.frames.length = tracks.length
          ∧ ∀ d ∈ track_distances cd.frames tracks, d ≤ max_trackdiff) →
        CDList.add_if db cdvec cdid tracks max_trackdiff = (false, cdvec)) := by
  constructor
  · rintro ⟨h1, h2, h3⟩
    refine ⟨?_, fun h => Nat.mod_eq_of_lt h, fun h => ?_⟩
    · simp only [CDList.add_if, hhas, hget, h1, h2, ne_eq, not_true_eq_false, if_false,
        Bool.false_eq_true]
      rw [add_if_loop_eq max_trackdiff cd.frames tracks 0 h2 (by decide), if_pos h3]
      simp
    · exact Nat.lt_of_le_of_lt (track_distances_sum_le max_trackdiff cd.frames tracks h3) h
  · intro hnot
    simp only [CDList.add_if, hhas, hget, Bool.false_eq_true, if_false]
    by_cases h1 : cd.tracks = tracks.length
    · by_cases h2 : cd.frames.length = tracks.length
      · have h3 : ¬ ∀ d ∈ track_distances cd.frames tracks, d ≤ max_trackdiff :=
          fun h3 => hnot ⟨h1, h2, h3⟩
        simp only [h1, h2, ne_eq, not_true_eq_false, if_false]
        rw [add_if_loop_eq max_trackdiff cd.frames tracks 0 h2 (by decide), if_neg h3]
      · simp [h1, h2]
    · simp [h1]

/-- C7 at a concrete store: CD 1 holds the lengths 100 and 200, the live disc 100 and 203. -/
theorem add_if_accepts_iff_witness :
    CDList.has [] 1 = false
      ∧ CDList.get example_store 1 = some ⟨1, "Artist", "Title", 150, 2, [100, 200], 0⟩
      ∧ CDList.add_if example_store [] 1 [100, 203] 300
          = (true, [⟨1, "Artist", "Title", 150, 2, [100, 200], 3⟩])
      ∧ CDList.add_if example_store [] 1 [100, 501] 300 = (false, []) :=
  ⟨rfl, rfl,
    ((add_if_accepts_iff example_store [] 1 [100, 203] 300
      ⟨1, "Artist", "Title", 150, 2, [100, 200], 0⟩ rfl rfl).1
        ⟨rfl, rfl, by decide⟩).1,
    (add_if_accepts_iff example_store [] 1 [100, 501] 300
      ⟨1, "Artist", "Title", 150, 2, [100, 200], 0⟩ rfl rfl).2 (by decide)⟩

/-- C8: with k candidates accepted for the discid, `cddb_query_by_discid` returns the empty
reply when k = 0, the single line `200 generic <discid hex> <artist> / <title>\n` when k = 1,
and when k >= 2 the `210 Found exact matches...` header, then one
`generic <discid hex> <artist> / <title>\n` line per candidate, the candidates rearranged
into ascending diff order, then `.\n`. -/
theorem exact_match_reply_shape (S : StdSort) (db : ServerStore)
    (m_max_trackdiff discid : Nat) (tracks : List Nat) (seconds : Nat) :
    ((collect_candidates db tracks m_max_trackdiff (db.m_query discid) []).length = 0 →
        cddb_query_by_discid S db m_max_trackdiff discid tracks seconds = "")
      ∧ ((collect_candidates db tracks m_max_trackdiff (db.m_query discid) []).length = 1 →
        ∃ cd, collect_candidates db tracks m_max_trackdiff (db.m_query discid) [] = [cd]
          ∧ cddb_query_by_discid S db m_max_trackdiff discid tracks seconds
            = "200 generic " ++ format_x discid ++ " " ++ cd.artist ++ " / " ++ cd.title
              ++ "\n")
      ∧ (2 ≤ (collect_candidates db tracks m_max_trackdiff (db.m_query discid) []).length →
        ∃ sorted : List cd_t,
          sorted.Perm (collect_candidates db tracks m_max_trackdiff (db.m_query discid) [])
          ∧ sorted.Pairwise (fun a b => a.diff ≤ b.diff)
          ∧ cddb_query_by_discid S db m_max_trackdiff discid tracks seconds
            = "210 Found exact matches, list follows (until terminating `.')\n"
              ++ String.join (sorted.map (fun cd =>
                  "generic " ++ format_x discid ++ " " ++ cd.artist ++ " / " ++ cd.title
                    ++ "\n"))
              ++ ".\n") := by
  rw [cddb_query_by_discid_eq]
  refine ⟨fun h0 => ?_, fun h1 => ?_, fun h2 => ?_⟩
  · rw [List.length_eq_zero] at h0
    rw [h0, sort_nil]
  · obtain ⟨cd, hcd⟩ := List.length_eq_one.mp h1
    exact ⟨cd, hcd, by rw [hcd, sort_singleton]⟩
  · refine ⟨S.sort (collect_candidates db tracks m_max_trackdiff (db.m_query discid) []),
      S.perm _, S.sorted _, ?_⟩
    have hlen := sort_length S (collect_candidates db tracks m_max_trackdiff (db.m_query discid) [])
    cases hs : S.sort (collect_candidates db tracks m_max_trackdiff (db.m_query discid) []) with
    | nil => rw [hs] at hlen; simp at hlen; omega
    | cons cd more =>
        cases more with
        | nil => rw [hs] at hlen; simp at hlen; omega
        | cons cd2 more => rfl

/-- C8 at a concrete store: CDs 2 and 1 are accepted for the live lengths 100, 200 (diff 1
and 0), and the reply lists CD 1 before CD 2. -/
theorem exact_match_reply_shape_witness :
    2 ≤ (collect_candidates example_store [100, 200] 300 (example_store.m_query 255) []).length
      ∧ ∃ sorted : List cd_t,
          sorted.Perm (collect_candidates example_store [100, 200] 300
            (example_store.m_query 255) [])
          ∧ sorted.Pairwise (fun a b => a.diff ≤ b.diff)
          ∧ cddb_query_by_discid StdSort.insertion example_store 300 255 [100, 200] 150
            = "210 Found exact matches, list follows (until terminating `.')\n"
              ++ String.join (sorted.map (fun cd =>
                  "generic " ++ format_x 255 ++ " " ++ cd.artist ++ " / " ++ cd.title
                    ++ "\n"))
              ++ ".\n" :=
  ⟨by decide,
    (exact_match_reply_shape StdSort.insertion example_store 300 255 [100, 200] 150).2.2
      (by decide)⟩

/-- C9: when the exact lookup accepts no candidate and the fuzzy lookup accepts k candidates,
`cddb_query` returns `202\n` if k = 0, and otherwise the `211` header followed by exactly
min(k, 10) candidate lines and the terminating `.\n`; the candidates shown come in ascending
diff order and none of them has a larger diff than a candidate left out. -/
theorem fuzzy_fallback_reply_shape (big_endian_host : Bool) (S : StdSort) (db : ServerStore)
    (m_max_trackdiff discid : Nat) (tracks : List Nat) (seconds : Nat)
    (hexact : exact_candidates big_endian_host db m_max_trackdiff tracks seconds = []) :
    (fuzzy_candidates big_endian_host db m_max_trackdiff tracks seconds = [] →
        cddb_query big_endian_host S db m_max_trackdiff discid tracks seconds = "202\n")
      ∧ (fuzzy_candidates big_endian_host db m_max_trackdiff tracks seconds ≠ [] →
        ∃ shown rest : List cd_t,
          (shown ++ rest).Perm
            (fuzzy_candidates big_endian_host db m_max_trackdiff tracks seconds)
          ∧ shown.length
            = min (fuzzy_candidates big_endian_host db m_max_trackdiff tracks seconds).length 10
          ∧ shown.Pairwise (fun a b => a.diff ≤ b.diff)
          ∧ (∀ a ∈ shown, ∀ b ∈ rest, a.diff ≤ b.diff)
          ∧ cddb_query big_endian_host S db m_max_trackdiff discid tracks seconds
            = "211 Found close matches, list follows (until terminating `.')\n"
              ++ String.join (shown.map (fun cd =>
                  "generic " ++ format_x (private_discid big_endian_host cd.seconds cd.frames)
                    ++ " " ++ cd.artist ++ " / " ++ cd.title ++ "\n"))
              ++ ".\n") := by
  simp only [exact_candidates, fuzzy_candidates] at *
  have hq : cddb_query big_endian_host S db m_max_trackdiff discid tracks seconds
      = if cddb_query_by_fuzzy_discid big_endian_host S db m_max_trackdiff
            (private_fuzzy_discid big_endian_host seconds tracks) tracks seconds = ""
        then "202\n"
        else cddb_query_by_fuzzy_discid big_endian_host S db m_max_trackdiff
            (private_fuzzy_discid big_endian_host seconds tracks) tracks seconds := by
    simp only [cddb_query]
    rw [cddb_query_by_discid_eq, hexact, sort_nil]
    simp
  rw [hq, cddb_query_by_fuzzy_discid_eq]
  constructor
  · intro h0
    rw [h0, sort_nil]
    simp
  · intro hne
    have hperm := S.perm (collect_candidates db tracks m_max_trackdiff
      (db.m_fquery (private_fuzzy_discid big_endian_host seconds tracks)) [])
    have hsorted := S.sorted (collect_candidates db tracks m_max_trackdiff
      (db.m_fquery (private_fuzzy_discid big_endian_host seconds tracks)) [])
    have hsne : S.sort (collect_candidates db tracks m_max_trackdiff
        (db.m_fquery (private_fuzzy_discid big_endian_host seconds tracks)) []) ≠ [] :=
      fun h => hne (List.Perm.eq_nil (by rw [h] at hperm; exact hperm.symm))
    rw [if_neg hsne]
    rw [← List.take_append_drop 10 (S.sort (collect_candidates db tracks m_max_trackdiff
        (db.m_fquery (private_fuzzy_discid big_endian_host seconds tracks)) []))]
      at hperm hsorted
    rw [List.pairwise_append] at hsorted
    refine ⟨_, _, hperm, ?_, hsorted.1, hsorted.2.2, ?_⟩
    · rw [List.length_take, sort_length, Nat.min_comm]
    · rw [if_neg]
      · rfl
      · apply append_ne_empty
        rw [String.length_append]
        have : 0 < "211 Found close matches, list follows (until terminating `.')\n".length := by
          decide
        omega

set_option maxRecDepth 100000 in
/-- C9 at a concrete store with an empty `DISCID` index: CDs 1 and 2 are accepted by the fuzzy
lookup (CD 4 is too far off), and two lines are shown. -/
theorem fuzzy_fallback_reply_shape_witness :
    exact_candidates false example_store_fuzzy 300 [100, 200] 150 = []
      ∧ cddb_query false StdSort.insertion example_store_fuzzy 300 255 [100, 200] 150
        = "211 Found close matches, list follows (until terminating `.')\n"
          ++ "generic 9929b284 Artist / Title\n" ++ "generic e955f195 Band / Album\n" ++ ".\n"
      ∧ ∃ shown rest : List cd_t,
          (shown ++ rest).Perm (fuzzy_candidates false example_store_fuzzy 300 [100, 200] 150)
          ∧ shown.length
            = min (fuzzy_candidates false example_store_fuzzy 300 [100, 200] 150).length 10
          ∧ shown.Pairwise (fun a b => a.diff ≤ b.diff)
          ∧ (∀ a ∈ shown, ∀ b ∈ rest, a.diff ≤ b.diff)
          ∧ cddb_query false StdSort.insertion example_store_fuzzy 300 255 [100, 200] 150
            = "211 Found close matches, list follows (until terminating `.')\n"
              ++ String.join (shown.map (fun cd =>
                  "generic " ++ format_x (private_discid false cd.seconds cd.frames)
                    ++ " " ++ cd.artist ++ " / " ++ cd.title ++ "\n"))
              ++ ".\n" :=
  ⟨by decide, by decide,
    (fuzzy_fallback_reply_shape false StdSort.insertion example_store_fuzzy 300 255 [100, 200] 150
      (by decide)).2 (by decide)⟩

/-! ## Merge policy -/

theorem import_same_cd_eq (L : Locale) (u : Updater) (r existing_rec : DiskRecord)
    (hashvalue cdid ecd : Nat) (record_written : Bool) :
    (import_same_cd L u r existing_rec hashvalue cdid ecd record_written).db
        = (if (merge_decision L r existing_rec u.m_rep).1 then
            (if record_written then u.db.delete_record cdid hashvalue
              else u.db).update_record ecd r
          else (if record_written then u.db.delete_record cdid hashvalue else u.db))
      ∧ (import_same_cd L u r existing_rec hashvalue cdid ecd record_written).m_rep.updated
        = (if (merge_decision L r existing_rec u.m_rep).1 then inc64 u.m_rep.updated
          else u.m_rep.updated) := by
  have hupd : (merge_decision L r existing_rec u.m_rep).2.updated = u.m_rep.updated := by
    unfold merge_decision
    repeat' split
    all_goals simp_all
  unfold import_same_cd
  cases hd : (merge_decision L r existing_rec u.m_rep).1 <;> cases record_written <;>
    simp [hd, Updater.update_record, Updater.delete_record, hupd]

/-! ## UTF-8 -/

theorem lead_byte_1 : ∀ x < 128, x % 256 = x := by decide

theorem lead_byte_2 : ∀ x < 32, (192 + x) % 256 = 192 + x ∧ ¬ (192 + x < 128)
    ∧ (192 + x) &&& 0xe0 = 0xc0 ∧ (192 + x) &&& 0x1f = x := by decide

theorem lead_byte_3 : ∀ x < 16, (224 + x) % 256 = 224 + x ∧ ¬ (224 + x < 128)
    ∧ (224 + x) &&& 0xe0 ≠ 0xc0 ∧ (224 + x) &&& 0xf0 = 0xe0 ∧ (224 + x) &&& 0x0f = x := by
  decide

theorem lead_byte_4 : ∀ x < 8, (240 + x) % 256 = 240 + x ∧ ¬ (240 + x < 128)
    ∧ (240 + x) &&& 0xe0 ≠ 0xc0 ∧ (240 + x) &&& 0xf0 ≠ 0xe0 ∧ (240 + x) &&& 0xf8 = 0xf0
    ∧ (240 + x) &&& 0x07 = x := by decide

theorem continuation_byte : ∀ y < 64, (128 + y) % 256 = 128 + y
    ∧ (128 + y) &&& 0xc0 = 0x80 ∧ (128 + y) &&& 0x3f = y := by decide

theorem or_low_bits (i a b : Nat) (hb : b < 2 ^ i) : (2 ^ i * a) ||| b = 2 ^ i * a + b :=
  (Nat.mul_add_lt_is_or hb a).symm

theorem shift_mask (ch k i : Nat) : (ch >>> k) &&& (2 ^ i - 1) = ch / 2 ^ k % 2 ^ i := by
  rw [Nat.and_pow_two_sub_one_eq_mod, Nat.shiftRight_eq_div_pow]

/-- The two bytes that `to_utf8` writes for a code point in `[0x80, 0x800)`. -/
theorem to_utf8_char_2 (ch : Nat) (h1 : 0x80 ≤ ch) (h2 : ch < 0x800) :
    to_utf8_char ch = [192 + ch / 64, 128 + ch % 64] := by
  have hm : ch % U32 = ch := Nat.mod_eq_of_lt (by unfold U32; omega)
  have e1 : (ch >>> 6) &&& 0x1f = ch / 64 := by
    have := shift_mask ch 6 5
    simp only [Nat.reducePow, Nat.add_one_sub_one] at this
    rw [this]; omega
  have e2 : ch &&& 0x3f = ch % 64 := by
    have := Nat.and_pow_two_sub_one_eq_mod ch 6
    simpa using this
  have o1 : 0xc0 ||| (ch / 64) = 192 + ch / 64 := by
    have := or_low_bits 5 6 (ch / 64) (by simp; omega)
    simpa using this
  have o2 : 0x80 ||| (ch % 64) = 128 + ch % 64 := by
    have := or_low_bits 6 2 (ch % 64) (by simp; omega)
    simpa using this
  have n1 : ¬ ch < 0x80 := by omega
  simp only [to_utf8_char, hm, n1, h2, if_true, if_false, e1, e2, o1, o2]

/-- The three bytes that `to_utf8` writes for a code point in `[0x800, 0x10000)`. -/
theorem to_utf8_char_3 (ch : Nat) (h1 : 0x800 ≤ ch) (h2 : ch < 0x10000) :
    to_utf8_char ch = [224 + ch / 4096, 128 + ch / 64 % 64, 128 + ch % 64] := by
  have hm : ch % U32 = ch := Nat.mod_eq_of_lt (by unfold U32; omega)
  have e0 : (ch >>> 12) &&& 0x0f = ch / 4096 := by
    have := shift_mask ch 12 4
    simp only [Nat.reducePow, Nat.add_one_sub_one] at this
    rw [this]; omega
  have e1 : (ch >>> 6) &&& 0x3f = ch / 64 % 64 := by
    have := shift_mask ch 6 6
    simpa using this
  have e2 : ch &&& 0x3f = ch % 64 := by
    have := Nat.and_pow_two_sub_one_eq_mod ch 6
    simpa using this
  have o0 : 0xe0 ||| (ch / 4096) = 224 + ch / 4096 := by
    have := or_low_bits 4 14 (ch / 4096) (by simp; omega)
    simpa using this
  have o1 : 0x80 ||| (ch / 64 % 64) = 128 + ch / 64 % 64 := by
    have := or_low_bits 6 2 (ch / 64 % 64) (by simp; omega)
    simpa using this
  have o2 : 0x80 ||| (ch % 64) = 128 + ch % 64 := by
    have := or_low_bits 6 2 (ch % 64) (by simp; omega)
    simpa using this
  have n1 : ¬ ch < 0x80 := by omega
  have n2 : ¬ ch < 0x800 := by omega
  simp only [to_utf8_char, hm, n1, n2, h2, if_true, if_false, e0, e1, e2, o0, o1, o2]

/-- The four bytes that `to_utf8` writes for a code point in `[0x10000, 0x110000)`. -/
theorem to_utf8_char_4 (ch : Nat) (h1 : 0x10000 ≤ ch) (h2 : ch < 0x110000) :
    to_utf8_char ch
      = [240 + ch / 262144, 128 + ch / 4096 % 64, 128 + ch / 64 % 64, 128 + ch % 64] := by
  have hm : ch % U32 = ch := Nat.mod_eq_of_lt (by unfold U32; omega)
  have e0 : (ch >>> 18) &&& 0x07 = ch / 262144 := by
    have := shift_mask ch 18 3
    simp only [Nat.reducePow, Nat.add_one_sub_one] at this
    rw [this]; omega
  have e1 : (ch >>> 12) &&& 0x3f = ch / 4096 % 64 := by
    have := shift_mask ch 12 6
    simpa using this
  have e2 : (ch >>> 6) &&& 0x3f = ch / 64 % 64 := by
    have := shift_mask ch 6 6
    simpa using this
  have e3 : ch &&& 0x3f = ch % 64 := by
    have := Nat.and_pow_two_sub_one_eq_mod ch 6
    simpa using this
  have o0 : 0xf0 ||| (ch / 262144) = 240 + ch / 262144 := by
    have := or_low_bits 3 30 (ch / 262144) (by simp; omega)
    simpa using this
  have o1 : 0x80 ||| (ch / 4096 % 64) = 128 + ch / 4096 % 64 := by
    have := or_low_bits 6 2 (ch / 4096 % 64) (by simp; omega)
    simpa using this
  have o2 : 0x80 ||| (ch / 64 % 64) = 128 + ch / 64 % 64 := by
    have := or_low_bits 6 2 (ch / 64 % 64) (by simp; omega)
    simpa using this
  have o3 : 0x80 ||| (ch % 64) = 128 + ch % 64 := by
    have := or_low_bits 6 2 (ch % 64) (by simp; omega)
    simpa using this
  have n1 : ¬ ch < 0x80 := by omega
  have n2 : ¬ ch < 0x800 := by omega
  have n3 : ¬ ch < 0x10000 := by omega
  simp only [to_utf8_char, hm, n1, n2, n3, h2, if_true, if_false, e0, e1, e2, e3, o0, o1, o2, o3]

/-- One step of the decoder on an ASCII byte. -/
theorem from_utf8_loop_ascii (b : Nat) (hb : b < 128) (rest : List Nat)
    (codepoint lower_limit : Nat) (wide : List Nat) :
    from_utf8_loop (b :: rest) 0 codepoint lower_limit wide
      = from_utf8_loop rest 0 0 lower_limit (wide ++ [b]) := by
  have h := lead_byte_1 b hb
  simp [from_utf8_loop, h, hb]

/-- One step of the decoder on a continuation byte `128 + y` that is not the last of its
sequence. -/
theorem from_utf8_loop_cont (y : Nat) (hy : y < 64) (rest : List Nat)
    (remaining codepoint lower_limit : Nat) (wide : List Nat)
    (hr1 : 2 ≤ remaining) (hr2 : remaining ≤ 5) (hc : codepoint * 64 < U32) :
    from_utf8_loop ((128 + y) :: rest) remaining codepoint lower_limit wide
      = from_utf8_loop rest (remaining - 1) (codepoint * 64 + y) lower_limit wide := by
  obtain ⟨h1, h2, h3⟩ := continuation_byte y hy
  have hor : (codepoint * 64) ||| y = codepoint * 64 + y := by
    have := or_low_bits 6 codepoint y (by simpa using hy)
    simpa [Nat.mul_comm] using this
  have n1 : ¬ (remaining = 0 ∨ remaining > 5) := by omega
  have n2 : ¬ (remaining - 1 = 0) := by omega
  simp only [from_utf8_loop, h1, h2, h3, n1, n2, if_false, ne_eq, not_true_eq_false,
    Nat.mod_eq_of_lt hc, hor]

/-- One step of the decoder on the last continuation byte of a sequence. -/
theorem from_utf8_loop_last (y : Nat) (hy : y < 64) (rest : List Nat)
    (codepoint lower_limit : Nat) (wide : List Nat)
    (hc : codepoint * 64 < U32) (hl : lower_limit ≤ codepoint * 64 + y) :
    from_utf8_loop ((128 + y) :: rest) 1 codepoint lower_limit wide
      = from_utf8_loop rest 0 (codepoint * 64 + y) lower_limit
          (wide ++ [codepoint * 64 + y]) := by
  obtain ⟨h1, h2, h3⟩ := continuation_byte y hy
  have hor : (codepoint * 64) ||| y = codepoint * 64 + y := by
    have := or_low_bits 6 codepoint y (by simpa using hy)
    simpa [Nat.mul_comm] using this
  have n3 : ¬ (codepoint * 64 + y < lower_limit) := by omega
  simp [from_utf8_loop, h1, h2, h3, Nat.mod_eq_of_lt hc, hor, n3]

/-- Decoding the bytes that `to_utf8` wrote for one code point below 0x110000 appends
that code point and leaves the decoder between two sequences. -/
theorem from_utf8_loop_to_utf8_char (ch : Nat) (hch : ch < 0x110000) (rest : List Nat)
    (codepoint lower_limit : Nat) (wide : List Nat) :
    ∃ codepoint2 lower_limit2,
      from_utf8_loop (to_utf8_char ch ++ rest) 0 codepoint lower_limit wide
        = from_utf8_loop rest 0 codepoint2 lower_limit2 (wide ++ [ch]) := by
  by_cases h1 : ch < 0x80
  · refine ⟨0, lower_limit, ?_⟩
    have he : to_utf8_char ch = [ch] := by
      have hm : ch % U32 = ch := Nat.mod_eq_of_lt (by unfold U32; omega)
      simp [to_utf8_char, hm, h1]
    rw [he]
    exact from_utf8_loop_ascii ch (by omega) rest codepoint lower_limit wide
  · by_cases h2 : ch < 0x800
    · refine ⟨ch, 0x80, ?_⟩
      rw [to_utf8_char_2 ch (by omega) h2]
      obtain ⟨a1, a2, a3, a4⟩ := lead_byte_2 (ch / 64) (by omega)
      have hstep : from_utf8_loop ((192 + ch / 64) :: (128 + ch % 64) :: rest) 0 codepoint
          lower_limit wide
          = from_utf8_loop ((128 + ch % 64) :: rest) 1 (ch / 64) 0x80 wide := by
        simp [from_utf8_loop, a1, a2, a3, a4]
      have hlast := from_utf8_loop_last (ch % 64) (by omega) rest (ch / 64) 0x80 wide
        (by unfold U32; omega) (by omega)
      have hv : ch / 64 * 64 + ch % 64 = ch := by omega
      rw [hv] at hlast
      simpa [hstep] using hlast
    · by_cases h3 : ch < 0x10000
      · refine ⟨ch, 0x800, ?_⟩
        rw [to_utf8_char_3 ch (by omega) h3]
        obtain ⟨a1, a2, a3, a4, a5⟩ := lead_byte_3 (ch / 4096) (by omega)
        have hstep : from_utf8_loop
            ((224 + ch / 4096) :: (128 + ch / 64 % 64) :: (128 + ch % 64) :: rest) 0 codepoint
            lower_limit wide
            = from_utf8_loop ((128 + ch / 64 % 64) :: (128 + ch % 64) :: rest) 2 (ch / 4096)
                0x800 wide := by
          simp [from_utf8_loop, a1, a2, a3, a4, a5]
        have hc1 := from_utf8_loop_cont (ch / 64 % 64) (by omega) ((128 + ch % 64) :: rest)
          2 (ch / 4096) 0x800 wide (by omega) (by omega) (by unfold U32; omega)
        have hv1 : ch / 4096 * 64 + ch / 64 % 64 = ch / 64 := by omega
        rw [hv1] at hc1
        have hlast := from_utf8_loop_last (ch % 64) (by omega) rest (ch / 64) 0x800 wide
          (by unfold U32; omega) (by omega)
        have hv : ch / 64 * 64 + ch % 64 = ch := by omega
        rw [hv] at hlast
        simpa [hstep, hc1] using hlast
      · refine ⟨ch, 0x10000, ?_⟩
        rw [to_utf8_char_4 ch (by omega) hch]
        obtain ⟨a1, a2, a3, a4, a5, a6⟩ := lead_byte_4 (ch / 262144) (by omega)
        have hstep : from_utf8_loop
            ((240 + ch / 262144) :: (128 + ch / 4096 % 64) :: (128 + ch / 64 % 64)
              :: (128 + ch % 64) :: rest) 0 codepoint lower_limit wide
            = from_utf8_loop ((128 + ch / 4096 % 64) :: (128 + ch / 64 % 64)
                :: (128 + ch % 64) :: rest) 3 (ch / 262144) 0x10000 wide := by
          simp [from_utf8_loop, a1, a2, a3, a4, a5, a6]
        have hc0 := from_utf8_loop_cont (ch / 4096 % 64) (by omega)
          ((128 + ch / 64 % 64) :: (128 + ch % 64) :: rest)
          3 (ch / 262144) 0x10000 wide (by omega) (by omega) (by unfold U32; omega)
        have hv0 : ch / 262144 * 64 + ch / 4096 % 64 = ch / 4096 := by omega
        rw [hv0] at hc0
        have hc1 := from_utf8_loop_cont (ch / 64 % 64) (by omega) ((128 + ch % 64) :: rest)
          2 (ch / 4096) 0x10000 wide (by omega) (by omega) (by unfold U32; omega)
        have hv1 : ch / 4096 * 64 + ch / 64 % 64 = ch / 64 := by omega
        rw [hv1] at hc1
        have hlast := from_utf8_loop_last (ch % 64) (by omega) rest (ch / 64) 0x10000 wide
          (by unfold U32; omega) (by omega)
        have hv : ch / 64 * 64 + ch % 64 = ch := by omega
        rw [hv] at hlast
        simpa [hstep, hc0, hc1] using hlast

/-- Decoding what `to_utf8` wrote for code points below 0x110000 gives them back. -/
theorem from_utf8_loop_to_utf8 (w : List Nat) (hw : ∀ ch ∈ w, ch < 0x110000) :
    ∀ (rest : List Nat) (codepoint lower_limit : Nat) (wide : List Nat),
      ∃ codepoint2 lower_limit2,
        from_utf8_loop (to_utf8 w ++ rest) 0 codepoint lower_limit wide
          = from_utf8_loop rest 0 codepoint2 lower_limit2 (wide ++ w) := by
  induction w with
  | nil =>
      intro rest codepoint lower_limit wide
      exact ⟨codepoint, lower_limit, by simp [to_utf8]⟩
  | cons ch w ih =>
      intro rest codepoint lower_limit wide
      have hch : ch < 0x110000 := hw ch (List.mem_cons_self ch w)
      have hw2 : ∀ c ∈ w, c < 0x110000 := fun c hc => hw c (List.mem_cons_of_mem ch hc)
      obtain ⟨c1, l1, h1⟩ := from_utf8_loop_to_utf8_char ch hch (to_utf8 w ++ rest)
        codepoint lower_limit wide
      obtain ⟨c2, l2, h2⟩ := ih hw2 rest c1 l1 (wide ++ [ch])
      refine ⟨c2, l2, ?_⟩
      have he : to_utf8 (ch :: w) ++ rest = to_utf8_char ch ++ (to_utf8 w ++ rest) := by
        simp [to_utf8]
      rw [he, h1, h2]
      simp

theorem from_utf8_to_utf8 (w : List Nat) (hw : ∀ ch ∈ w, ch < 0x110000) :
    from_utf8 (to_utf8 w) = (true, w) := by
  obtain ⟨c, l, h⟩ := from_utf8_loop_to_utf8 w hw [] 0 0 []
  simp only [List.append_nil, List.nil_append] at h
  rw [from_utf8, h]
  rfl

/-- The validator and the decoder walk the bytes alike: the flag that `from_utf8` returns is
the one `valid_utf8` returns. -/
theorem valid_utf8_loop_eq_from_utf8_loop (narrow : List Nat) :
    ∀ (remaining codepoint lower_limit : Nat) (wide : List Nat),
      valid_utf8_loop narrow remaining codepoint lower_limit
        = (from_utf8_loop narrow remaining codepoint lower_limit wide).1 := by
  induction narrow with
  | nil => intro _ _ _ _; rfl
  | cons sch rest ih =>
      intro remaining codepoint lower_limit wide
      simp only [valid_utf8_loop, from_utf8_loop]
      repeat' split
      all_goals first
        | rfl
        | exact ih _ _ _ _

/-- C20: for every sequence of code points all below 0x110000, the byte string that
`to_utf8` produces is accepted by `valid_utf8`. -/
theorem valid_utf8_to_utf8 (wide : List Nat) (h : ∀ ch ∈ wide, ch < 0x110000) :
    valid_utf8 (to_utf8 wide) = true := by
  rw [valid_utf8, valid_utf8_loop_eq_from_utf8_loop (to_utf8 wide) 0 0 0 []]
  have := from_utf8_to_utf8 wide h
  rw [from_utf8] at this
  rw [this]

/-- C20 at a concrete sequence: one code point of each encoded length and the largest one. -/
theorem valid_utf8_to_utf8_witness :
    (∀ ch ∈ [65, 228, 8364, 128512, 0x10ffff], ch < 0x110000)
      ∧ valid_utf8 (to_utf8 [65, 228, 8364, 128512, 0x10ffff]) = true :=
  ⟨by decide, valid_utf8_to_utf8 [65, 228, 8364, 128512, 0x10ffff] (by decide)⟩

/-! ## NGrams -/

theorem add_char_loop_length (ch size : Nat) :
    ∀ (k ct : Nat) (ngrams : List (List Nat)),
      (NGrams.add_char_loop ch size k ct ngrams).length = ngrams.length := by
  intro k
  induction k with
  | zero => intro ct ngrams; rfl
  | succ k ih =>
      intro ct ngrams
      rw [NGrams.add_char_loop, ih, List.length_modify]

theorem add_char_count (nglen : Nat) (g : NGrams) (ch : Nat) :
    (NGrams.add_char nglen g ch).m_count = g.m_count := by
  rfl

theorem add_char_length (nglen : Nat) (g : NGrams) (ch : Nat) :
    (NGrams.add_char nglen g ch).m_ngrams.length
      = if g.m_ngrams.length < g.m_count then g.m_ngrams.length + 1
        else g.m_ngrams.length := by
  simp only [NGrams.add_char, add_char_loop_length]
  split <;> simp

/-- After `add_char` has run over a string, `m_ngrams` has grown by one n-gram per
character until it holds `m_count` of them. -/
theorem foldl_add_char_length (nglen : Nat) (str : List Nat) :
    ∀ g : NGrams, g.m_ngrams.length ≤ g.m_count →
      (str.foldl (NGrams.add_char nglen) g).m_count = g.m_count
        ∧ (str.foldl (NGrams.add_char nglen) g).m_ngrams.length
          = min (g.m_ngrams.length + str.length) g.m_count := by
  induction str with
  | nil => intro g hg; simp [Nat.min_eq_left hg]
  | cons ch str ih =>
      intro g hg
      have hl := add_char_length nglen g ch
      have hc := add_char_count nglen g ch
      have hle : (NGrams.add_char nglen g ch).m_ngrams.length
          ≤ (NGrams.add_char nglen g ch).m_count := by
        rw [hl, hc]; split <;> omega
      obtain ⟨h1, h2⟩ := ih (NGrams.add_char nglen g ch) hle
      simp only [List.foldl_cons, List.length_cons]
      rw [h1, h2, hl, hc]
      refine ⟨rfl, ?_⟩
      split <;> omega

/-- What the constructor of `NGrams<3, false>` leaves for a string of at least three
characters: `m_count` is the length less two, and so is the number of n-grams held. -/
theorem init_three (str : List Nat) (h : 3 ≤ str.length) :
    (NGrams.init 3 false ⟨[], 0⟩ str).m_count = str.length - 2
      ∧ (ngrams_held str).length = str.length - 2 := by
  have hlt : ¬ str.length < 3 := by omega
  have := foldl_add_char_length 3 str ⟨[], str.length - 2⟩ (by simp)
  simp only [ngrams_held, NGrams.init, hlt, if_false, Bool.false_eq_true]
  simp only [List.length_nil, Nat.zero_add] at this
  refine ⟨this.1, ?_⟩
  rw [this.2]
  omega

/-- What the constructor of `NGrams<3, false>` leaves for a string of fewer than three
characters: nothing, and `m_count` stays 0. -/
theorem init_short (str : List Nat) (h : str.length < 3) :
    NGrams.init 3 false ⟨[], 0⟩ str = ⟨[], 0⟩ := by
  simp [NGrams.init, h]

theorem unused_replicate (ngrams : List (List Nat)) :
    NGrams.unused ngrams (List.replicate ngrams.length false) = ngrams := by
  induction ngrams with
  | nil => rfl
  | cons g ngrams ih =>
      simp only [NGrams.unused] at ih
      simp [NGrams.unused, List.replicate_succ, ih]

/-- The inner loop of `compare` finds nothing when no unused n-gram equals `o`. -/
theorem mark_first_none (o : List Nat) :
    ∀ (ngrams : List (List Nat)) (used : List Bool), o ∉ NGrams.unused ngrams used →
      NGrams.mark_first o ngrams used = none := by
  intro ngrams
  induction ngrams with
  | nil => intro used _; cases used <;> rfl
  | cons g ngrams ih =>
      intro used h
      cases used with
      | nil => rfl
      | cons u used =>
          cases u with
          | true =>
              have h2 : o ∉ NGrams.unused ngrams used := by
                simpa [NGrams.unused] using h
              simp [NGrams.mark_first, ih used h2]
          | false =>
              have hne : ¬ o = g := by
                intro he; apply h; simp [NGrams.unused, he]
              have h2 : o ∉ NGrams.unused ngrams used := by
                intro hm; apply h
                simp only [NGrams.unused] at hm ⊢
                simp [hm]
              simp [NGrams.mark_first, hne, ih used h2]

theorem unused_cons_true (g : List Nat) (ngrams : List (List Nat)) (used : List Bool) :
    NGrams.unused (g :: ngrams) (true :: used) = NGrams.unused ngrams used := by
  simp [NGrams.unused]

theorem unused_cons_false (g : List Nat) (ngrams : List (List Nat)) (used : List Bool) :
    NGrams.unused (g :: ngrams) (false :: used) = g :: NGrams.unused ngrams used := by
  simp [NGrams.unused]

/-- The inner loop of `compare` marks the first unused n-gram equal to `o`: the unused
n-grams lose one `o`. -/
theorem mark_first_some (o : List Nat) :
    ∀ (ngrams : List (List Nat)) (used : List Bool), o ∈ NGrams.unused ngrams used →
      ∃ marked, NGrams.mark_first o ngrams used = some marked
        ∧ (NGrams.unused ngrams marked : Multiset (List Nat))
          = (NGrams.unused ngrams used : Multiset (List Nat)).erase o := by
  intro ngrams
  induction ngrams with
  | nil => intro used h; simp [NGrams.unused] at h
  | cons g ngrams ih =>
      intro used h
      cases used with
      | nil => simp [NGrams.unused] at h
      | cons u used =>
          cases u with
          | true =>
              rw [unused_cons_true] at h
              obtain ⟨marked, hm, hu⟩ := ih used h
              refine ⟨true :: marked, by simp [NGrams.mark_first, hm], ?_⟩
              rw [unused_cons_true, unused_cons_true]
              exact hu
          | false =>
              rw [unused_cons_false] at h
              by_cases he : o = g
              · refine ⟨true :: used, by simp [NGrams.mark_first, he], ?_⟩
                subst he
                rw [unused_cons_true, unused_cons_false, ← Multiset.cons_coe,
                  Multiset.erase_cons_head]
              · have h2 : o ∈ NGrams.unused ngrams used := by
                  rcases List.mem_cons.mp h with h | h
                  · exact absurd h he
                  · exact h
                obtain ⟨marked, hm, hu⟩ := ih used h2
                refine ⟨false :: marked, by simp [NGrams.mark_first, he, hm], ?_⟩
                rw [unused_cons_false, unused_cons_false, ← Multiset.cons_coe,
                  ← Multiset.cons_coe, hu, Multiset.erase_cons_tail _ (fun h => he h.symm)]

/-- The outer loop of `compare` counts the multiset intersection of the other n-grams with
the unused ones, in 16 bits. -/
theorem count_found_eq (ngrams : List (List Nat)) :
    ∀ (others : List (List Nat)) (used : List Bool) (found : Nat), found < 65536 →
      NGrams.count_found ngrams others used found
        = (found + ((others : Multiset (List Nat))
            ∩ (NGrams.unused ngrams used : Multiset (List Nat))).card) % 65536 := by
  intro others
  induction others with
  | nil =>
      intro used found hf
      simp [NGrams.count_found, Nat.mod_eq_of_lt hf]
  | cons o others ih =>
      intro used found hf
      by_cases hm : o ∈ NGrams.unused ngrams used
      · obtain ⟨marked, h1, h2⟩ := mark_first_some o ngrams used hm
        have hm2 : o ∈ (NGrams.unused ngrams used : Multiset (List Nat)) :=
          Multiset.mem_coe.mpr hm
        simp only [NGrams.count_found, h1]
        rw [ih marked _ (Nat.mod_lt _ (by decide)), h2, ← Multiset.cons_coe,
          Multiset.cons_inter_of_pos _ hm2, Multiset.card_cons]
        omega
      · have h1 := mark_first_none o ngrams used hm
        have hm2 : o ∉ (NGrams.unused ngrams used : Multiset (List Nat)) :=
          fun h => hm (Multiset.mem_coe.mp h)
        simp only [NGrams.count_found, h1]
        rw [ih used found hf, ← Multiset.cons_coe, Multiset.cons_inter_of_neg _ hm2]

/-- `NGrams::compare(other)` in terms of the multiset intersection of the two n-gram
vectors. -/
theorem compare_with_eq (g other : NGrams) :
    NGrams.compare_with g other
      = if g.m_count = 0 then 0
        else ((other.m_ngrams : Multiset (List Nat)) ∩ (g.m_ngrams : Multiset (List Nat))).card
          % 65536 * 100 / g.m_count % 65536 := by
  simp only [NGrams.compare_with]
  split
  · rfl
  · rw [count_found_eq g.m_ngrams other.m_ngrams _ 0 (by decide), unused_replicate]
    simp

theorem compare_three (a b : List Nat) :
    NGrams.compare 3 false a b
      = some (NGrams.compare_with (NGrams.init 3 false ⟨[], 0⟩ a)
          (NGrams.init 3 false ⟨[], 0⟩ b)) := by
  simp [NGrams.compare, NGrams.construct]

theorem scaled_le_hundred (m c : Nat) (h : m ≤ c) : m * 100 / c ≤ 100 := by
  by_cases hc : c = 0
  · subst hc; simp
  · exact Nat.div_le_of_le_mul (by nlinarith)

set_option maxRecDepth 100000 in
/-- C19 (code as it is): for "abcdef" the object `NGrams<3,false>` holds the four strings
abc, bcdef, cdef and def, where the claim has abc, bcd, cde and def: once `m_ngrams` is
full, every further character is appended to the last three n-grams, complete or not. -/
theorem ngrams_abcdef_held :
    (NGrams.construct 3 false (ascii_bytes "abcdef")).map (fun g => g.m_ngrams)
        = some [ascii_bytes "abc", ascii_bytes "bcdef", ascii_bytes "cdef", ascii_bytes "def"]
      ∧ spec_ngrams 3 (ascii_bytes "abcdef")
        = [ascii_bytes "abc", ascii_bytes "bcd", ascii_bytes "cde", ascii_bytes "def"]
      ∧ (NGrams.construct 3 false (ascii_bytes "abcd")).map (fun g => g.m_ngrams)
        = some [ascii_bytes "abcd", ascii_bytes "bcd"] := by
  decide

set_option maxRecDepth 100000 in
/-- C17 as stated fails: for the artist "X" and the title "Y" the normalized string "xy" is
too short for a single n-gram and the comparison with itself returns 0. -/
theorem compare_normalized_self_short :
    DiskRecord.compare_normalized Locale.ascii (ascii_bytes "X" ++ ascii_bytes "Y")
        (ascii_bytes "X" ++ ascii_bytes "Y") = some 0
      ∧ wnormalize Locale.ascii (ascii_bytes "X" ++ ascii_bytes "Y") = ascii_bytes "xy" := by
  decide

/-- C17 amended: for every artist and title string, `compare_normalized(artist + title,
artist + title)` is 100 when the normalized form of artist + title has at least 3 characters
(and no more than 65537, beyond which the 16-bit match counter wraps), and 0 when it has
fewer than 3. -/
theorem compare_normalized_self (L : Locale) (artist title : List Nat) :
    ((wnormalize L (artist ++ title)).length < 3 →
        DiskRecord.compare_normalized L (artist ++ title) (artist ++ title) = some 0)
      ∧ (3 ≤ (wnormalize L (artist ++ title)).length →
        (wnormalize L (artist ++ title)).length ≤ 65537 →
        DiskRecord.compare_normalized L (artist ++ title) (artist ++ title) = some 100) := by
  simp only [DiskRecord.compare_normalized, DiskRecord.compare, compare_three, compare_with_eq]
  constructor
  · intro h
    rw [init_short _ h]
    simp
  · intro h3 h65
    obtain ⟨hc, hl⟩ := init_three (wnormalize L (artist ++ title)) h3
    have hpos : ¬ (NGrams.init 3 false ⟨[], 0⟩ (wnormalize L (artist ++ title))).m_count = 0 := by
      omega
    have hself : ∀ s : Multiset (List Nat), s ∩ s = s := fun s =>
      le_antisymm (Multiset.inter_le_left s s) (Multiset.le_inter le_rfl le_rfl)
    rw [if_neg hpos, hself, hc]
    simp only [ngrams_held] at hl
    simp only [Multiset.coe_card, hl]
    have hlt : (wnormalize L (artist ++ title)).length - 2 < 65536 := by omega
    rw [Nat.mod_eq_of_lt hlt, Nat.mul_div_cancel_left _ (by omega : 0 < _ - 2)]

set_option maxRecDepth 100000 in
/-- C17 amended, at the record "Abba" / "Gold". -/
theorem compare_normalized_self_witness :
    3 ≤ (wnormalize Locale.ascii (ascii_bytes "Abba" ++ ascii_bytes "Gold")).length
      ∧ (wnormalize Locale.ascii (ascii_bytes "Abba" ++ ascii_bytes "Gold")).length ≤ 65537
      ∧ DiskRecord.compare_normalized Locale.ascii (ascii_bytes "Abba" ++ ascii_bytes "Gold")
          (ascii_bytes "Abba" ++ ascii_bytes "Gold") = some 100 :=
  ⟨by decide, by decide,
    (compare_normalized_self Locale.ascii (ascii_bytes "Abba") (ascii_bytes "Gold")).2
      (by decide) (by decide)⟩

/-! ## Normalization -/

theorem substmap_values : ∀ i < 64, substmap.getD i 0 = 0x20
    ∨ (0x41 ≤ substmap.getD i 0 ∧ substmap.getD i 0 ≤ 0x5A)
    ∨ (0x61 ≤ substmap.getD i 0 ∧ substmap.getD i 0 ≤ 0x7A) := by
  decide

/-- What `normalize_accented_chars` leaves: the character itself outside 0xC0..0xFF, and
inside that range a space or an ASCII letter. -/
theorem normalize_accented_chars_cases (ch : Nat) :
    (¬ (0xC0 ≤ ch ∧ ch ≤ 0xFF) ∧ normalize_accented_chars ch = ch)
      ∨ ((0xC0 ≤ ch ∧ ch ≤ 0xFF) ∧ (normalize_accented_chars ch = 0x20
        ∨ (0x41 ≤ normalize_accented_chars ch ∧ normalize_accented_chars ch ≤ 0x5A)
        ∨ (0x61 ≤ normalize_accented_chars ch ∧ normalize_accented_chars ch ≤ 0x7A))) := by
  by_cases h : 0xC0 ≤ ch ∧ ch ≤ 0xFF
  · right
    refine ⟨h, ?_⟩
    have hv := substmap_values (ch - 0xC0) (by omega)
    have he : normalize_accented_chars ch = substmap.getD (ch - 0xC0) 0 := by
      simp [normalize_accented_chars, h]
    rw [he]
    exact hv
  · left
    refine ⟨h, ?_⟩
    have h' : ¬ (ch ≥ 0xC0 ∧ ch ≤ 0xFF) := h
    simp [normalize_accented_chars, h']

/-- What it means for the loop body of `normalize_` to keep a character. -/
theorem normalize_char_some (L : Locale) (ch c : Nat) :
    normalize_char L ch = some c ↔
      (0x30 ≤ ch ∧ ¬ (0x39 < ch ∧ ch < 0x41)
        ∧ L.iswpunct (normalize_accented_chars ch) = false
        ∧ L.iswcntrl (normalize_accented_chars ch) = false
        ∧ L.iswspace (normalize_accented_chars ch) = false
        ∧ c = (if L.iswupper (normalize_accented_chars ch)
            then L.towlower (normalize_accented_chars ch) else normalize_accented_chars ch)
        ∧ ¬ (0x5A < c ∧ c < 0x61) ∧ ¬ (0x7A < c ∧ c < 0xC0)) := by
  constructor
  · intro h
    simp only [normalize_char] at h
    split_ifs at h with h1 h2 h3 h4 h5 h6 h7 h8 h9 h10
    all_goals
      injection h with h
      subst h
      simp only [Bool.not_eq_true] at h3 h4 h5
      refine ⟨by omega, h2, h3, h4, h5, by simp [*], by omega, by omega⟩
  · rintro ⟨h1, h2, h3, h4, h5, h6, h7, h8⟩
    have n1 : ¬ ch < 0x30 := by omega
    have n2 : ¬ (ch > 0x39 ∧ ch < 0x41) := h2
    have n7 : ¬ (c > 0x5A ∧ c < 0x61) := h7
    have n8 : ¬ (c > 0x7A ∧ c < 0xC0) := h8
    simp only [normalize_char, n1, n2, h3, h4, h5, if_false, Bool.false_eq_true]
    rw [← h6, if_neg n7, if_neg n8]

theorem normalize_accented_chars_low (a : Nat) (h : a < 0xC0) :
    normalize_accented_chars a = a := by
  have : ¬ (a ≥ 0xC0 ∧ a ≤ 0xFF) := by omega
  simp [normalize_accented_chars, this]

theorem normalize_accented_chars_high (a : Nat) (h : 0x100 ≤ a) :
    normalize_accented_chars a = a := by
  have : ¬ (a ≥ 0xC0 ∧ a ≤ 0xFF) := by omega
  simp [normalize_accented_chars, this]

theorem filterMap_eq_self {α : Type} (f : α → Option α) (l : List α)
    (h : ∀ a ∈ l, f a = some a) : l.filterMap f = l := by
  induction l with
  | nil => rfl
  | cons a l ih =>
      have ha := h a (List.mem_cons_self a l)
      rw [List.filterMap_cons, ha, ih (fun b hb => h b (List.mem_cons_of_mem a hb))]

theorem normalize_eq (L : Locale) (s : List Nat) : normalize L s = to_utf8 (wnormalize L s) := by
  rfl

theorem ascii_upper : ∀ ch, 0x41 ≤ ch → ch ≤ 0x5A → Locale.ascii.iswupper ch = true := by
  intro ch h1 h2
  simp [Locale.ascii]; omega

set_option maxRecDepth 100000 in
/-- C15 as stated fails. The bytes F4 90 80 80 decode to the code point 0x110000, for which
`to_utf8` writes `?`; a second run drops the `?`. And in a locale that knows U+0178 as the
upper-case form of U+00FF, the first run lower-cases U+0178 to U+00FF and only the second run
folds that to `y`. -/
theorem normalize_not_idempotent :
    normalize Locale.ascii [0xF4, 0x90, 0x80, 0x80] = [0x3F]
      ∧ normalize Locale.ascii (normalize Locale.ascii [0xF4, 0x90, 0x80, 0x80]) = []
      ∧ normalize Locale.with_0178 [0xC5, 0xB8] = [0xC3, 0xBF]
      ∧ normalize Locale.with_0178 (normalize Locale.with_0178 [0xC5, 0xB8]) = [0x79] := by
  decide

set_option maxRecDepth 100000 in
/-- C16 as stated fails: `normalize("U2")` is "u2", so the digit stays, and the two bytes of
the Greek capital omega (U+03A9) come back as they went in. -/
theorem normalize_keeps_digits :
    normalize Locale.ascii (ascii_bytes "U2") = ascii_bytes "u2"
      ∧ normalize Locale.ascii [0xCE, 0xA9] = [0xCE, 0xA9]
      ∧ ¬ (∀ b ∈ normalize Locale.ascii (ascii_bytes "U2"), 0x61 ≤ b ∧ b ≤ 0x7A) := by
  decide

/-! ## The parser -/

theorem add_comment_frames_nonzero (L : Locale) (r : DiskRecord) (value : List Nat)
    (h : ∀ f ∈ r.m_frames, f ≠ 0) :
    ∀ f ∈ (r.add_comment L value).m_frames, f ≠ 0 := by
  simp only [DiskRecord.add_comment]
  split_ifs with h1 h2 h3 h4 h5 h6 h7 h8
  all_goals first
    | exact h
    | (intro f hf
       rcases List.mem_append.mp hf with hf | hf
       · exact h f hf
       · rw [List.mem_singleton.mp hf]; assumption)

theorem add_song_frames (r : DiskRecord) (lv : Nat) (value : List Nat) :
    (r.add_song lv value).m_frames = r.m_frames := by
  unfold DiskRecord.add_song
  dsimp only
  split <;> split <;> rfl

theorem add_keyvalue_frames_match (L : Locale) (r : DiskRecord) (key value : List Nat) :
    match r.add_keyvalue L key value with
    | Except.ok r2 => r2.m_frames = r.m_frames
    | Except.error _ => True := by
  unfold DiskRecord.add_keyvalue
  dsimp only
  by_cases h1 : (key.isEmpty || (trim_right value).isEmpty) = true
  · rw [if_pos h1]
  · rw [if_neg h1]
    by_cases h2 : (decide (key.length > 15) || decide ((trim_right value).length > 255)) = true
    · rw [if_pos h2]
    · rw [if_neg h2]
      by_cases h3 : key = ascii_bytes "DISCID"
      · rw [if_pos h3]
      · rw [if_neg h3]
        by_cases h4 : key = ascii_bytes "DYEAR"
        · rw [if_pos h4]
          cases stoul L _ with
          | error e => trivial
          | ok v => cases v <;> rfl
        · rw [if_neg h4]
          by_cases h5 : key = ascii_bytes "DGENRE"
          · rw [if_pos h5]
          · rw [if_neg h5]
            by_cases h6 : key = ascii_bytes "DTITLE"
            · rw [if_pos h6]
              cases find_separator _ 0 <;> rfl
            · rw [if_neg h6]
              by_cases h7 : begins_with_literal key (ascii_bytes "TTITLE") = true
              · rw [if_pos h7]
                exact add_song_frames _ _ _
              · rw [if_neg h7]

theorem add_keyvalue_frames (L : Locale) (r r2 : DiskRecord) (key value : List Nat)
    (h : r.add_keyvalue L key value = Except.ok r2) : r2.m_frames = r.m_frames := by
  have := add_keyvalue_frames_match L r key value
  rw [h] at this
  exact this

theorem parse_char_frames_match (L : Locale) (st : ParseState) (ch : Nat)
    (h : ∀ f ∈ st.record.m_frames, f ≠ 0) :
    match parse_char L st ch with
    | Except.ok st2 => ∀ f ∈ st2.record.m_frames, f ≠ 0
    | Except.error _ => True := by
  obtain ⟨rec, key, value, lastch, state⟩ := st
  dsimp only at h
  unfold parse_char
  dsimp only
  by_cases h1 : ch = 10 ∨ ch = 13
  · rw [if_pos h1]
    by_cases h2 : state = state_t.Value ∨ state = state_t.Skip
    · rw [if_pos h2]
      have hk := add_keyvalue_frames_match L rec key value
      cases hr : rec.add_keyvalue L key value with
      | error e => trivial
      | ok r =>
          rw [hr] at hk
          show ∀ f ∈ r.m_frames, f ≠ 0
          rw [hk]; exact h
    · rw [if_neg h2]
      by_cases h3 : state = state_t.Comment
      · rw [if_pos h3]
        exact add_comment_frames_nonzero L _ _ h
      · rw [if_neg h3]
        exact h
  · rw [if_neg h1]
    cases state <;> dsimp only
    all_goals first
      | exact h
      | (split_ifs <;> exact h)

theorem parse_char_frames_nonzero (L : Locale) (st st2 : ParseState) (ch : Nat)
    (h : ∀ f ∈ st.record.m_frames, f ≠ 0) (hs : parse_char L st ch = Except.ok st2) :
    ∀ f ∈ st2.record.m_frames, f ≠ 0 := by
  have := parse_char_frames_match L st ch h
  rw [hs] at this
  exact this

theorem parse_loop_frames_nonzero (L : Locale) (data : List Nat) :
    ∀ (st st2 : ParseState), (∀ f ∈ st.record.m_frames, f ≠ 0) →
      parse_loop L data st = Except.ok st2 → ∀ f ∈ st2.record.m_frames, f ≠ 0 := by
  induction data with
  | nil =>
      intro st st2 h hs
      injection hs with hs
      subst hs
      exact h
  | cons ch data ih =>
      intro st st2 h hs
      rw [parse_loop] at hs
      split at hs
      · cases hs
      · rename_i st1 h1
        exact ih st1 st2 (parse_char_frames_nonzero L st st1 ch h h1) hs

theorem cleanup_frames (L : Locale) (r : DiskRecord) :
    (r.cleanup L).m_frames = r.m_frames ∧ (r.cleanup L).m_seconds = r.m_seconds := by
  exact ⟨rfl, rfl⟩

/-- The frame offsets of a record read from a buffer are all different from 0. -/
theorem read_and_cleanup_frames_nonzero (L : Locale) (data : List Nat) (c : DiskRecord)
    (h : DiskRecord.read_and_cleanup L data = Except.ok c) : ∀ f ∈ c.m_frames, f ≠ 0 := by
  unfold DiskRecord.read_and_cleanup at h
  split at h
  · cases h
  · rename_i st hst
    have hst2 := parse_loop_frames_nonzero L data _ st (by simp [DiskRecord.default]) hst
    split_ifs at h
    · split at h
      · cases h
      · rename_i r hr
        injection h with h
        subst h
        rw [(cleanup_frames L r).1, add_keyvalue_frames L _ _ _ _ hr]
        exact hst2
    · injection h with h
      subst h
      rw [(cleanup_frames L _).1]
      exact hst2

theorem parse_eq (L : Locale) (data : List Nat) (r : DiskRecord)
    (h : DiskRecord.parse L data = Except.ok r) :
    ∃ c, DiskRecord.read_and_cleanup L data = Except.ok c ∧ r = c.finish := by
  unfold DiskRecord.parse at h
  split at h
  · cases h
  · rename_i c hc
    injection h with h
    exact ⟨c, hc, h.symm⟩

theorem finish_valid (c : DiskRecord) :
    c.finish.m_valid = (!c.m_artist.isEmpty && !c.m_title.isEmpty
      && (c.m_frames.isEmpty || c.m_songs.length == c.m_frames.length)
      && c.m_seconds != 0 && !c.bad_encoding) := by
  simp only [DiskRecord.finish, DiskRecord.verify_record]
  split
  · rename_i hv
    simp only [DiskRecord.bad_encoding, DiskRecord.calc_entropy_elements] at hv ⊢
    simp [hv]
  · rename_i hv
    simp only [Bool.not_eq_true] at hv
    simp [hv]

/-- C12: a record parsed from a text buffer is marked valid exactly when, after cleanup,
artist and title are both non-empty, the frame list is empty or has as many entries as the
song list, the parsed disc length is greater than 0, and the record is not flagged
`bad_encoding`. Here `c` is the record as `cleanup()` leaves it. -/
theorem parsed_record_valid_iff (L : Locale) (data : List Nat) (c : DiskRecord)
    (h : DiskRecord.read_and_cleanup L data = Except.ok c) :
    ∃ r, DiskRecord.parse L data = Except.ok r
      ∧ (r.m_valid = true ↔
          c.m_artist ≠ [] ∧ c.m_title ≠ []
            ∧ (c.m_frames = [] ∨ c.m_songs.length = c.m_frames.length)
            ∧ 0 < c.m_seconds ∧ c.bad_encoding = false) := by
  refine ⟨c.finish, by simp [DiskRecord.parse, h], ?_⟩
  rw [finish_valid]
  simp only [Bool.and_eq_true, Bool.not_eq_true', Bool.or_eq_true, List.isEmpty_eq_true,
    beq_iff_eq, bne_iff_ne, ne_eq, List.isEmpty_eq_false, and_assoc]
  constructor
  · rintro ⟨h1, h2, h3, h4, h5⟩
    exact ⟨by simpa using h1, by simpa using h2, h3, by omega, h5⟩
  · rintro ⟨h1, h2, h3, h4, h5⟩
    exact ⟨by simpa using h1, by simpa using h2, h3, by omega, h5⟩

set_option maxRecDepth 1000000 in
/-- Witness for C12: the example record is read, cleaned up and marked valid. -/
theorem parsed_record_valid_iff_witness :
    ∃ c, DiskRecord.read_and_cleanup Locale.ascii example_record_text = Except.ok c
      ∧ ∃ r, DiskRecord.parse Locale.ascii example_record_text = Except.ok r
        ∧ (r.m_valid = true ↔
            c.m_artist ≠ [] ∧ c.m_title ≠ []
              ∧ (c.m_frames = [] ∨ c.m_songs.length = c.m_frames.length)
              ∧ 0 < c.m_seconds ∧ c.bad_encoding = false) :=
  ⟨_, rfl, parsed_record_valid_iff Locale.ascii example_record_text _ rfl⟩

theorem finish_seconds_frames (c : DiskRecord) :
    c.finish.m_seconds = (convert_frame_starts_in_frame_lengths c.m_seconds c.m_frames).1
      ∧ c.finish.m_frames
        = (convert_frame_starts_in_frame_lengths c.m_seconds c.m_frames).2 := by
  simp only [DiskRecord.finish, DiskRecord.verify_record]
  split <;> exact ⟨rfl, rfl⟩

set_option maxRecDepth 1000000 in
/-- C13, counterexample: a record with a disc length, artist and title but without frame
offsets is valid, and its `seconds()` is 0. -/
theorem parsed_valid_seconds_zero :
    ∃ r, DiskRecord.parse Locale.ascii
        (ascii_bytes "# Disc length: 100 seconds\nDTITLE=A / B\n") = Except.ok r
      ∧ r.m_valid = true ∧ r.m_seconds = 0 :=
  ⟨_, rfl, by decide, by decide⟩

/-- C13, amended: for every record built from a text buffer, `seconds()` is greater than 0
when the record has frames (it is the first frame offset, and the parser only takes
offsets other than 0), and it is 0 when the record has no frames. -/
theorem parsed_seconds (L : Locale) (data : List Nat) (r : DiskRecord)
    (h : DiskRecord.parse L data = Except.ok r) :
    (r.m_frames ≠ [] → 0 < r.m_seconds) ∧ (r.m_frames = [] → r.m_seconds = 0) := by
  obtain ⟨c, hc, rfl⟩ := parse_eq L data r h
  have hnz := read_and_cleanup_frames_nonzero L data c hc
  obtain ⟨e1, e2⟩ := finish_seconds_frames c
  rw [e1, e2]
  cases hf : c.m_frames with
  | nil => exact ⟨fun h2 => absurd rfl h2, fun _ => rfl⟩
  | cons a rest =>
      rw [hf] at hnz
      have ha : a ≠ 0 := hnz a (List.mem_cons_self _ _)
      constructor
      · intro _
        show 0 < a
        omega
      · intro h2
        exact absurd h2 (frame_lengths_of_starts_ne_nil _ _ _ _)

set_option maxRecDepth 1000000 in
/-- Witness for C13: the example record has frames, and its `seconds()` is positive. -/
theorem parsed_seconds_witness :
    ∃ r, DiskRecord.parse Locale.ascii example_record_text = Except.ok r
      ∧ r.m_frames ≠ []
      ∧ ((r.m_frames ≠ [] → 0 < r.m_seconds) ∧ (r.m_frames = [] → r.m_seconds = 0)) :=
  ⟨_, rfl, by decide, parsed_seconds Locale.ascii example_record_text _ rfl⟩

set_option maxRecDepth 1000000 in
/-- C14: the record `DYEAR=abc` makes the constructor of `DiskRecord` leave with
`std::invalid_argument`, which `add_keyvalue` does not catch, and with it the import step
of every importer, on every host, and an import that holds this record. -/
theorem parse_year_not_numeric_throws :
    DiskRecord.parse Locale.ascii (ascii_bytes "DYEAR=abc\n")
        = Except.error Thrown.invalid_argument
      ∧ (∀ (big_endian_host : Bool) (u : Updater),
          import_record Locale.ascii big_endian_host u (ascii_bytes "DYEAR=abc\n")
            = Except.error Thrown.invalid_argument)
      ∧ (∀ (big_endian_host : Bool),
          import_records Locale.ascii big_endian_host
            [example_record_text, ascii_bytes "DYEAR=abc\n", example_record_text_2]
            Updater.empty = Except.error Thrown.invalid_argument) := by
  refine ⟨rfl, fun _ _ => rfl, fun h => ?_⟩
  cases h <;> rfl

/-! ## The import -/

theorem foldl_max_ge (l : List Nat) :
    ∀ a, a ≤ l.foldl max a ∧ ∀ x ∈ l, x ≤ l.foldl max a := by
  induction l with
  | nil => intro a; exact ⟨le_rfl, by simp⟩
  | cons b l ih =>
      intro a
      simp only [List.foldl_cons, List.mem_cons]
      have h1 := (ih (max a b)).1
      have h2 := (ih (max a b)).2
      refine ⟨le_trans (le_max_left a b) h1, ?_⟩
      rintro x (rfl | hx)
      · exact le_trans (le_max_right a x) h1
      · exact h2 x hx

theorem foldl_max_le (l : List Nat) (k : Nat) :
    ∀ a, a ≤ k → (∀ x ∈ l, x ≤ k) → l.foldl max a ≤ k := by
  induction l with
  | nil => intro a ha _; exact ha
  | cons b l ih =>
      intro a ha h
      simp only [List.foldl_cons]
      exact ih _ (max_le ha (h b (List.mem_cons_self _ _)))
        (fun x hx => h x (List.mem_cons_of_mem _ hx))

theorem next_rowid_gt (db : ImportStore) : ∀ c ∈ db.CD, c.cd < db.next_rowid := by
  intro c hc
  have := (foldl_max_ge (db.CD.map (fun row => row.cd)) 0).2 c.cd
    (List.mem_map.mpr ⟨c, hc, rfl⟩)
  unfold ImportStore.next_rowid
  omega

theorem next_rowid_le (db : ImportStore) (k : Nat) (h : db.ids_within k) :
    1 ≤ db.next_rowid ∧ db.next_rowid ≤ k + 1 := by
  have := foldl_max_le (db.CD.map (fun row => row.cd)) k 0 (Nat.zero_le _) (by
    intro x hx
    obtain ⟨c, hc, rfl⟩ := List.mem_map.mp hx
    exact (h c hc).2)
  unfold ImportStore.next_rowid
  omega

theorem map_genre_tables (db : ImportStore) (str : List Nat) :
    (db.map_genre str).2.CD = db.CD ∧ (db.map_genre str).2.NAMEHASH = db.NAMEHASH
      ∧ (db.map_genre str).2.DISCID = db.DISCID
      ∧ (db.map_genre str).2.FUZZYID = db.FUZZYID := by
  unfold ImportStore.map_genre
  split <;> exact ⟨rfl, rfl, rfl, rfl⟩

theorem map_genre_next_rowid (db : ImportStore) (str : List Nat) :
    (db.map_genre str).2.next_rowid = db.next_rowid := by
  unfold ImportStore.next_rowid
  rw [(map_genre_tables db str).1]

theorem write_record_ok (db db2 : ImportStore) (r : DiskRecord) (hash cdid : Nat)
    (h : db.write_record r hash false = Except.ok (cdid, db2)) :
    cdid = db.next_rowid % U32
      ∧ (∃ row : CDRow, row.cd = db.next_rowid ∧ db2.CD = db.CD ++ [row])
      ∧ db2.NAMEHASH = db.NAMEHASH ++ [(hash, cdid)]
      ∧ db2.DISCID = db.DISCID ∧ db2.FUZZYID = db.FUZZYID := by
  unfold ImportStore.write_record at h
  simp only [Bool.not_false, Bool.true_or, if_true] at h
  split_ifs at h
  injection h with h
  injection h with h1 h2
  subst h2
  obtain ⟨e1, e2, e3, e4⟩ := map_genre_tables db r.m_genre
  have e5 := map_genre_next_rowid db r.m_genre
  subst h1
  refine ⟨by rw [e5], ⟨⟨db.next_rowid, r.m_artist, r.m_title, (db.map_genre r.m_genre).1,
    r.m_year, r.m_seconds, r.m_revision, r.m_songs.length⟩, rfl, ?_⟩, ?_, e3, e4⟩
  · show (db.map_genre r.m_genre).2.CD ++ _ = _
    rw [e1, e5]
  · show (db.map_genre r.m_genre).2.NAMEHASH ++ _ = _
    rw [e2, e5]

theorem consistent_mono (db : ImportStore) (k m : Nat) (hkm : k ≤ m) (h : db.consistent k) :
    db.consistent m :=
  ⟨h.1, fun c hc => ⟨(h.2 c hc).1, le_trans (h.2 c hc).2 hkm⟩⟩

theorem consistent_empty : Updater.empty.db.consistent 0 := by
  refine ⟨⟨?_, ?_, ?_⟩, ?_⟩ <;> intro x hx <;> cases hx

theorem write_record_consistent (db db2 : ImportStore) (r : DiskRecord) (hash cdid k : Nat)
    (hk : k + 1 < U32) (hinv : db.consistent k)
    (h : db.write_record r hash false = Except.ok (cdid, db2)) :
    db2.consistent (k + 1) ∧ db2.has_cd cdid ∧ db2.just_written cdid hash := by
  obtain ⟨e1, ⟨row, hrow, e2⟩, e3, e4, e5⟩ := write_record_ok db db2 r hash cdid h
  obtain ⟨⟨hn, hd, hf⟩, hids⟩ := hinv
  have hb := next_rowid_le db k hids
  have hgt := next_rowid_gt db
  have hc : cdid = db.next_rowid := by
    rw [e1]; exact Nat.mod_eq_of_lt (by omega)
  have hfresh : ∀ c ∈ db.CD, c.cd ≠ cdid := by
    intro c hc2
    have := hgt c hc2
    omega
  have hold : ∀ x, (∃ c ∈ db.CD, c.cd = x) → ∃ c ∈ db2.CD, c.cd = x := by
    rintro x ⟨c, hc2, rfl⟩
    exact ⟨c, by rw [e2]; exact List.mem_append_left _ hc2, rfl⟩
  have hnew : db2.has_cd cdid := ⟨row, by rw [e2]; simp, by rw [hrow, hc]⟩
  refine ⟨⟨⟨?_, ?_, ?_⟩, ?_⟩, hnew, ?_, ?_, ?_⟩
  · intro x hx
    rw [e3] at hx
    rcases List.mem_append.mp hx with hx | hx
    · exact hold _ (hn x hx)
    · rw [List.mem_singleton.mp hx]; exact hnew
  · intro x hx
    rw [e4] at hx
    exact hold _ (hd x hx)
  · intro x hx
    rw [e5] at hx
    exact hold _ (hf x hx)
  · intro c hc2
    rw [e2] at hc2
    rcases List.mem_append.mp hc2 with hc2 | hc2
    · have := hids c hc2
      omega
    · rw [List.mem_singleton.mp hc2, hrow]
      omega
  · intro x hx hx2
    rw [e3] at hx
    rcases List.mem_append.mp hx with hx | hx
    · obtain ⟨c, hc2, hc3⟩ := hn x hx
      exact absurd (hc3.trans hx2) (hfresh c hc2)
    · rw [List.mem_singleton.mp hx]
  · intro x hx hx2
    rw [e4] at hx
    obtain ⟨c, hc2, hc3⟩ := hd x hx
    exact absurd (hc3.trans hx2) (hfresh c hc2)
  · intro x hx hx2
    rw [e5] at hx
    obtain ⟨c, hc2, hc3⟩ := hf x hx
    exact absurd (hc3.trans hx2) (hfresh c hc2)

theorem delete_record_consistent (db : ImportStore) (cdid hash k : Nat)
    (hinv : db.consistent k) (hw : db.just_written cdid hash) :
    (db.delete_record cdid hash).consistent k := by
  obtain ⟨⟨hn, hd, hf⟩, hids⟩ := hinv
  obtain ⟨wn, wd, wf⟩ := hw
  have keep : ∀ x, x ≠ cdid → (∃ c ∈ db.CD, c.cd = x) →
      ∃ c ∈ (db.delete_record cdid hash).CD, c.cd = x := by
    rintro x hx ⟨c, hc, rfl⟩
    refine ⟨c, ?_, rfl⟩
    show c ∈ db.CD.filter (fun row => row.cd != cdid)
    exact List.mem_filter.mpr ⟨hc, by simpa using hx⟩
  refine ⟨⟨?_, ?_, ?_⟩, ?_⟩
  · intro x hx
    have hx2 : x ∈ db.NAMEHASH.filter (fun row => row.1 != hash) := hx
    obtain ⟨hx3, hx4⟩ := List.mem_filter.mp hx2
    have hx5 : x.1 ≠ hash := by simpa using hx4
    exact keep _ (fun e => hx5 (wn x hx3 e)) (hn x hx3)
  · intro x hx
    have hx2 : x ∈ db.DISCID := hx
    exact keep _ (wd x hx2) (hd x hx2)
  · intro x hx
    have hx2 : x ∈ db.FUZZYID := hx
    exact keep _ (wf x hx2) (hf x hx2)
  · intro c hc
    have hc2 : c ∈ db.CD.filter (fun row => row.cd != cdid) := hc
    exact hids c (List.mem_filter.mp hc2).1

theorem update_record_tables (db : ImportStore) (ecd : Nat) (r : DiskRecord) :
    (db.update_record ecd r).CD.map (fun row => row.cd) = db.CD.map (fun row => row.cd)
      ∧ (db.update_record ecd r).NAMEHASH = db.NAMEHASH
      ∧ (db.update_record ecd r).DISCID = db.DISCID
      ∧ (db.update_record ecd r).FUZZYID = db.FUZZYID := by
  obtain ⟨e1, e2, e3, e4⟩ := map_genre_tables db r.m_genre
  refine ⟨?_, e2, e3, e4⟩
  show ((db.map_genre r.m_genre).2.CD.map _).map _ = _
  rw [e1, List.map_map]
  apply List.map_congr_left
  intro row _
  simp only [Function.comp]
  split <;> rfl

theorem has_cd_iff (db : ImportStore) (x : Nat) :
    (∃ c ∈ db.CD, c.cd = x) ↔ x ∈ db.CD.map (fun row => row.cd) := by
  simp [List.mem_map]

theorem update_record_consistent (db : ImportStore) (ecd k : Nat) (r : DiskRecord)
    (hinv : db.consistent k) : (db.update_record ecd r).consistent k := by
  obtain ⟨⟨hn, hd, hf⟩, hids⟩ := hinv
  obtain ⟨e1, e2, e3, e4⟩ := update_record_tables db ecd r
  refine ⟨⟨?_, ?_, ?_⟩, ?_⟩
  · intro x hx
    rw [e2] at hx
    rw [has_cd_iff, e1, ← has_cd_iff]
    exact hn x hx
  · intro x hx
    rw [e3] at hx
    rw [has_cd_iff, e1, ← has_cd_iff]
    exact hd x hx
  · intro x hx
    rw [e4] at hx
    rw [has_cd_iff, e1, ← has_cd_iff]
    exact hf x hx
  · intro c hc
    have : c.cd ∈ (db.update_record ecd r).CD.map (fun row => row.cd) :=
      List.mem_map.mpr ⟨c, hc, rfl⟩
    rw [e1] at this
    obtain ⟨c2, hc2, hc3⟩ := List.mem_map.mp this
    have := hids c2 hc2
    have hc4 : c2.cd = c.cd := hc3
    omega

theorem write_discid_consistent (db : ImportStore) (discid cdid k : Nat)
    (hinv : db.consistent k) (hc : db.has_cd cdid) :
    (db.write_discid discid cdid).consistent k
      ∧ (db.write_discid discid cdid).has_cd cdid := by
  obtain ⟨⟨hn, hd, hf⟩, hids⟩ := hinv
  refine ⟨⟨⟨hn, ?_, hf⟩, hids⟩, hc⟩
  intro x hx
  have hx2 : x ∈ db.DISCID ++ [(discid, cdid)] := hx
  rcases List.mem_append.mp hx2 with hx2 | hx2
  · exact hd x hx2
  · rw [List.mem_singleton.mp hx2]; exact hc

theorem write_fuzzy_discid_consistent (db : ImportStore) (fuzzyid cdid k : Nat)
    (hinv : db.consistent k) (hc : db.has_cd cdid) :
    (db.write_fuzzy_discid fuzzyid cdid).consistent k := by
  obtain ⟨⟨hn, hd, hf⟩, hids⟩ := hinv
  refine ⟨⟨hn, hd, ?_⟩, hids⟩
  intro x hx
  have hx2 : x ∈ db.FUZZYID ++ [(fuzzyid, cdid)] := hx
  rcases List.mem_append.mp hx2 with hx2 | hx2
  · exact hf x hx2
  · rw [List.mem_singleton.mp hx2]; exact hc

theorem check_title_hash_has_cd (db : ImportStore) (hash k : Nat) (hk : k < U32)
    (hinv : db.consistent k) (h : db.check_title_hash hash ≠ 0) :
    db.has_cd (db.check_title_hash hash) := by
  unfold ImportStore.check_title_hash at h ⊢
  split at h
  · rename_i row hrow
    obtain ⟨c, hc, hc2⟩ := hinv.1.1 row (List.mem_of_find?_eq_some hrow)
    have := hinv.2 c hc
    refine ⟨c, hc, ?_⟩
    show c.cd = row.2 % U32
    rw [Nat.mod_eq_of_lt (by omega)]
    exact hc2
  · exact absurd rfl h

theorem import_same_cd_consistent (L : Locale) (u : Updater) (r existing_rec : DiskRecord)
    (hash cdid ecd k : Nat) (record_written : Bool) (hinv : u.db.consistent k)
    (hw : record_written = true → u.db.just_written cdid hash) :
    (import_same_cd L u r existing_rec hash cdid ecd record_written).db.consistent k := by
  unfold import_same_cd
  rcases merge_decision L r existing_rec u.m_rep with ⟨upd, rep⟩
  cases record_written
  · cases upd
    · exact hinv
    · exact update_record_consistent _ _ _ _ hinv
  · have hdel := delete_record_consistent u.db cdid hash k hinv (hw rfl)
    cases upd
    · exact hdel
    · exact update_record_consistent _ _ _ _ hdel

theorem read_record_no_error (db : ImportStore) (ecd discid : Nat) (e : Thrown)
    (he : db.has_cd ecd) (h : db.read_record ecd discid = Except.error e) : False := by
  unfold ImportStore.read_record at h
  split at h
  · rename_i hnone
    obtain ⟨c, hc, hc2⟩ := he
    have := List.find?_eq_none.mp hnone c hc
    simp [hc2] at this
  · cases h

theorem check_discid_has_cd (db : ImportStore) (discid k : Nat) (hk : k < U32)
    (hinv : db.consistent k) (h : db.check_discid discid ≠ 0) :
    db.has_cd (db.check_discid discid) := by
  unfold ImportStore.check_discid at h ⊢
  split at h
  · rename_i row hrow
    obtain ⟨c, hc, hc2⟩ := hinv.1.2.1 row (List.mem_of_find?_eq_some hrow)
    have := hinv.2 c hc
    refine ⟨c, hc, ?_⟩
    show c.cd = row.2 % U32
    rw [Nat.mod_eq_of_lt (by omega)]
    exact hc2
  · exact absurd rfl h

theorem write_record_no_error (db : ImportStore) (r : DiskRecord) (hash k : Nat) (e : Thrown)
    (hk : k < U32) (hinv : db.consistent k) (hf : db.check_title_hash hash = 0)
    (h : db.write_record r hash false = Except.error e) : False := by
  have hnone : db.NAMEHASH.find? (fun row => row.1 == hash) = none := by
    unfold ImportStore.check_title_hash at hf
    split at hf
    · rename_i row hrow
      obtain ⟨c, hc, hc2⟩ := hinv.1.1 row (List.mem_of_find?_eq_some hrow)
      have := hinv.2 c hc
      rw [Nat.mod_eq_of_lt (by omega)] at hf
      omega
    · assumption
  unfold ImportStore.write_record at h
  simp only [Bool.not_false, Bool.true_or, if_true] at h
  split_ifs at h with hany
  rw [(map_genre_tables db r.m_genre).2.1] at hany
  obtain ⟨row, hrow, hrow2⟩ := List.any_eq_true.mp hany
  have := List.find?_eq_none.mp hnone row hrow
  exact this hrow2

theorem import_known_discid_match (L : Locale) (host : Bool) (u : Updater) (r : DiskRecord)
    (cdid ecd k : Nat) (record_written : Bool) (hinv : u.db.consistent k)
    (hw : record_written = true → u.db.just_written cdid (r.normalized_hash L))
    (he : u.db.has_cd ecd) :
    match import_known_discid L host u r cdid ecd record_written with
    | Except.ok (discid_valid, u2) =>
        u2.db.consistent k ∧ (discid_valid = true → u2.db = u.db)
    | Except.error _ => False := by
  unfold import_known_discid
  cases hr : u.db.read_record ecd (r.discid host) with
  | error e => exact read_record_no_error u.db ecd (r.discid host) e he hr
  | ok existing_rec =>
      dsimp only
      split_ifs
      · exact ⟨hinv, fun _ => rfl⟩
      · exact ⟨hinv, fun _ => rfl⟩
      · exact ⟨import_same_cd_consistent L u r existing_rec _ cdid ecd k record_written
          hinv hw, fun h => by cases h⟩
      · exact ⟨hinv, fun _ => rfl⟩

theorem import_discid_links_match (L : Locale) (host : Bool) (u : Updater) (r : DiskRecord)
    (cdid k : Nat) (record_written : Bool) (hinv : u.db.consistent k)
    (hk : k < U32) (hc : u.db.has_cd cdid)
    (hw : record_written = true → u.db.just_written cdid (r.normalized_hash L)) :
    match import_discid_links L host u r cdid record_written with
    | Except.ok u2 => u2.db.consistent k
    | Except.error _ => False := by
  have hlink : ∀ u2 : Updater, u2.db.consistent k → u2.db.has_cd cdid →
      (((u2.db.write_discid (r.discid host) cdid).write_fuzzy_discid
        (r.fuzzy_discid host) cdid).consistent k) := by
    intro u2 h1 h2
    obtain ⟨h3, h4⟩ := write_discid_consistent u2.db (r.discid host) cdid k h1 h2
    exact write_fuzzy_discid_consistent _ _ _ _ h3 h4
  unfold import_discid_links
  dsimp only
  by_cases he : u.db.check_discid (r.discid host) ≠ 0
  · rw [if_pos he]
    have hm := import_known_discid_match L host u r cdid
      (u.db.check_discid (r.discid host)) k record_written hinv hw
      (check_discid_has_cd u.db _ k hk hinv he)
    cases hr : import_known_discid L host u r cdid
        (u.db.check_discid (r.discid host)) record_written with
    | error e => rw [hr] at hm; exact hm
    | ok p =>
        obtain ⟨dv, u2⟩ := p
        rw [hr] at hm
        obtain ⟨h1, h2⟩ := hm
        cases dv
        · exact h1
        · exact hlink u2 h1 (by rw [h2 rfl]; exact hc)
  · rw [if_neg he]
    exact hlink u hinv hc

theorem import_discid_links_ok (L : Locale) (host : Bool) (u : Updater) (r : DiskRecord)
    (cdid k : Nat) (record_written : Bool) (hinv : u.db.consistent k)
    (hk : k < U32) (hc : u.db.has_cd cdid)
    (hw : record_written = true → u.db.just_written cdid (r.normalized_hash L)) :
    (∀ u2, import_discid_links L host u r cdid record_written = Except.ok u2 →
        u2.db.consistent k)
      ∧ (∀ e, import_discid_links L host u r cdid record_written = Except.error e →
        False) := by
  have hm := import_discid_links_match L host u r cdid k record_written hinv hk hc hw
  constructor
  · intro u2 h
    rw [h] at hm
    exact hm
  · intro e h
    rw [h] at hm
    exact hm

theorem import_record_match (L : Locale) (host : Bool) (u : Updater) (data : List Nat)
    (k : Nat) (hk : k + 1 < U32) (hinv : u.db.consistent k) :
    match import_record L host u data with
    | Except.ok u2 => u2.db.consistent (k + 1)
    | Except.error e => DiskRecord.parse L data = Except.error e := by
  have hinv1 := consistent_mono u.db k (k + 1) (Nat.le_succ k) hinv
  unfold import_record
  dsimp only
  cases hp : DiskRecord.parse L data with
  | error e => rfl
  | ok r =>
      dsimp only
      by_cases hv : (!r.m_valid) = true
      · rw [if_pos hv]
        exact hinv1
      · rw [if_neg hv]
        by_cases hf : u.db.check_title_hash (r.normalized_hash L) = 0
        · rw [if_pos hf]
          cases hwr : u.db.write_record r (r.normalized_hash L) false with
          | error e =>
              exact (write_record_no_error u.db r _ k e (by omega) hinv hf hwr).elim
          | ok p =>
              obtain ⟨cdid, db⟩ := p
              obtain ⟨h1, h2, h3⟩ := write_record_consistent u.db db r _ cdid k hk hinv hwr
              dsimp only
              split
              · rename_i u2 hu2
                exact (import_discid_links_ok L host _ r cdid (k + 1) true h1 hk h2
                  (fun _ => h3)).1 u2 hu2
              · rename_i e he
                exact ((import_discid_links_ok L host _ r cdid (k + 1) true h1 hk h2
                  (fun _ => h3)).2 e he).elim
        · rw [if_neg hf]
          have hc := check_title_hash_has_cd u.db _ (k + 1) hk hinv1 hf
          split
          · rename_i u2 hu2
            refine (import_discid_links_ok L host _ r _ (k + 1) false ?_ hk ?_ ?_).1 u2 hu2
            · exact hinv1
            · exact hc
            · intro h; cases h
          · rename_i e he
            refine ((import_discid_links_ok L host _ r _ (k + 1) false ?_ hk ?_ ?_).2 e
              he).elim
            · exact hinv1
            · exact hc
            · intro h; cases h

theorem import_records_consistent (L : Locale) (host : Bool) (datas : List (List Nat)) :
    ∀ (u : Updater) (k : Nat), k + datas.length < U32 → u.db.consistent k →
      match import_records L host datas u with
      | Except.ok u2 => u2.db.consistent (k + datas.length)
      | Except.error e => ∃ data ∈ datas, DiskRecord.parse L data = Except.error e := by
  induction datas with
  | nil =>
      intro u k _ hinv
      exact hinv
  | cons data rest ih =>
      intro u k hk hinv
      rw [List.length_cons] at hk
      rw [import_records]
      have hm := import_record_match L host u data k (by omega) hinv
      cases h1 : import_record L host u data with
      | error e =>
          rw [h1] at hm
          exact ⟨data, List.mem_cons_self _ _, hm⟩
      | ok u1 =>
          rw [h1] at hm
          have h2 := ih u1 (k + 1) (by omega) hm
          dsimp only
          cases h3 : import_records L host rest u1 with
          | error e =>
              rw [h3] at h2
              obtain ⟨d, hd, hd2⟩ := h2
              exact ⟨d, List.mem_cons_of_mem _ hd, hd2⟩
          | ok u2 =>
              rw [h3] at h2
              show u2.db.consistent (k + (rest.length + 1))
              rw [show k + (rest.length + 1) = k + 1 + rest.length by omega]
              exact h2

/-- C11: starting from the empty store, an import of fewer than 2^32 records that runs to
its end leaves tables in which every `NAMEHASH` row, every `DISCID` row and every `FUZZYID`
row references a CD row that exists; and when it does not run to its end, the exception is
one that the parser raised on one of the records, never one of the store. The bound is
where the cast of the row id to `uint32_t` starts to lose bits. -/
theorem import_references_exist (L : Locale) (big_endian_host : Bool)
    (datas : List (List Nat)) (hlen : datas.length < U32) :
    (∀ u, import_records L big_endian_host datas Updater.empty = Except.ok u →
        u.db.references_exist)
      ∧ (∀ e, import_records L big_endian_host datas Updater.empty = Except.error e →
        ∃ data ∈ datas, DiskRecord.parse L data = Except.error e) := by
  have h := import_records_consistent L big_endian_host datas Updater.empty 0
    (by omega) consistent_empty
  constructor
  · intro u hu
    rw [hu] at h
    exact h.1
  · intro e he
    rw [he] at h
    exact h

set_option maxRecDepth 1000000 in
/-- Witness for C11: the import of two records of the same disc, where the second one is
written, deleted again and merged into the first, ends with one CD row and intact
references. -/
theorem import_references_exist_witness :
    [example_record_text, example_record_text_2].length < U32
      ∧ ((∀ u, import_records Locale.ascii false [example_record_text, example_record_text_2]
            Updater.empty = Except.ok u → u.db.references_exist)
        ∧ (∀ e, import_records Locale.ascii false [example_record_text, example_record_text_2]
            Updater.empty = Except.error e →
          ∃ data ∈ [example_record_text, example_record_text_2],
            DiskRecord.parse Locale.ascii data = Except.error e))
      ∧ ∃ u, import_records Locale.ascii false [example_record_text, example_record_text_2]
            Updater.empty = Except.ok u
          ∧ u.db.CD.map (fun row => row.cd) = [1] ∧ u.m_rep.updated = 1 :=
  ⟨by decide, import_references_exist Locale.ascii false _ (by decide), _, rfl, by decide,
    by decide⟩

/-! ## UTF-8: what the validator accepts -/

theorem from_utf8_loop_first_error (narrow : List Nat) :
    ∀ (remaining codepoint lower_limit : Nat) (wide w : List Nat),
      from_utf8_loop narrow remaining codepoint lower_limit wide = (false, w) →
      ∃ pre b post, narrow = pre ++ b :: post
        ∧ from_utf8_loop pre remaining codepoint lower_limit wide = (true, w)
        ∧ (from_utf8_loop (pre ++ [b]) remaining codepoint lower_limit wide).1 = false := by
  induction narrow with
  | nil =>
      intro _ _ _ _ _ h
      simp [from_utf8_loop] at h
  | cons sch rest ih =>
      intro remaining codepoint lower_limit wide w h
      have stop : ∀ (_ : (from_utf8_loop [sch] remaining codepoint lower_limit wide).1 = false)
          (_ : w = wide), ∃ pre b post, sch :: rest = pre ++ b :: post
            ∧ from_utf8_loop pre remaining codepoint lower_limit wide = (true, w)
            ∧ (from_utf8_loop (pre ++ [b]) remaining codepoint lower_limit wide).1 = false := by
        intro h1 h2
        exact ⟨[], sch, rest, rfl, by rw [h2]; rfl, h1⟩
      have go : ∀ (r c l : Nat) (wd : List Nat),
          (∀ tail, from_utf8_loop (sch :: tail) remaining codepoint lower_limit wide
            = from_utf8_loop tail r c l wd) →
          ∃ pre b post, sch :: rest = pre ++ b :: post
            ∧ from_utf8_loop pre remaining codepoint lower_limit wide = (true, w)
            ∧ (from_utf8_loop (pre ++ [b]) remaining codepoint lower_limit wide).1
                = false := by
        intro r c l wd hstep
        rw [hstep rest] at h
        obtain ⟨pre, b, post, e1, e2, e3⟩ := ih r c l wd w h
        refine ⟨sch :: pre, b, post, by rw [e1]; rfl, ?_, ?_⟩
        · rw [hstep pre]; exact e2
        · rw [List.cons_append, hstep (pre ++ [b])]; exact e3
      simp only [from_utf8_loop] at h
      split_ifs at h with h1 h2 h3 h4 h5 h6 h7 h8
      · exact go _ _ _ _ (fun tail => by simp only [from_utf8_loop, if_pos h1, if_pos h2]; rfl)
      · exact go _ _ _ _ (fun tail => by
          simp only [from_utf8_loop, if_pos h1, if_neg h2, if_pos h3]; rfl)
      · exact go _ _ _ _ (fun tail => by
          simp only [from_utf8_loop, if_pos h1, if_neg h2, if_neg h3, if_pos h4]; rfl)
      · exact go _ _ _ _ (fun tail => by
          simp only [from_utf8_loop, if_pos h1, if_neg h2, if_neg h3, if_neg h4, if_pos h5]; rfl)
      · refine stop ?_ (by injection h with _ h; exact h.symm)
        simp only [from_utf8_loop, if_pos h1, if_neg h2, if_neg h3, if_neg h4, if_neg h5]
      · refine stop ?_ (by injection h with _ h; exact h.symm)
        simp only [from_utf8_loop, if_neg h1, if_pos h6]
      · refine stop ?_ (by injection h with _ h; exact h.symm)
        simp only [from_utf8_loop, if_neg h1, if_neg h6, if_pos h7, if_pos h8]
      · exact go _ _ _ _ (fun tail => by
          simp only [from_utf8_loop, if_neg h1, if_neg h6, if_pos h7, if_neg h8]; rfl)
      · exact go _ _ _ _ (fun tail => by
          simp only [from_utf8_loop, if_neg h1, if_neg h6, if_neg h7]; rfl)

/-- C22: `from_utf8` reports success exactly when `valid_utf8` returns true, and when it
fails it has stopped at the first offending byte: the input splits into a prefix that is
accepted, after which `wide` holds what the call leaves in it, and a next byte with which
the prefix is no longer accepted. -/
theorem from_utf8_same_validation (narrow : List Nat) :
    (from_utf8 narrow).1 = valid_utf8 narrow
      ∧ ((from_utf8 narrow).1 = false →
          ∃ pre b post, narrow = pre ++ b :: post
            ∧ from_utf8 pre = (true, (from_utf8 narrow).2)
            ∧ valid_utf8 pre = true
            ∧ valid_utf8 (pre ++ [b]) = false
            ∧ (from_utf8 (pre ++ [b])).1 = false) := by
  have hv : ∀ s, valid_utf8 s = (from_utf8 s).1 := fun s =>
    valid_utf8_loop_eq_from_utf8_loop s 0 0 0 []
  refine ⟨(hv narrow).symm, fun hf => ?_⟩
  have h : from_utf8_loop narrow 0 0 0 [] = (false, (from_utf8 narrow).2) := by
    have : (from_utf8_loop narrow 0 0 0 []).1 = false := hf
    exact Prod.ext this rfl
  obtain ⟨pre, b, post, e1, e2, e3⟩ := from_utf8_loop_first_error narrow 0 0 0 [] _ h
  refine ⟨pre, b, post, e1, e2, ?_, ?_, e3⟩
  · rw [hv pre]
    show (from_utf8_loop pre 0 0 0 []).1 = true
    rw [e2]
  · rw [hv]; exact e3

theorem valid_utf8_loop_nil (remaining codepoint lower_limit : Nat) :
    valid_utf8_loop [] remaining codepoint lower_limit = true := rfl

/-- One step of the validator on an ASCII byte. -/
theorem valid_utf8_loop_ascii (b : Nat) (rest : List Nat) (cp ll : Nat) (hb : b < 128) :
    valid_utf8_loop (b :: rest) 0 cp ll = valid_utf8_loop rest 0 0 ll := by
  have hm : b % 256 = b := Nat.mod_eq_of_lt (by omega)
  simp only [valid_utf8_loop, hm, true_or, if_true, hb]

/-- One step of the validator on a continuation position. -/
theorem valid_utf8_loop_cont (c : Nat) (rest : List Nat) (r cp ll : Nat) (hc : c < 256)
    (hr : 1 ≤ r) (hr5 : r ≤ 5) (hcp : cp < 2 ^ 26) :
    valid_utf8_loop (c :: rest) r cp ll
      = (is_continuation c
          && (if r = 1 then decide (ll ≤ cp * 64 + (c &&& 0x3f))
                && valid_utf8_loop rest 0 (cp * 64 + (c &&& 0x3f)) ll
              else valid_utf8_loop rest (r - 1) (cp * 64 + (c &&& 0x3f)) ll)) := by
  have hm : c % 256 = c := Nat.mod_eq_of_lt hc
  have h0 : ¬ (r = 0 ∨ r > 5) := by omega
  have hlow : c &&& 0x3f < 2 ^ 6 := by
    have := Nat.and_pow_two_sub_one_eq_mod c 6
    simp only [Nat.reducePow, Nat.add_one_sub_one] at this
    rw [this]; omega
  have hmod : cp * 64 % U32 = cp * 64 := Nat.mod_eq_of_lt (by unfold U32; norm_num at hcp; omega)
  have hor : (cp * 64) ||| (c &&& 0x3f) = cp * 64 + (c &&& 0x3f) := by
    have := or_low_bits 6 cp (c &&& 0x3f) hlow
    simp only [Nat.reducePow] at this
    rw [Nat.mul_comm cp 64]; exact this
  simp only [valid_utf8_loop, hm, h0, if_false, hmod, hor, is_continuation]
  by_cases hcont : c &&& 0xc0 = 0x80
  · simp only [hcont, ne_eq, not_true_eq_false, if_false, beq_self_eq_true, Bool.true_and]
    by_cases h1 : r = 1
    · subst h1
      simp only [Nat.sub_self, if_true]
      by_cases hl : cp * 64 + (c &&& 0x3f) < ll
      · simp [hl]
      · simp [hl, Nat.not_lt.mp hl]
    · have : r - 1 ≠ 0 := by omega
      simp only [this, h1, if_false]
  · simp [hcont]

set_option maxRecDepth 100000 in
theorem lead_bits : ∀ b < 256,
    (b &&& 0xe0 = 0xc0 → ¬ b < 128)
      ∧ (b &&& 0xf0 = 0xe0 → ¬ b < 128 ∧ b &&& 0xe0 ≠ 0xc0)
      ∧ (b &&& 0xf8 = 0xf0 → ¬ b < 128 ∧ b &&& 0xe0 ≠ 0xc0 ∧ b &&& 0xf0 ≠ 0xe0)
      ∧ b &&& 0x1f < 32 ∧ b &&& 0x0f < 16 ∧ b &&& 0x07 < 8 ∧ b &&& 0x3f < 64 := by
  decide

theorem valid_utf8_loop_lead2 (b : Nat) (rest : List Nat) (cp ll : Nat) (hb : b < 256)
    (h : b &&& 0xe0 = 0xc0) :
    valid_utf8_loop (b :: rest) 0 cp ll = valid_utf8_loop rest 1 (b &&& 0x1f) 0x80 := by
  have hm : b % 256 = b := Nat.mod_eq_of_lt hb
  have n1 := (lead_bits b hb).1 h
  simp only [valid_utf8_loop, hm, true_or, if_true, n1, if_false, h]

theorem valid_utf8_loop_lead3 (b : Nat) (rest : List Nat) (cp ll : Nat) (hb : b < 256)
    (h : b &&& 0xf0 = 0xe0) :
    valid_utf8_loop (b :: rest) 0 cp ll = valid_utf8_loop rest 2 (b &&& 0x0f) 0x800 := by
  have hm : b % 256 = b := Nat.mod_eq_of_lt hb
  obtain ⟨n1, n2⟩ := (lead_bits b hb).2.1 h
  simp only [valid_utf8_loop, hm, true_or, if_true, n1, n2, if_false, h]

theorem valid_utf8_loop_lead4 (b : Nat) (rest : List Nat) (cp ll : Nat) (hb : b < 256)
    (h : b &&& 0xf8 = 0xf0) :
    valid_utf8_loop (b :: rest) 0 cp ll = valid_utf8_loop rest 3 (b &&& 0x07) 0x10000 := by
  have hm : b % 256 = b := Nat.mod_eq_of_lt hb
  obtain ⟨n1, n2, n3⟩ := (lead_bits b hb).2.2.1 h
  simp only [valid_utf8_loop, hm, true_or, if_true, n1, n2, n3, if_false, h]

theorem valid_utf8_loop_no_lead (b : Nat) (rest : List Nat) (cp ll : Nat) (hb : b < 256)
    (h1 : ¬ b < 128) (h2 : b &&& 0xe0 ≠ 0xc0) (h3 : b &&& 0xf0 ≠ 0xe0)
    (h4 : b &&& 0xf8 ≠ 0xf0) :
    valid_utf8_loop (b :: rest) 0 cp ll = false := by
  have hm : b % 256 = b := Nat.mod_eq_of_lt hb
  simp only [valid_utf8_loop, hm, true_or, if_true, h1, h2, h3, h4, if_false]

theorem wfot_nil : well_formed_or_truncated_utf8 [] :=
  ⟨[], [], rfl, fun _ h => (by cases h), Or.inl rfl⟩

theorem wfot_tail (t : List Nat) (h : truncated_sequence t = true) :
    well_formed_or_truncated_utf8 t :=
  ⟨[], t, rfl, fun _ h => (by cases h), Or.inr h⟩

theorem wfot_cons (s rest : List Nat) (hs : complete_sequence s = true)
    (h : well_formed_or_truncated_utf8 rest) :
    well_formed_or_truncated_utf8 (s ++ rest) := by
  obtain ⟨seqs, tail, e, h1, h2⟩ := h
  refine ⟨s :: seqs, tail, ?_, ?_, h2⟩
  · rw [e, List.flatten_cons, List.append_assoc]
  · intro x hx
    rcases List.mem_cons.mp hx with rfl | hx
    · exact hs
    · exact h1 x hx

theorem valid_utf8_loop_decompose (n : Nat) :
    ∀ bytes : List Nat, bytes.length ≤ n → (∀ b ∈ bytes, b < 256) →
      ∀ cp ll, valid_utf8_loop bytes 0 cp ll = true →
        well_formed_or_truncated_utf8 bytes := by
  induction n with
  | zero =>
      intro bytes hl _ _ _ _
      have : bytes = [] := List.length_eq_zero.mp (Nat.le_zero.mp hl)
      rw [this]; exact wfot_nil
  | succ n ih =>
      intro bytes hl hbytes cp ll h
      cases bytes with
      | nil => exact wfot_nil
      | cons b rest =>
        have hb : b < 256 := hbytes b (List.mem_cons_self _ _)
        have hrest : ∀ x ∈ rest, x < 256 := fun x hx => hbytes x (List.mem_cons_of_mem _ hx)
        have hlen : rest.length ≤ n := by simpa using hl
        obtain ⟨-, -, -, b1f, b0f, b07, -⟩ := lead_bits b hb
        by_cases h1 : b < 128
        · rw [valid_utf8_loop_ascii b rest cp ll h1] at h
          exact wfot_cons [b] rest (by simp [complete_sequence, h1])
            (ih rest hlen hrest _ _ h)
        by_cases h2 : b &&& 0xe0 = 0xc0
        · rw [valid_utf8_loop_lead2 b rest cp ll hb h2] at h
          cases rest with
          | nil => exact wfot_tail [b] (by simp [truncated_sequence, h2])
          | cons c1 r1 =>
            have hc1 : c1 < 256 := hrest c1 (List.mem_cons_self _ _)
            have hr1 : ∀ x ∈ r1, x < 256 := fun x hx => hrest x (List.mem_cons_of_mem _ hx)
            rw [valid_utf8_loop_cont c1 r1 1 _ _ hc1 (by omega) (by omega) (by omega)] at h
            simp only [if_true, Bool.and_eq_true, decide_eq_true_eq] at h
            obtain ⟨k1, k2, k3⟩ := h
            exact wfot_cons [b, c1] r1 (by simp [complete_sequence, h2, k1, k2])
              (ih r1 (by simp at hlen; omega) hr1 _ _ k3)
        by_cases h3 : b &&& 0xf0 = 0xe0
        · rw [valid_utf8_loop_lead3 b rest cp ll hb h3] at h
          cases rest with
          | nil => exact wfot_tail [b] (by simp [truncated_sequence, h3])
          | cons c1 r1 =>
            have hc1 : c1 < 256 := hrest c1 (List.mem_cons_self _ _)
            have hr1 : ∀ x ∈ r1, x < 256 := fun x hx => hrest x (List.mem_cons_of_mem _ hx)
            have c1low := (lead_bits c1 hc1).2.2.2.2.2.2
            rw [valid_utf8_loop_cont c1 r1 2 _ _ hc1 (by omega) (by omega) (by omega)] at h
            simp only [show ¬ (2 = 1) by omega, if_false, Bool.and_eq_true] at h
            obtain ⟨k1, h⟩ := h
            cases r1 with
            | nil => exact wfot_tail [b, c1] (by simp [truncated_sequence, h3, k1])
            | cons c2 r2 =>
              have hc2 : c2 < 256 := hr1 c2 (List.mem_cons_self _ _)
              have hr2 : ∀ x ∈ r2, x < 256 := fun x hx => hr1 x (List.mem_cons_of_mem _ hx)
              rw [valid_utf8_loop_cont c2 r2 1 _ _ hc2 (by omega) (by omega) (by omega)] at h
              simp only [if_true, Bool.and_eq_true, decide_eq_true_eq] at h
              obtain ⟨k2, k3, k4⟩ := h
              exact wfot_cons [b, c1, c2] r2 (by simp [complete_sequence, h3, k1, k2, k3])
                (ih r2 (by simp at hlen; omega) hr2 _ _ k4)
        by_cases h4 : b &&& 0xf8 = 0xf0
        · rw [valid_utf8_loop_lead4 b rest cp ll hb h4] at h
          cases rest with
          | nil => exact wfot_tail [b] (by simp [truncated_sequence, h4])
          | cons c1 r1 =>
            have hc1 : c1 < 256 := hrest c1 (List.mem_cons_self _ _)
            have hr1 : ∀ x ∈ r1, x < 256 := fun x hx => hrest x (List.mem_cons_of_mem _ hx)
            have c1low := (lead_bits c1 hc1).2.2.2.2.2.2
            rw [valid_utf8_loop_cont c1 r1 3 _ _ hc1 (by omega) (by omega) (by omega)] at h
            simp only [show ¬ (3 = 1) by omega, if_false, Bool.and_eq_true] at h
            obtain ⟨k1, h⟩ := h
            cases r1 with
            | nil => exact wfot_tail [b, c1] (by simp [truncated_sequence, h4, k1])
            | cons c2 r2 =>
              have hc2 : c2 < 256 := hr1 c2 (List.mem_cons_self _ _)
              have hr2 : ∀ x ∈ r2, x < 256 := fun x hx => hr1 x (List.mem_cons_of_mem _ hx)
              have c2low := (lead_bits c2 hc2).2.2.2.2.2.2
              rw [valid_utf8_loop_cont c2 r2 2 _ _ hc2 (by omega) (by omega) (by omega)] at h
              simp only [show ¬ (2 = 1) by omega, if_false, Bool.and_eq_true] at h
              obtain ⟨k2, h⟩ := h
              cases r2 with
              | nil => exact wfot_tail [b, c1, c2] (by simp [truncated_sequence, h4, k1, k2])
              | cons c3 r3 =>
                have hc3 : c3 < 256 := hr2 c3 (List.mem_cons_self _ _)
                have hr3 : ∀ x ∈ r3, x < 256 :=
                  fun x hx => hr2 x (List.mem_cons_of_mem _ hx)
                rw [valid_utf8_loop_cont c3 r3 1 _ _ hc3 (by omega) (by omega)
                  (by omega)] at h
                simp only [if_true, Bool.and_eq_true, decide_eq_true_eq] at h
                obtain ⟨k3, k4, k5⟩ := h
                exact wfot_cons [b, c1, c2, c3] r3
                  (by simp [complete_sequence, h4, k1, k2, k3, k4])
                  (ih r3 (by simp at hlen; omega) hr3 _ _ k5)
        · rw [valid_utf8_loop_no_lead b rest cp ll hb h1 h2 h3 h4] at h
          cases h

theorem valid_utf8_loop_complete (s rest : List Nat) (hs : complete_sequence s = true)
    (hb : ∀ b ∈ s, b < 256) (cp ll : Nat) :
    ∃ cp2 ll2, valid_utf8_loop (s ++ rest) 0 cp ll = valid_utf8_loop rest 0 cp2 ll2 := by
  match s, hs, hb with
  | [b], hs, hb =>
      have h1 : b < 128 := by simpa [complete_sequence] using hs
      exact ⟨_, _, valid_utf8_loop_ascii b rest cp ll h1⟩
  | [b, c1], hs, hb =>
      have hb0 : b < 256 := hb b (by simp)
      have hc1 : c1 < 256 := hb c1 (by simp)
      obtain ⟨-, -, -, b1f, -, -, -⟩ := lead_bits b hb0
      simp only [complete_sequence, Bool.and_eq_true, beq_iff_eq, decide_eq_true_eq] at hs
      obtain ⟨⟨h2, k1⟩, k2⟩ := hs
      refine ⟨(b &&& 0x1f) * 64 + (c1 &&& 0x3f), 0x80, ?_⟩
      rw [List.cons_append, valid_utf8_loop_lead2 b _ cp ll hb0 h2, List.cons_append,
        valid_utf8_loop_cont c1 _ 1 _ _ hc1 (by omega) (by omega) (by omega)]
      simp only [if_true, k1, k2, decide_True, Bool.true_and, List.nil_append]
  | [b, c1, c2], hs, hb =>
      have hb0 : b < 256 := hb b (by simp)
      have hc1 : c1 < 256 := hb c1 (by simp)
      have hc2 : c2 < 256 := hb c2 (by simp)
      obtain ⟨-, -, -, -, b0f, -, -⟩ := lead_bits b hb0
      have c1low := (lead_bits c1 hc1).2.2.2.2.2.2
      simp only [complete_sequence, Bool.and_eq_true, beq_iff_eq, decide_eq_true_eq] at hs
      obtain ⟨⟨⟨h3, k1⟩, k2⟩, k3⟩ := hs
      refine ⟨((b &&& 0x0f) * 64 + (c1 &&& 0x3f)) * 64 + (c2 &&& 0x3f), 0x800, ?_⟩
      rw [List.cons_append, valid_utf8_loop_lead3 b _ cp ll hb0 h3, List.cons_append,
        valid_utf8_loop_cont c1 _ 2 _ _ hc1 (by omega) (by omega) (by omega),
        List.cons_append,
        valid_utf8_loop_cont c2 _ 1 _ _ hc2 (by omega) (by omega) (by omega)]
      simp only [show ¬ (2 = 1) by omega, if_false, if_true, k1, k2, k3, decide_True,
        Bool.true_and, List.nil_append, Nat.add_one_sub_one]
  | [b, c1, c2, c3], hs, hb =>
      have hb0 : b < 256 := hb b (by simp)
      have hc1 : c1 < 256 := hb c1 (by simp)
      have hc2 : c2 < 256 := hb c2 (by simp)
      have hc3 : c3 < 256 := hb c3 (by simp)
      obtain ⟨-, -, -, -, -, b07, -⟩ := lead_bits b hb0
      have c1low := (lead_bits c1 hc1).2.2.2.2.2.2
      have c2low := (lead_bits c2 hc2).2.2.2.2.2.2
      simp only [complete_sequence, Bool.and_eq_true, beq_iff_eq, decide_eq_true_eq] at hs
      obtain ⟨⟨⟨⟨h4, k1⟩, k2⟩, k3⟩, k4⟩ := hs
      refine ⟨(((b &&& 0x07) * 64 + (c1 &&& 0x3f)) * 64 + (c2 &&& 0x3f)) * 64 + (c3 &&& 0x3f),
        0x10000, ?_⟩
      rw [List.cons_append, valid_utf8_loop_lead4 b _ cp ll hb0 h4, List.cons_append,
        valid_utf8_loop_cont c1 _ 3 _ _ hc1 (by omega) (by omega) (by omega),
        List.cons_append,
        valid_utf8_loop_cont c2 _ 2 _ _ hc2 (by omega) (by omega) (by omega),
        List.cons_append,
        valid_utf8_loop_cont c3 _ 1 _ _ hc3 (by omega) (by omega) (by omega)]
      simp only [show ¬ (3 = 1) by omega, show ¬ (2 = 1) by omega, if_false, if_true, k1, k2,
        k3, k4, decide_True, Bool.true_and, List.nil_append, Nat.add_one_sub_one]
  | [], hs, _ => simp [complete_sequence] at hs
  | _ :: _ :: _ :: _ :: _ :: _, hs, _ => simp [complete_sequence] at hs

theorem valid_utf8_loop_truncated (t : List Nat) (ht : truncated_sequence t = true)
    (hb : ∀ b ∈ t, b < 256) (cp ll : Nat) : valid_utf8_loop t 0 cp ll = true := by
  match t, ht, hb with
  | [b], ht, hb =>
      have hb0 : b < 256 := hb b (by simp)
      simp only [truncated_sequence, Bool.or_eq_true, beq_iff_eq] at ht
      rcases ht with (h | h) | h
      · rw [valid_utf8_loop_lead2 b _ cp ll hb0 h]; rfl
      · rw [valid_utf8_loop_lead3 b _ cp ll hb0 h]; rfl
      · rw [valid_utf8_loop_lead4 b _ cp ll hb0 h]; rfl
  | [b, c1], ht, hb =>
      have hb0 : b < 256 := hb b (by simp)
      have hc1 : c1 < 256 := hb c1 (by simp)
      obtain ⟨-, -, -, -, b0f, b07, -⟩ := lead_bits b hb0
      simp only [truncated_sequence, Bool.and_eq_true, Bool.or_eq_true, beq_iff_eq] at ht
      obtain ⟨h | h, k1⟩ := ht
      · rw [valid_utf8_loop_lead3 b _ cp ll hb0 h,
          valid_utf8_loop_cont c1 _ 2 _ _ hc1 (by omega) (by omega) (by omega)]
        simp [k1, valid_utf8_loop]
      · rw [valid_utf8_loop_lead4 b _ cp ll hb0 h,
          valid_utf8_loop_cont c1 _ 3 _ _ hc1 (by omega) (by omega) (by omega)]
        simp [k1, valid_utf8_loop]
  | [b, c1, c2], ht, hb =>
      have hb0 : b < 256 := hb b (by simp)
      have hc1 : c1 < 256 := hb c1 (by simp)
      have hc2 : c2 < 256 := hb c2 (by simp)
      obtain ⟨-, -, -, -, -, b07, -⟩ := lead_bits b hb0
      have c1low := (lead_bits c1 hc1).2.2.2.2.2.2
      simp only [truncated_sequence, Bool.and_eq_true, beq_iff_eq] at ht
      obtain ⟨⟨h, k1⟩, k2⟩ := ht
      rw [valid_utf8_loop_lead4 b _ cp ll hb0 h,
        valid_utf8_loop_cont c1 _ 3 _ _ hc1 (by omega) (by omega) (by omega),
        valid_utf8_loop_cont c2 _ 2 _ _ hc2 (by omega) (by omega) (by omega)]
      simp [k1, k2, valid_utf8_loop]
  | [], ht, _ => simp [truncated_sequence] at ht
  | _ :: _ :: _ :: _ :: _, ht, _ => simp [truncated_sequence] at ht

theorem valid_utf8_loop_compose (seqs : List (List Nat)) (tail : List Nat)
    (h1 : ∀ s ∈ seqs, complete_sequence s = true)
    (h2 : tail = [] ∨ truncated_sequence tail = true)
    (hb : ∀ b ∈ seqs.flatten ++ tail, b < 256) :
    ∀ cp ll, valid_utf8_loop (seqs.flatten ++ tail) 0 cp ll = true := by
  induction seqs with
  | nil =>
      intro cp ll
      rw [List.flatten_nil, List.nil_append]
      rcases h2 with rfl | h2
      · rfl
      · exact valid_utf8_loop_truncated tail h2 (fun b hb2 => hb b (by simpa using hb2)) cp ll
  | cons s seqs ih =>
      intro cp ll
      rw [List.flatten_cons, List.append_assoc]
      obtain ⟨cp2, ll2, e⟩ := valid_utf8_loop_complete s (seqs.flatten ++ tail)
        (h1 s (List.mem_cons_self _ _))
        (fun b hb2 => hb b (by
          rw [List.flatten_cons, List.append_assoc]
          exact List.mem_append_left _ hb2)) cp ll
      rw [e]
      exact ih (fun x hx => h1 x (List.mem_cons_of_mem _ hx))
        (fun b hb2 => hb b (by
          rw [List.flatten_cons, List.append_assoc]
          exact List.mem_append_right _ hb2)) cp2 ll2

/-- C21 (code as it is): `valid_utf8` accepts exactly the concatenations of complete
sequences after which a sequence may break off: a lead byte of a longer sequence, or one
followed by too few continuation bytes, at the end of the string is accepted. -/
theorem valid_utf8_iff (bytes : List Nat) (hbytes : ∀ b ∈ bytes, b < 256) :
    valid_utf8 bytes = true ↔ well_formed_or_truncated_utf8 bytes := by
  constructor
  · intro h
    exact valid_utf8_loop_decompose bytes.length bytes le_rfl hbytes 0 0 h
  · rintro ⟨seqs, tail, e, h1, h2⟩
    rw [e] at hbytes ⊢
    exact valid_utf8_loop_compose seqs tail h1 h2 hbytes 0 0

theorem complete_sequence_last (s : List Nat) (hs : complete_sequence s = true) :
    ∃ b, s.getLast? = some b ∧ (b < 0x80 ∨ is_continuation b = true) := by
  match s, hs with
  | [b], hs => exact ⟨b, rfl, Or.inl (by simpa [complete_sequence] using hs)⟩
  | [b, c1], hs =>
      simp only [complete_sequence, Bool.and_eq_true] at hs
      exact ⟨c1, rfl, Or.inr hs.1.2⟩
  | [b, c1, c2], hs =>
      simp only [complete_sequence, Bool.and_eq_true] at hs
      exact ⟨c2, rfl, Or.inr hs.1.2⟩
  | [b, c1, c2, c3], hs =>
      simp only [complete_sequence, Bool.and_eq_true] at hs
      exact ⟨c3, rfl, Or.inr hs.1.2⟩
  | [], hs => simp [complete_sequence] at hs
  | _ :: _ :: _ :: _ :: _ :: _, hs => simp [complete_sequence] at hs

/-- A concatenation of complete sequences is empty or ends in an ASCII byte or a
continuation byte. -/
theorem well_formed_last (seqs : List (List Nat))
    (h : ∀ s ∈ seqs, complete_sequence s = true) :
    seqs.flatten = [] ∨
      ∃ b, seqs.flatten.getLast? = some b ∧ (b < 0x80 ∨ is_continuation b = true) := by
  induction seqs with
  | nil => exact Or.inl rfl
  | cons s seqs ih =>
      right
      obtain ⟨b, e, hb⟩ := complete_sequence_last s (h s (List.mem_cons_self _ _))
      rw [List.flatten_cons]
      rcases ih (fun x hx => h x (List.mem_cons_of_mem _ hx)) with e2 | ⟨b2, e2, hb2⟩
      · rw [e2, List.append_nil]
        exact ⟨b, e, hb⟩
      · refine ⟨b2, ?_, hb2⟩
        rw [List.getLast?_append, e2]
        rfl

set_option maxRecDepth 100000 in
/-- C21 at the Latin-1 string "caf\xE9": the last byte is the lead byte of a sequence of
three bytes, the string is no concatenation of complete sequences, `valid_utf8` accepts it
all the same, and `add_keyvalue` stores it without the conversion to UTF-8 that it applies
to Latin-1 values. -/
theorem valid_utf8_iff_witness :
    (∀ b ∈ [0x63, 0x61, 0x66, 0xE9], b < 256)
      ∧ (valid_utf8 [0x63, 0x61, 0x66, 0xE9] = true
          ↔ well_formed_or_truncated_utf8 [0x63, 0x61, 0x66, 0xE9])
      ∧ valid_utf8 [0x63, 0x61, 0x66, 0xE9] = true
      ∧ ¬ well_formed_utf8 [0x63, 0x61, 0x66, 0xE9]
      ∧ (DiskRecord.default.add_keyvalue Locale.ascii (ascii_bytes "DGENRE")
            [0x63, 0x61, 0x66, 0xE9]).map (fun r => r.m_genre)
          = Except.ok [0x63, 0x61, 0x66, 0xE9] := by
  refine ⟨by decide, valid_utf8_iff [0x63, 0x61, 0x66, 0xE9] (by decide), by decide, ?_,
    rfl⟩
  rintro ⟨seqs, e, h⟩
  rcases well_formed_last seqs h with e2 | ⟨b, e2, hb⟩
  · rw [e2] at e; cases e
  · rw [← e] at e2
    have : b = 0xE9 := by
      have e3 : [0x63, 0x61, 0x66, 0xE9].getLast? = some 0xE9 := rfl
      rw [e3] at e2
      injection e2 with e2
      exact e2.symm
    subst this
    revert hb
    decide

/-! ## Title case -/

/-- At the start of a run the flag `was_C` is not read. -/
theorem to_title_case_loop_was_space (L : Locale) (str : List Nat) (c1 c2 : Bool) :
    to_title_case_loop L false str true c1 = to_title_case_loop L false str true c2 := by
  induction str generalizing c1 c2 with
  | nil => rfl
  | cons ch rest ih =>
      simp only [to_title_case_loop]
      by_cases h : (!L.iswalnum ch) = true
      · simp only [h, if_true]
        rw [ih c1 c2]
      · simp only [h, if_false, Bool.false_and, if_true]
        rfl

theorem to_title_case_loop_eq (L : Locale) (str : List Nat) :
    ∀ (prev2 prev : Option Nat) (was_space was_C : Bool),
      was_space = starts_run L prev →
      (was_space = false →
        was_C = (prev == some 67 && starts_run L prev2)) →
      (to_title_case_loop L false str was_space was_C).1
        = spec_title_from L prev2 prev str := by
  induction str with
  | nil => intro _ _ _ _ _ _; rfl
  | cons ch rest ih =>
      intro prev2 prev was_space was_C hs hc
      simp only [to_title_case_loop, spec_title_from, spec_title_char]
      by_cases h : (!L.iswalnum ch) = true
      · simp only [h, if_true]
        have e := ih prev (some ch) true was_C (by simpa [starts_run] using h)
          (fun k => by cases k)
        rw [e]
      · have hal : L.iswalnum ch = true := by simpa using h
        simp only [h, if_false]
        cases was_space with
        | true =>
            simp only [← hs, if_true, Bool.false_and, if_false]
            have e := ih prev (some ch) false (ch == 67)
              (by simp [starts_run, hal])
              (fun _ => by
                simp only [← hs, Bool.and_true]
                by_cases h67 : ch = 67
                · subst h67; rfl
                · have : (some ch == some 67) = false := by simp [h67]
                  rw [this]; simp [h67])
            simp [e]
        | false =>
            simp only [← hs, if_false, Bool.false_eq_true]
            have hwc := hc rfl
            have e := ih prev (some ch) false false
              (by simp [starts_run, hal])
              (fun _ => by
                have : starts_run L prev = false := hs.symm
                simp [this])
            by_cases hu : (L.iswupper ch && !(was_C && ch == 68)) = true
            · have hu2 : (L.iswupper ch
                  && !(ch == 68 && prev == some 67 && starts_run L prev2)) = true := by
                rw [hwc] at hu
                rw [← hu]
                cases L.iswupper ch <;> cases (ch == 68) <;> cases (prev == some 67)
                  <;> cases starts_run L prev2 <;> rfl
              rw [if_pos hu, if_pos hu2]
              exact congrArg (L.towlower ch :: ·) e
            · have hu2 : ¬ (L.iswupper ch
                  && !(ch == 68 && prev == some 67 && starts_run L prev2)) = true := by
                rw [hwc] at hu
                intro k
                apply hu
                rw [← k]
                cases L.iswupper ch <;> cases (ch == 68) <;> cases (prev == some 67)
                  <;> cases starts_run L prev2 <;> rfl
              rw [if_neg hu, if_neg hu2]
              exact congrArg (ch :: ·) e

/-- `to_title_case(str, false)` leaves the string that the positions define. -/
theorem to_title_case_eq_spec (L : Locale) (str : List Nat) :
    (to_title_case L str false).1 = spec_title_case L str :=
  to_title_case_loop_eq L str none none true false rfl (fun k => by cases k)

/-- When `to_title_case` reports no change, it has left the string as it was. -/
theorem to_title_case_loop_unchanged (L : Locale) (str : List Nat) :
    ∀ (was_space was_C : Bool),
      (to_title_case_loop L false str was_space was_C).2 = 0 →
      (to_title_case_loop L false str was_space was_C).1 = str := by
  induction str with
  | nil => intro _ _ _; rfl
  | cons ch rest ih =>
      intro was_space was_C h
      simp only [to_title_case_loop] at h ⊢
      split_ifs at h ⊢ with h1 h2 h3 h4
      · exact congrArg (ch :: ·) (ih _ _ h)
      · simp at h3
      · exact congrArg (ch :: ·) (ih _ _ h)
      · simp at h
      · exact congrArg (ch :: ·) (ih _ _ h)

set_option maxRecDepth 100000 in
/-- C23 as stated fails: the first letter of a run is never upper-cased ("aBC DEF" becomes
"abc Def"), a string that is not mostly upper-case is left alone ("hello world"), and the
bigram "CD" keeps its case only at the start of a word ("ABCD" becomes "Abcd", "CD ROM"
becomes "CD Rom"). -/
theorem titlecase_first_letter_stays :
    (convert_to_titlecase Locale.ascii (ascii_bytes "aBC DEF") none 0).1
        = ascii_bytes "abc Def"
      ∧ (convert_to_titlecase Locale.ascii (ascii_bytes "hello world") none 0).1
        = ascii_bytes "hello world"
      ∧ (convert_to_titlecase Locale.ascii (ascii_bytes "ABCD") none 0).1
        = ascii_bytes "Abcd"
      ∧ (convert_to_titlecase Locale.ascii (ascii_bytes "CD ROM") none 0).1
        = ascii_bytes "CD Rom" := by
  decide

/-! ## untar -/

theorem header_sum_foldl_unsigned (raw : List Nat) (hb : ∀ b ∈ raw, b < 256) :
    ∀ acc, acc + raw.length * 256 < 18446744073709551616 →
      raw.foldl (fun sum ch => (sum + char_as_uint64 false ch) % 18446744073709551616) acc
        = acc + raw.sum := by
  induction raw with
  | nil => intro acc _; simp
  | cons b rest ih =>
      intro acc hacc
      have hb0 : b < 256 := hb b (List.mem_cons_self _ _)
      simp only [List.length_cons] at hacc
      simp only [List.foldl_cons, List.sum_cons]
      have e : char_as_uint64 false b = b := by simp [char_as_uint64]
      rw [e, Nat.mod_eq_of_lt (by omega),
        ih (fun x hx => hb x (List.mem_cons_of_mem _ hx)) (acc + b) (by omega)]
      omega

/-- Where `char` is unsigned, the checksum loop computes the arithmetic sum of the bytes. -/
theorem header_sum_unsigned (raw : List Nat) (hb : ∀ b ∈ raw, b < 256)
    (hlen : raw.length ≤ 512) : header_sum false raw = raw.sum := by
  have := header_sum_foldl_unsigned raw hb 0 (by omega)
  simpa [header_sum] using this

theorem header_sum_foldl_ascii (cs : Bool) (raw : List Nat) (hb : ∀ b ∈ raw, b < 128) :
    ∀ acc, raw.foldl (fun sum ch => (sum + char_as_uint64 cs ch) % 18446744073709551616) acc
      = raw.foldl (fun sum ch => (sum + char_as_uint64 false ch) % 18446744073709551616)
          acc := by
  induction raw with
  | nil => intro acc; rfl
  | cons b rest ih =>
      intro acc
      have hb0 : b < 128 := hb b (List.mem_cons_self _ _)
      simp only [List.foldl_cons]
      have e : char_as_uint64 cs b = char_as_uint64 false b := by
        simp [char_as_uint64]; omega
      rw [e, ih (fun x hx => hb x (List.mem_cons_of_mem _ hx))]

/-- For a header of bytes below 0x80 the signedness of `char` makes no difference. -/
theorem header_sum_ascii (cs : Bool) (raw : List Nat) (hb : ∀ b ∈ raw, b < 128)
    (hlen : raw.length ≤ 512) : header_sum cs raw = raw.sum := by
  rw [← header_sum_unsigned raw (fun b h => by have := hb b h; omega) hlen]
  exact header_sum_foldl_ascii cs raw hb 0

theorem header_sum_foldl_signed (raw : List Nat) (hb : ∀ b ∈ raw, b < 256) :
    ∀ acc, raw.foldl (fun sum ch => (sum + char_as_uint64 true ch) % 18446744073709551616)
        acc % 18446744073709551616
      = (acc + raw.sum + (18446744073709551616 - 256) * (raw.filter (fun b => b ≥ 128)).length)
          % 18446744073709551616 := by
  induction raw with
  | nil => intro acc; simp
  | cons b rest ih =>
      intro acc
      have hb0 : b < 256 := hb b (List.mem_cons_self _ _)
      simp only [List.foldl_cons, List.sum_cons]
      rw [ih (fun x hx => hb x (List.mem_cons_of_mem _ hx))]
      by_cases h : b ≥ 128
      · have e : char_as_uint64 true b = 18446744073709551616 - 256 + b := by
          simp [char_as_uint64, h]
        have f : (List.filter (fun b => decide (b ≥ 128)) (b :: rest)).length
            = (List.filter (fun b => decide (b ≥ 128)) rest).length + 1 := by
          simp [List.filter_cons, h]
        rw [e, f]
        generalize (List.filter (fun b => decide (b ≥ 128)) rest).length = k
        generalize rest.sum = s
        omega
      · have e : char_as_uint64 true b = b := by
          simp [char_as_uint64, h]
        have f : (List.filter (fun b => decide (b ≥ 128)) (b :: rest)).length
            = (List.filter (fun b => decide (b ≥ 128)) rest).length := by
          simp [List.filter_cons, h]
        rw [e, f]
        generalize (List.filter (fun b => decide (b ≥ 128)) rest).length = k
        generalize rest.sum = s
        omega

theorem header_sum_lt (cs : Bool) (raw : List Nat) :
    header_sum cs raw < 18446744073709551616 := by
  unfold header_sum
  induction raw using List.reverseRecOn with
  | nil => simp
  | append_singleton rest b _ =>
      rw [List.foldl_append]
      simp only [List.foldl_cons, List.foldl_nil]
      exact Nat.mod_lt _ (by omega)

/-- Where `char` is signed, every byte from 0x80 on counts 256 less: the checksum loop
computes the arithmetic sum less 256 for each such byte, in 64 bits. -/
theorem header_sum_signed (raw : List Nat) (hb : ∀ b ∈ raw, b < 256) :
    header_sum true raw
      = (raw.sum + (18446744073709551616 - 256) * (raw.filter (fun b => b ≥ 128)).length)
          % 18446744073709551616 := by
  have h := header_sum_foldl_signed raw hb 0
  rw [Nat.zero_add] at h
  rw [← h]
  exact (Nat.mod_eq_of_lt (header_sum_lt true raw)).symm

theorem header_memset_mem (raw : List Nat) (off len value : Nat) :
    ∀ b ∈ header_memset raw off len value, b ∈ raw ∨ b = value := by
  intro b hb
  unfold header_memset at hb
  rcases List.mem_append.mp hb with hb | hb
  · rcases List.mem_append.mp hb with hb | hb
    · exact Or.inl (List.mem_of_mem_take hb)
    · exact Or.inr (List.eq_of_mem_replicate hb)
  · exact Or.inl (List.mem_of_mem_drop hb)

theorem header_memset_length (raw : List Nat) (off len value : Nat)
    (h : off + len ≤ raw.length) : (header_memset raw off len value).length = raw.length := by
  unfold header_memset
  simp only [List.length_append, List.length_take, List.length_replicate, List.length_drop]
  omega

/-- What `analyze` does with a header that is not the end header. -/
theorem analyze_not_end (L : Locale) (cs : Bool) (h : TarHeader)
    (hnz : h.raw.all (fun ch => ch == 0) = false) :
    TarHeader.analyze L cs h
      = if (strtoull L (c_string (h.raw.drop 148)) 8).value
            ≠ header_sum cs (header_memset h.raw 148 8 32)
        then Except.error TarException.invalid_header_checksum
        else Except.ok (TarHeader.analyze_type L (TarHeader.analyze_names
          { h with
            m_is_end := if h.raw.getD 0 0 = 0 then false else h.m_is_end
            raw := header_memset h.raw 148 8 32 })) := by
  unfold TarHeader.analyze
  by_cases h0 : h.raw.getD 0 0 = 0
  · simp only [h0, if_true, hnz, Bool.false_eq_true, and_false, if_false]
  · simp only [h0, if_false, false_and]

/-- C24 (code as it is): a header block that is not all zero is accepted by `analyze`
exactly when the number that `strtoull` reads in base 8 at the checksum field equals the
sum of the 512 bytes with the checksum field counted as spaces, and is rejected with
"invalid header checksum" otherwise. The sum is the arithmetic sum of the byte values where
`char` is unsigned; where `char` is signed, every byte from 0x80 on counts 256 less. -/
theorem analyze_checksum (L : Locale) (char_signed : Bool) (h : TarHeader)
    (hlen : h.raw.length = 512) (hbytes : ∀ b ∈ h.raw, b < 256)
    (hnz : h.raw.all (fun ch => ch == 0) = false) :
    ((∃ h2, TarHeader.analyze L char_signed h = Except.ok h2)
        ↔ (strtoull L (c_string (h.raw.drop 148)) 8).value
            = header_sum char_signed (header_memset h.raw 148 8 32))
      ∧ ((strtoull L (c_string (h.raw.drop 148)) 8).value
            ≠ header_sum char_signed (header_memset h.raw 148 8 32) →
          TarHeader.analyze L char_signed h
            = Except.error TarException.invalid_header_checksum)
      ∧ header_sum false (header_memset h.raw 148 8 32)
          = (header_memset h.raw 148 8 32).sum
      ∧ header_sum true (header_memset h.raw 148 8 32)
          = ((header_memset h.raw 148 8 32).sum + (18446744073709551616 - 256)
              * ((header_memset h.raw 148 8 32).filter (fun b => b ≥ 128)).length)
            % 18446744073709551616 := by
  have hb2 : ∀ b ∈ header_memset h.raw 148 8 32, b < 256 := by
    intro b hb
    rcases header_memset_mem _ _ _ _ b hb with hb | hb
    · exact hbytes b hb
    · omega
  have hl2 : (header_memset h.raw 148 8 32).length ≤ 512 := by
    rw [header_memset_length _ _ _ _ (by omega)]; omega
  rw [analyze_not_end L char_signed h hnz]
  refine ⟨?_, ?_, header_sum_unsigned _ hb2 hl2, header_sum_signed _ hb2⟩
  · constructor
    · rintro ⟨h2, e⟩
      by_contra hne
      rw [if_pos hne] at e
      cases e
    · intro he
      rw [if_neg (fun k => k he)]
      exact ⟨_, rfl⟩
  · intro hne
    rw [if_pos hne]

set_option maxRecDepth 1000000 in
/-- C24 at the header of a file with the Latin-1 name "caf\xE9.txt": its checksum field
holds the arithmetic sum of its bytes, with which it is accepted where `char` is unsigned
and rejected where `char` is signed. -/
theorem analyze_checksum_witness :
    example_header_latin1.length = 512
      ∧ (strtoull Locale.ascii (c_string (example_header_latin1.drop 148)) 8).value
          = (header_memset example_header_latin1 148 8 32).sum
      ∧ TarHeader.analyze Locale.ascii true { TarHeader.new with raw := example_header_latin1 }
          = Except.error TarException.invalid_header_checksum
      ∧ (∃ h2, TarHeader.analyze Locale.ascii false
          { TarHeader.new with raw := example_header_latin1 } = Except.ok h2)
      ∧ ((∃ h2, TarHeader.analyze Locale.ascii true
            { TarHeader.new with raw := example_header_latin1 } = Except.ok h2)
          ↔ (strtoull Locale.ascii (c_string (example_header_latin1.drop 148)) 8).value
            = header_sum true (header_memset example_header_latin1 148 8 32)) :=
  ⟨by decide, by decide, rfl, ⟨_, rfl⟩,
    (analyze_checksum Locale.ascii true { TarHeader.new with raw := example_header_latin1 }
      (by decide) (by decide) (by decide)).1⟩
theorem header_memset_getElem? (raw : List Nat) (off len value i : Nat)
    (h : off + len ≤ raw.length) :
    (header_memset raw off len value)[i]?
      = if i < off then raw[i]? else if i < off + len then some value else raw[i]? := by
  unfold header_memset
  by_cases h1 : i < off
  · rw [if_pos h1, List.append_assoc, List.getElem?_append_left (by simp; omega)]
    rw [List.getElem?_take_of_lt h1]
  · rw [if_neg h1, List.append_assoc, List.getElem?_append_right (by simp; omega)]
    have e : (List.take off raw).length = off := by simp; omega
    rw [e]
    by_cases h2 : i < off + len
    · rw [if_pos h2, List.getElem?_append_left (by simp; omega)]
      rw [List.getElem?_replicate]
      simp; omega
    · rw [if_neg h2, List.getElem?_append_right (by simp; omega)]
      simp only [List.length_replicate, List.getElem?_drop]
      congr 1
      omega

theorem c_string_append_zero (a b : List Nat) : c_string (a ++ 0 :: b) = c_string a := by
  induction a with
  | nil => simp [c_string]
  | cons x a ih =>
      unfold c_string at ih ⊢
      by_cases hx : x = 0
      · subst hx; simp
      · have : (x != 0) = true := by simpa using hx
        simp only [List.cons_append, List.takeWhile_cons, this, if_true]
        rw [ih]

theorem header_field_getElem? (raw : List Nat) (off len i : Nat) :
    (header_field raw off len)[i]? = if i < len then raw[off + i]? else none := by
  unfold header_field
  by_cases h : i < len
  · rw [if_pos h, List.getElem?_take_of_lt h, List.getElem?_drop]
  · rw [if_neg h]
    apply List.getElem?_eq_none
    simp only [List.length_take, List.length_drop]
    omega

theorem header_field_congr (x y : List Nat) (off len : Nat)
    (h : ∀ i, i < off + len → x[i]? = y[i]?) :
    header_field x off len = header_field y off len := by
  apply List.ext_getElem?
  intro i
  rw [header_field_getElem?, header_field_getElem?]
  by_cases hi : i < len
  · rw [if_pos hi, if_pos hi]
    exact h _ (by omega)
  · rw [if_neg hi, if_neg hi]

theorem drop_memset_terminator (raw : List Nat) (hlen : 136 ≤ raw.length) :
    (header_memset raw 135 1 0).drop 124 = header_field raw 124 11 ++ 0 :: raw.drop 136 := by
  have hfl : (header_field raw 124 11).length = 11 := by
    simp only [header_field, List.length_take, List.length_drop]
    omega
  apply List.ext_getElem?
  intro i
  rw [List.getElem?_drop, header_memset_getElem? raw 135 1 0 (124 + i) (by omega)]
  by_cases h1 : i < 11
  · rw [if_pos (by omega), List.getElem?_append_left (by omega), header_field_getElem?,
      if_pos h1]
  · rw [if_neg (by omega), List.getElem?_append_right (by omega), hfl]
    by_cases h2 : i = 11
    · subst h2
      simp
    · rw [if_neg (by omega)]
      obtain ⟨k, rfl⟩ : ∃ k, i = 12 + k := ⟨i - 12, by omega⟩
      rw [show 12 + k - 11 = k + 1 by omega, List.getElem?_cons_succ, List.getElem?_drop]
      congr 1
      omega

/-- With base 256 `strtoull` converts nothing. -/
theorem strtoull_base_256 (L : Locale) (nptr : List Nat) :
    (strtoull L nptr 256).value = 0 := by
  simp [strtoull]

/-- The header that leaves `analyze_type` as a `File` went through the `File` case. -/
theorem analyze_type_file (L : Locale) (h : TarHeader)
    (hf : (TarHeader.analyze_type L h).m_entrytype = EntryType.File) :
    TarHeader.analyze_type L h = h.analyze_file L := by
  unfold TarHeader.analyze_type at hf ⊢
  dsimp only at hf ⊢
  split_ifs at hf ⊢ with h1 h2 h3 h4 h5 h6 h7
  all_goals rfl

theorem analyze_names_raw (h : TarHeader) (hlen : h.raw.length = 512) :
    (TarHeader.analyze_names h).raw.length = 512
      ∧ ∀ i, i < 156 → (TarHeader.analyze_names h).raw[i]? = h.raw[i]? := by
  unfold TarHeader.analyze_names
  dsimp only
  split_ifs
  all_goals first
    | exact ⟨hlen, fun _ _ => rfl⟩
    | (refine ⟨by rw [header_memset_length _ _ _ _ (by omega)]; exact hlen, fun i hi => ?_⟩
       rw [header_memset_getElem? _ _ _ _ _ (by omega), if_pos hi])

theorem analyze_file_size_eq (L : Locale) (h : TarHeader) (hlen : h.raw.length = 512) :
    (h.analyze_file L).m_file_size
      = if h.raw.getD 124 0 &&& 0x80 ≠ 0 then 0
        else (strtoull L (c_string (header_field h.raw 124 11)) 8).value := by
  have e1 : (header_memset h.raw 135 1 0).getD 124 0 = h.raw.getD 124 0 := by
    rw [List.getD_eq_getElem?_getD, List.getD_eq_getElem?_getD,
      header_memset_getElem? _ _ _ _ _ (by omega), if_pos (by omega)]
  have e2 : c_string ((header_memset h.raw 135 1 0).drop 124)
      = c_string (header_field h.raw 124 11) := by
    rw [drop_memset_terminator _ (by omega), c_string_append_zero]
  simp only [TarHeader.analyze_file, e1, e2, strtoull_base_256]

theorem getD_congr (x y : List Nat) (i d : Nat) (h : x[i]? = y[i]?) :
    x.getD i d = y.getD i d := by
  rw [List.getD_eq_getElem?_getD, List.getD_eq_getElem?_getD, h]

/-- C25 (code as it is): for every header that `analyze` accepts as a `File`, `filesize()`
is 0 when the high bit of the first size byte is set, because `strtoull` is called with the
base 256, which it does not support; otherwise it is the value that `strtoull` reads from
the 11 size bytes in base 8. -/
theorem analyze_file_size (L : Locale) (char_signed : Bool) (h h2 : TarHeader)
    (hlen : h.raw.length = 512) (hnz : h.raw.all (fun ch => ch == 0) = false)
    (hok : TarHeader.analyze L char_signed h = Except.ok h2)
    (hfile : h2.m_entrytype = EntryType.File) :
    (h.raw.getD 124 0 &&& 0x80 ≠ 0 → h2.m_file_size = 0)
      ∧ (h.raw.getD 124 0 &&& 0x80 = 0 →
          h2.m_file_size = (strtoull L (c_string (header_field h.raw 124 11)) 8).value) := by
  rw [analyze_not_end L char_signed h hnz] at hok
  by_cases hc : (strtoull L (c_string (h.raw.drop 148)) 8).value
      ≠ header_sum char_signed (header_memset h.raw 148 8 32)
  · rw [if_pos hc] at hok
    cases hok
  rw [if_neg hc] at hok
  injection hok with hok
  subst hok
  rw [analyze_type_file L _ hfile]
  have hl1 : (header_memset h.raw 148 8 32).length = 512 := by
    rw [header_memset_length _ _ _ _ (by omega)]; exact hlen
  obtain ⟨hl3, hr3⟩ := analyze_names_raw
    { h with
      m_is_end := if h.raw.getD 0 0 = 0 then false else h.m_is_end
      raw := header_memset h.raw 148 8 32 } hl1
  have hr : ∀ i, i < 148 →
      (TarHeader.analyze_names
        { h with
          m_is_end := if h.raw.getD 0 0 = 0 then false else h.m_is_end
          raw := header_memset h.raw 148 8 32 }).raw[i]? = h.raw[i]? := by
    intro i hi
    rw [hr3 i (by omega)]
    show (header_memset h.raw 148 8 32)[i]? = _
    rw [header_memset_getElem? _ _ _ _ _ (by omega), if_pos hi]
  rw [analyze_file_size_eq L _ hl3]
  have e1 : (TarHeader.analyze_names
        { h with
          m_is_end := if h.raw.getD 0 0 = 0 then false else h.m_is_end
          raw := header_memset h.raw 148 8 32 }).raw.getD 124 0 = h.raw.getD 124 0 := by
    exact getD_congr _ _ 124 0 (hr 124 (by omega))
  have e2 := header_field_congr _ h.raw 124 11 (fun i hi => hr i (by omega))
  rw [e1, e2]
  constructor
  · intro hb
    rw [if_pos hb]
  · intro hb
    rw [if_neg (fun k => k hb)]

set_option maxRecDepth 1000000 in
/-- C25 at the header of "b.txt", whose size field holds 1025 in base 256: where `char` is
unsigned the header is accepted as a `File` of size 0. -/
theorem analyze_file_size_witness :
    spec_base256 ((header_field example_header_base256 124 11).map (fun b => b % 128))
        = 1025
      ∧ header_field example_header_base256 124 11 = [0x80, 0, 0, 0, 0, 0, 0, 0, 0, 4, 1]
      ∧ ∃ h2, TarHeader.analyze Locale.ascii false
            { TarHeader.new with raw := example_header_base256 } = Except.ok h2
          ∧ h2.m_entrytype = EntryType.File
          ∧ h2.m_file_size = 0
          ∧ (example_header_base256.getD 124 0 &&& 0x80 ≠ 0 → h2.m_file_size = 0) :=
  ⟨by decide, by decide, _, rfl, rfl, rfl,
    (analyze_file_size Locale.ascii false
      { TarHeader.new with raw := example_header_base256 } _ (by decide) (by decide) rfl
      rfl).1⟩

theorem read_append (t : UnTar) (block rest : List Nat) (hs : t.stream = block ++ rest) :
    t.read block.length = Except.ok (block, { t with stream := rest }) := by
  unfold UnTar.read
  rw [hs, if_neg (by simp), List.take_left, List.drop_left]

/-- One round of the loop of `UnTar::entry` whose header is read and accepted. -/
theorem entry_loop_round (L : Locale) (cs : Bool) (acc : Nat) (skip : Bool) (rounds : Nat)
    (t : UnTar) (buf block rest : List Nat) (hd : TarHeader)
    (hs : t.stream = block ++ rest) (hb : block.length = 512)
    (han : TarHeader.analyze L cs { t.m_header.reset with raw := block } = Except.ok hd)
    (hend : hd.m_is_end = false) :
    UnTar.entry_loop L cs acc skip (rounds + 1) t buf
      = match (if hd.m_entrytype = EntryType.File
            then UnTar.read_file { m_header := hd, stream := rest }
            else Except.ok (buf, { m_header := hd, stream := rest })) with
        | Except.error e => some (Except.error e)
        | Except.ok (buf, t) =>
            if t.m_header.m_entrytype.code &&& acc = 0
                ∨ (skip ∧ begins_with_literal t.m_header.m_filename (ascii_bytes "./._"))
            then UnTar.entry_loop L cs acc skip rounds t buf
            else some (Except.ok (t.m_header.m_entrytype, buf, t)) := by
  have hr := read_append { t with m_header := t.m_header.reset } block rest hs
  rw [hb] at hr
  rw [UnTar.entry_loop, hr]
  simp only [han, hend, Bool.false_eq_true, if_false]

theorem read_file_ok (hd : TarHeader) (payload pad rest : List Nat)
    (hp : payload.length = hd.m_file_size)
    (hpad : pad.length = (512 - hd.m_file_size % 512) % 512) :
    ∃ raw, UnTar.read_file { m_header := hd, stream := payload ++ pad ++ rest }
      = Except.ok (payload, { m_header := { hd with raw := raw }, stream := rest }) := by
  unfold UnTar.read_file
  have r1 := read_append { m_header := hd, stream := payload ++ pad ++ rest } payload
    (pad ++ rest) (by simp)
  rw [hp] at r1
  simp only [r1]
  by_cases h0 : (512 - hd.m_file_size % 512) % 512 ≠ 0
  · rw [if_pos h0]
    have r2 := read_append { m_header := hd, stream := pad ++ rest } pad rest rfl
    rw [hpad] at r2
    simp only [r2]
    exact ⟨_, rfl⟩
  · rw [if_neg h0]
    have : pad = [] := List.length_eq_zero.mp (by omega)
    subst this
    exact ⟨hd.raw, rfl⟩

/-- C27: for a `File` header of size s that the caller accepts, `UnTar::entry` returns
`File` with exactly the s payload bytes in the buffer and has then consumed exactly
`(512 - s mod 512) mod 512` padding bytes: the reader stands at the bytes after the
padding, and s plus the padding is the smallest multiple of 512 that is at least s. -/
theorem entry_reads_payload_and_padding (L : Locale) (char_signed : Bool) (t : UnTar)
    (buf block payload pad rest : List Nat) (hd : TarHeader)
    (accepted_types : Nat) (skip_apple_resource_forks : Bool)
    (hs : t.stream = block ++ (payload ++ pad ++ rest)) (hb : block.length = 512)
    (han : TarHeader.analyze L char_signed { t.m_header.reset with raw := block }
      = Except.ok hd)
    (hend : hd.m_is_end = false) (hfile : hd.m_entrytype = EntryType.File)
    (hsize : payload.length = hd.m_file_size)
    (hpad : pad.length = (512 - hd.m_file_size % 512) % 512)
    (hacc : EntryType.File.code &&& accepted_types ≠ 0)
    (hskip : ¬ (skip_apple_resource_forks = true
      ∧ begins_with_literal hd.m_filename (ascii_bytes "./._") = true)) :
    (∃ raw, UnTar.entry L char_signed t buf accepted_types skip_apple_resource_forks
        = some (Except.ok (EntryType.File, payload,
            { m_header := { hd with raw := raw }, stream := rest })))
      ∧ (payload.length + pad.length) % 512 = 0
      ∧ pad.length < 512
      ∧ ∀ m, m % 512 = 0 → payload.length ≤ m → payload.length + pad.length ≤ m := by
  refine ⟨?_, by omega, by omega, by intro m h1 h2; omega⟩
  obtain ⟨raw, hr⟩ := read_file_ok hd payload pad rest hsize hpad
  refine ⟨raw, ?_⟩
  unfold UnTar.entry
  rw [entry_loop_round L char_signed accepted_types skip_apple_resource_forks _ t buf block
    _ hd hs hb han hend, if_pos hfile, hr]
  simp only [hfile]
  rw [if_neg]
  rintro (h | h)
  · exact hacc h
  · exact hskip ⟨h.1, h.2⟩

set_option maxRecDepth 1000000 in
/-- C27 at an archive with one file of 1025 bytes: the entry has the 1025 bytes, 511 bytes
of padding are consumed after them, and the reader stands at the end blocks. -/
theorem entry_reads_payload_and_padding_witness :
    (List.replicate 511 0).length = (512 - 1025 % 512) % 512
      ∧ ∃ t2, UnTar.entry Locale.ascii true
            { m_header := TarHeader.new, stream := example_archive_1025 } [] 1 false
          = some (Except.ok (EntryType.File, List.replicate 1025 120, t2))
        ∧ t2.stream = List.replicate 1024 0
        ∧ t2.m_header.m_file_size = 1025 := by
  refine ⟨by decide, ?_⟩
  obtain ⟨raw, e⟩ := (entry_reads_payload_and_padding Locale.ascii true
    { m_header := TarHeader.new, stream := example_archive_1025 } []
    (example_header (ascii_bytes "a.txt") (octal_field 1025 11) 48)
    (List.replicate 1025 120) (List.replicate 511 0) (List.replicate 1024 0) _ 1 false
    (by simp [example_archive_1025]) (by decide) rfl rfl rfl (by decide) (by decide)
    (by decide) (by decide)).1
  exact ⟨_, e, rfl, rfl⟩

theorem zero_padded_drop (name : List Nat) (len k : Nat) (h1 : name.length ≤ k)
    (h2 : k ≤ len) : (zero_padded name len).drop k = List.replicate (len - k) 0 := by
  unfold zero_padded
  rw [List.drop_append_eq_append_drop, List.drop_eq_nil_of_le h1, List.nil_append,
    List.drop_replicate]
  congr 1
  omega

theorem c_string_zeros (k : Nat) : c_string (List.replicate k 0) = [] := by
  cases k with
  | zero => rfl
  | succ k => simp [c_string, List.replicate_succ]

theorem strtoull_empty (L : Locale) : (strtoull L [] 8).value = 0 := by
  simp [strtoull]

/-- The block that carries a GNU long name of fewer than 148 characters below 0x80 is
rejected by `analyze`: it has no checksum, so the checksum read is 0, and the sum of its
bytes is not. -/
theorem long_name_block_rejected (L : Locale) (cs : Bool) (h : TarHeader) (name : List Nat)
    (hne : name ≠ []) (hb : ∀ b ∈ name, 0 < b ∧ b < 128) (hl : name.length < 148) :
    TarHeader.analyze L cs { h with raw := zero_padded name 512 }
      = Except.error TarException.invalid_header_checksum := by
  have hnz : (zero_padded name 512).all (fun ch => ch == 0) = false := by
    cases name with
    | nil => exact absurd rfl hne
    | cons b rest =>
        have := (hb b (List.mem_cons_self _ _)).1
        have hb0 : (b == 0) = false := by simp; omega
        simp [zero_padded, hb0]
  have hlen : (zero_padded name 512).length = 512 := by
    simp [zero_padded]; omega
  have hbytes : ∀ b ∈ zero_padded name 512, b < 128 := by
    intro b hb2
    unfold zero_padded at hb2
    rcases List.mem_append.mp hb2 with hb2 | hb2
    · exact (hb b hb2).2
    · rw [List.eq_of_mem_replicate hb2]; omega
  have hb3 : ∀ b ∈ header_memset (zero_padded name 512) 148 8 32, b < 128 := by
    intro b hb2
    rcases header_memset_mem _ _ _ _ b hb2 with hb2 | hb2
    · exact hbytes b hb2
    · omega
  have hl3 : (header_memset (zero_padded name 512) 148 8 32).length ≤ 512 := by
    rw [header_memset_length _ _ _ _ (by omega)]; omega
  have hsum : 256 ≤ (header_memset (zero_padded name 512) 148 8 32).sum := by
    simp only [header_memset, List.sum_append, List.sum_replicate, smul_eq_mul]
    omega
  rw [analyze_not_end L cs _ hnz]
  dsimp only
  rw [zero_padded_drop name 512 148 (by omega) (by omega), c_string_zeros, strtoull_empty,
    header_sum_ascii cs _ hb3 hl3, if_pos (by omega)]

/-- C26 (code as it is): an archive that starts with a header of type `L` and the block
that carries a long name of fewer than 148 characters makes `UnTar::entry` throw "invalid
header checksum", whatever follows: the name block is analyzed like a header. -/
theorem entry_long_name_throws (L : Locale) (char_signed : Bool) (t : UnTar)
    (buf block name rest : List Nat) (hd : TarHeader)
    (accepted_types : Nat) (skip_apple_resource_forks : Bool)
    (hs : t.stream = block ++ (zero_padded name 512 ++ rest)) (hb : block.length = 512)
    (han : TarHeader.analyze L char_signed { t.m_header.reset with raw := block }
      = Except.ok hd)
    (hend : hd.m_is_end = false) (hlong : hd.m_entrytype = EntryType.Longname1)
    (hacc : EntryType.Longname1.code &&& accepted_types = 0)
    (hne : name ≠ []) (hbytes : ∀ b ∈ name, 0 < b ∧ b < 128) (hl : name.length < 148) :
    UnTar.entry L char_signed t buf accepted_types skip_apple_resource_forks
      = some (Except.error TarException.invalid_header_checksum) := by
  have hzl : (zero_padded name 512).length = 512 := by
    simp [zero_padded]; omega
  have hfuel : ∃ k, t.stream.length / 512 + 1 = k + 1 + 1 := by
    refine ⟨t.stream.length / 512 - 1, ?_⟩
    have : 1024 ≤ t.stream.length := by
      rw [hs]; simp only [List.length_append, hb, hzl]; omega
    omega
  obtain ⟨k, hk⟩ := hfuel
  unfold UnTar.entry
  rw [hk, entry_loop_round L char_signed accepted_types skip_apple_resource_forks _ t buf block
    _ hd hs hb han hend]
  have hnf : ¬ hd.m_entrytype = EntryType.File := by rw [hlong]; decide
  rw [if_neg hnf]
  dsimp only
  rw [if_pos (Or.inl (by rw [hlong]; exact hacc))]
  have hr := read_append { m_header := hd.reset, stream := zero_padded name 512 ++ rest }
    (zero_padded name 512) rest rfl
  rw [hzl] at hr
  rw [UnTar.entry_loop]
  dsimp only
  rw [hr]
  dsimp only
  rw [long_name_block_rejected L char_signed hd.reset name hne hbytes hl]

set_option maxRecDepth 1000000 in
/-- C26 at a GNU archive with a long name of 120 characters; and at one whose name block
happens to pass as a header: the entry that comes out then has the name of the file's own
header, cut to 100 characters, and not the long name. -/
theorem entry_long_name_throws_witness :
    example_long_name.length = 120
      ∧ entry_summary (UnTar.entry Locale.ascii true
            { m_header := TarHeader.new, stream := example_archive_long_name_2 } [] 1 false)
          = some (EntryType.File, ascii_bytes "abc", example_long_name_2.take 100, 1024)
      ∧ example_long_name_2.take 100 ≠ example_long_name_2
      ∧ UnTar.entry Locale.ascii true
          { m_header := TarHeader.new, stream := example_archive_long_name } [] 1 false
        = some (Except.error TarException.invalid_header_checksum) :=
  ⟨by decide, by decide!, by decide,
    entry_long_name_throws Locale.ascii true
      { m_header := TarHeader.new, stream := example_archive_long_name } []
      (example_header (ascii_bytes "././@LongLink") (octal_field 121 11) 76)
      example_long_name
      (example_header (example_long_name.take 100) (octal_field 3 11) 48
        ++ zero_padded (ascii_bytes "abc") 512 ++ List.replicate 1024 0)
      _ 1 false (by simp [example_archive_long_name]) (by decide) rfl rfl rfl (by decide)
      (by decide) (by decide) (by decide)⟩

theorem read_length (t t2 : UnTar) (len : Nat) (b : List Nat)
    (h : t.read len = Except.ok (b, t2)) : t2.stream.length + len = t.stream.length := by
  unfold UnTar.read at h
  split_ifs at h with h1
  injection h with h
  injection h with _ h
  subst h
  simp only [List.length_drop]
  omega

theorem read_file_length (t t2 : UnTar) (b : List Nat)
    (h : t.read_file = Except.ok (b, t2)) : t2.stream.length ≤ t.stream.length := by
  unfold UnTar.read_file at h
  cases h1 : t.read t.m_header.m_file_size with
  | error e => rw [h1] at h; cases h
  | ok p =>
      obtain ⟨b1, t1⟩ := p
      have l1 := read_length t t1 _ b1 h1
      rw [h1] at h
      dsimp only at h
      split_ifs at h with hp
      · cases h2 : t1.read ((512 - t1.m_header.m_file_size % 512) % 512) with
        | error e => rw [h2] at h; cases h
        | ok q =>
            obtain ⟨b2, t3⟩ := q
            have l2 := read_length t1 t3 _ b2 h2
            rw [h2] at h
            injection h with h
            injection h with _ h
            subst h
            show t3.stream.length ≤ _
            omega
      · injection h with h
        injection h with _ h
        subst h
        omega

/-- The loop of `UnTar::entry` comes to an end: with one round for every 512 bytes of the
stream and one more, the bound on the rounds is never used up. -/
theorem entry_loop_some (L : Locale) (cs : Bool) (acc : Nat) (skip : Bool) :
    ∀ (rounds : Nat) (t : UnTar) (buf : List Nat), t.stream.length < rounds * 512 →
      (UnTar.entry_loop L cs acc skip rounds t buf).isSome = true := by
  intro rounds
  induction rounds with
  | zero => intro t buf h; omega
  | succ rounds ih =>
      intro t buf h
      rw [UnTar.entry_loop]
      cases h1 : UnTar.read { t with m_header := t.m_header.reset } 512 with
      | error e => rfl
      | ok p =>
          obtain ⟨block, t1⟩ := p
          have l1 := read_length _ t1 _ block h1
          dsimp only at l1 ⊢
          cases h2 : TarHeader.analyze L cs { t1.m_header with raw := block } with
          | error e => rfl
          | ok hd =>
              dsimp only
              split_ifs with h3 h4
              · rfl
              · cases h5 : UnTar.read_file { t1 with m_header := hd } with
                | error e => rfl
                | ok q =>
                    obtain ⟨b2, t2⟩ := q
                    have l2 := read_file_length _ t2 b2 h5
                    dsimp only at l2 ⊢
                    split_ifs
                    · exact ih t2 b2 (by omega)
                    · rfl
              · dsimp only
                split_ifs
                · exact ih _ _ (by show t1.stream.length < _; omega)
                · rfl

/-- `UnTar::entry` returns or throws for every reader and every stream. -/
theorem entry_total (L : Locale) (cs : Bool) (t : UnTar) (buf : List Nat) (acc : Nat)
    (skip : Bool) : (UnTar.entry L cs t buf acc skip).isSome = true := by
  unfold UnTar.entry
  apply entry_loop_some
  have := Nat.lt_div_mul_add (a := t.stream.length) (b := 512) (by omega)
  rw [Nat.add_mul]
  omega

/-! ## The tokenizer -/

theorem length_dropWhile_le (p : Nat → Bool) (l : List Nat) :
    (l.dropWhile p).length ≤ l.length := by
  induction l with
  | nil => simp
  | cons a l ih =>
      rw [List.dropWhile_cons]
      split_ifs
      · exact Nat.le_succ_of_le ih
      · exact le_rfl

theorem get_quoted_length (rem : List Nat) :
    ∀ before, (StringTokenizer.get_quoted before rem).2.length ≤ rem.length := by
  induction rem with
  | nil => intro before; simp [StringTokenizer.get_quoted]
  | cons c more ih =>
      intro before
      rw [StringTokenizer.get_quoted]
      split_ifs
      · simp only [List.length_tail, List.length_cons]; omega
      · simp
      · exact Nat.le_succ_of_le (ih _)
      · exact Nat.le_succ_of_le (ih _)

/-- Every `get()` on a string that is not at its end moves `m_start` on. -/
theorem get_length_lt (m_delimit : List Nat) (m_doublequoted : Bool) (str : List Nat)
    (h : str ≠ []) :
    (StringTokenizer.get m_delimit m_doublequoted str).2.length < str.length := by
  have hpos : 0 < str.length := List.length_pos.mpr h
  have hdrop := length_dropWhile_le (fun c => m_delimit.contains c) str
  unfold StringTokenizer.get
  split
  · simpa using hpos
  · rename_i c more hs
    rw [hs] at hdrop
    simp only [List.length_cons] at hdrop
    split_ifs
    · have := get_quoted_length more []
      omega
    · have := length_dropWhile_le (fun c => !m_delimit.contains c) (c :: more)
      simp only [List.length_tail, List.length_cons] at this ⊢
      omega

/-- The bound on the rounds of `split` is never used up: any bound from the length of the
string on gives the same tokens. -/
theorem split_loop_bound (m_delimit : List Nat) (m_doublequoted : Bool) :
    ∀ (n m : Nat) (str : List Nat), str.length ≤ n → str.length ≤ m →
      StringTokenizer.split_loop m_delimit m_doublequoted n str
        = StringTokenizer.split_loop m_delimit m_doublequoted m str := by
  intro n
  induction n with
  | zero =>
      intro m str h1 _
      have : str = [] := List.length_eq_zero.mp (Nat.le_zero.mp h1)
      subst this
      cases m <;> simp [StringTokenizer.split_loop]
  | succ n ih =>
      intro m str h1 h2
      cases m with
      | zero =>
          have : str = [] := List.length_eq_zero.mp (Nat.le_zero.mp h2)
          subst this
          simp [StringTokenizer.split_loop]
      | succ m =>
          rw [StringTokenizer.split_loop, StringTokenizer.split_loop]
          by_cases he : str.isEmpty = true
          · rw [if_pos he, if_pos he]
          · rw [if_neg he, if_neg he]
            have hne : str ≠ [] := by simpa using he
            have := get_length_lt m_delimit m_doublequoted str hne
            rw [ih m _ (by omega) (by omega)]

/-! ## The protocol -/

/-- C30: in a session without handshake, a request line that has a first word, whose first
word is not `hello` in any case of letters and which does not start with `cddb` and `hello`
in any case of letters, is answered with `530 no handshake`, sets `terminate` and leaves
`handshake` as it is. The words are those that the tokenizer finds. -/
theorem pre_handshake_rejected (srv : Server) (qstr : List Nat) (p : Parameters)
    (w0 : List Nat) (args : List (List Nat))
    (hh : p.handshake = false)
    (hw : StringTokenizer.split qstr [32, 9, 13, 10] true = w0 :: args)
    (h1 : tolower srv.locale w0 ≠ ascii_bytes "hello")
    (h2 : ¬ (tolower srv.locale w0 = ascii_bytes "cddb"
      ∧ ∃ w1 more, args = w1 :: more ∧ tolower srv.locale w1 = ascii_bytes "hello")) :
    cddb_request srv qstr p
      = Except.ok (ascii_bytes "530 no handshake\n",
          { terminate := true, handshake := false, is_http := p.is_http }) := by
  have hp : ({ p with terminate := true } : Parameters)
      = { terminate := true, handshake := false, is_http := p.is_http } := by
    rw [← hh]
  have hnh : (!p.handshake) = true := by rw [hh]; rfl
  unfold cddb_request request_words
  rw [hw]
  cases args with
  | nil =>
      dsimp only
      rw [if_neg (by simp), if_neg h1, if_pos hnh, hp]
  | cons w1 more =>
      dsimp only
      by_cases hc : tolower srv.locale w0 = ascii_bytes "cddb"
      · rw [if_pos hc]
        dsimp only
        rw [if_pos (by simp [hc])]
        have hw1 : tolower srv.locale w1 ≠ ascii_bytes "hello" :=
          fun k => h2 ⟨hc, w1, more, rfl, k⟩
        unfold cddb_command
        rw [if_neg (by simpa using hw1), if_pos hnh, hp]
      · rw [if_neg hc]
        dsimp only
        rw [if_neg (by simp [hc]), if_neg h1, if_pos hnh, hp]

set_option maxRecDepth 1000000 in
/-- C30 at the request `cddb query 6809330a 10 150 ... 2357` in a fresh session. -/
theorem pre_handshake_rejected_witness :
    cddb_request example_server (ascii_bytes ("cddb query 6809330a 10 150 20753 41510 53268 "
        ++ "75958 91735 103165 120710 144018 160108 2357")) Parameters.new
      = Except.ok (ascii_bytes "530 no handshake\n",
          { terminate := true, handshake := false, is_http := false }) :=
  pre_handshake_rejected example_server _ Parameters.new (ascii_bytes "cddb")
    [ascii_bytes "query", ascii_bytes "6809330a", ascii_bytes "10", ascii_bytes "150",
     ascii_bytes "20753", ascii_bytes "41510", ascii_bytes "53268", ascii_bytes "75958",
     ascii_bytes "91735", ascii_bytes "103165", ascii_bytes "120710", ascii_bytes "144018",
     ascii_bytes "160108", ascii_bytes "2357"]
    rfl (by decide) (by decide)
    (by
      rintro ⟨-, w1, more, e, k⟩
      injection e with e1 e2
      subst e1
      revert k
      decide)

theorem only_set_refl (p : Parameters) : p.only_set p := ⟨id, id, id⟩

theorem only_set_trans (p q r : Parameters) (h1 : p.only_set q) (h2 : q.only_set r) :
    p.only_set r :=
  ⟨fun h => h2.1 (h1.1 h), fun h => h2.2.1 (h1.2.1 h), fun h => h2.2.2 (h1.2.2 h)⟩

theorem only_set_terminate (p : Parameters) : p.only_set { p with terminate := true } :=
  ⟨fun _ => rfl, id, id⟩

theorem only_set_handshake (p : Parameters) : p.only_set { p with handshake := true } :=
  ⟨id, fun _ => rfl, id⟩

theorem only_set_is_http (p : Parameters) : p.only_set { p with is_http := true } :=
  ⟨id, id, fun _ => rfl⟩

theorem only_set_any (p q : Parameters)
    (h : q = p ∨ q = { p with terminate := true } ∨ q = { p with handshake := true }) :
    p.only_set q := by
  rcases h with h | h | h
  · rw [h]; exact only_set_refl p
  · rw [h]; exact only_set_terminate p
  · rw [h]; exact only_set_handshake p

theorem ok_inj (r r2 : List Nat) (p p2 : Parameters)
    (h : (Except.ok (r, p) : Except Thrown (List Nat × Parameters)) = Except.ok (r2, p2)) :
    p = p2 := by
  injection h with h
  injection h

theorem cddb_query_request_flags (srv : Server) (words : List (List Nat)) (p p2 : Parameters)
    (r : List Nat) (h : cddb_query_request srv words p = Except.ok (r, p2)) :
    p.only_set p2 := by
  unfold cddb_query_request at h
  by_cases h6 : words.length < 6
  · rw [if_pos h6] at h
    rw [← ok_inj _ _ _ _ h]
    exact only_set_terminate p
  · rw [if_neg h6] at h
    cases h3 : stoul_base srv.locale (words.getD 3 []) 10 with
    | error e => rw [h3] at h; cases h
    | ok v =>
        rw [h3] at h
        dsimp only at h
        by_cases hc : v % U32 ≠ 0 ∧ (v % U32 + 5) % U32 = words.length
        · rw [if_pos hc] at h
          cases ht : read_tracks srv.locale (v % U32) (words.drop 4) with
          | error e => rw [ht] at h; cases h
          | ok tracks =>
              rw [ht] at h
              dsimp only at h
              cases hs : stoul_base srv.locale (words.getD (4 + v % U32) []) 10 with
              | error e => rw [hs] at h; cases h
              | ok s =>
                  rw [hs] at h
                  dsimp only at h
                  cases hd : stoul_base srv.locale (words.getD 2 []) 16 with
                  | error e => rw [hd] at h; cases h
                  | ok d =>
                      rw [hd] at h
                      rw [← ok_inj _ _ _ _ h]
                      exact only_set_refl p
        · rw [if_neg hc] at h
          rw [← ok_inj _ _ _ _ h]
          exact only_set_terminate p

theorem cddb_read_request_flags (srv : Server) (words : List (List Nat)) (p p2 : Parameters)
    (r : List Nat) (h : cddb_read_request srv words p = Except.ok (r, p2)) :
    p.only_set p2 := by
  unfold cddb_read_request at h
  by_cases h4 : words.length ≠ 4
  · rw [if_pos h4] at h
    rw [← ok_inj _ _ _ _ h]
    exact only_set_terminate p
  · rw [if_neg h4] at h
    cases hd : stoul_base srv.locale (words.getD 3 []) 16 with
    | error e => rw [hd] at h; cases h
    | ok d =>
        rw [hd] at h
        dsimp only at h
        split_ifs at h
        all_goals
          rw [← ok_inj _ _ _ _ h]
          exact only_set_refl p

theorem proto_request_flags (L : Locale) (args : List (List Nat)) (p p2 : Parameters)
    (r : List Nat) (h : proto_request L args p = Except.ok (r, p2)) :
    p.only_set p2 := by
  unfold proto_request at h
  dsimp only at h
  split at h
  · cases h
  · split_ifs at h
    all_goals
      rw [← ok_inj _ _ _ _ h]
      exact only_set_refl p

theorem cddb_command_flags (srv : Server) (words : List (List Nat)) (p p2 : Parameters)
    (r : List Nat) (h : cddb_command srv words p = Except.ok (r, p2)) :
    p.only_set p2 := by
  unfold cddb_command at h
  split_ifs at h
  all_goals first
    | exact cddb_query_request_flags srv words p p2 r h
    | exact cddb_read_request_flags srv words p p2 r h
    | (rw [← ok_inj _ _ _ _ h]; exact only_set_any p _ (by simp))

/-- `cddb_request` sets flags and resets none. -/
theorem cddb_request_flags (srv : Server) (qstr : List Nat) (p p2 : Parameters)
    (r : List Nat) (h : cddb_request srv qstr p = Except.ok (r, p2)) :
    p.only_set p2 := by
  unfold cddb_request at h
  split at h
  · split_ifs at h
    all_goals
      rw [← ok_inj _ _ _ _ h]
      first | exact only_set_refl p | exact only_set_terminate p
  · split_ifs at h
    all_goals first
      | exact cddb_command_flags srv _ p p2 r h
      | exact proto_request_flags _ _ p p2 r h
      | (rw [← ok_inj _ _ _ _ h]; exact only_set_any p _ (by simp))

theorem http_request_flags (srv : Server) (cmds : List (List Nat)) (p : Parameters) :
    p.only_set (http_request srv cmds p).1 := by
  unfold http_request
  cases h1 : cddb_request srv (cmds.getD 1 []) p with
  | error e => exact only_set_refl p
  | ok x1 =>
      obtain ⟨r1, p1⟩ := x1
      have s1 := cddb_request_flags srv _ p p1 r1 h1
      dsimp only
      cases h2 : cddb_request srv (cmds.getD 2 []) p1 with
      | error e => exact s1
      | ok x2 =>
          obtain ⟨r2, p2⟩ := x2
          have s2 := only_set_trans _ _ _ s1 (cddb_request_flags srv _ p1 p2 r2 h2)
          dsimp only
          cases h3 : cddb_request srv (cmds.getD 0 []) p2 with
          | error e => exact s2
          | ok x3 =>
              obtain ⟨r3, p3⟩ := x3
              exact only_set_trans _ _ _ s2 (cddb_request_flags srv _ p2 p3 r3 h3)

/-- `request` sets flags and resets none, also when it throws. -/
theorem request_flags (srv : Server) (qstr : List Nat) (p : Parameters) :
    p.only_set (request srv qstr p).1 := by
  unfold request
  split_ifs with h1 h2
  · cases split_http_cddb qstr with
    | error e => exact only_set_is_http p
    | ok cmds =>
        dsimp only
        split_ifs
        · exact only_set_trans _ _ _ (only_set_is_http p) (http_request_flags srv cmds _)
        · exact only_set_is_http p
  · exact only_set_refl p
  · cases h3 : cddb_request srv qstr p with
    | error e => exact only_set_refl p
    | ok x =>
        obtain ⟨r, p2⟩ := x
        exact cddb_request_flags srv qstr p p2 r h3

theorem session_loop_chain (srv : Server) (lines : List (List Nat)) :
    ∀ p, List.Chain Parameters.only_set p
      ((session_loop srv lines p).map (fun s => s.parameters)) := by
  induction lines with
  | nil => intro p; exact List.Chain.nil
  | cons line lines ih =>
      intro p
      rw [session_loop]
      split_ifs with h1 h2
      · exact List.Chain.nil
      · exact ih p
      · have hf := request_flags srv line p
        cases hr : request srv line p with
        | mk p2 res =>
            rw [hr] at hf
            cases res with
            | error e => exact List.Chain.cons hf List.Chain.nil
            | ok reply => exact List.Chain.cons hf (ih p2)

theorem session_chain (srv : Server) (lines : List (List Nat)) :
    List.Chain Parameters.only_set Parameters.new
      ((session srv lines).map (fun s => s.parameters)) := by
  unfold session Server.init
  split_ifs with h
  · exact List.Chain.cons (only_set_refl _) (session_loop_chain srv lines _)
  · have hf := request_flags srv [] Parameters.new
    cases hr : request srv [] Parameters.new with
    | mk p2 res =>
        rw [hr] at hf
        cases res with
        | error e => exact List.Chain.cons hf List.Chain.nil
        | ok reply => exact List.Chain.cons hf (session_loop_chain srv lines p2)

/-- C28: along the steps of a session, from its fresh parameters and in the same way from
any parameters on, a `handshake` flag that is set stays set: the flag only ever changes
from false to true. -/
theorem handshake_only_rises (srv : Server) (lines : List (List Nat)) :
    List.Chain (fun a b : Parameters => a.handshake = true → b.handshake = true)
        Parameters.new ((session srv lines).map (fun s => s.parameters))
      ∧ (∀ p, List.Chain (fun a b : Parameters => a.handshake = true → b.handshake = true) p
          ((session_loop srv lines p).map (fun s => s.parameters)))
      ∧ (∀ qstr p, p.handshake = true → (request srv qstr p).1.handshake = true) :=
  ⟨(session_chain srv lines).imp (fun _ _ h => h.2.1),
    fun p => (session_loop_chain srv lines p).imp (fun _ _ h => h.2.1),
    fun qstr p => (request_flags srv qstr p).2.1⟩

theorem session_loop_terminated (srv : Server) (lines : List (List Nat)) (p : Parameters)
    (h : p.terminate = true) : session_loop srv lines p = [] := by
  cases lines with
  | nil => rfl
  | cons line lines => rw [session_loop, if_pos h]

theorem session_loop_last (srv : Server) (lines : List (List Nat)) :
    ∀ (p : Parameters) (pre : List SessionStep) (s : SessionStep) (post : List SessionStep),
      session_loop srv lines p = pre ++ s :: post → post ≠ [] →
      s.parameters.terminate = false ∧ s.written ≠ none := by
  induction lines with
  | nil =>
      intro p pre s post h _
      rw [session_loop] at h
      cases pre <;> cases h
  | cons line lines ih =>
      intro p pre s post h hpost
      rw [session_loop] at h
      split_ifs at h with h1 h2
      · cases pre <;> cases h
      · exact ih p pre s post h hpost
      · cases hr : request srv line p with
        | mk p2 res =>
            rw [hr] at h
            cases res with
            | error e =>
                dsimp only at h
                cases pre with
                | nil =>
                    injection h with _ h
                    exact absurd h.symm hpost
                | cons x pre =>
                    injection h with _ h
                    cases pre <;> cases h
            | ok reply =>
                dsimp only at h
                cases pre with
                | nil =>
                    injection h with h3 h4
                    subst h3
                    refine ⟨?_, by simp⟩
                    by_contra ht
                    have ht2 : p2.terminate = true := by simpa using ht
                    rw [session_loop_terminated srv lines p2 ht2] at h4
                    exact hpost h4.symm
                | cons x pre =>
                    injection h with _ h
                    exact ih p2 pre s post h hpost

/-- C29 amended: in a session, a step after which `terminate` is set is the last one: no
further line is handed to `request` and nothing more is written. The same holds for a step
that ended with an exception. -/
theorem terminate_ends_session (srv : Server) (lines : List (List Nat))
    (pre : List SessionStep) (s : SessionStep) (post : List SessionStep)
    (h : session srv lines = pre ++ s :: post) (hpost : post ≠ []) :
    s.parameters.terminate = false ∧ s.written ≠ none := by
  unfold session at h
  cases hr : srv.init Parameters.new with
  | mk p2 res =>
      rw [hr] at h
      cases res with
      | error e =>
          dsimp only at h
          cases pre with
          | nil =>
              injection h with _ h
              exact absurd h.symm hpost
          | cons x pre =>
              injection h with _ h
              cases pre <;> cases h
      | ok reply =>
          dsimp only at h
          cases pre with
          | nil =>
              injection h with h3 h4
              subst h3
              refine ⟨?_, by simp⟩
              by_contra ht
              have ht2 : p2.terminate = true := by simpa using ht
              rw [session_loop_terminated srv lines p2 ht2] at h4
              exact hpost h4.symm
          | cons x pre =>
              injection h with _ h
              exact session_loop_last srv lines p2 pre s post h hpost

set_option maxRecDepth 1000000 in
/-- C29 as stated fails in HTTP mode: the request line
`GET /?cmd=stat&hello=a+b+c+d&quit=1 HTTP/1.1` has the components `stat`, `hello a b c d`
and `quit 1`; the second call of `cddb_request`, for `quit 1`, sets `terminate`, and the
command `stat` is processed after it and answered in the response. -/
theorem http_components_after_terminate :
    split_http_cddb (ascii_bytes "GET /?cmd=stat&hello=a+b+c+d&quit=1 HTTP/1.1\r")
        = Except.ok [ascii_bytes "stat", ascii_bytes "hello a b c d", ascii_bytes "quit 1"]
      ∧ cddb_request example_server (ascii_bytes "hello a b c d")
            { terminate := false, handshake := false, is_http := true }
          = Except.ok (ascii_bytes "200 hello and welcome a@b running c d\n",
              { terminate := false, handshake := true, is_http := true })
      ∧ cddb_request example_server (ascii_bytes "quit 1")
            { terminate := false, handshake := true, is_http := true }
          = Except.ok (ascii_bytes "230 hostname Closing connection. Goodbye.\n",
              { terminate := true, handshake := true, is_http := true })
      ∧ request example_server
            (ascii_bytes "GET /?cmd=stat&hello=a+b+c+d&quit=1 HTTP/1.1\r") Parameters.new
          = ({ terminate := true, handshake := true, is_http := true },
              Except.ok (ascii_bytes "HTTP/1.1 200 OK\r\nContent-Length: 209\r\n\r\n"
                ++ stat_reply)) :=
  ⟨rfl, rfl, rfl, rfl⟩

set_option maxRecDepth 1000000 in
/-- C29 amended, at a session of the lines `hello a b c d`, `quit` and `stat`: the session
has the step of `init` and the steps of the first two lines, and `stat` is not answered. -/
theorem terminate_ends_session_witness :
    session example_server example_session_lines
        = [example_init_step] ++ example_hello_step :: [example_quit_step]
      ∧ (example_hello_step.parameters.terminate = false
        ∧ example_hello_step.written ≠ none) :=
  ⟨by decide,
    terminate_ends_session example_server example_session_lines
      [example_init_step] example_hello_step [example_quit_step] (by decide) (by simp)⟩

/-! ## Decoding after encoding -/

/-- C38: decoding undoes encoding. For every sequence `w` of code points that are all below
0x110000, `from_utf8(to_utf8(w))` returns true and the decoded string is exactly `w`. -/
theorem from_utf8_undoes_to_utf8 (w : List Nat) (h : ∀ ch ∈ w, ch < 0x110000) :
    (from_utf8 (to_utf8 w)).1 = true ∧ (from_utf8 (to_utf8 w)).2 = w := by
  rw [from_utf8_to_utf8 w h]
  exact ⟨rfl, rfl⟩

set_option maxRecDepth 100000 in
/-- Witness for C38: one code point of each encoded length, the last code point, and a
surrogate. -/
theorem from_utf8_undoes_to_utf8_witness :
    (∀ ch ∈ [0x41, 0xE9, 0x20AC, 0x1F600, 0x10FFFF, 0xD800, 0], ch < 0x110000)
      ∧ (from_utf8 (to_utf8 [0x41, 0xE9, 0x20AC, 0x1F600, 0x10FFFF, 0xD800, 0])).1 = true
      ∧ (from_utf8 (to_utf8 [0x41, 0xE9, 0x20AC, 0x1F600, 0x10FFFF, 0xD800, 0])).2
          = [0x41, 0xE9, 0x20AC, 0x1F600, 0x10FFFF, 0xD800, 0] :=
  ⟨by decide, from_utf8_undoes_to_utf8 _ (by decide)⟩

/-! ## The bad-encoding rule -/

theorem count_range_eq (entropy : List Nat) (lo hi : Nat) :
    count_range entropy lo hi
      = (entropy.dedup.filter (fun ch => decide (lo ≤ ch) && decide (ch < hi))).length := by
  unfold count_range
  apply List.Perm.length_eq
  apply (List.perm_ext_iff_of_nodup ?_ ?_).mpr
  · intro a
    simp only [List.mem_filter, List.mem_range, List.mem_dedup, Bool.and_eq_true,
      decide_eq_true_eq]
    tauto
  · exact (List.nodup_range hi).filter _
  · exact (List.nodup_dedup _).filter _

theorem filter_length_or (l : List Nat) (p q : Nat → Bool)
    (h : ∀ x, ¬ (p x = true ∧ q x = true)) :
    (l.filter (fun x => p x || q x)).length = (l.filter p).length + (l.filter q).length := by
  induction l with
  | nil => rfl
  | cons a l ih =>
      have := h a
      cases hp : p a <;> cases hq : q a <;> simp_all [List.filter_cons] <;> omega

theorem spec_c1_eq (entropy : List Nat) :
    spec_c1 entropy = count_range entropy 0 0x20 + count_range entropy 0x7f 0xa0
      + count_range entropy 0xa0 0xc0 := by
  rw [count_range_eq, count_range_eq, count_range_eq, Nat.add_assoc,
    ← filter_length_or _ _ _ (by intro x; simp; omega),
    ← filter_length_or _ _ _ (by intro x; simp; omega)]
  unfold spec_c1
  congr 1
  apply List.filter_congr
  intro x _
  by_cases h1 : x < 0x20 <;> by_cases h2 : 0x7f ≤ x <;> by_cases h3 : x < 0xa0 <;>
    by_cases h4 : x < 0xc0 <;> simp [h1, h2, h3, h4] <;> omega

theorem spec_c2_eq (entropy : List Nat) :
    spec_c2 entropy = count_range entropy 0xc0 0x100 := by
  rw [count_range_eq]
  rfl

/-- C33: with `c1` the number of distinct code points in `[0x00, 0x20)` or `[0x7f, 0xC0)`,
`c2` the number in `[0xC0, 0x100)` and `d` the number of distinct code points that were added
to the `Entropy` object, `calc_bad_encoding` marks the record bad exactly when `c1 > 4` or
`3 * (c1 + c2) > d`; the test `ct > entropy.size() / 3` with its integer division says the
same. -/
theorem calc_bad_encoding_iff (entropy : List Nat) :
    calc_bad_encoding entropy = true
      ↔ spec_c1 entropy > 4
        ∨ 3 * (spec_c1 entropy + spec_c2 entropy) > entropy.dedup.length := by
  unfold calc_bad_encoding
  rw [← spec_c1_eq, ← spec_c2_eq]
  dsimp only
  by_cases h1 : spec_c1 entropy > 4
  · simp [h1]
  · rw [if_neg h1]
    by_cases h2 : spec_c1 entropy + spec_c2 entropy > entropy.dedup.length / 3
    · rw [if_pos h2]
      simp only [true_iff]
      right
      omega
    · rw [if_neg h2]
      simp only [Bool.false_eq_true, false_iff, not_or]
      exact ⟨h1, by omega⟩

/-! ## The order of the `TTITLE` lines -/

set_option maxRecDepth 1000000 in
/-- C34 as stated fails: of the lines `TTITLE0`, `TTITLE2`, `TTITLE1` the misordered
`TTITLE2` is left out, and the later `TTITLE1` is still added to the songs. -/
theorem ttitle_after_misordered_added :
    ∃ r, DiskRecord.parse Locale.ascii example_misordered_text = Except.ok r
      ∧ r.m_songs = [ascii_bytes "one", ascii_bytes "two"] :=
  ⟨_, rfl, by decide⟩

/-- C34, amended: a `TTITLE<N>` line sets the base to `N` and is added when the record has
no songs yet; otherwise it is added exactly when `N` is the base plus the number of songs
added so far, and it is skipped, with the record left as it was, when `N` is any other
number. A skipped line does not end the accumulation: a later line with the expected number
is added. -/
theorem ttitle_ordering (r : DiskRecord) (lv : Nat) (value : List Nat)
    (hlv : lv < 18446744073709551616)
    (hsize : r.m_list_base + r.m_songs.length < 18446744073709551616) :
    r.add_song lv value
      = if r.m_songs = [] then { r with m_list_base := lv, m_songs := [value] }
        else if lv = r.m_list_base + r.m_songs.length then
          { r with m_songs := r.m_songs ++ [value] }
        else r := by
  by_cases hs : r.m_songs = []
  · rw [if_pos hs]
    simp [DiskRecord.add_song, hs]
  · have hne : r.m_songs.isEmpty = false := by simpa using hs
    rw [if_neg hs]
    simp only [DiskRecord.add_song, hne, Bool.false_eq_true, if_false]
    by_cases he : lv = r.m_list_base + r.m_songs.length
    · rw [if_pos he, if_neg]
      rw [he]
      omega
    · rw [if_neg he, if_pos]
      omega

set_option maxRecDepth 1000000 in
/-- Witness for C34: after `TTITLE0` the line `TTITLE2` leaves the record as it is, and the
line `TTITLE1` after it is added. -/
theorem ttitle_ordering_witness :
    (2 : Nat) < 18446744073709551616
      ∧ (DiskRecord.default.add_song 0 [97]).m_list_base
          + (DiskRecord.default.add_song 0 [97]).m_songs.length < 18446744073709551616
      ∧ (DiskRecord.default.add_song 0 [97]).add_song 2 [99]
          = DiskRecord.default.add_song 0 [97]
      ∧ (((DiskRecord.default.add_song 0 [97]).add_song 2 [99]).add_song 1 [98]).m_songs
          = [[97], [98]] :=
  ⟨by decide, by decide,
    (ttitle_ordering (DiskRecord.default.add_song 0 [97]) 2 [99] (by decide) (by decide)).trans
      (by decide),
    by decide⟩

/-! ## The upper-case count of a parsed record -/

theorem read_and_cleanup_eq (L : Locale) (data : List Nat) :
    DiskRecord.read_and_cleanup L data
      = match DiskRecord.read_lines L data with
        | Except.error e => Except.error e
        | Except.ok r => Except.ok (r.cleanup L) := by
  unfold DiskRecord.read_and_cleanup DiskRecord.read_lines
  cases parse_loop L data ⟨DiskRecord.default, [], [], 0, state_t.Start⟩ with
  | error e => rfl
  | ok st =>
      dsimp only
      split_ifs
      · cases st.record.add_keyvalue L st.key st.value <;> rfl
      · rfl

theorem parse_of_read_lines (L : Locale) (data : List Nat) (r : DiskRecord)
    (h : DiskRecord.read_lines L data = Except.ok r) :
    DiskRecord.parse L data = Except.ok (r.cleanup L).finish := by
  unfold DiskRecord.parse
  rw [read_and_cleanup_eq, h]

theorem titlecase_songs_upper_last (L : Locale) (last : List Nat)
    (hv : (from_utf8 last).1 = true) :
    ∀ (songs : List (List Nat)) (entropy : Option (List Nat)) (upper : Nat),
      (titlecase_songs L (songs ++ [last]) entropy upper).2.2
        = (mostly_uppercase L (from_utf8 last).2).2 := by
  intro songs
  induction songs with
  | nil =>
      intro entropy upper
      simp only [List.nil_append, titlecase_songs, convert_to_titlecase, hv, if_true]
  | cons s songs ih =>
      intro entropy upper
      rw [List.cons_append, titlecase_songs]
      exact ih _ _

theorem finish_uppercasecount (c : DiskRecord) :
    c.finish.m_uppercasecount = c.m_uppercasecount := by
  simp only [DiskRecord.finish, DiskRecord.verify_record]
  split <;> rfl

theorem cleanup_uppercasecount (L : Locale) (r : DiskRecord) (songs : List (List Nat))
    (last : List Nat) (hs : r.m_songs = songs ++ [last])
    (hv : (from_utf8 (cleaned_song r.m_artist last)).1 = true) :
    (r.cleanup L).m_uppercasecount = spec_upper_letters L (cleaned_song r.m_artist last) := by
  have hsongs : (r.m_songs.map (fun song =>
        if begins_with song (r.m_artist ++ [32, 47, 32])
        then song.drop (r.m_artist ++ [32, 47, 32]).length else song)).map trim_all
      = (songs.map (fun song =>
        if begins_with song (r.m_artist ++ [32, 47, 32])
        then song.drop (r.m_artist ++ [32, 47, 32]).length else song)).map trim_all
        ++ [cleaned_song r.m_artist last] := by
    rw [hs]
    simp [cleaned_song]
  unfold DiskRecord.cleanup
  dsimp only
  rw [hsongs, titlecase_songs_upper_last L _ hv]
  rfl

/-- C36 (code as it is): for a record read from text whose last song decodes,
`charcount_upper()` is the number of upper-case letters of the last song alone, counted
before the conversion to title case: `mostly_uppercase` stores its count with
`m_uppercasecount = upperalpha`, once for every string, and the last string wins. Here `r`
is the record as the lines leave it, before `cleanup()`. -/
theorem charcount_upper_last_song (L : Locale) (data : List Nat) (r : DiskRecord)
    (songs : List (List Nat)) (last : List Nat)
    (h : DiskRecord.read_lines L data = Except.ok r)
    (hs : r.m_songs = songs ++ [last])
    (hv : (from_utf8 (cleaned_song r.m_artist last)).1 = true) :
    ∃ parsed, DiskRecord.parse L data = Except.ok parsed
      ∧ parsed.charcount_upper = spec_upper_letters L (cleaned_song r.m_artist last) :=
  ⟨_, parse_of_read_lines L data r h, by
    rw [DiskRecord.charcount_upper, finish_uppercasecount]
    exact cleanup_uppercasecount L r songs last hs hv⟩

set_option maxRecDepth 1000000 in
/-- Witness for C36: the record "Abba / Gold" with the songs "Dancing Queen" and "sos" has
four upper-case letters in its strings, and `charcount_upper()` is 0, the count of "sos". -/
theorem charcount_upper_last_song_witness :
    ∃ r, DiskRecord.read_lines Locale.ascii example_lowercase_last_text = Except.ok r
      ∧ r.m_songs = [ascii_bytes "Dancing Queen"] ++ [ascii_bytes "sos"]
      ∧ (from_utf8 (cleaned_song r.m_artist (ascii_bytes "sos"))).1 = true
      ∧ (∃ parsed, DiskRecord.parse Locale.ascii example_lowercase_last_text = Except.ok parsed
          ∧ parsed.charcount_upper
            = spec_upper_letters Locale.ascii (cleaned_song r.m_artist (ascii_bytes "sos")))
      ∧ spec_upper_letters Locale.ascii (cleaned_song r.m_artist (ascii_bytes "sos")) = 0 :=
  ⟨_, rfl, rfl, by decide,
    charcount_upper_last_song Locale.ascii example_lowercase_last_text _
      [ascii_bytes "Dancing Queen"] (ascii_bytes "sos") rfl rfl (by decide),
    by decide⟩

set_option maxRecDepth 1000000 in
/-- The two example records: with the last song "sos" the count is 0 while the strings of
the record hold 4 upper-case letters; with the last song "SOS" the count is 3 while the
strings, the song now being "Sos", hold 5. -/
theorem charcount_upper_examples :
    (∃ r, DiskRecord.parse Locale.ascii example_lowercase_last_text = Except.ok r
      ∧ r.m_valid = true ∧ r.charcount_upper = 0 ∧ spec_uppercasecount Locale.ascii r = 4)
      ∧ (∃ r, DiskRecord.parse Locale.ascii example_uppercase_last_text = Except.ok r
        ∧ r.m_songs = [ascii_bytes "Dancing Queen", ascii_bytes "Sos"]
        ∧ r.charcount_upper = 3 ∧ spec_uppercasecount Locale.ascii r = 5) :=
  ⟨⟨_, rfl, by decide, by decide, by decide⟩, ⟨_, rfl, by decide, by decide, by decide⟩⟩

/-! ## A disc length below the last frame offset -/

theorem frame_lengths_getLast (seconds startframe : Nat) :
    ∀ (frames : List Nat) (last : Nat), frames.getLast? = some last →
      (frame_lengths_of_starts seconds startframe frames).getLast?
        = some (sub32 (sub32 (mul32 seconds 75) last) startframe) := by
  intro frames
  induction frames with
  | nil => intro last h; cases h
  | cons a rest ih =>
      intro last h
      cases rest with
      | nil =>
          simp only [List.getLast?_singleton, Option.some.injEq] at h
          subst h
          rfl
      | cons b more =>
          rw [List.getLast?_cons_cons] at h
          rw [frame_lengths_of_starts]
          have hne := frame_lengths_of_starts_ne_nil seconds startframe b more
          cases hl : frame_lengths_of_starts seconds startframe (b :: more) with
          | nil => exact absurd hl hne
          | cons x xs =>
              rw [List.getLast?_cons_cons, ← hl]
              exact ih last h

set_option maxRecDepth 1000000 in
/-- C35 as stated fails: the record with the offsets 150 and 20753 and a disc length of one
second is marked valid; its last frame length is 75 - 20753 - 150 wrapped around in 32 bits,
and both fingerprints are computed over it. -/
theorem negative_length_record_valid :
    ∃ r, DiskRecord.parse Locale.ascii example_negative_length_text = Except.ok r
      ∧ r.m_valid = true
      ∧ r.m_frames = [20603, 4294946468]
      ∧ r.discid false = private_discid false 150 [20603, 4294946468]
      ∧ r.fuzzy_discid false = private_fuzzy_discid false 150 [20603, 4294946468] :=
  ⟨_, rfl, by decide, by decide, by decide, by decide⟩

/-- C35, amended: a disc length that lies below the frame offsets does not enter the test for
validity. For a record read from text with frame offsets from `first` to `last` and
`seconds * 75 < last + first`, the record is marked valid under the conditions of every other
record, its `seconds()` is `first`, and its last frame length is the difference wrapped
around in 32 bits, 2^32 minus what is missing. Here `c` is the record as `cleanup()` leaves
it. -/
theorem negative_last_length_wraps (L : Locale) (data : List Nat) (c : DiskRecord)
    (first last : Nat)
    (h : DiskRecord.read_and_cleanup L data = Except.ok c)
    (hfirst : c.m_frames.head? = some first) (hlast : c.m_frames.getLast? = some last)
    (hf : first < U32)
    (hneg : c.m_seconds * 75 < last + first)
    (hwrap : last + first < c.m_seconds * 75 + U32) :
    ∃ r, DiskRecord.parse L data = Except.ok r
      ∧ (r.m_valid = true ↔
          c.m_artist ≠ [] ∧ c.m_title ≠ [] ∧ c.m_songs.length = c.m_frames.length
            ∧ 0 < c.m_seconds ∧ c.bad_encoding = false)
      ∧ r.m_seconds = first
      ∧ r.m_frames.getLast? = some (c.m_seconds * 75 + U32 - (last + first)) := by
  refine ⟨c.finish, by simp [DiskRecord.parse, h], ?_, ?_, ?_⟩
  · have hne : c.m_frames ≠ [] := by
      intro e
      rw [e] at hfirst
      cases hfirst
    rw [finish_valid]
    simp only [Bool.and_eq_true, Bool.not_eq_true', Bool.or_eq_true, List.isEmpty_eq_true,
      beq_iff_eq, bne_iff_ne, ne_eq, List.isEmpty_eq_false, and_assoc]
    constructor
    · rintro ⟨h1, h2, h3, h4, h5⟩
      exact ⟨by simpa using h1, by simpa using h2, h3.resolve_left hne, by omega, h5⟩
    · rintro ⟨h1, h2, h3, h4, h5⟩
      exact ⟨by simpa using h1, by simpa using h2, Or.inr h3, by omega, h5⟩
  · rw [(finish_seconds_frames c).1]
    cases hfr : c.m_frames with
    | nil => rw [hfr] at hfirst; cases hfirst
    | cons a rest =>
        rw [hfr] at hfirst
        simp only [List.head?_cons, Option.some.injEq] at hfirst
        subst hfirst
        rfl
  · rw [(finish_seconds_frames c).2]
    cases hfr : c.m_frames with
    | nil => rw [hfr] at hfirst; cases hfirst
    | cons a rest =>
        rw [hfr] at hfirst hlast
        simp only [List.head?_cons, Option.some.injEq] at hfirst
        subst hfirst
        show (frame_lengths_of_starts c.m_seconds a (a :: rest)).getLast? = _
        rw [frame_lengths_getLast c.m_seconds a (a :: rest) last hlast]
        congr 1
        unfold sub32 mul32
        unfold U32 at *
        omega

set_option maxRecDepth 1000000 in
/-- Witness for C35: the record with the offsets 150 and 20753 and a disc length of one
second. -/
theorem negative_last_length_wraps_witness :
    ∃ c, DiskRecord.read_and_cleanup Locale.ascii example_negative_length_text = Except.ok c
      ∧ c.m_frames.head? = some 150 ∧ c.m_frames.getLast? = some 20753 ∧ 150 < U32
      ∧ c.m_seconds * 75 < 20753 + 150
      ∧ ∃ r, DiskRecord.parse Locale.ascii example_negative_length_text = Except.ok r
        ∧ (r.m_valid = true ↔
            c.m_artist ≠ [] ∧ c.m_title ≠ [] ∧ c.m_songs.length = c.m_frames.length
              ∧ 0 < c.m_seconds ∧ c.bad_encoding = false)
        ∧ r.m_seconds = 150
        ∧ r.m_frames.getLast? = some (c.m_seconds * 75 + U32 - (20753 + 150)) :=
  ⟨_, rfl, by decide, by decide, by decide, by decide,
    negative_last_length_wraps Locale.ascii example_negative_length_text _ 150 20753 rfl
      (by decide) (by decide) (by decide) (by decide) (by decide)⟩

/-! ## The end of the buffer -/

theorem parse_loop_append (L : Locale) (a b : List Nat) :
    ∀ st, parse_loop L (a ++ b) st
      = match parse_loop L a st with
        | Except.error e => Except.error e
        | Except.ok st1 => parse_loop L b st1 := by
  induction a with
  | nil => intro st; rfl
  | cons ch a ih =>
      intro st
      rw [List.cons_append, parse_loop, parse_loop]
      cases parse_char L st ch with
      | error e => rfl
      | ok st1 => exact ih st1

/-- The flush of the last line at the end of the buffer. -/
theorem read_lines_eq (L : Locale) (data : List Nat) :
    DiskRecord.read_lines L data
      = match parse_loop L data ⟨DiskRecord.default, [], [], 0, state_t.Start⟩ with
        | Except.error e => Except.error e
        | Except.ok st =>
            if st.state = state_t.Value ∨ st.state = state_t.Skip then
              st.record.add_keyvalue L st.key st.value
            else Except.ok st.record := rfl

theorem parse_char_newline_state (L : Locale) (st st1 : ParseState) (ch : Nat)
    (hch : ch = 10 ∨ ch = 13) (h : parse_char L st ch = Except.ok st1) :
    st1.state = state_t.Start := by
  unfold parse_char at h
  rw [if_pos hch] at h
  split_ifs at h
  · split at h
    · cases h
    · injection h with h
      rw [← h]
  · injection h with h
    rw [← h]
  · injection h with h
    rw [← h]

/-- A line feed at a point where the parser is not inside a comment gives the record that
the end of the buffer gives at this point. -/
theorem newline_flush (L : Locale) (st : ParseState) (hc : st.state ≠ state_t.Comment) :
    (match parse_char L st 10 with
      | Except.error e => Except.error e
      | Except.ok st1 =>
          if st1.state = state_t.Value ∨ st1.state = state_t.Skip then
            st1.record.add_keyvalue L st1.key st1.value
          else Except.ok st1.record)
      = if st.state = state_t.Value ∨ st.state = state_t.Skip then
          st.record.add_keyvalue L st.key st.value
        else Except.ok st.record := by
  unfold parse_char
  rw [if_pos (Or.inl rfl)]
  by_cases hv : st.state = state_t.Value ∨ st.state = state_t.Skip
  · rw [if_pos hv, if_pos hv]
    cases st.record.add_keyvalue L st.key st.value with
    | error e => rfl
    | ok r => simp
  · rw [if_neg hv, if_neg hv, if_neg hc]
    simp

/-- A line that is no comment leaves the parser outside the comment state. -/
theorem line_not_comment (L : Locale) (line : List Nat)
    (hline : ∀ ch ∈ line, ch ≠ 10 ∧ ch ≠ 13) :
    ∀ st0 st, parse_loop L line st0 = Except.ok st → st0.state ≠ state_t.Comment →
      (st0.state = state_t.Start → is_comment_line L line = false) →
      st.state ≠ state_t.Comment := by
  induction line with
  | nil =>
      intro st0 st h hc _
      rw [parse_loop] at h
      injection h with h
      rw [← h]
      exact hc
  | cons ch rest ih =>
      intro st0 st h hc hs
      have hch := hline ch (List.mem_cons_self _ _)
      have hrest : ∀ x ∈ rest, x ≠ 10 ∧ x ≠ 13 :=
        fun x hx => hline x (List.mem_cons_of_mem _ hx)
      rw [parse_loop] at h
      cases h1 : parse_char L st0 ch with
      | error e => rw [h1] at h; cases h
      | ok st1 =>
          rw [h1] at h
          dsimp only at h
          have key : st1.state ≠ state_t.Comment
              ∧ (st1.state = state_t.Start → is_comment_line L rest = false) := by
            unfold parse_char at h1
            rw [if_neg (by omega)] at h1
            obtain ⟨record, key, value, lastch, state⟩ := st0
            dsimp only at h1 hc hs
            cases state <;> dsimp only at h1
            · injection h1 with h1
              rw [← h1]
              exact ⟨by simp, by simp⟩
            · have hcl := hs rfl
              rw [is_comment_line] at hcl
              by_cases h35 : ch = 35
              · rw [if_pos h35] at hcl
                cases hcl
              · rw [if_neg h35] at hcl h1
                by_cases hsp : L.isspace ch = true
                · rw [if_pos hsp] at hcl
                  rw [if_neg (by simp [hsp])] at h1
                  injection h1 with h1
                  rw [← h1]
                  exact ⟨by simp, fun _ => hcl⟩
                · rw [if_pos (by simpa using hsp)] at h1
                  injection h1 with h1
                  rw [← h1]
                  exact ⟨by simp, by simp⟩
            · split_ifs at h1 <;>
              · injection h1 with h1
                rw [← h1]
                exact ⟨by simp, by simp⟩
            · split_ifs at h1 <;>
              · injection h1 with h1
                rw [← h1]
                exact ⟨by simp, by simp⟩
            · split_ifs at h1 <;>
              · injection h1 with h1
                rw [← h1]
                exact ⟨by simp, by simp⟩
            · split_ifs at h1 <;>
              · injection h1 with h1
                rw [← h1]
                exact ⟨by simp, by simp⟩
            · exact absurd rfl hc
          exact ih hrest st1 st h key.1 key.2

/-- A comment line without line end leaves the record as it was and the parser in the
comment state. -/
theorem line_comment (L : Locale) (line : List Nat)
    (hline : ∀ ch ∈ line, ch ≠ 10 ∧ ch ≠ 13) :
    ∀ st0, (st0.state = state_t.Comment
        ∨ (st0.state = state_t.Start ∧ is_comment_line L line = true)) →
      ∃ st, parse_loop L line st0 = Except.ok st ∧ st.record = st0.record
        ∧ (st.state = state_t.Comment ∨ (line = [] ∧ st.state = st0.state)) := by
  induction line with
  | nil =>
      intro st0 _
      exact ⟨st0, rfl, rfl, Or.inr ⟨rfl, rfl⟩⟩
  | cons ch rest ih =>
      intro st0 h0
      have hch := hline ch (List.mem_cons_self _ _)
      have hrest : ∀ x ∈ rest, x ≠ 10 ∧ x ≠ 13 :=
        fun x hx => hline x (List.mem_cons_of_mem _ hx)
      have key : ∃ st1, parse_char L st0 ch = Except.ok st1 ∧ st1.record = st0.record
          ∧ (st1.state = state_t.Comment
            ∨ (st1.state = state_t.Start ∧ is_comment_line L rest = true)) := by
        unfold parse_char
        rw [if_neg (by omega)]
        obtain ⟨record, key, value, lastch, state⟩ := st0
        dsimp only at h0 ⊢
        rcases h0 with h0 | ⟨h0, hcl⟩
        · subst h0
          dsimp only
          split_ifs
          · exact ⟨_, rfl, rfl, Or.inl rfl⟩
          · exact ⟨_, rfl, rfl, Or.inl rfl⟩
        · subst h0
          dsimp only
          rw [is_comment_line] at hcl
          by_cases h35 : ch = 35
          · rw [if_pos h35]
            exact ⟨_, rfl, rfl, Or.inl rfl⟩
          · rw [if_neg h35] at hcl ⊢
            by_cases hsp : L.isspace ch = true
            · rw [if_pos hsp] at hcl
              rw [if_neg (by simp [hsp])]
              exact ⟨_, rfl, rfl, Or.inr ⟨rfl, hcl⟩⟩
            · rw [if_neg hsp] at hcl
              cases hcl
      obtain ⟨st1, h1, hr1, hs1⟩ := key
      obtain ⟨st, h2, hr2, hs2⟩ := ih hrest st1 hs1
      refine ⟨st, ?_, hr2.trans hr1, ?_⟩
      · rw [parse_loop, h1]
        exact h2
      · rcases hs2 with h | ⟨hnil, h⟩
        · exact Or.inl h
        · rcases hs1 with k | ⟨k, kc⟩
          · exact Or.inl (h.trans k)
          · rw [hnil] at kc
            cases kc

/-- After a buffer that is empty or ends in a line end the parser is at the start of a
line. -/
theorem parse_loop_line_start (L : Locale) (pre : List Nat)
    (hpre : pre = [] ∨ ∃ q, pre = q ++ [10] ∨ pre = q ++ [13]) (st : ParseState)
    (h : parse_loop L pre ⟨DiskRecord.default, [], [], 0, state_t.Start⟩ = Except.ok st) :
    st.state = state_t.Start := by
  rcases hpre with hp | ⟨q, hq⟩
  · subst hp
    rw [parse_loop] at h
    injection h with h
    rw [← h]
  · have hstep : ∀ nl, (nl = 10 ∨ nl = 13) → pre = q ++ [nl] → st.state = state_t.Start := by
      intro nl hnl hp
      subst hp
      rw [parse_loop_append] at h
      cases h1 : parse_loop L q ⟨DiskRecord.default, [], [], 0, state_t.Start⟩ with
      | error e => rw [h1] at h; cases h
      | ok st1 =>
          rw [h1] at h
          dsimp only at h
          rw [parse_loop] at h
          cases h2 : parse_char L st1 nl with
          | error e => rw [h2] at h; cases h
          | ok st2 =>
              rw [h2] at h
              dsimp only at h
              rw [parse_loop] at h
              injection h with h
              rw [← h]
              exact parse_char_newline_state L st1 st2 nl hnl h2
    rcases hq with hq | hq
    · exact hstep 10 (Or.inl rfl) hq
    · exact hstep 13 (Or.inr rfl) hq

theorem read_lines_newline (L : Locale) (pre line : List Nat)
    (hpre : pre = [] ∨ ∃ q, pre = q ++ [10] ∨ pre = q ++ [13])
    (hline : ∀ ch ∈ line, ch ≠ 10 ∧ ch ≠ 13)
    (hc : is_comment_line L line = false) :
    DiskRecord.read_lines L (pre ++ line ++ [10]) = DiskRecord.read_lines L (pre ++ line) := by
  rw [read_lines_eq, read_lines_eq, parse_loop_append L (pre ++ line) [10]]
  cases h : parse_loop L (pre ++ line) ⟨DiskRecord.default, [], [], 0, state_t.Start⟩ with
  | error e => rfl
  | ok st =>
      dsimp only
      have hst : st.state ≠ state_t.Comment := by
        rw [parse_loop_append] at h
        cases h1 : parse_loop L pre ⟨DiskRecord.default, [], [], 0, state_t.Start⟩ with
        | error e => rw [h1] at h; cases h
        | ok st1 =>
            rw [h1] at h
            dsimp only at h
            have hs1 := parse_loop_line_start L pre hpre st1 h1
            exact line_not_comment L line hline st1 st h (by rw [hs1]; simp) (fun _ => hc)
      rw [parse_loop, ← newline_flush L st hst]
      cases parse_char L st 10 with
      | error e => rfl
      | ok st2 => rfl

theorem read_lines_comment (L : Locale) (pre line : List Nat)
    (hpre : pre = [] ∨ ∃ q, pre = q ++ [10] ∨ pre = q ++ [13])
    (hline : ∀ ch ∈ line, ch ≠ 10 ∧ ch ≠ 13)
    (hc : is_comment_line L line = true) :
    DiskRecord.read_lines L (pre ++ line) = DiskRecord.read_lines L pre := by
  rw [read_lines_eq, read_lines_eq, parse_loop_append L pre line]
  cases h1 : parse_loop L pre ⟨DiskRecord.default, [], [], 0, state_t.Start⟩ with
  | error e => rfl
  | ok st1 =>
      dsimp only
      have hs1 := parse_loop_line_start L pre hpre st1 h1
      obtain ⟨st, h2, hr, hs⟩ := line_comment L line hline st1 (Or.inr ⟨hs1, hc⟩)
      rw [h2]
      dsimp only
      have hcomment : st.state = state_t.Comment := by
        rcases hs with h | ⟨hnil, _⟩
        · exact h
        · rw [hnil] at hc
          cases hc
      rw [if_neg (by rw [hcomment]; simp), if_neg (by rw [hs1]; simp), hr]

theorem parse_congr (L : Locale) (a b : List Nat)
    (h : DiskRecord.read_lines L a = DiskRecord.read_lines L b) :
    DiskRecord.parse L a = DiskRecord.parse L b := by
  unfold DiskRecord.parse
  rw [read_and_cleanup_eq, read_and_cleanup_eq, h]

/-- C37 (code as it is): let the buffer end in a last line `line` without line end, after
`pre`, which is empty or ends in a line end. When `line` is no comment, the record is the one
that the buffer with a line feed appended gives. When `line` is a comment, it is lost: the
record is the one that `pre` alone gives, because at the end of the buffer only the states
`Value` and `Skip` are flushed and `add_comment` is not called. -/
theorem end_of_buffer_line (L : Locale) (pre line : List Nat)
    (hpre : pre = [] ∨ ∃ q, pre = q ++ [10] ∨ pre = q ++ [13])
    (hline : ∀ ch ∈ line, ch ≠ 10 ∧ ch ≠ 13) :
    (is_comment_line L line = false →
        DiskRecord.parse L (pre ++ line ++ [10]) = DiskRecord.parse L (pre ++ line))
      ∧ (is_comment_line L line = true →
        DiskRecord.parse L (pre ++ line) = DiskRecord.parse L pre) :=
  ⟨fun hc => parse_congr L _ _ (read_lines_newline L pre line hpre hline hc),
    fun hc => parse_congr L _ _ (read_lines_comment L pre line hpre hline hc)⟩

set_option maxRecDepth 1000000 in
/-- Witness for C37: after the lines of "Abba / Gold" the last line `# Disc length: 100
seconds` without line end is lost, and the record is not valid; with a line feed appended
the disc length is read and the record is valid. -/
theorem end_of_buffer_line_witness :
    (example_last_line_pre = []
        ∨ ∃ q, example_last_line_pre = q ++ [10] ∨ example_last_line_pre = q ++ [13])
      ∧ (∀ ch ∈ example_last_line_comment, ch ≠ 10 ∧ ch ≠ 13)
      ∧ is_comment_line Locale.ascii example_last_line_comment = true
      ∧ DiskRecord.parse Locale.ascii (example_last_line_pre ++ example_last_line_comment)
          = DiskRecord.parse Locale.ascii example_last_line_pre
      ∧ (∃ r, DiskRecord.parse Locale.ascii
            (example_last_line_pre ++ example_last_line_comment) = Except.ok r
          ∧ r.m_valid = false)
      ∧ (∃ r, DiskRecord.parse Locale.ascii
            (example_last_line_pre ++ example_last_line_comment ++ [10]) = Except.ok r
          ∧ r.m_valid = true) :=
  ⟨Or.inr ⟨ascii_bytes "DTITLE=Abba / Gold\nTTITLE0=one", Or.inl (by decide)⟩,
    by decide, by decide,
    (end_of_buffer_line Locale.ascii example_last_line_pre example_last_line_comment
      (Or.inr ⟨ascii_bytes "DTITLE=Abba / Gold\nTTITLE0=one", Or.inl (by decide)⟩)
      (by decide)).2 (by decide),
    ⟨_, rfl, by decide⟩, ⟨_, rfl, by decide⟩⟩

theorem split_loop_nil (m_delimit : List Nat) (dq : Bool) (n : Nat) :
    StringTokenizer.split_loop m_delimit dq n [] = [] := by
  cases n <;> simp [StringTokenizer.split_loop]

theorem ends_in_gap_delimiter (delimit : List Nat) (d : Nat) (r : List Nat)
    (hd : delimit.contains d = true) (hr : r ≠ []) :
    ends_in_gap delimit (d :: r) = ends_in_gap delimit r := by
  have hd2 : d ∈ delimit := by simpa using hd
  match r, hr with
  | [e], _ => simp [ends_in_gap, hd2]
  | e :: f :: r2, _ => simp [ends_in_gap]

theorem ends_in_gap_after_run (delimit : List Nat) (rest : List Nat) :
    ∀ c, delimit.contains c = false →
      ends_in_gap delimit (c :: rest)
        = ends_in_gap delimit ((rest.dropWhile (fun c => !delimit.contains c)).tail) := by
  induction rest with
  | nil =>
      intro c hc
      have hc2 : c ∉ delimit := by simpa using hc
      simp [ends_in_gap, hc2]
  | cons d r ih =>
      intro c hc
      have hc2 : c ∉ delimit := by simpa using hc
      cases hd : delimit.contains d
      · have hd2 : d ∉ delimit := by simpa using hd
        rw [List.dropWhile_cons_of_pos (by simp [hd2]), ← ih d hd]
        cases r with
        | nil => simp [ends_in_gap, hc2, hd2]
        | cons e r2 => simp [ends_in_gap]
      · have hd2 : d ∈ delimit := by simpa using hd
        rw [List.dropWhile_cons_of_neg (by simp [hd2]), List.tail_cons]
        cases r with
        | nil => simp [ends_in_gap, hc2]
        | cons e r2 =>
            rw [← ends_in_gap_delimiter delimit d (e :: r2) hd (by simp)]
            simp [ends_in_gap]

theorem spec_runs_from_run (delimit : List Nat) (s : List Nat) :
    ∀ run, run ≠ [] →
      spec_runs_from delimit run s
        = (run ++ s.takeWhile (fun c => !delimit.contains c))
            :: spec_runs_from delimit [] ((s.dropWhile (fun c => !delimit.contains c)).tail) := by
  induction s with
  | nil => intro run hr; simp [spec_runs_from, hr]
  | cons d r ih =>
      intro run hr
      cases hd : delimit.contains d
      · have hd2 : d ∉ delimit := by simpa using hd
        rw [spec_runs_from, if_neg (by simp [hd2]), ih _ (by simp),
          List.takeWhile_cons_of_pos (by simp [hd2]),
          List.dropWhile_cons_of_pos (by simp [hd2])]
        simp
      · have hd2 : d ∈ delimit := by simpa using hd
        rw [spec_runs_from, if_pos hd, if_neg (by simpa using hr),
          List.takeWhile_cons_of_neg (by simp [hd2]),
          List.dropWhile_cons_of_neg (by simp [hd2])]
        simp

theorem mem_tail_dropWhile (p : Nat → Bool) (x : Nat) (l : List Nat)
    (h : x ∈ (l.dropWhile p).tail) : x ∈ l :=
  (List.dropWhile_suffix p).subset (List.mem_of_mem_tail h)

theorem split_loop_runs (delimit : List Nat) (dq : Bool) :
    ∀ (n : Nat) (str : List Nat), str.length ≤ n → (34 ∉ str ∨ dq = false) →
      StringTokenizer.split_loop delimit dq n str
        = spec_runs_from delimit [] str ++ (if ends_in_gap delimit str then [[]] else []) := by
  intro n
  induction n with
  | zero =>
      intro str h _
      have : str = [] := List.length_eq_zero.mp (Nat.le_zero.mp h)
      subst this
      simp [StringTokenizer.split_loop, spec_runs_from, ends_in_gap]
  | succ n ih =>
      intro str hlen hq
      cases str with
      | nil => simp [StringTokenizer.split_loop, spec_runs_from, ends_in_gap]
      | cons c rest =>
          have hrl : rest.length ≤ n := by simpa using hlen
          have hqr : 34 ∉ rest ∨ dq = false :=
            hq.imp (fun h hm => h (List.mem_cons_of_mem _ hm)) id
          cases hc : delimit.contains c
          · -- a run starts here
            have hc2 : c ∉ delimit := by simpa using hc
            have hnq : (dq && c == 34) = false := by
              rcases hq with h | h
              · have : c ≠ 34 := fun e => h (e ▸ List.mem_cons_self _ _)
                simp [this]
              · simp [h]
            have hget : StringTokenizer.get delimit dq (c :: rest)
                = (c :: rest.takeWhile (fun c => !delimit.contains c),
                    (rest.dropWhile (fun c => !delimit.contains c)).tail) := by
              unfold StringTokenizer.get
              rw [List.dropWhile_cons_of_neg (by simp [hc2])]
              simp only [hnq, Bool.false_eq_true, if_false]
              rw [List.takeWhile_cons_of_pos (by simp [hc2]),
                List.dropWhile_cons_of_pos (by simp [hc2])]
            have hlen2 : ((rest.dropWhile (fun c => !delimit.contains c)).tail).length ≤ n := by
              have := length_dropWhile_le (fun c => !delimit.contains c) rest
              simp only [List.length_tail]
              omega
            have hq2 : 34 ∉ (rest.dropWhile (fun c => !delimit.contains c)).tail
                ∨ dq = false :=
              hqr.imp (fun h hm => h (mem_tail_dropWhile _ _ _ hm)) id
            have hruns : spec_runs_from delimit [] (c :: rest)
                = (c :: rest.takeWhile (fun c => !delimit.contains c))
                    :: spec_runs_from delimit []
                        ((rest.dropWhile (fun c => !delimit.contains c)).tail) := by
              rw [spec_runs_from, if_neg (by simp [hc2])]
              exact spec_runs_from_run delimit rest [c] (by simp)
            rw [StringTokenizer.split_loop, if_neg (by simp), hget]
            dsimp only
            rw [ih _ hlen2 hq2, hruns, ends_in_gap_after_run delimit rest c hc]
            rfl
          · -- a leading delimiter
            have hc2 : c ∈ delimit := by simpa using hc
            cases rest with
            | nil =>
                simp [StringTokenizer.split_loop, StringTokenizer.get, hc2, spec_runs_from,
                  ends_in_gap, split_loop_nil]
            | cons d r =>
                have hget : StringTokenizer.get delimit dq (c :: d :: r)
                    = StringTokenizer.get delimit dq (d :: r) := by
                  unfold StringTokenizer.get
                  rw [List.dropWhile_cons_of_pos (by simp [hc2])]
                have hstep : StringTokenizer.split_loop delimit dq (n + 1) (c :: d :: r)
                    = StringTokenizer.split_loop delimit dq n (d :: r) := by
                  obtain ⟨m, rfl⟩ : ∃ m, n = m + 1 :=
                    ⟨n - 1, by simp only [List.length_cons] at hrl; omega⟩
                  have h1 : StringTokenizer.split_loop delimit dq (m + 1 + 1) (c :: d :: r)
                      = (StringTokenizer.get delimit dq (c :: d :: r)).1
                        :: StringTokenizer.split_loop delimit dq (m + 1)
                            (StringTokenizer.get delimit dq (c :: d :: r)).2 := by
                    rw [StringTokenizer.split_loop, if_neg (by simp)]
                  have h2 : StringTokenizer.split_loop delimit dq (m + 1) (d :: r)
                      = (StringTokenizer.get delimit dq (d :: r)).1
                        :: StringTokenizer.split_loop delimit dq m
                            (StringTokenizer.get delimit dq (d :: r)).2 := by
                    rw [StringTokenizer.split_loop, if_neg (by simp)]
                  have := get_length_lt delimit dq (d :: r) (by simp)
                  simp only [List.length_cons] at hrl this
                  rw [h1, h2, hget,
                    split_loop_bound delimit dq (m + 1) m _ (by omega) (by omega)]
                have hruns : spec_runs_from delimit [] (c :: d :: r)
                    = spec_runs_from delimit [] (d :: r) := by
                  rw [spec_runs_from, if_pos hc, if_pos (by simp)]
                rw [hstep, ih _ hrl hqr, hruns,
                  ends_in_gap_delimiter delimit c (d :: r) hc (by simp)]

/-- Every run of `spec_runs` is non-empty and holds no delimiter. -/
theorem spec_runs_from_sound (delimit : List Nat) (s : List Nat) :
    ∀ run, (∀ x ∈ run, delimit.contains x = false) →
      ∀ t ∈ spec_runs_from delimit run s, t ≠ [] ∧ ∀ x ∈ t, delimit.contains x = false := by
  induction s with
  | nil =>
      intro run hrun t ht
      rw [spec_runs_from] at ht
      split_ifs at ht with he
      · cases ht
      · simp only [List.mem_singleton] at ht
        subst ht
        exact ⟨by simpa using he, hrun⟩
  | cons d r ih =>
      intro run hrun t ht
      rw [spec_runs_from] at ht
      split_ifs at ht with hd he
      · exact ih [] (by simp) t ht
      · rcases List.mem_cons.mp ht with h | h
        · subst h
          exact ⟨by simpa using he, hrun⟩
        · exact ih [] (by simp) t h
      · refine ih (run ++ [d]) ?_ t ht
        intro x hx
        rcases List.mem_append.mp hx with h | h
        · exact hrun x h
        · simp only [List.mem_singleton] at h
          subst h
          simpa using hd

/-- C40 (code as it is): for an input without double quotes (or a tokenizer that does not
look at quotes) `split` returns the maximal runs of non-delimiter characters in order, and
after them one empty token when the input is a single delimiter or ends in two delimiters:
`eol()` is tested before `get()` skips the delimiters, so the `T()` with which `get()` says
that nothing is left is stored as a token. -/
theorem split_eq_runs (input delimit : List Nat) (doublequoted : Bool)
    (h : 34 ∉ input ∨ doublequoted = false) :
    StringTokenizer.split input delimit doublequoted
      = spec_runs delimit input ++ (if ends_in_gap delimit input then [[]] else []) :=
  split_loop_runs delimit doublequoted input.length input le_rfl h

/-- Witness for C40: `hello` followed by two blanks gives the tokens `hello` and the empty
string, with one blank the token `hello` alone; the runs are the same. -/
theorem split_eq_runs_witness :
    (34 ∉ ascii_bytes "hello  " ∨ true = false)
      ∧ StringTokenizer.split (ascii_bytes "hello  ") [32, 9, 13, 10] true
          = spec_runs [32, 9, 13, 10] (ascii_bytes "hello  ")
            ++ (if ends_in_gap [32, 9, 13, 10] (ascii_bytes "hello  ") then [[]] else [])
      ∧ StringTokenizer.split (ascii_bytes "hello  ") [32, 9, 13, 10] true
          = [ascii_bytes "hello", []]
      ∧ StringTokenizer.split (ascii_bytes "hello ") [32, 9, 13, 10] true
          = [ascii_bytes "hello"]
      ∧ spec_runs [32, 9, 13, 10] (ascii_bytes "hello  ") = [ascii_bytes "hello"] :=
  ⟨Or.inl (by decide),
    split_eq_runs (ascii_bytes "hello  ") [32, 9, 13, 10] true (Or.inl (by decide)),
    by decide, by decide, by decide⟩

/-! ## The report of the import -/

theorem merge_decision_counted (L : Locale) (r existing_rec : DiskRecord) (rep : report_t)
    (h : rep.updates_counted) :
    (if (merge_decision L r existing_rec rep).1 then
        inc64 (merge_decision L r existing_rec rep).2.updated
      else (merge_decision L r existing_rec rep).2.updated)
      = ((merge_decision L r existing_rec rep).2.entropy_gt
          + (merge_decision L r existing_rec rep).2.upper_count_gt
          + (merge_decision L r existing_rec rep).2.overall_count_gt)
        % 18446744073709551616 := by
  unfold report_t.updates_counted at h
  unfold merge_decision
  by_cases hgt : r.entropy > existing_rec.entropy
  · simp only [hgt, if_true, inc64]
    omega
  · by_cases heq : r.entropy = existing_rec.entropy
    · cases hs : r.equal_strings existing_rec
      · cases hl : r.equal_lowercase_strings L existing_rec
        · by_cases hc : r.charcount > existing_rec.charcount
          · simp [hgt, heq, hs, hl, hc, inc64]
            omega
          · simp [hgt, heq, hs, hl, hc, inc64]
            omega
        · by_cases hu : r.charcount_upper > existing_rec.charcount_upper
          · simp [hgt, heq, hs, hl, hu, inc64]
            omega
          · simp [hgt, heq, hs, hl, hu, inc64]
            omega
      · simp [hgt, heq, hs, inc64]
        omega
    · simp [hgt, heq, inc64]
      omega

theorem update_record_rep (u : Updater) (cdid : Nat) (r : DiskRecord) :
    (u.update_record cdid r).m_rep.updated = inc64 u.m_rep.updated
      ∧ (u.update_record cdid r).m_rep.entropy_gt = u.m_rep.entropy_gt
      ∧ (u.update_record cdid r).m_rep.upper_count_gt = u.m_rep.upper_count_gt
      ∧ (u.update_record cdid r).m_rep.overall_count_gt = u.m_rep.overall_count_gt :=
  ⟨rfl, rfl, rfl, rfl⟩

theorem delete_record_rep (u : Updater) (cdid hashvalue : Nat) :
    (u.delete_record cdid hashvalue).m_rep.updated = u.m_rep.updated
      ∧ (u.delete_record cdid hashvalue).m_rep.entropy_gt = u.m_rep.entropy_gt
      ∧ (u.delete_record cdid hashvalue).m_rep.upper_count_gt = u.m_rep.upper_count_gt
      ∧ (u.delete_record cdid hashvalue).m_rep.overall_count_gt = u.m_rep.overall_count_gt := by
  obtain ⟨db, ⟨rct, lct, dcrcct, frct, bct, realcddidcollct, samecdframesct, realdidcollct,
    sameframesct, entropy_gt, entropy_eq, entropy_lt, duplicate, duplicate_lower,
    upper_count_gt, upper_count_eqlt, overall_count_gt, overall_count_eqlt, added,
    updated⟩⟩ := u
  exact ⟨(rfl : updated = updated), (rfl : entropy_gt = entropy_gt),
    (rfl : upper_count_gt = upper_count_gt), (rfl : overall_count_gt = overall_count_gt)⟩

theorem import_same_cd_fields (L : Locale) (u : Updater) (r existing_rec : DiskRecord)
    (hashvalue cdid ecd : Nat) (record_written : Bool) :
    (import_same_cd L u r existing_rec hashvalue cdid ecd record_written).m_rep.updated
        = (if (merge_decision L r existing_rec u.m_rep).1 then
            inc64 (merge_decision L r existing_rec u.m_rep).2.updated
          else (merge_decision L r existing_rec u.m_rep).2.updated)
      ∧ (import_same_cd L u r existing_rec hashvalue cdid ecd record_written).m_rep.entropy_gt
        = (merge_decision L r existing_rec u.m_rep).2.entropy_gt
      ∧ (import_same_cd L u r existing_rec hashvalue cdid ecd
          record_written).m_rep.upper_count_gt
        = (merge_decision L r existing_rec u.m_rep).2.upper_count_gt
      ∧ (import_same_cd L u r existing_rec hashvalue cdid ecd
          record_written).m_rep.overall_count_gt
        = (merge_decision L r existing_rec u.m_rep).2.overall_count_gt := by
  unfold import_same_cd
  generalize merge_decision L r existing_rec u.m_rep = d
  obtain ⟨update_with_this, m_rep⟩ := d
  cases update_with_this <;> cases record_written <;>
    simp only [if_true, Bool.false_eq_true, if_false, update_record_rep, delete_record_rep,
      and_self]

theorem import_same_cd_counted (L : Locale) (u : Updater) (r existing_rec : DiskRecord)
    (hashvalue cdid ecd : Nat) (record_written : Bool) (h : u.m_rep.updates_counted) :
    (import_same_cd L u r existing_rec hashvalue cdid ecd record_written).m_rep.updates_counted
    := by
  obtain ⟨e1, e2, e3, e4⟩ :=
    import_same_cd_fields L u r existing_rec hashvalue cdid ecd record_written
  unfold report_t.updates_counted
  rw [e1, e2, e3, e4]
  exact merge_decision_counted L r existing_rec u.m_rep h

theorem import_known_discid_counted (L : Locale) (host : Bool) (u u2 : Updater)
    (r : DiskRecord) (cdid ecd : Nat) (record_written discid_valid : Bool)
    (h : u.m_rep.updates_counted)
    (hk : import_known_discid L host u r cdid ecd record_written
      = Except.ok (discid_valid, u2)) :
    u2.m_rep.updates_counted := by
  unfold import_known_discid at hk
  cases hr : u.db.read_record ecd (r.discid host) with
  | error e => rw [hr] at hk; cases hk
  | ok existing_rec =>
      rw [hr] at hk
      dsimp only at hk
      split_ifs at hk
      all_goals
        injection hk with hk
        injection hk with _ hk
        rw [← hk]
        first
          | exact import_same_cd_counted L u r existing_rec _ cdid ecd record_written h
          | exact h

theorem import_discid_links_counted (L : Locale) (host : Bool) (u u2 : Updater)
    (r : DiskRecord) (cdid : Nat) (record_written : Bool)
    (h : u.m_rep.updates_counted)
    (hk : import_discid_links L host u r cdid record_written = Except.ok u2) :
    u2.m_rep.updates_counted := by
  unfold import_discid_links at hk
  dsimp only at hk
  by_cases he : u.db.check_discid (r.discid host) ≠ 0
  · rw [if_pos he] at hk
    cases hl : import_known_discid L host u r cdid (u.db.check_discid (r.discid host))
        record_written with
    | error e => rw [hl] at hk; cases hk
    | ok x =>
        obtain ⟨discid_valid, u1⟩ := x
        have h1 := import_known_discid_counted L host u u1 r cdid _ record_written
          discid_valid h hl
        rw [hl] at hk
        dsimp only at hk
        split_ifs at hk
        all_goals
          injection hk with hk
          rw [← hk]
          exact h1
  · rw [if_neg he] at hk
    dsimp only at hk
    rw [if_pos rfl] at hk
    injection hk with hk
    rw [← hk]
    exact h

theorem import_record_counted (L : Locale) (host : Bool) (u u2 : Updater) (data : List Nat)
    (h : u.m_rep.updates_counted) (hk : import_record L host u data = Except.ok u2) :
    u2.m_rep.updates_counted := by
  unfold import_record at hk
  dsimp only at hk
  cases hp : DiskRecord.parse L data with
  | error e => rw [hp] at hk; cases hk
  | ok r =>
      rw [hp] at hk
      dsimp only at hk
      by_cases hv : (!r.m_valid) = true
      · rw [if_pos hv] at hk
        injection hk with hk
        rw [← hk]
        exact h
      · rw [if_neg hv] at hk
        by_cases hf : u.db.check_title_hash (r.normalized_hash L) = 0
        · rw [if_pos hf] at hk
          cases hw : u.db.write_record r (r.normalized_hash L) false with
          | error e => rw [hw] at hk; cases hk
          | ok x =>
              obtain ⟨cdid, db⟩ := x
              rw [hw] at hk
              dsimp only at hk
              refine import_discid_links_counted L host _ u2 r cdid true ?_ hk
              exact h
        · rw [if_neg hf] at hk
          refine import_discid_links_counted L host _ u2 r _ false ?_ hk
          exact h

theorem import_records_counted (L : Locale) (host : Bool) (datas : List (List Nat)) :
    ∀ u u2, u.m_rep.updates_counted → import_records L host datas u = Except.ok u2 →
      u2.m_rep.updates_counted := by
  induction datas with
  | nil =>
      intro u u2 h hk
      rw [import_records] at hk
      injection hk with hk
      rw [← hk]
      exact h
  | cons data rest ih =>
      intro u u2 h hk
      rw [import_records] at hk
      cases hr : import_record L host u data with
      | error e => rw [hr] at hk; cases hk
      | ok u1 =>
          rw [hr] at hk
          exact ih u1 u2 (import_record_counted L host u u1 data h hr) hk

theorem merge_decision_bound (L : Locale) (r existing_rec : DiskRecord) (rep : report_t) :
    (merge_decision L r existing_rec rep).2.entropy_gt
        + (merge_decision L r existing_rec rep).2.upper_count_gt
        + (merge_decision L r existing_rec rep).2.overall_count_gt
      ≤ rep.entropy_gt + rep.upper_count_gt + rep.overall_count_gt + 1 := by
  unfold merge_decision
  by_cases hgt : r.entropy > existing_rec.entropy
  · simp only [hgt, if_true, inc64]
    omega
  · by_cases heq : r.entropy = existing_rec.entropy
    · cases hs : r.equal_strings existing_rec
      · cases hl : r.equal_lowercase_strings L existing_rec
        · by_cases hc : r.charcount > existing_rec.charcount
          · simp [hgt, heq, hs, hl, hc, inc64]
            omega
          · simp [hgt, heq, hs, hl, hc, inc64]
        · by_cases hu : r.charcount_upper > existing_rec.charcount_upper
          · simp [hgt, heq, hs, hl, hu, inc64]
            omega
          · simp [hgt, heq, hs, hl, hu, inc64]
      · simp [hgt, heq, hs, inc64]
    · simp [hgt, heq, inc64]

theorem import_known_discid_bound (L : Locale) (host : Bool) (u u2 : Updater)
    (r : DiskRecord) (cdid ecd : Nat) (record_written discid_valid : Bool)
    (hk : import_known_discid L host u r cdid ecd record_written
      = Except.ok (discid_valid, u2)) :
    u2.m_rep.entropy_gt + u2.m_rep.upper_count_gt + u2.m_rep.overall_count_gt
      ≤ u.m_rep.entropy_gt + u.m_rep.upper_count_gt + u.m_rep.overall_count_gt + 1 := by
  unfold import_known_discid at hk
  cases hr : u.db.read_record ecd (r.discid host) with
  | error e => rw [hr] at hk; cases hk
  | ok existing_rec =>
      rw [hr] at hk
      dsimp only at hk
      split_ifs at hk
      all_goals
        injection hk with hk
        injection hk with _ hk
        rw [← hk]
        first
          | exact Nat.le_succ _
          | (obtain ⟨_, e2, e3, e4⟩ :=
              import_same_cd_fields L u r existing_rec (r.normalized_hash L) cdid ecd
                record_written
             rw [e2, e3, e4]
             exact merge_decision_bound L r existing_rec u.m_rep)

theorem import_discid_links_bound (L : Locale) (host : Bool) (u u2 : Updater)
    (r : DiskRecord) (cdid : Nat) (record_written : Bool)
    (hk : import_discid_links L host u r cdid record_written = Except.ok u2) :
    u2.m_rep.entropy_gt + u2.m_rep.upper_count_gt + u2.m_rep.overall_count_gt
      ≤ u.m_rep.entropy_gt + u.m_rep.upper_count_gt + u.m_rep.overall_count_gt + 1 := by
  unfold import_discid_links at hk
  dsimp only at hk
  by_cases he : u.db.check_discid (r.discid host) ≠ 0
  · rw [if_pos he] at hk
    cases hl : import_known_discid L host u r cdid (u.db.check_discid (r.discid host))
        record_written with
    | error e => rw [hl] at hk; cases hk
    | ok x =>
        obtain ⟨discid_valid, u1⟩ := x
        have h1 := import_known_discid_bound L host u u1 r cdid _ record_written
          discid_valid hl
        rw [hl] at hk
        dsimp only at hk
        split_ifs at hk
        all_goals
          injection hk with hk
          rw [← hk]
          exact h1
  · rw [if_neg he] at hk
    dsimp only at hk
    rw [if_pos rfl] at hk
    injection hk with hk
    rw [← hk]
    exact Nat.le_succ _

theorem import_record_bound (L : Locale) (host : Bool) (u u2 : Updater) (data : List Nat)
    (hk : import_record L host u data = Except.ok u2) :
    u2.m_rep.entropy_gt + u2.m_rep.upper_count_gt + u2.m_rep.overall_count_gt
      ≤ u.m_rep.entropy_gt + u.m_rep.upper_count_gt + u.m_rep.overall_count_gt + 1 := by
  unfold import_record at hk
  dsimp only at hk
  cases hp : DiskRecord.parse L data with
  | error e => rw [hp] at hk; cases hk
  | ok r =>
      rw [hp] at hk
      dsimp only at hk
      by_cases hv : (!r.m_valid) = true
      · rw [if_pos hv] at hk
        injection hk with hk
        rw [← hk]
        exact Nat.le_succ _
      · rw [if_neg hv] at hk
        by_cases hf : u.db.check_title_hash (r.normalized_hash L) = 0
        · rw [if_pos hf] at hk
          cases hw : u.db.write_record r (r.normalized_hash L) false with
          | error e => rw [hw] at hk; cases hk
          | ok x =>
              obtain ⟨cdid, db⟩ := x
              rw [hw] at hk
              dsimp only at hk
              have hb := import_discid_links_bound L host _ u2 r cdid true hk
              exact hb
        · rw [if_neg hf] at hk
          have hb := import_discid_links_bound L host _ u2 r _ false hk
          exact hb

theorem import_records_bound (L : Locale) (host : Bool) (datas : List (List Nat)) :
    ∀ u u2, import_records L host datas u = Except.ok u2 →
      u2.m_rep.entropy_gt + u2.m_rep.upper_count_gt + u2.m_rep.overall_count_gt
        ≤ u.m_rep.entropy_gt + u.m_rep.upper_count_gt + u.m_rep.overall_count_gt
          + datas.length := by
  induction datas with
  | nil =>
      intro u u2 hk
      rw [import_records] at hk
      injection hk with hk
      rw [← hk]
      exact Nat.le_refl _
  | cons data rest ih =>
      intro u u2 hk
      rw [import_records] at hk
      cases hr : import_record L host u data with
      | error e => rw [hr] at hk; cases hk
      | ok u1 =>
          rw [hr] at hk
          have h1 := import_record_bound L host u u1 data hr
          have h2 := ih u1 u2 hk
          simp only [List.length_cons]
          omega

/-- C39: after every import of records into a fresh database, on every host, the counter
`updated` equals `entropy_gt + upper_count_gt + overall_count_gt` in `uint64_t`, as the
report computes the sum; for fewer than 2^64 records the sum does not wrap, and the counter
is the sum itself. `update_record` runs once for each of these outcomes and at no other
point. The records are those of any list, so the equation holds after every step. -/
theorem import_report_invariant (L : Locale) (big_endian_host : Bool)
    (datas : List (List Nat)) (u : Updater)
    (h : import_records L big_endian_host datas Updater.empty = Except.ok u) :
    u.m_rep.updated
        = (u.m_rep.entropy_gt + u.m_rep.upper_count_gt + u.m_rep.overall_count_gt)
            % 18446744073709551616
      ∧ (datas.length < 18446744073709551616 →
          u.m_rep.updated
            = u.m_rep.entropy_gt + u.m_rep.upper_count_gt + u.m_rep.overall_count_gt) := by
  have h1 := import_records_counted L big_endian_host datas Updater.empty u rfl h
  have h2 := import_records_bound L big_endian_host datas Updater.empty u h
  refine ⟨h1, fun hlen => ?_⟩
  have h0 : Updater.empty.m_rep.entropy_gt + Updater.empty.m_rep.upper_count_gt
      + Updater.empty.m_rep.overall_count_gt = 0 := rfl
  rw [h0] at h2
  unfold report_t.updates_counted at h1
  rw [h1]
  exact Nat.mod_eq_of_lt (by omega)

set_option maxRecDepth 1000000 in
/-- Witness for C39: "Abba / Gold" is imported twice, the second time with an accent that
raises the entropy; the row is updated once, and `entropy_gt` counts it. -/
theorem import_report_invariant_witness :
    ∃ u, import_records Locale.ascii false [example_record_text, example_record_text_accent]
        Updater.empty = Except.ok u
      ∧ u.m_rep.updated = 1 ∧ u.m_rep.entropy_gt = 1
      ∧ u.m_rep.updated
        = (u.m_rep.entropy_gt + u.m_rep.upper_count_gt + u.m_rep.overall_count_gt)
            % 18446744073709551616
      ∧ ([example_record_text, example_record_text_accent].length < 18446744073709551616 →
          u.m_rep.updated
            = u.m_rep.entropy_gt + u.m_rep.upper_count_gt + u.m_rep.overall_count_gt) :=
  ⟨_, rfl, by decide, by decide,
    import_report_invariant Locale.ascii false
      [example_record_text, example_record_text_accent] _ rfl⟩

/-! ## Requests with a wrong number of arguments -/

theorem cddb_command_read (srv : Server) (words : List (List Nat)) (p : Parameters)
    (h : words.getD 1 [] = ascii_bytes "read") :
    cddb_command srv words p
      = if !p.handshake then
          Except.ok (ascii_bytes "530 no handshake\n", { p with terminate := true })
        else cddb_read_request srv words p := by
  unfold cddb_command
  rw [h, if_neg (by decide)]
  by_cases hh : (!p.handshake) = true
  · rw [if_pos hh, if_pos hh]
  · rw [if_neg hh, if_neg hh, if_neg (by decide), if_neg (by decide), if_pos rfl]

theorem cddb_command_query (srv : Server) (words : List (List Nat)) (p : Parameters)
    (h : words.getD 1 [] = ascii_bytes "query") :
    cddb_command srv words p
      = if !p.handshake then
          Except.ok (ascii_bytes "530 no handshake\n", { p with terminate := true })
        else cddb_query_request srv words p := by
  unfold cddb_command
  rw [h, if_neg (by decide)]
  by_cases hh : (!p.handshake) = true
  · rw [if_pos hh, if_pos hh]
  · rw [if_neg hh, if_neg hh, if_neg (by decide), if_pos rfl]

theorem cddb_request_cddb (srv : Server) (qstr : List Nat) (p : Parameters)
    (h0 : (request_words srv.locale qstr).getD 0 [] = ascii_bytes "cddb")
    (h1 : 2 ≤ (request_words srv.locale qstr).length) :
    cddb_request srv qstr p = cddb_command srv (request_words srv.locale qstr) p := by
  unfold cddb_request
  cases hw : request_words srv.locale qstr with
  | nil => rw [hw] at h1; simp at h1
  | cons w0 args =>
      rw [hw] at h0 h1
      have hw0 : w0 = ascii_bytes "cddb" := by simpa using h0
      have hargs : args ≠ [] := by
        intro e
        rw [e] at h1
        simp at h1
      dsimp only
      rw [if_pos ⟨by simpa using hargs, hw0⟩]

theorem cddb_query_request_mismatch (srv : Server) (words : List (List Nat)) (p : Parameters)
    (h : words.length < 6
      ∨ ∃ v, stoul_base srv.locale (words.getD 3 []) 10 = Except.ok v
          ∧ v < U32 ∧ words.length ≠ v + 5) :
    ∃ reply, cddb_query_request srv words p = Except.ok (reply, { p with terminate := true })
      ∧ reply.take 3 = ascii_bytes "530" := by
  unfold cddb_query_request
  by_cases h6 : words.length < 6
  · rw [if_pos h6]
    exact ⟨_, rfl, by decide⟩
  · rw [if_neg h6]
    rcases h with h | ⟨v, hv, hb, hne⟩
    · exact absurd h h6
    · rw [hv]
      dsimp only
      rw [if_neg]
      · exact ⟨_, rfl, by decide⟩
      · rintro ⟨_, he⟩
        rw [Nat.mod_eq_of_lt hb] at he
        unfold U32 at hb he
        omega

/-- A hello is welcomed with any number of arguments. -/
theorem hello_never_rejected (srv : Server) (qstr : List Nat) (p : Parameters)
    (args : List (List Nat))
    (h : request_words srv.locale qstr = ascii_bytes "hello" :: args
      ∨ request_words srv.locale qstr = ascii_bytes "cddb" :: ascii_bytes "hello" :: args) :
    cddb_request srv qstr p = Except.ok (register_user args, { p with handshake := true })
      ∧ (register_user args).take 3 = ascii_bytes "200" := by
  refine ⟨?_, by rfl⟩
  unfold cddb_request
  rcases h with h | h
  · rw [h]
    dsimp only
    rw [if_neg (fun k => absurd k.2 (by decide)), if_pos rfl]
  · rw [h]
    dsimp only
    rw [if_pos ⟨by simp, rfl⟩]
    unfold cddb_command
    rw [if_pos (by rfl)]
    rfl

set_option maxRecDepth 1000000 in
/-- C31 as stated fails: `hello` with two arguments instead of four is welcomed, the missing
arguments are taken as empty, and `terminate` is not set; the same holds for `cddb hello`
with five arguments, of which the fifth is dropped. -/
theorem hello_two_arguments_welcome :
    cddb_request example_server (ascii_bytes "hello joe example.org") Parameters.new
        = Except.ok (ascii_bytes "200 hello and welcome joe@example.org running  \n",
            { terminate := false, handshake := true, is_http := false })
      ∧ cddb_request example_server (ascii_bytes "cddb hello a b c d e") Parameters.new
        = Except.ok (ascii_bytes "200 hello and welcome a@b running c d\n",
            { terminate := false, handshake := true, is_http := false }) :=
  ⟨rfl, rfl⟩

/-- C31, amended: a `cddb read` request that does not have four words, and a `cddb query`
request that has fewer than six words or whose number of words is not the track count it
announces plus five, is answered with a reply that begins with `530` and sets `terminate`,
with or without handshake. (`hello` and `cddb hello` are welcomed with any number of
arguments, and a track count that is no number ends the request with an exception.) The
words are those of `cddb_request`: split at white space, the first two in lower case. -/
theorem argument_count_mismatch (srv : Server) (qstr : List Nat) (p : Parameters)
    (words : List (List Nat))
    (hw : request_words srv.locale qstr = words)
    (hc : words.getD 0 [] = ascii_bytes "cddb")
    (h : (words.getD 1 [] = ascii_bytes "read" ∧ words.length ≠ 4)
      ∨ (words.getD 1 [] = ascii_bytes "query"
        ∧ (words.length < 6
          ∨ ∃ v, stoul_base srv.locale (words.getD 3 []) 10 = Except.ok v
              ∧ v < U32 ∧ words.length ≠ v + 5))) :
    ∃ reply, cddb_request srv qstr p = Except.ok (reply, { p with terminate := true })
      ∧ reply.take 3 = ascii_bytes "530" := by
  have h2 : 2 ≤ words.length := by
    by_contra hlt
    have hnone : words.getD 1 [] = [] := by
      rw [List.getD_eq_getElem?_getD, List.getElem?_eq_none (by omega)]
      rfl
    rcases h with ⟨h, _⟩ | ⟨h, _⟩ <;>
    · rw [hnone] at h
      revert h
      decide
  subst hw
  rw [cddb_request_cddb srv qstr p hc h2]
  rcases h with ⟨hr, hn⟩ | ⟨hq, hm⟩
  · rw [cddb_command_read srv _ p hr]
    split_ifs
    · exact ⟨_, rfl, by decide⟩
    · unfold cddb_read_request
      rw [if_pos hn]
      exact ⟨_, rfl, by decide⟩
  · rw [cddb_command_query srv _ p hq]
    split_ifs
    · exact ⟨_, rfl, by decide⟩
    · exact cddb_query_request_mismatch srv _ p hm

set_option maxRecDepth 1000000 in
/-- Witness for C31: after the handshake, `cddb query` with a track count of 3 and two
offsets, and `cddb read` with a third argument. -/
theorem argument_count_mismatch_witness :
    (∃ reply, cddb_request example_server (ascii_bytes "cddb query 6809330a 3 150 20753 500")
          { terminate := false, handshake := true, is_http := false }
        = Except.ok (reply, { terminate := true, handshake := true, is_http := false })
      ∧ reply.take 3 = ascii_bytes "530")
    ∧ cddb_request example_server (ascii_bytes "cddb read rock 6809330a now")
          { terminate := false, handshake := true, is_http := false }
        = Except.ok (ascii_bytes "530 invalid parameter count\n",
            { terminate := true, handshake := true, is_http := false }) :=
  ⟨argument_count_mismatch example_server (ascii_bytes "cddb query 6809330a 3 150 20753 500")
      { terminate := false, handshake := true, is_http := false }
      [ascii_bytes "cddb", ascii_bytes "query", ascii_bytes "6809330a", ascii_bytes "3",
        ascii_bytes "150", ascii_bytes "20753", ascii_bytes "500"]
      (by decide) (by decide)
      (Or.inr ⟨by decide, Or.inr ⟨3, rfl, by decide, by decide⟩⟩),
    rfl⟩

/-! ## The HTTP response -/

theorem decimal_foldl_append (xs ys : List Nat) (init : Nat) :
    (xs ++ ys).foldl (fun acc d => acc * 10 + (d - 48)) init
      = ys.foldl (fun acc d => acc * 10 + (d - 48))
          (xs.foldl (fun acc d => acc * 10 + (d - 48)) init) :=
  List.foldl_append _ _ _ _

theorem decimal_foldl_init (ys : List Nat) :
    ∀ init, ys.foldl (fun acc d => acc * 10 + (d - 48)) init
      = init * 10 ^ ys.length + ys.foldl (fun acc d => acc * 10 + (d - 48)) 0 := by
  induction ys with
  | nil => intro init; simp
  | cons y ys ih =>
      intro init
      simp only [List.foldl_cons, List.length_cons]
      rw [ih (init * 10 + (y - 48)), ih (0 * 10 + (y - 48))]
      ring

theorem digitChar_toNat (k : Nat) (h : k < 10) : (Nat.digitChar k).toNat - 48 = k := by
  interval_cases k <;> rfl

theorem toDigitsCore_value (fuel : Nat) :
    ∀ (n : Nat) (ds : List Char), n < fuel →
      spec_decimal_value ((Nat.toDigitsCore 10 fuel n ds).map Char.toNat)
        = n * 10 ^ ds.length + spec_decimal_value (ds.map Char.toNat) := by
  induction fuel with
  | zero => intro n ds h; omega
  | succ fuel ih =>
      intro n ds h
      rw [Nat.toDigitsCore]
      by_cases h0 : n / 10 = 0
      · rw [if_pos h0]
        have hn : n < 10 := by omega
        unfold spec_decimal_value
        rw [List.map_cons, List.foldl_cons, decimal_foldl_init,
          Nat.mod_eq_of_lt hn, digitChar_toNat n hn]
        simp
      · rw [if_neg h0, ih (n / 10) _ (by omega)]
        unfold spec_decimal_value
        rw [List.map_cons, List.foldl_cons, decimal_foldl_init,
          digitChar_toNat (n % 10) (Nat.mod_lt _ (by decide))]
        simp only [List.length_cons, List.length_map, pow_succ]
        have hn : n = 10 * (n / 10) + n % 10 := (Nat.div_add_mod n 10).symm
        generalize n / 10 = q at hn ⊢
        generalize n % 10 = m at hn ⊢
        rw [hn]
        ring

/-- The digits of `format_d` stand for the number that was formatted. -/
theorem format_d_value (n : Nat) : spec_decimal_value (format_d n) = n := by
  unfold format_d Nat.toDigits
  rw [toDigitsCore_value (n + 1) n [] (by omega)]
  simp [spec_decimal_value]

theorem request_get (srv : Server) (qstr : List Nat) (p : Parameters)
    (cmds : List (List Nat))
    (hget : begins_with_literal qstr (ascii_bytes "GET ") = true)
    (hsplit : split_http_cddb qstr = Except.ok cmds) (h3 : cmds.length = 3) :
    request srv qstr p = http_request srv cmds { p with is_http := true } := by
  unfold request
  rw [if_pos hget, hsplit]
  dsimp only
  rw [if_pos h3]

/-- When one of the three calls of `cddb_request` throws, `request` throws and returns
nothing. -/
theorem http_get_throws (srv : Server) (qstr : List Nat) (p : Parameters)
    (cmds : List (List Nat))
    (hget : begins_with_literal qstr (ascii_bytes "GET ") = true)
    (hsplit : split_http_cddb qstr = Except.ok cmds) (h3 : cmds.length = 3) :
    (∀ e, cddb_request srv (cmds.getD 1 []) { p with is_http := true } = Except.error e →
        (request srv qstr p).2 = Except.error e)
      ∧ (∀ r1 p1 e,
        cddb_request srv (cmds.getD 1 []) { p with is_http := true } = Except.ok (r1, p1) →
        cddb_request srv (cmds.getD 2 []) p1 = Except.error e →
        (request srv qstr p).2 = Except.error e)
      ∧ (∀ r1 p1 r2 p2 e,
        cddb_request srv (cmds.getD 1 []) { p with is_http := true } = Except.ok (r1, p1) →
        cddb_request srv (cmds.getD 2 []) p1 = Except.ok (r2, p2) →
        cddb_request srv (cmds.getD 0 []) p2 = Except.error e →
        (request srv qstr p).2 = Except.error e) := by
  rw [request_get srv qstr p cmds hget hsplit h3]
  refine ⟨?_, ?_, ?_⟩
  · intro e h1
    unfold http_request
    rw [h1]
  · intro r1 p1 e h1 h2
    unfold http_request
    rw [h1]
    dsimp only
    rw [h2]
  · intro r1 p1 r2 p2 e h1 h2 hb
    unfold http_request
    rw [h1]
    dsimp only
    rw [h2]
    dsimp only
    rw [hb]

set_option maxRecDepth 1000000 in
/-- C32 as stated fails: the line `GET /?cmd=stat&hello=...&proto=x HTTP/1.1` splits into
three components, and `request` throws `std::invalid_argument` from `std::stoi` in the
`proto` command; no response is returned. -/
theorem http_proto_not_numeric_throws :
    begins_with_literal example_get_bad_proto (ascii_bytes "GET ") = true
      ∧ split_http_cddb example_get_bad_proto
        = Except.ok [ascii_bytes "stat", ascii_bytes "hello joe example.org tool 1.0",
            ascii_bytes "proto x"]
      ∧ (request example_server example_get_bad_proto Parameters.new).2
        = Except.error Thrown.invalid_argument :=
  ⟨by decide, rfl, rfl⟩

/-- C32, amended: for a `GET` line that splits into exactly three components, when none of
the three calls of `cddb_request` (hello, proto, cmd, in this order) throws, `request`
returns `HTTP/1.1 200 OK\r\nContent-Length: N\r\n\r\n` followed by the reply `body` of the
`cmd` component and nothing else, where the digits `N` stand for the number of bytes of
`body`. -/
theorem http_one_shot_framing (srv : Server) (qstr : List Nat) (p : Parameters)
    (cmds : List (List Nat)) (r1 r2 body : List Nat) (p1 p2 p3 : Parameters)
    (hget : begins_with_literal qstr (ascii_bytes "GET ") = true)
    (hsplit : split_http_cddb qstr = Except.ok cmds) (h3 : cmds.length = 3)
    (h1 : cddb_request srv (cmds.getD 1 []) { p with is_http := true } = Except.ok (r1, p1))
    (h2 : cddb_request srv (cmds.getD 2 []) p1 = Except.ok (r2, p2))
    (hb : cddb_request srv (cmds.getD 0 []) p2 = Except.ok (body, p3)) :
    request srv qstr p
        = (p3, Except.ok (ascii_bytes "HTTP/1.1 200 OK\r\nContent-Length: "
            ++ format_d body.length ++ ascii_bytes "\r\n\r\n" ++ body))
      ∧ spec_decimal_value (format_d body.length) = body.length := by
  refine ⟨?_, format_d_value _⟩
  rw [request_get srv qstr p cmds hget hsplit h3]
  unfold http_request
  rw [h1]
  dsimp only
  rw [h2]
  dsimp only
  rw [hb]

set_option maxRecDepth 1000000 in
/-- Witness for C32: the line `GET /?cmd=stat&hello=...&proto=6 HTTP/1.1` is answered with
the status reply of 209 bytes behind the header. -/
theorem http_one_shot_framing_witness :
    request example_server example_get_stat Parameters.new
        = ({ terminate := false, handshake := true, is_http := true },
            Except.ok (ascii_bytes "HTTP/1.1 200 OK\r\nContent-Length: "
              ++ format_d stat_reply.length ++ ascii_bytes "\r\n\r\n" ++ stat_reply))
      ∧ spec_decimal_value (format_d stat_reply.length) = stat_reply.length
      ∧ format_d stat_reply.length = ascii_bytes "209" :=
  ⟨(http_one_shot_framing example_server example_get_stat Parameters.new
      [ascii_bytes "stat", ascii_bytes "hello joe example.org tool 1.0", ascii_bytes "proto 6"]
      (ascii_bytes "200 hello and welcome joe@example.org running tool 1.0\n")
      (ascii_bytes "502 Protocol level already 6\n") stat_reply
      { terminate := false, handshake := true, is_http := true }
      { terminate := false, handshake := true, is_http := true }
      { terminate := false, handshake := true, is_http := true }
      (by decide) rfl rfl rfl rfl rfl).1,
    (http_one_shot_framing example_server example_get_stat Parameters.new
      [ascii_bytes "stat", ascii_bytes "hello joe example.org tool 1.0", ascii_bytes "proto 6"]
      (ascii_bytes "200 hello and welcome joe@example.org running tool 1.0\n")
      (ascii_bytes "502 Protocol level already 6\n") stat_reply
      { terminate := false, handshake := true, is_http := true }
      { terminate := false, handshake := true, is_http := true }
      { terminate := false, handshake := true, is_http := true }
      (by decide) rfl rfl rfl rfl rfl).2,
    by decide⟩

set_option maxRecDepth 1000000 in
/-- What the empty token does to the word count of `cddb_request`: `cddb read rock 6809330a`
with one blank at the end is looked up, with two blanks at the end it has five words and is
rejected; and a line of one blank is not the empty line. -/
theorem trailing_blanks_change_reply :
    cddb_request example_server (ascii_bytes "cddb read rock 6809330a ")
          { terminate := false, handshake := true, is_http := false }
        = Except.ok (ascii_bytes "401 rock 6809330a No such CD entry in database.\n",
            { terminate := false, handshake := true, is_http := false })
      ∧ cddb_request example_server (ascii_bytes "cddb read rock 6809330a  ")
          { terminate := false, handshake := true, is_http := false }
        = Except.ok (ascii_bytes "530 invalid parameter count\n",
            { terminate := true, handshake := true, is_http := false })
      ∧ cddb_request example_server [] Parameters.new
        = Except.ok (ascii_bytes "201 hostname C++CDDB server v1.0 ready at date\n",
            Parameters.new)
      ∧ cddb_request example_server (ascii_bytes " ") Parameters.new
        = Except.ok (ascii_bytes "530 no handshake\n",
            { terminate := true, handshake := false, is_http := false }) :=
  ⟨rfl, rfl, rfl, rfl⟩

/-! ## Frame starts and the seconds of a record -/

/-- The vector that `convert_frame_starts_in_frame_lengths` leaves behind: the differences of
consecutive starts, and last the length computed from the disc length. -/
theorem frame_lengths_of_starts_eq (seconds startframe : Nat) :
    ∀ (frames : List Nat) (hne : frames ≠ []),
      frame_lengths_of_starts seconds startframe frames
        = List.zipWith (fun it next => sub32 next it) frames frames.tail
          ++ [sub32 (sub32 (mul32 seconds 75) (frames.getLast hne)) startframe] := by
  intro frames
  induction frames with
  | nil => intro hne; exact absurd rfl hne
  | cons a rest ih =>
      intro hne
      cases rest with
      | nil => rfl
      | cons b more =>
          rw [frame_lengths_of_starts, ih (List.cons_ne_nil b more)]
          simp only [List.tail_cons, List.zipWith_cons_cons, List.cons_append,
            List.getLast_cons_cons]

/-- C6 amended: for every non-empty vector of frame starts, whatever the input disc length,
`convert_frame_starts_in_frame_lengths` returns `frames[0]`, the start frame of the first
track, and this is what the constructor stores as the record's seconds. The vector it leaves
holds the differences of consecutive starts and, last, `(seconds * 75 - last start) -
frames[0]` in 32 bits: the input disc length enters the last frame length and nothing
else. -/
theorem returned_seconds_is_startframe (seconds startframe : Nat) (rest : List Nat) :
    (convert_frame_starts_in_frame_lengths seconds (startframe :: rest)).1 = startframe
      ∧ (convert_frame_starts_in_frame_lengths seconds (startframe :: rest)).2
        = List.zipWith (fun it next => sub32 next it) (startframe :: rest) rest
          ++ [sub32 (sub32 (mul32 seconds 75)
              ((startframe :: rest).getLast (List.cons_ne_nil startframe rest))) startframe]
      ∧ (∀ seconds2,
          (convert_frame_starts_in_frame_lengths seconds2 (startframe :: rest)).1
              = (convert_frame_starts_in_frame_lengths seconds (startframe :: rest)).1
            ∧ (convert_frame_starts_in_frame_lengths seconds2 (startframe :: rest)).2.dropLast
              = (convert_frame_starts_in_frame_lengths seconds (startframe :: rest)).2.dropLast)
      ∧ (∀ (L : Locale) (data : List Nat) (c : DiskRecord),
          DiskRecord.read_and_cleanup L data = Except.ok c →
          c.m_frames = startframe :: rest →
          ∃ r, DiskRecord.parse L data = Except.ok r ∧ r.m_seconds = startframe) := by
  have hlen : ∀ s, (convert_frame_starts_in_frame_lengths s (startframe :: rest)).2
      = List.zipWith (fun it next => sub32 next it) (startframe :: rest) rest
        ++ [sub32 (sub32 (mul32 s 75)
            ((startframe :: rest).getLast (List.cons_ne_nil startframe rest))) startframe] :=
    fun s => frame_lengths_of_starts_eq s startframe (startframe :: rest)
      (List.cons_ne_nil startframe rest)
  refine ⟨rfl, hlen seconds, fun seconds2 => ⟨rfl, ?_⟩, ?_⟩
  · rw [hlen seconds2, hlen seconds, List.dropLast_concat, List.dropLast_concat]
  · intro L data c hc hf
    refine ⟨c.finish, by simp [DiskRecord.parse, hc], ?_⟩
    rw [(finish_seconds_frames c).1, hf]
    rfl

set_option maxRecDepth 1000000 in
/-- The example record, with the frame offsets 150 and 20753 and a disc length of 500
seconds, has the seconds 150; and a disc length of 1000 changes the last length only. -/
theorem returned_seconds_is_startframe_witness :
    (∃ c, DiskRecord.read_and_cleanup Locale.ascii example_record_text = Except.ok c
      ∧ c.m_frames = 150 :: [20753] ∧ c.m_seconds = 500
      ∧ ∃ r, DiskRecord.parse Locale.ascii example_record_text = Except.ok r
          ∧ r.m_seconds = 150)
      ∧ convert_frame_starts_in_frame_lengths 500 [150, 20753] = (150, [20603, 16597])
      ∧ convert_frame_starts_in_frame_lengths 1000 [150, 20753] = (150, [20603, 54097]) :=
  ⟨⟨_, rfl, rfl, rfl,
      (returned_seconds_is_startframe 500 150 [20753]).2.2.2 Locale.ascii example_record_text
        _ rfl rfl⟩,
    by decide, by decide⟩

/-! ## The merge policy and the upper-case count -/

theorem merge_decision_iff (L : Locale) (r existing_rec : DiskRecord) (m_rep : report_t) :
    (merge_decision L r existing_rec m_rep).1 = true ↔
      (r.entropy > existing_rec.entropy
        ∨ (r.entropy = existing_rec.entropy ∧ r.equal_strings existing_rec = false
          ∧ ((r.equal_lowercase_strings L existing_rec = true
                ∧ r.charcount_upper > existing_rec.charcount_upper)
            ∨ (r.equal_lowercase_strings L existing_rec = false
                ∧ r.charcount > existing_rec.charcount)))) := by
  unfold merge_decision
  by_cases hgt : r.entropy > existing_rec.entropy
  · simp [hgt]
  · by_cases heq : r.entropy = existing_rec.entropy
    · cases hs : r.equal_strings existing_rec
      · cases hl : r.equal_lowercase_strings L existing_rec
        · by_cases hc : r.charcount > existing_rec.charcount <;> simp [heq, hc]
        · by_cases hu : r.charcount_upper > existing_rec.charcount_upper <;> simp [heq, hu]
      · simp [heq]
    · simp [hgt, heq]

/-- A record that `read_record` has built from the tables has the upper-case count 0: the
constructor leaves `m_uppercasecount` at its initializer, and `calc_entropy` does not
compute it. -/
theorem read_record_charcount_upper (db : ImportStore) (cdid discid : Nat)
    (existing_rec : DiskRecord)
    (h : db.read_record cdid discid = Except.ok existing_rec) :
    existing_rec.charcount_upper = 0 := by
  unfold ImportStore.read_record at h
  split at h
  · cases h
  · injection h with h
    rw [← h]
    rfl

/-- C10 (code as it is): in the same-frames, same-title branch of the import, where the
existing record has been read from the tables, the existing row is updated exactly when the
new entropy is greater, or the entropies are equal, the strings are not exactly equal, and
either the strings are equal case-folded and `charcount_upper()` of the new record is not 0,
or they are not equal case-folded and `charcount()` of the new record is greater. The
upper-case letters of the two records are not compared: `charcount_upper()` of the existing
record is always 0, and that of a record read from text is the count of its last string. When
the new entropy is lower nothing is updated. -/
theorem merge_policy_updates_code (L : Locale) (u : Updater) (r existing_rec : DiskRecord)
    (hashvalue cdid ecd discid : Nat) (record_written : Bool)
    (hread : u.db.read_record ecd discid = Except.ok existing_rec) :
    existing_rec.charcount_upper = 0
      ∧ ((merge_decision L r existing_rec u.m_rep).1 = true ↔
          (r.entropy > existing_rec.entropy
            ∨ (r.entropy = existing_rec.entropy ∧ r.equal_strings existing_rec = false
              ∧ ((r.equal_lowercase_strings L existing_rec = true ∧ 0 < r.charcount_upper)
                ∨ (r.equal_lowercase_strings L existing_rec = false
                    ∧ r.charcount > existing_rec.charcount)))))
      ∧ (import_same_cd L u r existing_rec hashvalue cdid ecd record_written).db
        = (if (merge_decision L r existing_rec u.m_rep).1 then
            (if record_written then u.db.delete_record cdid hashvalue
              else u.db).update_record ecd r
          else (if record_written then u.db.delete_record cdid hashvalue else u.db))
      ∧ (import_same_cd L u r existing_rec hashvalue cdid ecd record_written).m_rep.updated
        = (if (merge_decision L r existing_rec u.m_rep).1 then inc64 u.m_rep.updated
          else u.m_rep.updated)
      ∧ (r.entropy < existing_rec.entropy →
          (merge_decision L r existing_rec u.m_rep).1 = false) := by
  have h0 := read_record_charcount_upper u.db ecd discid existing_rec hread
  have hiff := merge_decision_iff L r existing_rec u.m_rep
  rw [h0] at hiff
  have heq := import_same_cd_eq L u r existing_rec hashvalue cdid ecd record_written
  refine ⟨h0, hiff, heq.1, heq.2, fun hlt => ?_⟩
  cases hd : (merge_decision L r existing_rec u.m_rep).1
  · rfl
  · have := hiff.mp hd
    omega

set_option maxRecDepth 1000000 in
/-- C10 at a concrete import step: "Abba / Gold" with the song "xY" meets the stored record
with the song "Xy". The strings are equal case-folded, the entropies are equal and both
records have three upper-case letters, yet the stored row takes over the new strings:
`charcount_upper()` is 1 for the new record (its last string) and 0 for the stored one. -/
theorem merge_policy_updates_code_witness :
    example_updater_xy.db.read_record 1 (example_rec_xy.discid false)
        = Except.ok example_stored_xy
      ∧ example_stored_xy.m_songs = [ascii_bytes "Xy"]
      ∧ example_rec_xy.m_songs = [ascii_bytes "xY"]
      ∧ example_rec_xy.entropy = example_stored_xy.entropy
      ∧ example_rec_xy.equal_lowercase_strings Locale.ascii example_stored_xy = true
      ∧ spec_uppercasecount Locale.ascii example_rec_xy = 3
      ∧ spec_uppercasecount Locale.ascii example_stored_xy = 3
      ∧ example_rec_xy.charcount_upper = 1
      ∧ example_stored_xy.charcount_upper = 0
      ∧ (merge_decision Locale.ascii example_rec_xy example_stored_xy
          example_updater_xy.m_rep).1 = true
      ∧ (import_same_cd Locale.ascii example_updater_xy example_rec_xy example_stored_xy
            (example_rec_xy.normalized_hash Locale.ascii) 1 1 false).db.TRACKS
          = [⟨1, 0, ascii_bytes "xY", 37200⟩] := by
  have h := merge_policy_updates_code Locale.ascii example_updater_xy example_rec_xy
    example_stored_xy (example_rec_xy.normalized_hash Locale.ascii) 1 1
    (example_rec_xy.discid false) false rfl
  have hd : (merge_decision Locale.ascii example_rec_xy example_stored_xy
      example_updater_xy.m_rep).1 = true :=
    h.2.1.mpr (Or.inr ⟨by decide, by decide, Or.inl ⟨by decide, by decide⟩⟩)
  refine ⟨rfl, by decide, by decide, by decide, by decide, by decide, by decide, by decide,
    h.1, hd, ?_⟩
  rw [h.2.2.1, if_pos hd]
  decide

set_option maxRecDepth 1000000 in
/-- Two records of the same disc, "Abba / Gold" with the song "Xy" and with the song "xY":
equal entropy, equal case-folded, three upper-case letters each. Whichever comes second
replaces the first, and `upper_count_gt` counts it, although neither has more upper-case
letters. -/
theorem merge_upper_count_both_orders :
    (∃ u, import_records Locale.ascii false
          [example_single_text "Abba / Gold" "Xy", example_single_text "Abba / Gold" "xY"]
          Updater.empty = Except.ok u
        ∧ u.db.TRACKS = [⟨1, 0, ascii_bytes "xY", 37200⟩]
        ∧ u.m_rep.upper_count_gt = 1 ∧ u.m_rep.updated = 1)
      ∧ (∃ u, import_records Locale.ascii false
          [example_single_text "Abba / Gold" "xY", example_single_text "Abba / Gold" "Xy"]
          Updater.empty = Except.ok u
        ∧ u.db.TRACKS = [⟨1, 0, ascii_bytes "Xy", 37200⟩]
        ∧ u.m_rep.upper_count_gt = 1 ∧ u.m_rep.updated = 1)
      ∧ (∃ r, DiskRecord.parse Locale.ascii (example_single_text "Abba / Gold" "Xy")
            = Except.ok r
          ∧ ∃ r2, DiskRecord.parse Locale.ascii (example_single_text "Abba / Gold" "xY")
            = Except.ok r2
          ∧ spec_uppercasecount Locale.ascii r = 3 ∧ spec_uppercasecount Locale.ascii r2 = 3
          ∧ ¬ spec_new_record_wins Locale.ascii r r2
          ∧ ¬ spec_new_record_wins Locale.ascii r2 r) :=
  ⟨⟨_, rfl, by decide, by decide, by decide⟩, ⟨_, rfl, by decide, by decide, by decide⟩,
    ⟨_, rfl, _, rfl, by decide, by decide,
      by unfold spec_new_record_wins; decide, by unfold spec_new_record_wins; decide⟩⟩

set_option maxRecDepth 1000000 in
/-- The other way round: "Xy / Zw" with the song "ab" comes after "xy / zw" with the song
"ab". The entropies are equal, the strings are equal case-folded, and the new record has two
upper-case letters where the existing one has none; its last string has none, so the row is
not updated and `upper_count_eqlt` counts it. -/
theorem merge_upper_count_not_taken :
    ∃ u, import_records Locale.ascii false
        [example_single_text "xy / zw" "ab", example_single_text "Xy / Zw" "ab"]
        Updater.empty = Except.ok u
      ∧ (u.db.CD.map (fun row => (row.artist, row.title)))
        = [(ascii_bytes "xy", ascii_bytes "zw")]
      ∧ u.m_rep.upper_count_eqlt = 1 ∧ u.m_rep.updated = 0 :=
  ⟨_, rfl, by decide, by decide, by decide⟩

/-! ## Normalization run twice -/

/-- A character that the loop body of `normalize_` has produced and that lies outside
U+00C0..U+00FF is kept as it is by a second run, in a locale in which the ASCII characters
that the loop drops by their code are punctuation, control or space characters and the
lower-case form of an upper-case character is none of these and is its own lower-case
form. -/
theorem normalize_char_stable (L : Locale)
    (hasc : ∀ c, c < 0x30 ∨ (0x39 < c ∧ c < 0x41) →
      L.iswpunct c = true ∨ L.iswcntrl c = true ∨ L.iswspace c = true)
    (hlow : ∀ u, L.iswupper u = true →
      L.iswpunct (L.towlower u) = false ∧ L.iswcntrl (L.towlower u) = false
        ∧ L.iswspace (L.towlower u) = false ∧ L.towlower (L.towlower u) = L.towlower u)
    (ch c : Nat) (h : normalize_char L ch = some c) (hc : ¬ (0xC0 ≤ c ∧ c ≤ 0xFF)) :
    normalize_char L c = some c := by
  obtain ⟨h1, h2, h3, h4, h5, h6, h7, h8⟩ := (normalize_char_some L ch c).mp h
  have hclass : ∀ x, L.iswpunct x = false → L.iswcntrl x = false → L.iswspace x = false →
      0x30 ≤ x ∧ ¬ (0x39 < x ∧ x < 0x41) := by
    intro x hp hn hs
    by_contra hx
    have hx2 : x < 0x30 ∨ (0x39 < x ∧ x < 0x41) := by omega
    rcases hasc x hx2 with k | k | k
    · rw [hp] at k; cases k
    · rw [hn] at k; cases k
    · rw [hs] at k; cases k
  have hfix : normalize_accented_chars c = c := by
    by_cases hc2 : c < 0xC0
    · exact normalize_accented_chars_low c hc2
    · exact normalize_accented_chars_high c (by omega)
  by_cases hu : L.iswupper (normalize_accented_chars ch) = true
  · rw [if_pos hu] at h6
    obtain ⟨l1, l2, l3, l4⟩ := hlow _ hu
    rw [← h6] at l1 l2 l3 l4
    have hge := hclass c l1 l2 l3
    refine (normalize_char_some L c c).mpr ⟨hge.1, hge.2, ?_, ?_, ?_, ?_, h7, h8⟩
    · rw [hfix]; exact l1
    · rw [hfix]; exact l2
    · rw [hfix]; exact l3
    · rw [hfix]
      by_cases hcu : L.iswupper c = true
      · rw [if_pos hcu]; exact l4.symm
      · rw [if_neg hcu]
  · rw [if_neg hu] at h6
    rw [← h6] at h3 h4 h5
    have hge := hclass c h3 h4 h5
    refine (normalize_char_some L c c).mpr ⟨hge.1, hge.2, ?_, ?_, ?_, ?_, h7, h8⟩
    · rw [hfix]; exact h3
    · rw [hfix]; exact h4
    · rw [hfix]; exact h5
    · rw [hfix]
      have : ¬ L.iswupper c = true := by rw [h6]; exact hu
      rw [if_neg this]

/-- Without the upper-case test, the loop body of `normalize_` only lets through digits, the
letters `a..z` and code points from 0x100 on; what else comes out is the lower-case form of
an upper-case character that is not in U+00C0..U+00FF. -/
theorem normalize_char_range (L : Locale)
    (hasc : ∀ c, c < 0x30 ∨ (0x39 < c ∧ c < 0x41) →
      L.iswpunct c = true ∨ L.iswcntrl c = true ∨ L.iswspace c = true)
    (hup : ∀ ch, 0x41 ≤ ch → ch ≤ 0x5A → L.iswupper ch = true)
    (ch c : Nat) (h : normalize_char L ch = some c) :
    (0x30 ≤ c ∧ c ≤ 0x39) ∨ (0x61 ≤ c ∧ c ≤ 0x7A) ∨ 0x100 ≤ c
      ∨ ∃ u, L.iswupper u = true ∧ ¬ (0xC0 ≤ u ∧ u ≤ 0xFF) ∧ c = L.towlower u := by
  obtain ⟨h1, h2, h3, h4, h5, h6, h7, h8⟩ := (normalize_char_some L ch c).mp h
  have hsp : L.iswpunct 0x20 = true ∨ L.iswcntrl 0x20 = true ∨ L.iswspace 0x20 = true :=
    hasc 0x20 (Or.inl (by decide))
  have hout : ¬ (0xC0 ≤ normalize_accented_chars ch ∧ normalize_accented_chars ch ≤ 0xFF) := by
    rcases normalize_accented_chars_cases ch with ⟨hn, he⟩ | ⟨_, he⟩
    · rw [he]; exact hn
    · omega
  by_cases hu : L.iswupper (normalize_accented_chars ch) = true
  · rw [if_pos hu] at h6
    exact Or.inr (Or.inr (Or.inr ⟨_, hu, hout, h6⟩))
  · rw [if_neg hu] at h6
    have hnot : ¬ (0x41 ≤ c ∧ c ≤ 0x5A) := by
      intro hc
      apply hu
      rw [← h6]
      exact hup c hc.1 hc.2
    rcases normalize_accented_chars_cases ch with ⟨hn, he⟩ | ⟨_, he⟩
    · rw [he] at h6
      omega
    · rcases he with he | he | he
      · rw [he] at h3 h4 h5
        rcases hsp with k | k | k
        · rw [h3] at k; cases k
        · rw [h4] at k; cases k
        · rw [h5] at k; cases k
      · omega
      · omega

set_option maxRecDepth 1000000 in
theorem latin1_ascii_classes : ∀ c, c < 0x30 ∨ (0x39 < c ∧ c < 0x41) →
    Locale.latin1.iswpunct c = true ∨ Locale.latin1.iswcntrl c = true
      ∨ Locale.latin1.iswspace c = true := by
  have h : ∀ c < 0x41, c < 0x30 ∨ (0x39 < c ∧ c < 0x41) →
      Locale.latin1.iswpunct c = true ∨ Locale.latin1.iswcntrl c = true
        ∨ Locale.latin1.iswspace c = true := by decide
  intro c hc
  exact h c (by omega) hc

set_option maxRecDepth 1000000 in
theorem latin1_upper : ∀ ch, 0x41 ≤ ch → ch ≤ 0x5A → Locale.latin1.iswupper ch = true := by
  have h : ∀ ch < 0x5B, 0x41 ≤ ch → ch ≤ 0x5A → Locale.latin1.iswupper ch = true := by decide
  intro ch h1 h2
  exact h ch (by omega) h1 h2

set_option maxRecDepth 1000000 in
theorem latin1_lower_forms : ∀ u, Locale.latin1.iswupper u = true →
    Locale.latin1.iswpunct (Locale.latin1.towlower u) = false
      ∧ Locale.latin1.iswcntrl (Locale.latin1.towlower u) = false
      ∧ Locale.latin1.iswspace (Locale.latin1.towlower u) = false
      ∧ Locale.latin1.towlower (Locale.latin1.towlower u) = Locale.latin1.towlower u := by
  have h : ∀ u < 0x179, Locale.latin1.iswupper u = true →
      Locale.latin1.iswpunct (Locale.latin1.towlower u) = false
        ∧ Locale.latin1.iswcntrl (Locale.latin1.towlower u) = false
        ∧ Locale.latin1.iswspace (Locale.latin1.towlower u) = false
        ∧ Locale.latin1.towlower (Locale.latin1.towlower u) = Locale.latin1.towlower u := by
    decide
  intro u hu
  by_cases hlt : u < 0x179
  · exact h u hlt hu
  · exfalso
    have : Locale.latin1.iswupper u = false := by
      simp [Locale.latin1, Locale.ascii]
      omega
    rw [this] at hu
    cases hu

/-- A second run of `normalize` changes nothing when the normalized form holds only code
points below 0x110000 and none in U+00C0..U+00FF. -/
theorem normalize_stable_of_bounds (L : Locale) (s : List Nat)
    (hasc : ∀ c, c < 0x30 ∨ (0x39 < c ∧ c < 0x41) →
      L.iswpunct c = true ∨ L.iswcntrl c = true ∨ L.iswspace c = true)
    (hlow : ∀ u, L.iswupper u = true →
      L.iswpunct (L.towlower u) = false ∧ L.iswcntrl (L.towlower u) = false
        ∧ L.iswspace (L.towlower u) = false ∧ L.towlower (L.towlower u) = L.towlower u)
    (hs : ∀ c ∈ wnormalize L s, c < 0x110000 ∧ ¬ (0xC0 ≤ c ∧ c ≤ 0xFF)) :
    normalize L (normalize L s) = normalize L s := by
  have hkept : ∀ c ∈ wnormalize L s, normalize_char L c = some c := by
    intro c hc
    obtain ⟨ch, _, hch⟩ := List.mem_filterMap.mp hc
    exact normalize_char_stable L hasc hlow ch c hch (hs c hc).2
  rw [normalize_eq L s, normalize_eq L (to_utf8 (wnormalize L s))]
  congr 1
  rw [wnormalize, from_utf8_to_utf8 (wnormalize L s) (fun c hc => (hs c hc).1)]
  exact filterMap_eq_self _ _ hkept

theorem to_utf8_char_written (c : Nat) :
    to_utf8_char (to_utf8_written c) = to_utf8_char c ∧ to_utf8_written c < 0x110000 := by
  unfold to_utf8_written
  by_cases hc : c % U32 < 0x110000
  · rw [if_pos hc]
    refine ⟨?_, hc⟩
    simp only [to_utf8_char, Nat.mod_mod]
  · rw [if_neg hc]
    refine ⟨?_, by decide⟩
    have h1 : ¬ c % U32 < 0x0080 := by omega
    have h2 : ¬ c % U32 < 0x0800 := by omega
    have h3 : ¬ c % U32 < 0x010000 := by omega
    have he : to_utf8_char c = [0x3F] := by
      simp only [to_utf8_char, h1, h2, h3, hc, if_false]
    rw [he]
    rfl

theorem to_utf8_map_written (w : List Nat) : to_utf8 (w.map to_utf8_written) = to_utf8 w := by
  unfold to_utf8
  rw [List.map_map]
  congr 1
  apply List.map_congr_left
  intro c _
  exact (to_utf8_char_written c).1

/-- Decoding what `to_utf8` wrote gives the code points back as `to_utf8_written` has
them. -/
theorem from_utf8_to_utf8_written (w : List Nat) :
    from_utf8 (to_utf8 w) = (true, w.map to_utf8_written) := by
  rw [← to_utf8_map_written w]
  apply from_utf8_to_utf8
  intro ch hch
  obtain ⟨c, _, rfl⟩ := List.mem_map.mp hch
  exact (to_utf8_char_written c).2

theorem filterMap_map_eq_self {α : Type} (f : α → Option α) (g : α → α) :
    ∀ l : List α, (l.filterMap f).map g = l → ∀ x ∈ l, ∃ y, f x = some y ∧ g y = x := by
  intro l
  induction l with
  | nil => intro _ x hx; cases hx
  | cons a l ih =>
      intro h x hx
      cases hfa : f a with
      | none =>
          exfalso
          rw [List.filterMap_cons, hfa] at h
          have hlen := congrArg List.length h
          have hle := List.length_filterMap_le f l
          simp only [List.length_map, List.length_cons] at hlen
          omega
      | some y =>
          rw [List.filterMap_cons, hfa] at h
          simp only [List.map_cons, List.cons.injEq] at h
          rcases List.mem_cons.mp hx with rfl | hx2
          · exact ⟨y, hfa, h.1⟩
          · exact ih h.2 x hx2

/-- The two ways in which a second run of `normalize` changes the result. When the normalized
form of s holds a code point from 0x110000 on, the `?` written for it is dropped by the
second run; when it holds a code point in U+00C0..U+00FF, the second run folds it to an
ASCII letter or drops it. The locale is one that lower-cases upper-case ASCII characters to
ASCII characters. -/
theorem normalize_changes (L : Locale) (s : List Nat)
    (hascii : ∀ u, u < 0x80 → L.iswupper u = true → L.towlower u < 0x80)
    (c : Nat) (hc : c ∈ wnormalize L s)
    (hbad : (0x110000 ≤ c ∧ c < U32) ∨ (0xC0 ≤ c ∧ c ≤ 0xFF)) :
    normalize L (normalize L s) ≠ normalize L s := by
  intro heq
  rw [normalize_eq L s, normalize_eq L (to_utf8 (wnormalize L s))] at heq
  have hdec := congrArg from_utf8 heq
  rw [from_utf8_to_utf8_written, from_utf8_to_utf8_written] at hdec
  have hlist : ((wnormalize L (to_utf8 (wnormalize L s))).map to_utf8_written)
      = (wnormalize L s).map to_utf8_written := (Prod.mk.injEq _ _ _ _ ▸ hdec).2
  have hw : wnormalize L (to_utf8 (wnormalize L s))
      = ((wnormalize L s).map to_utf8_written).filterMap (normalize_char L) := by
    rw [wnormalize, from_utf8_to_utf8_written]
  rw [hw] at hlist
  have hall := filterMap_map_eq_self (normalize_char L) to_utf8_written _ hlist
  obtain ⟨y, hy, hyc⟩ := hall (to_utf8_written c) (List.mem_map_of_mem to_utf8_written hc)
  obtain ⟨h1, h2, h3, h4, h5, h6, h7, h8⟩ := (normalize_char_some L _ y).mp hy
  rcases hbad with ⟨hge, hlt⟩ | ⟨hge, hle⟩
  · have hm : c % U32 = c := Nat.mod_eq_of_lt hlt
    have hv : to_utf8_written c = 0x3F := by
      unfold to_utf8_written
      rw [hm, if_neg (by omega)]
    rw [hv] at h2
    omega
  · have hm : c % U32 = c := Nat.mod_eq_of_lt (by unfold U32; omega)
    have hv : to_utf8_written c = c := by
      unfold to_utf8_written
      rw [hm, if_pos (by omega)]
    rw [hv] at h6 hyc
    have hfold : normalize_accented_chars c < 0x80 := by
      rcases normalize_accented_chars_cases c with ⟨hn, _⟩ | ⟨_, he⟩
      · omega
      · omega
    have hy80 : y < 0x80 := by
      by_cases hu : L.iswupper (normalize_accented_chars c) = true
      · rw [if_pos hu] at h6
        rw [h6]
        exact hascii _ hfold hu
      · rw [if_neg hu] at h6
        rw [h6]
        exact hfold
    have hym : y % U32 = y := Nat.mod_eq_of_lt (by unfold U32; omega)
    have hvy : to_utf8_written y = y := by
      unfold to_utf8_written
      rw [hym, if_pos (by omega)]
    rw [hvy] at hyc
    omega

set_option maxRecDepth 1000000 in
theorem latin1_ascii_lower : ∀ u, u < 0x80 → Locale.latin1.iswupper u = true →
    Locale.latin1.towlower u < 0x80 := by
  decide

/-- C15 amended: `normalize(normalize(s)) == normalize(s)` for every string s whose
normalized form holds only code points below 0x110000 and none in U+00C0..U+00FF, and for no
other string: a code point from 0x110000 on is written as `?`, which the second run drops,
and a code point in U+00C0..U+00FF is folded or dropped by the second run. The locale is one
in which the ASCII characters below `0` and between `9` and `A` are punctuation, control or
space characters and in which the lower-case form of an upper-case character is none of
these and is its own lower-case form; for the second half it lower-cases upper-case ASCII
characters to ASCII characters. -/
theorem normalize_idempotent (L : Locale) (s : List Nat)
    (hasc : ∀ c, c < 0x30 ∨ (0x39 < c ∧ c < 0x41) →
      L.iswpunct c = true ∨ L.iswcntrl c = true ∨ L.iswspace c = true)
    (hlow : ∀ u, L.iswupper u = true →
      L.iswpunct (L.towlower u) = false ∧ L.iswcntrl (L.towlower u) = false
        ∧ L.iswspace (L.towlower u) = false ∧ L.towlower (L.towlower u) = L.towlower u) :
    ((∀ c ∈ wnormalize L s, c < 0x110000 ∧ ¬ (0xC0 ≤ c ∧ c ≤ 0xFF)) →
        normalize L (normalize L s) = normalize L s)
      ∧ ((∀ u, u < 0x80 → L.iswupper u = true → L.towlower u < 0x80) →
          ∀ c ∈ wnormalize L s, (0x110000 ≤ c ∧ c < U32) ∨ (0xC0 ≤ c ∧ c ≤ 0xFF) →
            normalize L (normalize L s) ≠ normalize L s) :=
  ⟨normalize_stable_of_bounds L s hasc hlow,
    fun hascii c hc hbad => normalize_changes L s hascii c hc hbad⟩

set_option maxRecDepth 1000000 in
/-- C15 amended, in a locale with the letters of Latin-1 at the string "Motörhead É 1916"
(UTF-8): the accented letters are folded and lower-cased by the first run, and a second run
changes nothing. -/
theorem normalize_idempotent_witness :
    (∀ c ∈ wnormalize Locale.latin1
        (ascii_bytes "Mot" ++ [0xC3, 0xB6] ++ ascii_bytes "rhead " ++ [0xC3, 0x89]
          ++ ascii_bytes " 1916"), c < 0x110000 ∧ ¬ (0xC0 ≤ c ∧ c ≤ 0xFF))
      ∧ normalize Locale.latin1
          (ascii_bytes "Mot" ++ [0xC3, 0xB6] ++ ascii_bytes "rhead " ++ [0xC3, 0x89]
            ++ ascii_bytes " 1916")
        = ascii_bytes "motorheade1916"
      ∧ normalize Locale.latin1 (normalize Locale.latin1
          (ascii_bytes "Mot" ++ [0xC3, 0xB6] ++ ascii_bytes "rhead " ++ [0xC3, 0x89]
            ++ ascii_bytes " 1916"))
        = normalize Locale.latin1
          (ascii_bytes "Mot" ++ [0xC3, 0xB6] ++ ascii_bytes "rhead " ++ [0xC3, 0x89]
            ++ ascii_bytes " 1916") :=
  ⟨by decide, by decide,
    (normalize_idempotent Locale.latin1
      (ascii_bytes "Mot" ++ [0xC3, 0xB6] ++ ascii_bytes "rhead " ++ [0xC3, 0x89]
        ++ ascii_bytes " 1916")
      latin1_ascii_classes latin1_lower_forms).1 (by decide)⟩

set_option maxRecDepth 1000000 in
/-- The second half of the amended C15 at work in the same locale: the normalized form of
U+0178 is U+00FF, and that of the bytes F4 90 80 80 is the code point 0x110000; for both
strings the second run gives another result. -/
theorem normalize_changes_examples :
    wnormalize Locale.latin1 [0xC5, 0xB8] = [0xFF]
      ∧ normalize Locale.latin1 (normalize Locale.latin1 [0xC5, 0xB8])
        ≠ normalize Locale.latin1 [0xC5, 0xB8]
      ∧ wnormalize Locale.latin1 [0xF4, 0x90, 0x80, 0x80] = [0x110000]
      ∧ normalize Locale.latin1 (normalize Locale.latin1 [0xF4, 0x90, 0x80, 0x80])
        ≠ normalize Locale.latin1 [0xF4, 0x90, 0x80, 0x80] :=
  ⟨by decide,
    normalize_changes Locale.latin1 [0xC5, 0xB8] latin1_ascii_lower 0xFF (by decide)
      (Or.inr (by decide)),
    by decide,
    normalize_changes Locale.latin1 [0xF4, 0x90, 0x80, 0x80] latin1_ascii_lower 0x110000
      (by decide) (Or.inl (by decide))⟩

/-! ## The alphabet of normalized strings -/

/-- C16 amended: in a locale in which the ASCII characters below `0` and between `9` and `A`
are punctuation, control or space characters and `A..Z` are upper-case, `normalize(s)` is,
for every string s, the UTF-8 encoding of a sequence of code points, a `?` standing for each
code point from 0x110000 on. Each code point of the sequence is a digit 0-9, a lower-case
ASCII letter a-z, a code point at or above 0x100, or the lower-case form that the locale has
for an upper-case character outside U+00C0..U+00FF. And each comes from a decoded character
of s that, once folded by `substmap`, is no punctuation, control or space character: it is
the lower-case form of the folded character when that is upper-case, and the folded character
otherwise. -/
theorem normalize_alphabet (L : Locale) (s : List Nat)
    (hasc : ∀ c, c < 0x30 ∨ (0x39 < c ∧ c < 0x41) →
      L.iswpunct c = true ∨ L.iswcntrl c = true ∨ L.iswspace c = true)
    (hup : ∀ ch, 0x41 ≤ ch → ch ≤ 0x5A → L.iswupper ch = true) :
    normalize L s
        = ((wnormalize L s).map
            (fun c => if c % U32 < 0x110000 then to_utf8_char c else [0x3F])).flatten
      ∧ (∀ c ∈ wnormalize L s,
          (0x30 ≤ c ∧ c ≤ 0x39) ∨ (0x61 ≤ c ∧ c ≤ 0x7A) ∨ 0x100 ≤ c
            ∨ ∃ u, L.iswupper u = true ∧ ¬ (0xC0 ≤ u ∧ u ≤ 0xFF) ∧ c = L.towlower u)
      ∧ (∀ c ∈ wnormalize L s, ∃ ch ∈ (from_utf8 s).2,
          L.iswpunct (normalize_accented_chars ch) = false
            ∧ L.iswcntrl (normalize_accented_chars ch) = false
            ∧ L.iswspace (normalize_accented_chars ch) = false
            ∧ c = (if L.iswupper (normalize_accented_chars ch)
                then L.towlower (normalize_accented_chars ch)
                else normalize_accented_chars ch)) := by
  refine ⟨?_, fun c hc => ?_, fun c hc => ?_⟩
  · rw [normalize_eq, to_utf8]
    congr 1
    apply List.map_congr_left
    intro c _
    by_cases hc : c % U32 < 0x110000
    · rw [if_pos hc]
    · rw [if_neg hc]
      have h1 : ¬ c % U32 < 0x0080 := by omega
      have h2 : ¬ c % U32 < 0x0800 := by omega
      have h3 : ¬ c % U32 < 0x010000 := by omega
      simp only [to_utf8_char, h1, h2, h3, hc, if_false]
  · obtain ⟨ch, _, hch⟩ := List.mem_filterMap.mp hc
    exact normalize_char_range L hasc hup ch c hch
  · obtain ⟨ch, hmem, hch⟩ := List.mem_filterMap.mp hc
    obtain ⟨_, _, h3, h4, h5, h6, _, _⟩ := (normalize_char_some L ch c).mp hch
    exact ⟨ch, hmem, h3, h4, h5, h6⟩

set_option maxRecDepth 1000000 in
/-- C16 amended, in a locale with the letters of Latin-1 and U+0178 at the string
"Ÿ U2 É" followed by the bytes F4 90 80 80: U+0178 is lower-cased to U+00FF and stays, the
digit stays, U+00C9 is folded to `e`, and the code point 0x110000 is written as `?`. -/
theorem normalize_alphabet_witness :
    wnormalize Locale.latin1
        ([0xC5, 0xB8] ++ ascii_bytes " U2 " ++ [0xC3, 0x89] ++ [0xF4, 0x90, 0x80, 0x80])
      = [0xFF, 0x75, 0x32, 0x65, 0x110000]
      ∧ normalize Locale.latin1
        ([0xC5, 0xB8] ++ ascii_bytes " U2 " ++ [0xC3, 0x89] ++ [0xF4, 0x90, 0x80, 0x80])
      = [0xC3, 0xBF, 0x75, 0x32, 0x65, 0x3F]
      ∧ ∀ c ∈ wnormalize Locale.latin1
          ([0xC5, 0xB8] ++ ascii_bytes " U2 " ++ [0xC3, 0x89] ++ [0xF4, 0x90, 0x80, 0x80]),
          (0x30 ≤ c ∧ c ≤ 0x39) ∨ (0x61 ≤ c ∧ c ≤ 0x7A) ∨ 0x100 ≤ c
            ∨ ∃ u, Locale.latin1.iswupper u = true ∧ ¬ (0xC0 ≤ u ∧ u ≤ 0xFF)
              ∧ c = Locale.latin1.towlower u :=
  ⟨by decide, by decide,
    (normalize_alphabet Locale.latin1
      ([0xC5, 0xB8] ++ ascii_bytes " U2 " ++ [0xC3, 0x89] ++ [0xF4, 0x90, 0x80, 0x80])
      latin1_ascii_classes latin1_upper).2.1⟩

/-! ## The score of `NGrams::compare` -/

/-- What `NGrams<3,false>::compare(a, b)` computes, for all strings a and b: a value in
0..100, 0 when a has fewer than 3 characters, and otherwise m * 100 / (length of a - 2) with
m the size, counted in 16 bits, of the multiset intersection of the two vectors `m_ngrams`
that the objects hold. -/
theorem ngrams_compare_eq_held (a b : List Nat) :
    ∃ r, NGrams.compare 3 false a b = some r
      ∧ r ≤ 100
      ∧ (a.length < 3 → r = 0)
      ∧ (3 ≤ a.length →
          (ngrams_held a).length = a.length - 2
          ∧ r = ((ngrams_held a : Multiset (List Nat))
                  ∩ (ngrams_held b : Multiset (List Nat))).card % 65536 * 100
                / (a.length - 2)) := by
  refine ⟨_, compare_three a b, ?_⟩
  rw [compare_with_eq]
  by_cases hlen : a.length < 3
  · rw [init_short a hlen]
    refine ⟨by simp, fun _ => by simp, fun h => by omega⟩
  · obtain ⟨hc, hl⟩ := init_three a (by omega)
    have hpos : ¬ (NGrams.init 3 false ⟨[], 0⟩ a).m_count = 0 := by omega
    have e1 : (NGrams.init 3 false ⟨[], 0⟩ a).m_ngrams = ngrams_held a := rfl
    have e2 : (NGrams.init 3 false ⟨[], 0⟩ b).m_ngrams = ngrams_held b := rfl
    have hcard : ((ngrams_held a : Multiset (List Nat))
        ∩ (ngrams_held b : Multiset (List Nat))).card ≤ a.length - 2 := by
      have := Multiset.card_le_card (Multiset.inter_le_left
        (ngrams_held a : Multiset (List Nat)) (ngrams_held b : Multiset (List Nat)))
      rw [← hl]
      simpa using this
    rw [if_neg hpos, hc, e1, e2, Multiset.inter_comm]
    generalize ((ngrams_held a : Multiset (List Nat))
        ∩ (ngrams_held b : Multiset (List Nat))).card = m at hcard ⊢
    have hle := scaled_le_hundred (m % 65536) (a.length - 2)
      (Nat.le_trans (Nat.mod_le _ _) hcard)
    have hsmall : m % 65536 * 100 / (a.length - 2) % 65536
        = m % 65536 * 100 / (a.length - 2) :=
      Nat.mod_eq_of_lt (by omega)
    rw [hsmall]
    exact ⟨hle, fun h => by omega, fun _ => ⟨hl, rfl⟩⟩

set_option maxRecDepth 1000000 in
/-- C18 (code as it is): `NGrams<3,false>::compare("abcde", "bcd")` is 0, where the n-grams
of the two strings (abc, bcd, cde and bcd) share one of three and the claim has 33. The
object built from "abcde" holds abcde, bcde and cde, so nothing of it equals bcd. And the
n-grams are narrow strings that keep the low byte of a wide character: U+0161 followed by
"bc" scores 100 against "abc", where the claim has 0. -/
theorem ngrams_compare_diverges :
    NGrams.compare 3 false (ascii_bytes "abcde") (ascii_bytes "bcd") = some 0
      ∧ spec_ngrams_compare (ascii_bytes "abcde") (ascii_bytes "bcd") = 33
      ∧ ngrams_held (ascii_bytes "abcde")
        = [ascii_bytes "abcde", ascii_bytes "bcde", ascii_bytes "cde"]
      ∧ spec_ngrams 3 (ascii_bytes "abcde")
        = [ascii_bytes "abc", ascii_bytes "bcd", ascii_bytes "cde"]
      ∧ ngrams_held (ascii_bytes "bcd") = [ascii_bytes "bcd"]
      ∧ spec_ngrams 3 (ascii_bytes "bcd") = [ascii_bytes "bcd"]
      ∧ NGrams.compare 3 false [0x161, 0x62, 0x63] (ascii_bytes "abc") = some 100
      ∧ spec_ngrams_compare [0x161, 0x62, 0x63] (ascii_bytes "abc") = 0 := by
  decide

/-! ## Title case of record strings -/

set_option maxRecDepth 1000000 in
/-- C23 amended: `convert_to_titlecase` leaves a string alone that `from_utf8` rejects or in
which the upper-case letters do not outnumber the other letters. Otherwise the string it
leaves is the encoding by `to_utf8` of the code points that `from_utf8` has decoded, every
position title-cased as `spec_title_char` says: the first character of each alphanumeric run
stays as it is, every later upper-case character of the run is lower-cased, except a `D`
right after a `C` that starts the run (and when this changes nothing, the string is left
alone byte for byte). For a string that is the encoding of code points below 0x110000 these
are the code points of the string, and the result has as many. For other strings the result
differs by more than case: the bytes of a sequence that breaks off at the end of the string
are lost, and a code point from 0x110000 on is written as `?`. -/
theorem convert_to_titlecase_eq (L : Locale) (value : List Nat)
    (entropy : Option (List Nat)) (m_uppercasecount : Nat) :
    (((from_utf8 value).1 = false ∨ (mostly_uppercase L (from_utf8 value).2).1 = false) →
        (convert_to_titlecase L value entropy m_uppercasecount).1 = value)
      ∧ ((from_utf8 value).1 = true → (mostly_uppercase L (from_utf8 value).2).1 = true →
          (convert_to_titlecase L value entropy m_uppercasecount).1
              = to_utf8 (spec_title_case L (from_utf8 value).2)
            ∨ (spec_title_case L (from_utf8 value).2 = (from_utf8 value).2
              ∧ (convert_to_titlecase L value entropy m_uppercasecount).1 = value))
      ∧ (∀ w, (∀ c ∈ w, c < 0x110000) → value = to_utf8 w →
          (mostly_uppercase L w).1 = true →
          (convert_to_titlecase L value entropy m_uppercasecount).1
              = to_utf8 (spec_title_case L w)
            ∧ (spec_title_case L w).length = w.length)
      ∧ (convert_to_titlecase Locale.ascii (ascii_bytes "ABB" ++ [0xC9]) none 0).1 = ascii_bytes "Abb"
      ∧ (convert_to_titlecase Locale.ascii (ascii_bytes "AB" ++ [0xF4, 0x90, 0x80, 0x80])
            none 0).1 = ascii_bytes "Ab?" := by
  have hmain : ∀ v : List Nat, (from_utf8 v).1 = true →
      (mostly_uppercase L (from_utf8 v).2).1 = true →
      (convert_to_titlecase L v entropy m_uppercasecount).1
          = to_utf8 (spec_title_case L (from_utf8 v).2)
        ∨ (spec_title_case L (from_utf8 v).2 = (from_utf8 v).2
          ∧ (convert_to_titlecase L v entropy m_uppercasecount).1 = v) := by
    intro v hv hm
    have hs := to_title_case_eq_spec L (from_utf8 v).2
    by_cases hc : (to_title_case L (from_utf8 v).2 false).2 > 0
    · left
      simp only [convert_to_titlecase, hv, hm, if_true, hc, and_self]
      rw [hs]
    · right
      have h0 : (to_title_case L (from_utf8 v).2 false).2 = 0 := by omega
      refine ⟨?_, ?_⟩
      · rw [← hs]
        exact to_title_case_loop_unchanged L _ true false h0
      · simp only [convert_to_titlecase, hv, hm, if_true, hc, and_false, if_false]
  refine ⟨?_, hmain value, ?_, ?_, ?_⟩
  · rintro (h | h)
    · simp [convert_to_titlecase, h]
    · by_cases hv : (from_utf8 value).1 = true
      · simp [convert_to_titlecase, hv, h]
      · simp [convert_to_titlecase, hv]
  · intro w hw hval hm
    have hrt := from_utf8_to_utf8 w hw
    have hlen : ∀ (p2 p : Option Nat) (l : List Nat),
        (spec_title_from L p2 p l).length = l.length := by
      intro p2 p l
      induction l generalizing p2 p with
      | nil => rfl
      | cons ch rest ih => simp [spec_title_from, ih]
    refine ⟨?_, hlen none none w⟩
    subst hval
    have h1 : (from_utf8 (to_utf8 w)).1 = true := by rw [hrt]
    have h2 : (from_utf8 (to_utf8 w)).2 = w := by rw [hrt]
    rcases hmain (to_utf8 w) h1 (by rw [h2]; exact hm) with h | ⟨hsame, h⟩
    · rw [h, h2]
    · rw [h, ← h2, hsame]
  · decide
  · decide

end CDDB
